import Mathlib

/-!
TeenyJVM interpreter (`java-virtual-machine/jvm.c`)

A shallow embedding of the bytecode interpreter of `jvm.c`.

* `int32_t` values are integers kept in `[-2^31, 2^31)`; every `int` operation
  is followed by `to_int32`, the two's complement wraparound of the machine.
  The division and the remainder of -2147483648 by -1, and a shift by a
  distance outside `[0, 31]`, have no defined result in C (the division
  instruction traps); the embedding stops with `Fault.undefined` there.
* `size_t` values (`pc`, `stack_p`) are naturals below `2^64` (a 64-bit
  target); every `size_t` operation is followed by `size_t_wrap`.
* C arrays (`stack`, `locals`, array cells) are lists of their declared length.
  An access whose index is outside the object has no defined result in C; the
  embedding stops with `Fault.undefined` there.
* `execute` is recursive and loops; the embedding takes a fuel argument that
  bounds the number of loop iterations along any chain of nested calls.

Five further programs of the repository are embedded after the interpreter,
each in its own namespace: the page-protecting allocator of
`signal-handler/myasan.c` (`ASan`), the constant folding and code generation
of `assembly-compiler/src/compile.c` (`Compile`), the explicit free list
allocator of `malloc/src/mm-explicit.c` (`MM`), the sorted array of children
of `file-directory-tree/src/directory_tree.c` (`DirTree`) and the queue of
`threadpool/src/queue.c` (`Queue`). Their `size_t` and pointer arithmetic is
modulo `2^64`.
-/

namespace JVM

/-! ## Machine integers -/

/-- Conversion of an integer to `int32_t` (two's complement wraparound). -/
def to_int32 (x : Int) : Int := (x + 2147483648) % 4294967296 - 2147483648

/-- Conversion of an integer to `unsigned` (the 32-bit pattern). -/
def to_uint32 (x : Int) : Nat := (x % 4294967296).toNat

/-- Conversion of an integer to `int16_t` / `signed short`. -/
def to_int16 (x : Int) : Int := (x + 32768) % 65536 - 32768

/-- Conversion of an integer to `signed char`. -/
def to_int8 (x : Int) : Int := (x + 128) % 256 - 128

/-- Conversion of an integer to `size_t` (64 bits). -/
def size_t_wrap (x : Int) : Nat := (x % 18446744073709551616).toNat

/-- The `size_t` expression `a - b`. -/
def size_sub (a b : Nat) : Nat := size_t_wrap ((a : Int) - (b : Int))

/-- The `size_t` expression `a + b`. -/
def size_add (a b : Nat) : Nat := size_t_wrap ((a : Int) + (b : Int))

/-- Membership in the range of `int32_t`. -/
def is_int32 (x : Int) : Prop := -2147483648 ≤ x ∧ x ≤ 2147483647

instance (x : Int) : Decidable (is_int32 x) := by
  unfold is_int32; exact inferInstance

/-! ## Outcomes -/

/-- Ways in which the C code stops without producing a result. -/
inductive Fault where
  /-- an access outside an object, or an operation C leaves undefined -/
  | undefined
  /-- the `default:` arm of the dispatch switch: message on stderr and `exit(1)` -/
  | unhandled (op : Nat)
  /-- a failed `assert` -/
  | assertion
  /-- the embedding ran out of fuel (not an outcome of the C code) -/
  | fuel
  deriving DecidableEq, Repr

/-- The struct `optional_value_t`. -/
structure optional_value_t where
  has_value : Bool
  value : Int
  deriving DecidableEq, Repr

/-! ## Opcodes -/

/-- Modelled from the spec: `jvm.h`, which declares the opcode enumeration, is
not among the sources; the values are the Java Virtual Machine encodings that
the class files fed to `jvm.c` use. -/
@[simp] abbrev i_nop : Nat := 0
@[simp] abbrev i_iconst_m1 : Nat := 2
@[simp] abbrev i_iconst_0 : Nat := 3
@[simp] abbrev i_iconst_5 : Nat := 8
@[simp] abbrev i_bipush : Nat := 16
@[simp] abbrev i_sipush : Nat := 17
@[simp] abbrev i_ldc : Nat := 18
@[simp] abbrev i_iload : Nat := 21
@[simp] abbrev i_aload : Nat := 25
@[simp] abbrev i_iload_0 : Nat := 26
@[simp] abbrev i_iload_3 : Nat := 29
@[simp] abbrev i_aload_0 : Nat := 42
@[simp] abbrev i_aload_3 : Nat := 45
@[simp] abbrev i_iaload : Nat := 46
@[simp] abbrev i_istore : Nat := 54
@[simp] abbrev i_astore : Nat := 58
@[simp] abbrev i_istore_0 : Nat := 59
@[simp] abbrev i_istore_3 : Nat := 62
@[simp] abbrev i_astore_0 : Nat := 75
@[simp] abbrev i_astore_3 : Nat := 78
@[simp] abbrev i_iastore : Nat := 79
@[simp] abbrev i_dup : Nat := 89
@[simp] abbrev i_iadd : Nat := 96
@[simp] abbrev i_isub : Nat := 100
@[simp] abbrev i_imul : Nat := 104
@[simp] abbrev i_idiv : Nat := 108
@[simp] abbrev i_irem : Nat := 112
@[simp] abbrev i_ineg : Nat := 116
@[simp] abbrev i_ishl : Nat := 120
@[simp] abbrev i_ishr : Nat := 122
@[simp] abbrev i_iushr : Nat := 124
@[simp] abbrev i_iand : Nat := 126
@[simp] abbrev i_ior : Nat := 128
@[simp] abbrev i_ixor : Nat := 130
@[simp] abbrev i_iinc : Nat := 132
@[simp] abbrev i_ifeq : Nat := 153
@[simp] abbrev i_ifne : Nat := 154
@[simp] abbrev i_iflt : Nat := 155
@[simp] abbrev i_ifge : Nat := 156
@[simp] abbrev i_ifgt : Nat := 157
@[simp] abbrev i_ifle : Nat := 158
@[simp] abbrev i_if_icmpeq : Nat := 159
@[simp] abbrev i_if_icmpne : Nat := 160
@[simp] abbrev i_if_icmplt : Nat := 161
@[simp] abbrev i_if_icmpge : Nat := 162
@[simp] abbrev i_if_icmpgt : Nat := 163
@[simp] abbrev i_if_icmple : Nat := 164
@[simp] abbrev i_goto : Nat := 167
@[simp] abbrev i_ireturn : Nat := 172
@[simp] abbrev i_areturn : Nat := 176
@[simp] abbrev i_return : Nat := 177
@[simp] abbrev i_getstatic : Nat := 178
@[simp] abbrev i_invokevirtual : Nat := 182
@[simp] abbrev i_invokestatic : Nat := 184
@[simp] abbrev i_newarray : Nat := 188
@[simp] abbrev i_arraylength : Nat := 190

/-! ## Data model -/

/-- The parts of `method_t` that `execute` reads: the bytes of `code.code`
(`code.code_length` is the length of the list), `code.max_stack`,
`code.max_locals`, and the value `get_number_of_parameters` returns for the
method (that function is declared in `read_class.h`, which is not among the
sources, so its result is carried as a field). -/
structure method_t where
  code : List (Fin 256)
  max_stack : Nat
  max_locals : Nat
  number_of_parameters : Nat

/-- The parts of `class_file_t` that `execute` reads: for each constant pool
slot the `bytes` field that `ldc` reads through the slot, and the method that
`find_method_from_index` resolves an index to (`none` for the null pointer);
both come from `read_class.h`, which is not among the sources. -/
structure class_file_t where
  constant_pool : List Int
  find_method_from_index : Nat → Option method_t

/-- Modelled from the spec: `heap.h` is not among the sources. The heap is an
append-only store of array cells addressed by handles assigned in allocation
order. -/
abbrev heap_t := List (List Int)

/-- Modelled from the spec: `heap_add` of `heap.h` (not among the sources)
appends the cell and returns its handle, the number of cells stored before. -/
def heap_add (heap : heap_t) (arr : List Int) : heap_t × Int :=
  (heap ++ [arr], to_int32 (heap.length : Int))

/-- Modelled from the spec: `heap_get` of `heap.h` (not among the sources)
returns the cell of a handle; a handle that was never allocated has no
defined result. -/
def heap_get (heap : heap_t) (ref : Int) : Except Fault (List Int) :=
  if 0 ≤ ref then
    match heap[ref.toNat]? with
    | some arr => .ok arr
    | none => .error .undefined
  else .error .undefined

/-- The variables of one activation of `execute` together with the heap and
the text printed so far (one entry per `printf("%d\n", _)`). -/
structure State where
  stack : List Int
  stack_p : Nat
  locals : List Int
  pc : Nat
  heap : heap_t
  out : List Int

/-- The result of one pass through the body of the dispatch loop: the loop goes
on, or `execute` returns. -/
inductive Outcome where
  | next (st : State)
  | done (result : optional_value_t) (st : State)

/-! ## Memory accesses -/

/-- Read `xs[i]` of a C array. -/
def rd (xs : List Int) (i : Nat) : Except Fault Int :=
  match xs[i]? with
  | some v => .ok v
  | none => .error .undefined

/-- Write `xs[i] = v` of a C array. -/
def wr (xs : List Int) (i : Nat) (v : Int) : Except Fault (List Int) :=
  if i < xs.length then .ok (xs.set i v) else .error .undefined

/-- Read `arr[i]` where the index is an `int`. -/
def rd_int (xs : List Int) (i : Int) : Except Fault Int :=
  if 0 ≤ i then rd xs i.toNat else .error .undefined

/-- Write `arr[i] = v` where the index is an `int`. -/
def wr_int (xs : List Int) (i : Int) (v : Int) : Except Fault (List Int) :=
  if 0 ≤ i then wr xs i.toNat v else .error .undefined

/-- Read `method->code.code[i]`. -/
def code_at (m : method_t) (i : Nat) : Except Fault Nat :=
  match m.code[i]? with
  | some b => .ok b.val
  | none => .error .undefined

/-! ## Instructions -/

/-- The `switch` of `add_to_xor`: the value stored in `result` for the
operands `a` and `b`. The `i_irem` arm has its `break` inside the test of the
divisor, so with a zero divisor control falls into the `i_ineg` arm. The
quotient of -2147483648 by -1 is not an `int`: `a / b` and `a % b` have no
defined result there (the division instruction of the compiled code traps).
Shift distances outside `[0, 31]` are undefined in C. -/
def add_to_xor_result (cur_method : Nat) (a b : Int) : Except Fault Int :=
  if cur_method = i_iadd then .ok (to_int32 (a + b))
  else if cur_method = i_isub then .ok (to_int32 (a - b))
  else if cur_method = i_imul then .ok (to_int32 (a * b))
  else if cur_method = i_idiv then
    (if b ≠ 0 then
      (if a = -2147483648 ∧ b = -1 then .error .undefined
       else .ok (to_int32 (Int.tdiv a b)))
     else .ok 0)
  else if cur_method = i_irem then
    (if b ≠ 0 then
      (if a = -2147483648 ∧ b = -1 then .error .undefined
       else .ok (to_int32 (Int.tmod a b)))
     else .ok (to_int32 (-a)))
  else if cur_method = i_ineg then .ok (to_int32 (-a))
  else if cur_method = i_ishl then
    (if 0 ≤ b ∧ b < 32 then .ok (to_int32 (a * 2 ^ b.toNat)) else .error .undefined)
  else if cur_method = i_ishr then
    (if 0 ≤ b ∧ b < 32 then .ok (to_int32 (a / 2 ^ b.toNat)) else .error .undefined)
  else if cur_method = i_iushr then
    (if 0 ≤ b ∧ b < 32 then .ok (to_int32 ((to_uint32 a / 2 ^ b.toNat : Nat) : Int))
     else .error .undefined)
  else if cur_method = i_iand then
    .ok (to_int32 ((Nat.land (to_uint32 a) (to_uint32 b) : Nat) : Int))
  else if cur_method = i_ior then
    .ok (to_int32 ((Nat.lor (to_uint32 a) (to_uint32 b) : Nat) : Int))
  else if cur_method = i_ixor then
    .ok (to_int32 ((Nat.xor (to_uint32 a) (to_uint32 b) : Nat) : Int))
  else .ok 0

/-- The function `add_to_xor`. -/
def add_to_xor (cur_method : Nat) (st : State) : Except Fault State :=
  if cur_method = i_ineg then do
    let v ← rd st.stack (size_sub st.stack_p 1)
    let stack ← wr st.stack (size_sub st.stack_p 1) (to_int32 (-v))
    pure { st with stack := stack }
  else do
    let a ← rd st.stack (size_sub st.stack_p 2)
    let b ← rd st.stack (size_sub st.stack_p 1)
    let result ← add_to_xor_result cur_method a b
    let stack ← wr st.stack (size_sub st.stack_p 2) result
    let stack ← wr stack (size_sub st.stack_p 1) 0
    pure { st with stack := stack, stack_p := size_sub st.stack_p 1 }

/-- The function `bi_push`. -/
def bi_push (m : method_t) (st : State) : Except Fault State := do
  let b ← code_at m (size_add st.pc 1)
  let stack ← wr st.stack st.stack_p (to_int8 b)
  pure { st with stack := stack, stack_p := size_add st.stack_p 1, pc := size_add st.pc 1 }

/-- The function `invoke_virtual`. -/
def invoke_virtual (st : State) : Except Fault State := do
  let stack ← wr st.stack st.stack_p 0
  let stack_p := size_sub st.stack_p 1
  let v ← rd stack stack_p
  pure { st with stack := stack, stack_p := stack_p, out := st.out ++ [v],
                 pc := size_add st.pc 2 }

/-- The function `get_static`. -/
def get_static (st : State) : Except Fault State :=
  pure { st with pc := size_add st.pc 2 }

/-- The function `i_const`. -/
def i_const (m : method_t) (st : State) : Except Fault State := do
  let c ← code_at m st.pc
  let stack ← wr st.stack st.stack_p (to_int32 ((c : Int) - (i_iconst_0 : Int)))
  pure { st with stack := stack, stack_p := size_add st.stack_p 1 }

/-- The function `si_push`. -/
def si_push (m : method_t) (st : State) : Except Fault State := do
  let num1 ← code_at m (size_add st.pc 1)
  let num2 ← code_at m (size_add st.pc 2)
  let stack ← wr st.stack st.stack_p (to_int16 ((Nat.lor (num1 <<< 8) num2 : Nat) : Int))
  pure { st with stack := stack, stack_p := size_add st.stack_p 1, pc := size_add st.pc 2 }

/-- The function `i_load`. -/
def i_load (m : method_t) (st : State) : Except Fault State := do
  let i ← code_at m (size_add st.pc 1)
  let v ← rd st.locals i
  let stack ← wr st.stack st.stack_p v
  pure { st with stack := stack, stack_p := size_add st.stack_p 1, pc := size_add st.pc 1 }

/-- The function `i_store`. -/
def i_store (m : method_t) (st : State) : Except Fault State := do
  let i ← code_at m (size_add st.pc 1)
  let a ← rd st.stack (size_sub st.stack_p 1)
  let locals ← wr st.locals i a
  let stack ← wr st.stack (size_sub st.stack_p 1) 0
  pure { st with stack := stack, locals := locals, stack_p := size_sub st.stack_p 1,
                 pc := size_add st.pc 1 }

/-- The function `i_inc`. -/
def i_inc (m : method_t) (st : State) : Except Fault State := do
  let i ← code_at m (size_add st.pc 1)
  let b ← code_at m (size_add st.pc 2)
  let v ← rd st.locals i
  let locals ← wr st.locals i (to_int32 (v + to_int8 b))
  pure { st with locals := locals, pc := size_add st.pc 2 }

/-- The function `i_iload_nums`. -/
def i_iload_nums (m : method_t) (st : State) : Except Fault State := do
  let c ← code_at m st.pc
  let v ← rd_int st.locals ((c : Int) - (i_iload_0 : Int))
  let stack ← wr st.stack st.stack_p v
  pure { st with stack := stack, stack_p := size_add st.stack_p 1 }

/-- The function `i_istore_nums`. -/
def i_istore_nums (m : method_t) (st : State) : Except Fault State := do
  let c ← code_at m st.pc
  let a ← rd st.stack (size_sub st.stack_p 1)
  let locals ← wr_int st.locals ((c : Int) - (i_istore_0 : Int)) a
  let stack ← wr st.stack (size_sub st.stack_p 1) 0
  pure { st with stack := stack, locals := locals, stack_p := size_sub st.stack_p 1 }

/-- The function `ldc`. -/
def ldc (m : method_t) (cls : class_file_t) (st : State) : Except Fault State := do
  let i ← code_at m (size_add st.pc 1)
  let num ← rd_int cls.constant_pool ((i : Int) - 1)
  let stack ← wr st.stack st.stack_p num
  pure { st with stack := stack, stack_p := size_add st.stack_p 1, pc := size_add st.pc 1 }

/-- The second `switch` of `jump`: the value of `add_offset`; the `default:`
arm is `assert(false)`. -/
def jump_add_offset (cur_method : Nat) (a b : Int) : Except Fault Bool :=
  if cur_method = i_ifeq then .ok (decide (a = 0))
  else if cur_method = i_ifne then .ok (decide (a ≠ 0))
  else if cur_method = i_iflt then .ok (decide (a < 0))
  else if cur_method = i_ifge then .ok (decide (a ≥ 0))
  else if cur_method = i_ifgt then .ok (decide (a > 0))
  else if cur_method = i_ifle then .ok (decide (a ≤ 0))
  else if cur_method = i_if_icmpeq then .ok (decide (a = b))
  else if cur_method = i_if_icmpne then .ok (decide (a ≠ b))
  else if cur_method = i_if_icmplt then .ok (decide (a < b))
  else if cur_method = i_if_icmpge then .ok (decide (a ≥ b))
  else if cur_method = i_if_icmpgt then .ok (decide (a > b))
  else if cur_method = i_if_icmple then .ok (decide (a ≤ b))
  else .error .assertion

/-- The first part of `jump`: the operands `a` and `b` that are compared, and
the stack after they have been popped. -/
def jump_pop (cur_method : Nat) (st : State) : Except Fault (Int × Int × State) := do
  let a ← rd st.stack (size_sub st.stack_p 1)
  if cur_method ≥ i_if_icmpeq then do
    let a ← rd st.stack (size_sub st.stack_p 2)
    let b ← rd st.stack (size_sub st.stack_p 1)
    let stack ← wr st.stack (size_sub st.stack_p 2) 0
    let stack ← wr stack (size_sub st.stack_p 1) 0
    pure (a, b, { st with stack := stack, stack_p := size_sub st.stack_p 2 })
  else do
    let stack ← wr st.stack (size_sub st.stack_p 1) 0
    pure (a, 0, { st with stack := stack, stack_p := size_sub st.stack_p 1 })

/-- The function `jump`. -/
def jump (cur_method : Nat) (m : method_t) (st : State) : Except Fault State := do
  let b1 ← code_at m (size_add st.pc 1)
  let b2 ← code_at m (size_add st.pc 2)
  let (a, b, st) ← jump_pop cur_method st
  let offset := to_int16 ((Nat.lor (b1 <<< 8) b2 : Nat) : Int)
  let add_offset ← jump_add_offset cur_method a b
  if add_offset then
    pure { st with pc := size_t_wrap ((st.pc : Int) + (offset - 1)) }
  else
    pure { st with pc := size_add st.pc 2 }

/-- The function `go_to`. -/
def go_to (m : method_t) (st : State) : Except Fault State := do
  let b1 ← code_at m (size_add st.pc 1)
  let b2 ← code_at m (size_add st.pc 2)
  let offset := to_int16 ((Nat.lor (b1 <<< 8) b2 : Nat) : Int)
  pure { st with pc := size_t_wrap ((st.pc : Int) + (offset - 1)) }

/-- The function `dup`. -/
def dup (st : State) : Except Fault State := do
  let v ← rd st.stack (size_sub st.stack_p 1)
  let stack ← wr st.stack st.stack_p v
  pure { st with stack := stack, stack_p := size_add st.stack_p 1 }

/-- The content of a slot of fresh `malloc` memory before it is written. It
is indeterminate in C; `newarray` writes every slot of a cell before the cell
can be read. -/
def indeterminate : Int := -1

/-- The block that `malloc(sizeof(int32_t) * count)` returns for an `int`
count: `count` slots. A negative count converts to a `size_t` request beyond
the address space, for which `malloc` returns the null pointer (`none`). -/
def malloc_int32 (count : Int) : Option (List Int) :=
  if 0 ≤ count then some (List.replicate count.toNat indeterminate) else none

/-- The loop `for (int i = 1; i < bound; i++) arr[i] = 0;` of `newarray`,
entered at `i`; the first argument bounds the number of tests of the loop
condition. -/
def newarray_fill (bound : Int) : Nat → Int → List Int → Except Fault (List Int)
  | 0, _, _ => .error .fuel
  | k + 1, i, arr =>
    if i < bound then do
      let arr ← wr_int arr i 0
      newarray_fill bound k (to_int32 (i + 1)) arr
    else .ok arr

/-- The function `newarray`. -/
def newarray (st : State) : Except Fault State := do
  let count ← rd st.stack (size_sub st.stack_p 1)
  match malloc_int32 (to_int32 (count + 1)) with
  | none => .error .undefined
  | some arr =>
    let arr ← wr_int arr 0 count
    let arr ← newarray_fill (to_int32 (count + 1)) (to_int32 (count + 1)).toNat 1 arr
    let (heap, ref) := heap_add st.heap arr
    let stack ← wr st.stack (size_sub st.stack_p 1) ref
    pure { st with stack := stack, heap := heap, pc := size_add st.pc 1 }

/-- The function `arraylength`. -/
def arraylength (st : State) : Except Fault State := do
  let ref ← rd st.stack (size_sub st.stack_p 1)
  let arr ← heap_get st.heap ref
  let count ← rd_int arr 0
  let stack ← wr st.stack (size_sub st.stack_p 1) count
  pure { st with stack := stack }

/-- The function `iastore`; the write goes through the pointer `heap_get`
returned, so it changes the cell stored in the heap. -/
def iastore (st : State) : Except Fault State := do
  let ref ← rd st.stack (size_sub st.stack_p 3)
  let arr ← heap_get st.heap ref
  let idx ← rd st.stack (size_sub st.stack_p 2)
  let v ← rd st.stack (size_sub st.stack_p 1)
  let arr ← wr_int arr (to_int32 (idx + 1)) v
  let stack ← wr st.stack (size_sub st.stack_p 1) 0
  let stack ← wr stack (size_sub st.stack_p 2) 0
  let stack ← wr stack (size_sub st.stack_p 3) 0
  pure { st with stack := stack, stack_p := size_sub st.stack_p 3,
                 heap := st.heap.set ref.toNat arr }

/-- The function `iaload`. -/
def iaload (st : State) : Except Fault State := do
  let ref ← rd st.stack (size_sub st.stack_p 2)
  let arr ← heap_get st.heap ref
  let idx ← rd st.stack (size_sub st.stack_p 1)
  let value ← rd_int arr (to_int32 (idx + 1))
  let stack ← wr st.stack (size_sub st.stack_p 1) 0
  let stack ← wr stack (size_sub st.stack_p 2) 0
  let stack_p := size_sub st.stack_p 2
  let stack ← wr stack stack_p value
  pure { st with stack := stack, stack_p := size_add stack_p 1 }

/-- The function `aload`. -/
def aload (m : method_t) (st : State) : Except Fault State := do
  let idx ← code_at m (size_add st.pc 1)
  let v ← rd st.locals idx
  let stack ← wr st.stack st.stack_p v
  pure { st with stack := stack, stack_p := size_add st.stack_p 1, pc := size_add st.pc 1 }

/-- The function `astore`. -/
def astore (m : method_t) (st : State) : Except Fault State := do
  let idx ← code_at m (size_add st.pc 1)
  let v ← rd st.stack (size_sub st.stack_p 1)
  let locals ← wr st.locals idx v
  let stack ← wr st.stack (size_sub st.stack_p 1) 0
  pure { st with stack := stack, locals := locals, stack_p := size_sub st.stack_p 1,
                 pc := size_add st.pc 1 }

/-- The function `astore_nums`; `idx` is a `uint8_t`. -/
def astore_nums (m : method_t) (st : State) : Except Fault State := do
  let c ← code_at m st.pc
  let idx := (((c : Int) - (i_astore_0 : Int)) % 256).toNat
  let v ← rd st.stack (size_sub st.stack_p 1)
  let locals ← wr st.locals idx v
  let stack ← wr st.stack (size_sub st.stack_p 1) 0
  pure { st with stack := stack, locals := locals, stack_p := size_sub st.stack_p 1 }

/-- The function `aload_nums`; `idx` is a `uint8_t`. -/
def aload_nums (m : method_t) (st : State) : Except Fault State := do
  let c ← code_at m st.pc
  let idx := (((c : Int) - (i_aload_0 : Int)) % 256).toNat
  let v ← rd st.locals idx
  let stack ← wr st.stack st.stack_p v
  pure { st with stack := stack, stack_p := size_add st.stack_p 1 }

/-! ## Static invocation -/

/-- The loop of the `i_invokestatic` arm that moves the arguments from the
caller's stack into `new_locals`, entered at `idx`; the first argument is the
number of iterations left. Returns `new_locals` and the caller's stack. -/
def copy_params (num_params stack_p : Nat) :
    Nat → Nat → List Int → List Int → Except Fault (List Int × List Int)
  | 0, _, new_locals, stack => .ok (new_locals, stack)
  | k + 1, idx, new_locals, stack => do
    let i := size_sub stack_p (size_sub num_params idx)
    let v ← rd stack i
    let new_locals ← wr new_locals idx v
    let stack ← wr stack i 0
    copy_params num_params stack_p k (size_add idx 1) new_locals stack

/-- The first half of the `i_invokestatic` arm, up to the recursive call of
`execute`: the target method, its `new_locals`, and the caller's state after
the arguments have been popped. -/
def invoke_static_enter (cls : class_file_t) (m : method_t) (st : State) :
    Except Fault (method_t × List Int × State) := do
  let b1 ← code_at m (size_add st.pc 1)
  let b2 ← code_at m (size_add st.pc 2)
  let index := (Nat.lor (b1 <<< 8) b2) % 65536
  match cls.find_method_from_index index with
  | none => .error .assertion
  | some new_method =>
    let num_params := new_method.number_of_parameters % 65536
    let new_locals := List.replicate new_method.max_locals (0 : Int)
    let (new_locals, stack) ← copy_params num_params st.stack_p num_params 0 new_locals st.stack
    pure (new_method, new_locals,
          { st with stack := stack, stack_p := size_sub st.stack_p num_params })

/-- The second half of the `i_invokestatic` arm, after the recursive call of
`execute` has returned `new_result`; `heap` and `out` are the heap and the
printed text the callee left. -/
def invoke_static_leave (st : State) (new_result : optional_value_t)
    (heap : heap_t) (out : List Int) : Except Fault State :=
  if new_result.has_value then do
    let stack ← wr st.stack st.stack_p new_result.value
    pure { st with stack := stack, stack_p := size_add st.stack_p 1,
                   heap := heap, out := out, pc := size_add st.pc 2 }
  else
    pure { st with heap := heap, out := out, pc := size_add st.pc 2 }

/-- The state in which `execute` enters its loop: a zeroed stack of
`max_stack` slots, `stack_p = 0`, `pc = 0`. -/
def init_state (m : method_t) (locals : List Int) (heap : heap_t) (out : List Int) : State :=
  { stack := List.replicate m.max_stack 0, stack_p := 0, locals := locals, pc := 0,
    heap := heap, out := out }

/-! ## The dispatch loop -/

/-- The `switch` of `execute` for the opcode `cur_method`. The argument `call`
stands for the recursive call of `execute` in the `i_invokestatic` arm. -/
def dispatch (call : method_t → List Int → heap_t → List Int →
      Except Fault (optional_value_t × State))
    (cls : class_file_t) (m : method_t) (cur_method : Nat) (st : State) :
    Except Fault Outcome :=
  if i_iadd ≤ cur_method ∧ cur_method ≤ i_ixor then Outcome.next <$> add_to_xor cur_method st
  else if cur_method = i_bipush then Outcome.next <$> bi_push m st
  else if cur_method = i_getstatic then Outcome.next <$> get_static st
  else if cur_method = i_invokevirtual then Outcome.next <$> invoke_virtual st
  else if i_iconst_m1 ≤ cur_method ∧ cur_method ≤ i_iconst_5 then Outcome.next <$> i_const m st
  else if cur_method = i_sipush then Outcome.next <$> si_push m st
  else if cur_method = i_iload then Outcome.next <$> i_load m st
  else if cur_method = i_istore then Outcome.next <$> i_store m st
  else if cur_method = i_iinc then Outcome.next <$> i_inc m st
  else if i_iload_0 ≤ cur_method ∧ cur_method ≤ i_iload_3 then
    Outcome.next <$> i_iload_nums m st
  else if i_istore_0 ≤ cur_method ∧ cur_method ≤ i_istore_3 then
    Outcome.next <$> i_istore_nums m st
  else if cur_method = i_ldc then Outcome.next <$> ldc m cls st
  else if i_ifeq ≤ cur_method ∧ cur_method ≤ i_if_icmple then
    Outcome.next <$> jump cur_method m st
  else if cur_method = i_goto then Outcome.next <$> go_to m st
  else if cur_method = i_invokestatic then do
    let (new_method, new_locals, st) ← invoke_static_enter cls m st
    let (new_result, callee) ← call new_method new_locals st.heap st.out
    Outcome.next <$> invoke_static_leave st new_result callee.heap callee.out
  else if cur_method = i_nop then pure (Outcome.next st)
  else if cur_method = i_dup then Outcome.next <$> dup st
  else if cur_method = i_newarray then Outcome.next <$> newarray st
  else if cur_method = i_arraylength then Outcome.next <$> arraylength st
  else if cur_method = i_iastore then Outcome.next <$> iastore st
  else if cur_method = i_iaload then Outcome.next <$> iaload st
  else if cur_method = i_aload then Outcome.next <$> aload m st
  else if cur_method = i_astore then Outcome.next <$> astore m st
  else if i_aload_0 ≤ cur_method ∧ cur_method ≤ i_aload_3 then
    Outcome.next <$> aload_nums m st
  else if i_astore_0 ≤ cur_method ∧ cur_method ≤ i_astore_3 then
    Outcome.next <$> astore_nums m st
  else if cur_method = i_areturn ∨ cur_method = i_ireturn then do
    let v ← rd st.stack (size_sub st.stack_p 1)
    pure (Outcome.done { has_value := true, value := v } st)
  else if cur_method = i_return then
    pure (Outcome.done { has_value := false, value := 0 } st)
  else .error (.unhandled cur_method)

/-- The loop of `execute`, entered in state `st` with the test
`pc < code_length`. One unit of fuel is used per test; a nested call runs on
the fuel that is left. Returns the value of `execute` and the final state. -/
def run : Nat → class_file_t → method_t → State → Except Fault (optional_value_t × State)
  | 0, _, _, _ => .error .fuel
  | fuel + 1, cls, m, st =>
    if st.pc < m.code.length then
      match code_at m st.pc with
      | .error e => .error e
      | .ok cur_method =>
        match dispatch (fun nm nl h o => run fuel cls nm (init_state nm nl h o))
            cls m cur_method st with
        | .error e => .error e
        | .ok (Outcome.next st1) => run fuel cls m { st1 with pc := size_add st1.pc 1 }
        | .ok (Outcome.done result st1) => .ok (result, st1)
    else .ok ({ has_value := false, value := 0 }, st)

/-- The function `execute`. -/
def execute (fuel : Nat) (m : method_t) (locals : List Int) (cls : class_file_t)
    (heap : heap_t) (out : List Int) : Except Fault (optional_value_t × State) :=
  run fuel cls m (init_state m locals heap out)

/-- One pass through the loop body of `execute` followed by the `pc++` of the
loop header, with the recursive call running on `fuel`. -/
def step (fuel : Nat) (cls : class_file_t) (m : method_t) (st : State) :
    Except Fault Outcome := do
  let cur_method ← code_at m st.pc
  match (← dispatch (fun nm nl h o => run fuel cls nm (init_state nm nl h o))
      cls m cur_method st) with
  | Outcome.next st1 => pure (Outcome.next { st1 with pc := size_add st1.pc 1 })
  | Outcome.done result st1 => pure (Outcome.done result st1)

/-- The bytecode of claim C6: `iload_0; ifne +5; iconst_1; ireturn; iload_0;
iload_0; iconst_1; isub; invokestatic hi lo; imul; ireturn`. -/
def factorial_code (hi lo : Fin 256) : List (Fin 256) :=
  [26, 154, 0, 5, 4, 172, 26, 26, 4, 100, 184, hi, lo, 104, 172]

/-- The method of claim C6: factorial by self-call, with the method index 1. -/
def factorial_method : method_t :=
  { code := factorial_code 0 1, max_stack := 3, max_locals := 1, number_of_parameters := 1 }

/-- A class whose every method index resolves to `factorial_method`. -/
def factorial_class : class_file_t :=
  { constant_pool := [], find_method_from_index := fun _ => some factorial_method }

/-! ## Definitions used to state the properties -/

/-- The operation an arithmetic opcode stands for, on unbounded integers:
the exact sum, difference, product, truncated quotient and remainder, and the
bitwise operations of two's complement integers. -/
def arith_op (op : Nat) (a b : Int) : Int :=
  if op = i_iadd then a + b
  else if op = i_isub then a - b
  else if op = i_imul then a * b
  else if op = i_idiv then Int.tdiv a b
  else if op = i_irem then Int.tmod a b
  else if op = i_iand then Int.land a b
  else if op = i_ior then Int.lor a b
  else Int.xor a b

/-- A `call` argument for `dispatch` in places where no call is made. -/
def no_call : method_t → List Int → heap_t → List Int →
    Except Fault (optional_value_t × State) :=
  fun _ _ _ _ => .error .fuel

/-- A class without constants and methods. -/
def empty_class : class_file_t :=
  { constant_pool := [], find_method_from_index := fun _ => none }

/-- A method with the given bytecode, four stack slots and two locals. -/
def method_of (code : List (Fin 256)) : method_t :=
  { code := code, max_stack := 4, max_locals := 2, number_of_parameters := 0 }

/-- A state with the given stack content, all of it live. -/
def state_of (stack : List Int) (pc : Nat) : State :=
  { stack := stack, stack_p := stack.length, locals := [0, 0], pc := pc, heap := [], out := [] }

/-- The value a run returns, or the fault it stops with, without the final
state. -/
def value_of (r : Except Fault (optional_value_t × State)) : Except Fault optional_value_t :=
  match r with
  | .ok (v, _) => .ok v
  | .error e => .error e

deriving instance DecidableEq for Except

/-- The condition under which a branch opcode is taken, as the spec words it:
the one-operand forms compare `a` with zero, the two-operand forms compare `a`
(pushed first) with `b` (top of stack), as signed integers. -/
def branch_holds (op : Nat) (a b : Int) : Prop :=
  (op = i_ifeq ∧ a = 0) ∨ (op = i_ifne ∧ a ≠ 0) ∨ (op = i_iflt ∧ a < 0) ∨
  (op = i_ifge ∧ a ≥ 0) ∨ (op = i_ifgt ∧ a > 0) ∨ (op = i_ifle ∧ a ≤ 0) ∨
  (op = i_if_icmpeq ∧ a = b) ∨ (op = i_if_icmpne ∧ a ≠ b) ∨ (op = i_if_icmplt ∧ a < b) ∨
  (op = i_if_icmpge ∧ a ≥ b) ∨ (op = i_if_icmpgt ∧ a > b) ∨ (op = i_if_icmple ∧ a ≤ b)

instance (op : Nat) (a b : Int) : Decidable (branch_holds op a b) := by
  unfold branch_holds; exact inferInstance

/-- A callee of one parameter and two locals that returns its argument:
`iload_0; ireturn`. -/
def identity_method : method_t :=
  { code := [26, 172], max_stack := 1, max_locals := 2, number_of_parameters := 1 }

/-- A class whose method index 1 resolves to `identity_method`. -/
def identity_class : class_file_t :=
  { constant_pool := [],
    find_method_from_index := fun i => if i = 1 then some identity_method else none }

/-- A state of an activation of the factorial method: the three stack slots
the method uses, the slots `tl` beyond them, and local 0. -/
def fact_state (tl rest : List Int) (heap : heap_t) (out : List Int) (n x y z : Int)
    (sp pc : Nat) : State :=
  { stack := x :: y :: z :: tl, stack_p := sp, locals := n :: rest, pc := pc,
    heap := heap, out := out }

/-- A class whose constant pool slot 1 holds the largest `int32_t`. -/
def int_max_class : class_file_t :=
  { constant_pool := [2147483647], find_method_from_index := fun _ => none }

/-- A state whose heap holds one array cell of stored length 5 under handle 0
and whose stack holds the given entries, all of them live. -/
def array_state (stack : List Int) : State :=
  { stack := stack, stack_p := stack.length, locals := [], pc := 0,
    heap := [[5, 10, 20, 30, 40, 50]], out := [] }

/-- The amount each arm of the dispatch switch adds to `pc` (read off the
function the arm calls), for the arms that neither branch nor return. -/
def arm_advance (op : Nat) : Option Nat :=
  if i_iadd ≤ op ∧ op ≤ i_ixor then some 0
  else if op = i_bipush then some 1
  else if op = i_getstatic then some 2
  else if op = i_invokevirtual then some 2
  else if i_iconst_m1 ≤ op ∧ op ≤ i_iconst_5 then some 0
  else if op = i_sipush then some 2
  else if op = i_iload then some 1
  else if op = i_istore then some 1
  else if op = i_iinc then some 2
  else if i_iload_0 ≤ op ∧ op ≤ i_iload_3 then some 0
  else if i_istore_0 ≤ op ∧ op ≤ i_istore_3 then some 0
  else if op = i_ldc then some 1
  else if i_ifeq ≤ op ∧ op ≤ i_if_icmple then none
  else if op = i_goto then none
  else if op = i_invokestatic then some 2
  else if op = i_nop then some 0
  else if op = i_dup then some 0
  else if op = i_newarray then some 1
  else if op = i_arraylength then some 0
  else if op = i_iastore then some 0
  else if op = i_iaload then some 0
  else if op = i_aload then some 1
  else if op = i_astore then some 1
  else if i_aload_0 ≤ op ∧ op ≤ i_aload_3 then some 0
  else if i_astore_0 ≤ op ∧ op ≤ i_astore_3 then some 0
  else if op = i_areturn ∨ op = i_ireturn then none
  else if op = i_return then none
  else none

/-- The number of immediate bytes of an opcode, as the spec lists them: none
for the arithmetic opcodes, iconst_*, iload_n, istore_n, aload_n, astore_n,
dup, nop, iaload, iastore, arraylength; one for bipush, ldc, iload, istore,
aload, astore, newarray; two for sipush, iinc, getstatic, invokevirtual,
invokestatic. Branches, goto, returns and other bytes are not listed. -/
def immediate_bytes (op : Nat) : Option Nat :=
  if op ∈ [i_iadd, i_isub, i_imul, i_idiv, i_irem, i_ineg, i_ishl, i_ishr, i_iushr, i_iand,
      i_ior, i_ixor] ∨ (i_iconst_m1 ≤ op ∧ op ≤ i_iconst_5) ∨
      (i_iload_0 ≤ op ∧ op ≤ i_iload_3) ∨ (i_istore_0 ≤ op ∧ op ≤ i_istore_3) ∨
      (i_aload_0 ≤ op ∧ op ≤ i_aload_3) ∨ (i_astore_0 ≤ op ∧ op ≤ i_astore_3) ∨
      op ∈ [i_dup, i_nop, i_iaload, i_iastore, i_arraylength] then some 0
  else if op ∈ [i_bipush, i_ldc, i_iload, i_istore, i_aload, i_astore, i_newarray] then some 1
  else if op ∈ [i_sipush, i_iinc, i_getstatic, i_invokevirtual, i_invokestatic] then some 2
  else none

/-- A callee without parameters that returns at once: `return`. -/
def void_method : method_t :=
  { code := [177], max_stack := 0, max_locals := 0, number_of_parameters := 0 }

/-- A class with the constant 7 in constant pool slot 1 and `void_method`
under every method index. -/
def sample_class : class_file_t :=
  { constant_pool := [7], find_method_from_index := fun _ => some void_method }

/-- A state in which every listed instruction can run: three live zero
entries on a stack of four slots, four locals, and a heap with one array
cell of stored length 1 under handle 0. -/
def sample_state : State :=
  { stack := [0, 0, 0, 0], stack_p := 3, locals := [0, 0, 0, 0], pc := 0,
    heap := [[1, 0]], out := [] }

/-- The check that the pass of the loop at opcode `op` (followed by the
immediate bytes 1, 1) goes on from `sample_state` and leaves `pc` at
`1 + immediate_bytes op`. -/
def advances_by_width (op : Fin 256) : Bool :=
  match step 1 sample_class (method_of [op, 1, 1, 177]) sample_state with
  | .ok (Outcome.next s) => immediate_bytes op.val == some (s.pc - 1)
  | _ => false

/-- Every opcode below 256 that the spec lists with a number of immediate
bytes. -/
def listed_opcodes : List (Fin 256) :=
  (List.finRange 256).filter fun op => (immediate_bytes op.val).isSome

/-- The code holds at position `p` a store to local `i` that is `ws` bytes
wide: `istore i`, or for `i ≤ 3` the short form `istore_<i>`. -/
def store_at (m : method_t) (p i ws : Nat) : Prop :=
  ((m.code[p]?).map Fin.val = some i_istore ∧ (m.code[p + 1]?).map Fin.val = some i ∧ ws = 2) ∨
  ((m.code[p]?).map Fin.val = some (i_istore_0 + i) ∧ i ≤ 3 ∧ ws = 1)

instance (m : method_t) (p i ws : Nat) : Decidable (store_at m p i ws) := by
  unfold store_at; exact inferInstance

/-- The code holds at position `p` a load of local `i` that is `wl` bytes
wide: `iload i`, or for `i ≤ 3` the short form `iload_<i>`. -/
def load_at (m : method_t) (p i wl : Nat) : Prop :=
  ((m.code[p]?).map Fin.val = some i_iload ∧ (m.code[p + 1]?).map Fin.val = some i ∧ wl = 2) ∨
  ((m.code[p]?).map Fin.val = some (i_iload_0 + i) ∧ i ≤ 3 ∧ wl = 1)

instance (m : method_t) (p i wl : Nat) : Decidable (load_at m p i wl) := by
  unfold load_at; exact inferInstance

/-- The opcodes for which the `switch` of `add_to_xor` has an arm. -/
def arith_opcodes : List Nat :=
  [i_iadd, i_isub, i_imul, i_idiv, i_irem, i_ineg, i_ishl, i_ishr, i_iushr, i_iand, i_ior,
   i_ixor]

/-- Whether a fault is a failure that the code reports by itself: the
`exit(1)` of the `default:` arm of the dispatch switch, or a failed `assert`.
The other two faults stand for an operation without a defined result and for
the fuel bound of the embedding. -/
def is_reported : Fault → Bool
  | .unhandled _ => true
  | .assertion => true
  | .undefined => false
  | .fuel => false

/-! ## Definitions used to state the properties of calls and of straight-line code -/

/-- A callee of three parameters (array handle, index, value) that stores the
value in the array and returns: `aload_0; iload_1; iload_2; iastore; return`. -/
def store_method : method_t :=
  { code := [42, 27, 28, 79, 177], max_stack := 3, max_locals := 3, number_of_parameters := 3 }

/-- A class whose method index 1 resolves to `store_method`. -/
def store_class : class_file_t :=
  { constant_pool := [],
    find_method_from_index := fun i => if i = 1 then some store_method else none }

/-- Whether the opcode is a conditional branch, `goto` or `invokestatic`. -/
def transfers (op : Nat) : Bool :=
  decide ((i_ifeq ≤ op ∧ op ≤ i_if_icmple) ∨ op = i_goto ∨ op = i_invokestatic)

/-- Whether the instructions met from position `p` on hold no conditional
branch, `goto` or `invokestatic`: the opcode at `p` is none of them, and
neither are the opcodes after it, found by skipping the immediate bytes of
each (`arm_advance`). A return, a byte without an arm and the end of the code
end the walk. The first argument bounds the number of opcodes looked at. -/
def straight_line (m : method_t) : Nat → Nat → Bool
  | 0, _ => true
  | k + 1, p =>
    match m.code[p]? with
    | none => true
    | some c =>
      !transfers c.val &&
        (match arm_advance c.val with
         | some j => straight_line m k (p + 1 + j)
         | none => true)

end JVM

/-! ## The page-protecting allocator of `myasan.c` -/

namespace ASan

/-- The constant `PAGE_SIZE`. -/
def PAGE_SIZE : Nat := 4096

/-- The address `START_PAGE`, `1 << 32`. -/
def START_PAGE : Nat := 4294967296

/-- The constant `MAX_HEAP_SIZE`, `1 << 30`. -/
def MAX_HEAP_SIZE : Nat := 1073741824

/-- The constant `HEADER_MAGIC`, `0x0123456789ABCDEF`. -/
def HEADER_MAGIC : Nat := 81985529216486895

/-- The result of an addition or multiplication on `size_t` and on pointers:
modulo `2^64`. -/
def wrap64 (n : Nat) : Nat := n % 18446744073709551616

/-- The difference `a - b` on `size_t` and on pointers: modulo `2^64`. -/
def sub64 (a b : Nat) : Nat :=
  (a + 18446744073709551616 - b % 18446744073709551616) % 18446744073709551616

/-- The protections `mprotect` is called with: `PROT_NONE` and
`PROT_READ | PROT_WRITE`. -/
inductive Prot where
  | PROT_NONE
  | PROT_READ_WRITE
  deriving DecidableEq, Repr

/-- The reports of `util.h` (not among the sources), by the name of the
function that prints them. -/
inductive Report where
  | seg_fault (addr : Nat)
  | invalid_heap_access (addr : Nat)
  | invalid_free (ptr : Nat)
  | double_free (ptr size : Nat)
  | memory_leak (ptr size : Nat)
  deriving DecidableEq, Repr

/-- Ways in which the code stops: an access to memory that is not readable
and writable raises SIGSEGV at that address; a failed `assert`. -/
inductive Fault where
  | segv (addr : Nat)
  | assertion
  deriving DecidableEq, Repr

/-- The static variables `is_initialized` and `current_page` (as an address),
the protection of every page of the address space by page number, the words
of memory by address, and the reports made so far. -/
structure State where
  is_initialized : Bool
  current_page : Nat
  prot : Nat → Prot
  mem : Nat → Nat
  reports : List Report

/-- Whether the address lies in the region that `asan_init` maps. -/
def in_heap (addr : Nat) : Prop := START_PAGE ≤ addr ∧ addr < START_PAGE + MAX_HEAP_SIZE

instance (addr : Nat) : Decidable (in_heap addr) := by
  unfold in_heap; exact inferInstance

/-- The call `mprotect(addr, len, prot)` on an address of the mapped region:
every page that starts in `[addr, addr + len)` gets the protection. With an
address that is not a multiple of the page size the call fails and changes
nothing; the code does not look at the result. -/
def mprotect (s : State) (addr len : Nat) (p : Prot) : State :=
  if addr % PAGE_SIZE = 0 then
    { s with prot := fun page =>
        if addr ≤ page * PAGE_SIZE ∧ page * PAGE_SIZE < addr + len then p else s.prot page }
  else s

/-- A write of one object at `addr`: it needs a mapped page that is readable
and writable. -/
def store (s : State) (addr v : Nat) : Except Fault State :=
  if s.is_initialized = true ∧ in_heap addr ∧ s.prot (addr / PAGE_SIZE) = .PROT_READ_WRITE then
    .ok { s with mem := fun a => if a = addr then v else s.mem a }
  else .error (.segv addr)

/-- A read of one object at `addr`. -/
def load (s : State) (addr : Nat) : Except Fault Nat :=
  if s.is_initialized = true ∧ in_heap addr ∧ s.prot (addr / PAGE_SIZE) = .PROT_READ_WRITE then
    .ok (s.mem addr)
  else .error (.segv addr)

/-- The handler `sigsegv_handler` for a fault at `addr`: the report it makes. -/
def sigsegv_handler (s : State) (addr : Nat) : Report × State :=
  if s.is_initialized = false ∨ s.current_page = 0 then (.seg_fault addr, s)
  else if addr ≥ START_PAGE ∧ addr < wrap64 (s.current_page + PAGE_SIZE) then
    (.invalid_heap_access addr, mprotect s START_PAGE MAX_HEAP_SIZE .PROT_NONE)
  else (.seg_fault addr, s)

/-- The function `pages_round_up`. -/
def pages_round_up (size : Nat) : Nat := sub64 (wrap64 (size + PAGE_SIZE)) 1 / PAGE_SIZE

/-- The function `set_header`; `is_allocated` is stored as 1 or 0. -/
def set_header (s : State) (header_page size : Nat) (is_allocated : Bool) :
    Except Fault State := do
  let s := mprotect s header_page PAGE_SIZE .PROT_READ_WRITE
  let s ← store s header_page HEADER_MAGIC
  let s ← store s (header_page + 8) size
  let s ← store s (header_page + 16) (if is_allocated then 1 else 0)
  pure (mprotect s header_page PAGE_SIZE .PROT_NONE)

/-- The function `get_payload`. -/
def get_payload (header_page size : Nat) : Nat :=
  sub64 (wrap64 (header_page + PAGE_SIZE + pages_round_up size * PAGE_SIZE)) size

/-- The function `asan_init`; `mmap_result` is the address the `mmap` call
returns (fresh pages, zero-filled, with `PROT_NONE`). -/
def asan_init (mmap_result : Nat) (s : State) : Except Fault State :=
  if s.is_initialized then .ok s
  else if mmap_result = START_PAGE then
    .ok { is_initialized := true, current_page := mmap_result,
          prot := fun page => if in_heap (page * PAGE_SIZE) then .PROT_NONE else s.prot page,
          mem := fun a => if in_heap a then 0 else s.mem a,
          reports := s.reports }
  else .error .assertion

/-- The function `malloc`: the payload address and the state after. -/
def malloc (mmap_result size : Nat) (s : State) : Except Fault (Nat × State) := do
  let s ← asan_init mmap_result s
  let pages_necessary := pages_round_up size
  let s := mprotect s (wrap64 (s.current_page + PAGE_SIZE)) (wrap64 (PAGE_SIZE * pages_necessary))
    .PROT_READ_WRITE
  let s := mprotect s s.current_page PAGE_SIZE .PROT_READ_WRITE
  let header_page := s.current_page
  let s ← set_header s header_page size true
  let s := mprotect s s.current_page PAGE_SIZE .PROT_NONE
  let s := { s with current_page := wrap64 (s.current_page + PAGE_SIZE * (1 + pages_necessary)) }
  pure (get_payload header_page size, s)

/-- A report made after the whole region has been protected. -/
def report (s : State) (r : Report) : State :=
  { mprotect s START_PAGE MAX_HEAP_SIZE .PROT_NONE with reports := s.reports ++ [r] }

/-- The function `free`. -/
def free (mmap_result ptr : Nat) (s : State) : Except Fault State := do
  let s ← asan_init mmap_result s
  if ptr = 0 then pure s
  else if ptr < START_PAGE + PAGE_SIZE ∨ ptr > wrap64 (START_PAGE + MAX_HEAP_SIZE * PAGE_SIZE) then
    pure (report s (.invalid_free ptr))
  else do
    let header := sub64 (sub64 ptr PAGE_SIZE) (sub64 ptr START_PAGE % PAGE_SIZE)
    let s := mprotect s header PAGE_SIZE .PROT_READ_WRITE
    let size ← load s (header + 8)
    let magic ← load s header
    if magic ≠ HEADER_MAGIC ∨ get_payload header size ≠ ptr then
      pure (report s (.invalid_free ptr))
    else do
      let allocated ← load s (header + 16)
      if allocated = 0 then pure (report s (.double_free ptr size))
      else do
        let s ← set_header s header size false
        let s := mprotect s header PAGE_SIZE .PROT_NONE
        let s := mprotect s (wrap64 (header + PAGE_SIZE)) (wrap64 (PAGE_SIZE * pages_round_up size))
          .PROT_NONE
        pure s

/-- The calls `p = malloc(size); free(p);`: the address `p` and the state after
both. -/
def malloc_then_free (mmap_result size : Nat) (s : State) : Except Fault (Nat × State) := do
  let (p, s) ← malloc mmap_result size s
  let s ← free mmap_result p s
  pure (p, s)

/-- The state of the process before the first call: the statics are zero and
nothing is mapped at `START_PAGE`. -/
def fresh : State :=
  { is_initialized := false, current_page := 0, prot := fun _ => .PROT_NONE,
    mem := fun _ => 0, reports := [] }

end ASan

/-! ## The TeenyBASIC compiler of `compile.c` -/

namespace Compile

/-- The result of arithmetic on `value_t`, a signed 64-bit integer, with two's
complement wraparound. -/
def to_int64 (x : Int) : Int :=
  (x + 9223372036854775808) % 18446744073709551616 - 9223372036854775808

/-- Ways in which the compiler or the code it prints stops without a result. -/
inductive Fault where
  /-- an access through a pointer that is not a node, a division by zero, or
  the division of the least 64-bit value by -1 -/
  | undefined
  /-- the embedding ran out of fuel (not an outcome of the C code) -/
  | fuel
  deriving DecidableEq, Repr

/-- The nodes that expressions and `PRINT` statements are built from, with the
fields `compile.c` reads; `ast.h` is not among the sources. A pointer to a node
is its index in the memory of the tree. The other statement types (`LET`,
`IF`, `WHILE`, `SEQUENCE`) are not embedded. -/
inductive node_t where
  | NUM (value : Int)
  | VAR (name : Nat)
  | BINARY_OP (op : Char) (left right : Nat)
  | PRINT (expr : Nat)
  deriving DecidableEq, Repr

/-- The memory that holds the nodes of a tree. -/
abbrev ast_t := List node_t

/-- The assembly instructions `compile_ast` prints for expressions and
`PRINT`, one constructor per `printf`. -/
inductive instr where
  /-- `movq $value, %rdi` -/
  | movq_imm (value : Int)
  /-- `movq -offset(%rbp), %rdi` -/
  | movq_var (offset : Nat)
  /-- `push %rdi` -/
  | push_rdi
  /-- `pop %rcx` -/
  | pop_rcx
  /-- `pop %rdi` -/
  | pop_rdi
  /-- `cmp %rcx, %rdi` -/
  | cmp
  /-- `addq %rcx, %rdi` -/
  | addq
  /-- `subq %rcx, %rdi` -/
  | subq
  /-- `imulq %rcx, %rdi` -/
  | imulq
  /-- `movq %rdi, %rax` -/
  | movq_rdi_rax
  /-- `cqto` -/
  | cqto
  /-- `idiv %rcx` -/
  | idiv_rcx
  /-- `movq %rax, %rdi` -/
  | movq_rax_rdi
  /-- `shlq $k, %rdi` -/
  | shlq (k : Nat)
  /-- `call print_int` -/
  | call_print_int
  deriving DecidableEq, Repr

/-- Whether the pointer is to a node of type `BINARY_OP`; a pointer that is not
to a node has no defined result. -/
def is_binary_op (mem : ast_t) (p : Nat) : Except Fault Bool :=
  match mem[p]? with
  | some (.BINARY_OP _ _ _) => .ok true
  | some _ => .ok false
  | none => .error .undefined

/-- The function `compute_folds`. The argument `node` is the value of `*node`
on entry; the result is the memory and the value of `*node` on return. The
variables `left` and `right` are copies of the fields of the node: a recursive
call writes its result to the copy, and the fields keep the pointers they had.
The folded value is written into the node `left` points to. The division
`left_val /= right_val` by zero, and of the least `value_t` by -1, has no
defined result (the division instruction traps). -/
def compute_folds : Nat → ast_t → Nat → Except Fault (ast_t × Nat)
  | 0, _, _ => .error .fuel
  | fuel + 1, mem, node =>
    match mem[node]? with
    | none => .error .undefined
    | some (.BINARY_OP bi_op left0 right0) => do
      let (mem, left) ← (do
        if (← is_binary_op mem left0) then compute_folds fuel mem left0
        else pure (mem, left0))
      let (mem, right) ← (do
        if (← is_binary_op mem right0) then compute_folds fuel mem right0
        else pure (mem, right0))
      match mem[left]? with
      | none => .error .undefined
      | some (.NUM left_val) =>
        match mem[right]? with
        | none => .error .undefined
        | some (.NUM right_val) =>
          if bi_op = '+' then
            pure (mem.set left (.NUM (to_int64 (left_val + right_val))), left)
          else if bi_op = '-' then
            pure (mem.set left (.NUM (to_int64 (left_val - right_val))), left)
          else if bi_op = '*' then
            pure (mem.set left (.NUM (to_int64 (left_val * right_val))), left)
          else if bi_op = '/' then
            (if right_val = 0 ∨ (left_val = -9223372036854775808 ∧ right_val = -1) then
              .error .undefined
             else pure (mem.set left (.NUM (to_int64 (Int.tdiv left_val right_val))), left))
          else pure (mem, node)
        | some _ => pure (mem, node)
      | some _ => pure (mem, node)
    | some _ => pure (mem, node)

/-- The function `check_power_two`; `compile` stands for the call of
`compile_ast`. Returns whether the shift was printed, and what was printed. -/
def check_power_two (compile : ast_t → Nat → Except Fault (List instr × ast_t))
    (mem : ast_t) (left right : Nat) : Except Fault (Bool × List instr × ast_t) :=
  match mem[right]? with
  | some (.NUM value) =>
    if value > 1 ∧ Int.land value (value - 1) = 0 then do
      let shifted_right := Nat.log2 value.toNat
      let (code, mem) ← compile mem left
      pure (true, code ++ [.shlq shifted_right], mem)
    else pure (false, [], mem)
  | _ => .error .undefined

/-- The function `compile_ast` on the embedded node types: the instructions
printed, and the memory of the tree after the call. -/
def compile_ast : Nat → ast_t → Nat → Except Fault (List instr × ast_t)
  | 0, _, _ => .error .fuel
  | fuel + 1, mem, node =>
    match mem[node]? with
    | none => .error .undefined
    | some (.NUM value) => pure ([.movq_imm value], mem)
    | some (.PRINT expr) => do
      let (mem, expression) ← (do
        if (← is_binary_op mem expr) then compute_folds fuel mem expr
        else pure (mem, expr))
      let (code, mem) ← compile_ast fuel mem expression
      pure (code ++ [.call_print_int], mem)
    | some (.BINARY_OP op left right) => do
      let right_is_num ← (match mem[right]? with
        | some (.NUM _) => pure true
        | some _ => pure false
        | none => .error .undefined)
      let (power, code, mem) ← (
        if right_is_num ∧ op = '*' then check_power_two (compile_ast fuel) mem left right
        else pure (false, [], mem))
      if power then pure (code, mem)
      else do
        let (code_left, mem) ← compile_ast fuel mem left
        let (code_right, mem) ← compile_ast fuel mem right
        let code := code ++ code_left ++ [.push_rdi] ++ code_right
          ++ [.push_rdi, .pop_rcx, .pop_rdi]
        if op = '<' ∨ op = '>' ∨ op = '=' then pure (code ++ [.cmp], mem)
        else if op = '+' then pure (code ++ [.addq], mem)
        else if op = '-' then pure (code ++ [.subq], mem)
        else if op = '*' then pure (code ++ [.imulq], mem)
        else if op = '/' then
          pure (code ++ [.movq_rdi_rax, .cqto, .idiv_rcx, .movq_rax_rdi], mem)
        else pure (code, mem)
    | some (.VAR name) =>
      pure ([.movq_var ((((name : Int) - 65 + 1) * 8) % 4294967296).toNat], mem)

/-- The part of the machine the printed instructions use: four registers, the
stack, the variables by their offset below `%rbp`, the operands of the last
`cmp`, and the values `print_int` was called with. -/
structure machine where
  rdi : Int
  rcx : Int
  rax : Int
  rdx : Int
  stack : List Int
  vars : Nat → Int
  flags : Int × Int
  out : List Int

/-- The effect of one printed instruction. -/
def exec_instr (i : instr) (s : machine) : Except Fault machine :=
  match i with
  | .movq_imm value => pure { s with rdi := to_int64 value }
  | .movq_var offset => pure { s with rdi := s.vars offset }
  | .push_rdi => pure { s with stack := s.rdi :: s.stack }
  | .pop_rcx =>
    match s.stack with
    | v :: rest => pure { s with rcx := v, stack := rest }
    | [] => .error .undefined
  | .pop_rdi =>
    match s.stack with
    | v :: rest => pure { s with rdi := v, stack := rest }
    | [] => .error .undefined
  | .cmp => pure { s with flags := (s.rdi, s.rcx) }
  | .addq => pure { s with rdi := to_int64 (s.rdi + s.rcx) }
  | .subq => pure { s with rdi := to_int64 (s.rdi - s.rcx) }
  | .imulq => pure { s with rdi := to_int64 (s.rdi * s.rcx) }
  | .movq_rdi_rax => pure { s with rax := s.rdi }
  | .cqto => pure { s with rdx := if s.rax < 0 then -1 else 0 }
  | .idiv_rcx =>
    if s.rcx = 0 ∨ (s.rax = -9223372036854775808 ∧ s.rcx = -1) then .error .undefined
    else pure { s with rax := Int.tdiv s.rax s.rcx, rdx := Int.tmod s.rax s.rcx }
  | .movq_rax_rdi => pure { s with rdi := s.rax }
  | .shlq k => pure { s with rdi := to_int64 (s.rdi * 2 ^ k) }
  | .call_print_int => pure { s with out := s.out ++ [s.rdi] }

/-- The effect of a list of printed instructions, in order. -/
def exec : List instr → machine → Except Fault machine
  | [], s => pure s
  | i :: rest, s => do
    let s ← exec_instr i s
    exec rest s

/-- An expression as a tree. -/
inductive expr where
  | num (value : Int)
  | var (name : Nat)
  | bin (op : Char) (left right : expr)
  deriving DecidableEq, Repr

/-- The expression that the memory holds under a pointer. -/
def expr_of : Nat → ast_t → Nat → Option expr
  | 0, _, _ => none
  | fuel + 1, mem, node =>
    match mem[node]? with
    | some (.NUM value) => some (.num value)
    | some (.VAR name) => some (.var name)
    | some (.BINARY_OP op left right) =>
      match expr_of fuel mem left, expr_of fuel mem right with
      | some l, some r => some (.bin op l r)
      | _, _ => none
    | _ => none

/-- The value of an expression built with `+ - * /` for the values `vars` of
the variables, in 64-bit arithmetic; `none` for a division by zero and for
other operators. -/
def eval (vars : Nat → Int) : expr → Option Int
  | .num value => some (to_int64 value)
  | .var name => some (vars name)
  | .bin op l r =>
    match eval vars l, eval vars r with
    | some a, some b =>
      if op = '+' then some (to_int64 (a + b))
      else if op = '-' then some (to_int64 (a - b))
      else if op = '*' then some (to_int64 (a * b))
      else if op = '/' then (if b = 0 then none else some (to_int64 (Int.tdiv a b)))
      else none
    | _, _ => none

/-- The statement `PRINT (2 + 3) * X` in memory: the statement at pointer 0,
the product at 1, the sum at 2, the leaves at 3, 4 and 5. -/
def print_sum_times_x : ast_t :=
  [.PRINT 1, .BINARY_OP '*' 2 5, .BINARY_OP '+' 3 4, .NUM 2, .NUM 3, .VAR 88]

/-- A machine in which the variable `X` (offset `0xc0` below `%rbp`) holds
`x` and everything else is zero. -/
def machine_with_x (x : Int) : machine :=
  { rdi := 0, rcx := 0, rax := 0, rdx := 0, stack := [],
    vars := fun offset => if offset = 192 then x else 0, flags := (0, 0), out := [] }

/-- What `print_int` is called with when the instructions printed for the
statement at pointer 0 run on the machine. -/
def printed (fuel : Nat) (mem : ast_t) (s : machine) : Except Fault (List Int) := do
  let (code, _) ← compile_ast fuel mem 0
  let s ← exec code s
  pure s.out

end Compile

/-! ## The explicit free list allocator of `mm-explicit.c` -/

namespace MM

/-- Ways in which the code stops without a result. -/
inductive Fault where
  /-- an access outside the array that holds the heap, or one that is not
  aligned to a word -/
  | undefined
  /-- the embedding ran out of fuel (not an outcome of the C code) -/
  | fuel
  deriving DecidableEq, Repr

/-- The sum of two `size_t` values or of a pointer and an offset: modulo
`2^64`. -/
def wrap64 (n : Nat) : Nat := n % 18446744073709551616

/-- The difference of two `size_t` values or of a pointer and an offset:
modulo `2^64`. -/
def sub64 (a b : Nat) : Nat :=
  (a + 18446744073709551616 - b % 18446744073709551616) % 18446744073709551616

/-- The constant `ALIGNMENT`, `2 * sizeof(size_t)`. -/
def ALIGNMENT : Nat := 16

/-- The memory `memlib` provides (`memlib.h` is not among the sources): an
array of 8-byte words that starts at the address `lo`, of which the bytes
below the address `brk` are the heap; and the four static pointers of the
allocator, with 0 for `NULL`. -/
structure State where
  words : List Nat
  lo : Nat
  brk : Nat
  mm_heap_first : Nat
  mm_heap_last : Nat
  mm_free_first : Nat
  mm_free_last : Nat

/-- A read of the `size_t` or pointer at the address `a`. -/
def load (s : State) (a : Nat) : Except Fault Nat :=
  if s.lo ≤ a ∧ (a - s.lo) % 8 = 0 then
    match s.words[(a - s.lo) / 8]? with
    | some v => .ok v
    | none => .error .undefined
  else .error .undefined

/-- A write of the `size_t` or pointer `v` at the address `a`. -/
def store (s : State) (a v : Nat) : Except Fault State :=
  if s.lo ≤ a ∧ (a - s.lo) % 8 = 0 ∧ (a - s.lo) / 8 < s.words.length then
    .ok { s with words := s.words.set ((a - s.lo) / 8) v }
  else .error .undefined

/-- The function `mem_sbrk` of `memlib.h` (not among the sources), as the
allocator uses it: it extends the heap by `incr` bytes and returns the old
break, or returns `(void *) -1` (`none`) when the array has no room. -/
def mem_sbrk (s : State) (incr : Nat) : Option Nat × State :=
  if s.brk + incr ≤ s.lo + 8 * s.words.length then (some s.brk, { s with brk := s.brk + incr })
  else (none, s)

/-- The function `round_up`. -/
def round_up (size n : Nat) : Nat := wrap64 (size + (n - 1)) / n * n

/-- The word `size | is_allocated`. -/
def pack (size : Nat) (is_allocated : Bool) : Nat :=
  Nat.lor size (if is_allocated then 1 else 0)

/-- The function `set_header`. -/
def set_header (s : State) (block size : Nat) (is_allocated : Bool) : Except Fault State :=
  store s block (pack size is_allocated)

/-- The function `set_footer`. -/
def set_footer (s : State) (block size : Nat) (is_allocated : Bool) : Except Fault State :=
  store s (sub64 (wrap64 (block + size)) 8) (pack size is_allocated)

/-- The function `get_size`: the header without its lowest bit. -/
def get_size (s : State) (block : Nat) : Except Fault Nat := do
  let header ← load s block
  pure (header - header % 2)

/-- The function `is_allocated`: the lowest bit of the header. -/
def is_allocated (s : State) (block : Nat) : Except Fault Bool := do
  let header ← load s block
  pure (header % 2 = 1)

/-- The address of the field `next` of a `free_block_t`. -/
def next_of (block : Nat) : Nat := wrap64 (block + 8)

/-- The address of the field `prev` of a `free_block_t`. -/
def prev_of (block : Nat) : Nat := wrap64 (block + 16)

/-- The function `add_to_freelist`. -/
def add_to_freelist (s : State) (block : Nat) : Except Fault State := do
  let freed_block_size ← get_size s block
  let s ← set_header s block freed_block_size false
  let s ← set_footer s block freed_block_size false
  if s.mm_free_first = 0 then do
    let s := { s with mm_free_first := block }
    let s ← store s (prev_of s.mm_free_first) 0
    let s ← store s (next_of s.mm_free_first) 0
    pure { s with mm_free_last := block }
  else do
    let s ← store s (prev_of s.mm_free_first) block
    let s ← store s (next_of block) s.mm_free_first
    pure { s with mm_free_first := block }

/-- The function `remove_from_freelist`. -/
def remove_from_freelist (s : State) (curr : Nat) : Except Fault State :=
  if curr = s.mm_free_first ∧ curr = s.mm_free_last then
    pure { s with mm_free_first := 0, mm_free_last := 0 }
  else if curr = s.mm_free_first then do
    let next ← load s (next_of curr)
    let s := { s with mm_free_first := next }
    let next ← load s (next_of curr)
    store s (prev_of next) 0
  else if curr = s.mm_free_last then do
    let prev ← load s (prev_of curr)
    let s := { s with mm_free_last := prev }
    let prev ← load s (prev_of curr)
    store s (next_of prev) 0
  else do
    let next ← load s (next_of curr)
    let prev ← load s (prev_of curr)
    let s ← store s (prev_of next) prev
    let prev ← load s (prev_of curr)
    let next ← load s (next_of curr)
    store s (next_of prev) next

/-- The loop of `find_fit`, entered with `curr` at its test; the first
argument bounds the number of tests. Returns the block found, or 0. -/
def find_fit_loop (size : Nat) : Nat → State → Nat → Except Fault (Nat × State)
  | 0, _, _ => .error .fuel
  | fuel + 1, s, curr =>
    if s.mm_free_last ≠ 0 ∧ curr ≠ 0 then do
      let curr_size ← get_size s curr
      if curr_size ≥ size then do
        let s ← remove_from_freelist s curr
        pure (curr, s)
      else do
        let next ← load s (next_of curr)
        find_fit_loop size fuel s next
    else pure (0, s)

/-- The function `find_fit`. -/
def find_fit (fuel size : Nat) (s : State) : Except Fault (Nat × State) :=
  find_fit_loop size fuel s s.mm_free_first

/-- The function `block_from_payload`. -/
def block_from_payload (ptr : Nat) : Nat := sub64 ptr 8

/-- The address of the field `payload` of a block. -/
def payload_of (block : Nat) : Nat := wrap64 (block + 8)

/-- The function `mm_init`: whether it succeeds, and the state after. -/
def mm_init (s : State) : Bool × State :=
  match mem_sbrk s (sub64 ALIGNMENT 8) with
  | (none, s) => (false, s)
  | (some _, s) =>
    (true, { s with mm_heap_first := 0, mm_heap_last := 0, mm_free_first := 0,
                    mm_free_last := 0 })

/-- The function `split_block_exp`. -/
def split_block_exp (s : State) (block size block_size : Nat) : Except Fault (Nat × State) := do
  let s ← set_header s block size true
  let s ← set_footer s block size true
  let freed_block := wrap64 (block + size)
  let s ← set_header s freed_block (sub64 block_size size) false
  let s ← set_footer s freed_block (sub64 block_size size) false
  let s ← add_to_freelist s freed_block
  let s := if block = s.mm_heap_last then { s with mm_heap_last := wrap64 (block + size) } else s
  pure (payload_of block, s)

/-- The function `coalesce_left`. -/
def coalesce_left (s : State) (block : Nat) : Except Fault (Nat × State) := do
  let block_size ← get_size s block
  let (prev_size, prev) ← (
    if block ≠ s.mm_heap_first then do
      let footer ← load s (sub64 block 8)
      let prev_size := footer - footer % 2
      pure (prev_size, sub64 block prev_size)
    else pure (0, 0))
  let merge ← (
    if block ≠ s.mm_heap_first then do
      let a ← is_allocated s prev
      pure (!a)
    else pure false)
  if merge then do
    let new_blocksize := wrap64 (prev_size + block_size)
    let s ← remove_from_freelist s prev
    let s := if block = s.mm_heap_last then { s with mm_heap_last := prev } else s
    let s ← set_header s prev new_blocksize false
    let s ← set_footer s prev new_blocksize false
    pure (prev, s)
  else do
    let s ← set_header s block block_size false
    let s ← set_footer s block block_size false
    pure (block, s)

/-- The function `coalesce_right`. -/
def coalesce_right (s : State) (block : Nat) : Except Fault (Nat × State) := do
  let block_size ← get_size s block
  let (next_size, next) ← (
    if block ≠ s.mm_heap_last then do
      let next := wrap64 (block + block_size)
      let next_size ← get_size s next
      pure (next_size, next)
    else pure (0, 0))
  let merge ← (
    if block ≠ s.mm_heap_last then do
      let a ← is_allocated s next
      pure (!a)
    else pure false)
  if merge then do
    let new_blocksize := wrap64 (block_size + next_size)
    let s ← remove_from_freelist s next
    let s := if next = s.mm_heap_last then { s with mm_heap_last := block } else s
    let s ← set_header s block new_blocksize false
    let s ← set_footer s block new_blocksize false
    pure (block, s)
  else do
    let s ← set_header s block block_size false
    let s ← set_footer s block block_size false
    pure (block, s)

/-- The function `mm_malloc`; the first argument bounds the tests of the loop
of `find_fit`. Returns the payload address, 0 for `NULL`. -/
def mm_malloc (fuel size : Nat) (s : State) : Except Fault (Nat × State) := do
  let size := round_up (wrap64 (wrap64 (8 + size) + 8)) ALIGNMENT
  let (block, s) ← find_fit fuel size s
  if block ≠ 0 then do
    let block_size ← get_size s block
    if block_size ≥ round_up (wrap64 (size + 24)) ALIGNMENT then
      split_block_exp s block size block_size
    else do
      let s ← set_header s block block_size true
      let s ← set_footer s block block_size true
      pure (payload_of block, s)
  else
    match mem_sbrk s size with
    | (none, s) => pure (0, s)
    | (some block, s) => do
      let s := if s.mm_heap_first = 0 then { s with mm_heap_first := block } else s
      let s := { s with mm_heap_last := block }
      let s ← set_header s block size true
      let s ← set_footer s block size true
      pure (payload_of block, s)

/-- The function `mm_free`. -/
def mm_free (s : State) (ptr : Nat) : Except Fault State :=
  if ptr = 0 then pure s
  else do
    let block := block_from_payload ptr
    let (block, s) ← coalesce_left s block
    let (block, s) ← coalesce_right s block
    add_to_freelist s block

/-- The pairs of neighbours of a list, in order. -/
def pairs : List Nat → List (Nat × Nat)
  | a :: b :: rest => (a, b) :: pairs (b :: rest)
  | _ => []

/-- The three words of a `free_block_t` at `b` lie in the array that holds the
heap, at word-aligned addresses, and `b` is not `NULL`. -/
def block_ok (s : State) (b : Nat) : Prop :=
  0 < b ∧ s.lo ≤ b ∧ (b - s.lo) % 8 = 0 ∧ b + 24 ≤ s.lo + 8 * s.words.length ∧
  b + 24 < 18446744073709551616

instance (s : State) (b : Nat) : Decidable (block_ok s b) := by
  unfold block_ok; exact inferInstance

/-- The fields of two blocks do not overlap. -/
def apart (x y : Nat) : Prop := x + 24 ≤ y ∨ y + 24 ≤ x

instance (x y : Nat) : Decidable (apart x y) := by
  unfold apart; exact inferInstance

/-- The blocks `L` are the free list of the state, in order from
`mm_free_first` to `mm_free_last`: each block's `next` points to its
successor and is `NULL` in the last block, each block's `prev` points to its
predecessor (the `prev` of the first block is not constrained, as
`add_to_freelist` leaves it), and the blocks do not overlap. -/
def is_free_list (s : State) (L : List Nat) : Prop :=
  s.mm_free_first = L.head?.getD 0 ∧ s.mm_free_last = L.getLast?.getD 0 ∧
  (∀ p ∈ pairs L, load s (next_of p.1) = .ok p.2 ∧ load s (prev_of p.2) = .ok p.1) ∧
  (∀ a ∈ L.getLast?, load s (next_of a) = .ok 0) ∧
  (∀ b ∈ L, block_ok s b) ∧ L.Pairwise apart

/-- The test `curr_size >= size` of `find_fit` on the block `block`. -/
def fits (s : State) (size block : Nat) : Bool :=
  match get_size s block with
  | .ok curr_size => decide (curr_size ≥ size)
  | .error _ => false

/-- A heap of three blocks after `mm_init`: a free block of 32 bytes at offset
8, an allocated block of 32 bytes at offset 40 and a free block of 48 bytes at
offset 72; the free list is the first block followed by the third. -/
def two_free : State :=
  { words := [0, 32, 65608, 0, 32, 33, 0, 0, 33, 48, 0, 65544, 0, 0, 48], lo := 65536,
    brk := 65656, mm_heap_first := 65544, mm_heap_last := 65608, mm_free_first := 65544,
    mm_free_last := 65608 }

/-- A heap of 32 words at the address `0x10000` before `mm_init`. -/
def empty_heap : State :=
  { words := List.replicate 32 0, lo := 65536, brk := 65536, mm_heap_first := 0,
    mm_heap_last := 0, mm_free_first := 0, mm_free_last := 0 }

/-- A client that calls `mm_init`, allocates `m` (8 bytes), `a` (0 bytes), `c`
(16 bytes) and `g` (64 bytes), frees `a`, allocates 0 bytes again, frees `m`,
writes the words `c[0]`, `c[1]`, `g[0]` and `g[1]` of its own payloads, frees
`c` and allocates 24 bytes. Returns the offsets of the six payloads from the
start of the heap, in the order of the calls of `mm_malloc`. -/
def client (fuel : Nat) (s : State) : Except Fault (List Nat × State) := do
  let (_, s) := mm_init s
  let (m, s) ← mm_malloc fuel 8 s
  let (a, s) ← mm_malloc fuel 0 s
  let (c, s) ← mm_malloc fuel 16 s
  let (g, s) ← mm_malloc fuel 64 s
  let s ← mm_free s a
  let (a2, s) ← mm_malloc fuel 0 s
  let s ← mm_free s m
  let s ← store s c g
  let s ← store s (c + 8) (block_from_payload m)
  let s ← store s g 48
  let s ← store s (g + 8) (g + 32)
  let s ← mm_free s c
  let (p, s) ← mm_malloc fuel 24 s
  pure ([m, a, c, g, a2, p].map (fun x => x - s.lo), s)

/-- The blocks of the heap from `block` to `mm_heap_last`, each as its size
and whether it is allocated, read from the headers; the first argument bounds
the number of blocks. -/
def blocks : Nat → State → Nat → Except Fault (List (Nat × Bool))
  | 0, _, _ => .error .fuel
  | fuel + 1, s, block => do
    let size ← get_size s block
    let allocated ← is_allocated s block
    if block = s.mm_heap_last then pure [(size, allocated)]
    else do
      let rest ← blocks fuel s (wrap64 (block + size))
      pure ((size, allocated) :: rest)

/-- The heap as the sequence of its blocks from `mm_heap_first` to
`mm_heap_last`. -/
def heap_blocks (fuel : Nat) (s : State) : Except Fault (List (Nat × Bool)) :=
  if s.mm_heap_first = 0 then pure [] else blocks fuel s s.mm_heap_first

/-- Whether two adjacent blocks of the sequence are both free. -/
def adjacent_free : List (Nat × Bool) → Bool
  | a :: b :: rest => (!a.2 && !b.2) || adjacent_free (b :: rest)
  | _ => false

/-- A client that calls `mm_init`, allocates `a` (0 bytes) and `c` (16 bytes)
and frees `a`. Returns the two payload addresses, the state before the call
of `mm_free` and the state after it. -/
def zero_client (fuel : Nat) (s : State) : Except Fault (Nat × Nat × State × State) := do
  let (_, s) := mm_init s
  let (a, s) ← mm_malloc fuel 0 s
  let (c, s) ← mm_malloc fuel 16 s
  let s1 ← mm_free s a
  pure (a, c, s, s1)

/-- A client that calls `mm_init`, allocates four times 16 bytes and frees the
first, the third and then the second payload. Returns the state before the
last call of `mm_free` and the state after it. -/
def merge_client (fuel : Nat) (s : State) : Except Fault (State × State) := do
  let (_, s) := mm_init s
  let (p1, s) ← mm_malloc fuel 16 s
  let (p2, s) ← mm_malloc fuel 16 s
  let (p3, s) ← mm_malloc fuel 16 s
  let (_, s) ← mm_malloc fuel 16 s
  let s ← mm_free s p1
  let s ← mm_free s p3
  let s1 ← mm_free s p2
  pure (s, s1)

end MM

/-! ## The directory tree of `directory_tree.c` -/

namespace DirTree

/-- Ways in which the code stops without a result. -/
inductive Fault where
  /-- an access outside the array of children -/
  | undefined
  /-- a failed `assert` -/
  | assertion
  /-- the embedding ran out of fuel (not an outcome of the C code) -/
  | fuel
  deriving DecidableEq, Repr

/-- The result of an addition or multiplication on `size_t`: modulo `2^64`. -/
def wrap64 (n : Nat) : Nat := n % 18446744073709551616

/-- The difference `a - b` on `size_t`: modulo `2^64`. -/
def sub64 (a b : Nat) : Nat :=
  (a + 18446744073709551616 - b % 18446744073709551616) % 18446744073709551616

/-- The function `strcmp` of the C library on two strings given by their
bytes: the difference of the first two bytes that differ, read as
`unsigned char`, where a string ends at the end of its list or at a byte 0. -/
def strcmp : List Nat → List Nat → Int
  | [], [] => 0
  | [], b :: _ => -(b : Int)
  | a :: _, [] => (a : Int)
  | a :: as, b :: bs =>
    if a = b then (if a = 0 then 0 else strcmp as bs) else (a : Int) - (b : Int)

/-- The fields `num_children` and `children` of a `directory_node_t`
(`directory_tree.h` is not among the sources); the array holds pointers to
nodes. -/
structure directory_node_t where
  num_children : Nat
  children : List Nat

/-- Read `children[i]`. -/
def rd (xs : List Nat) (i : Nat) : Except Fault Nat :=
  match xs[i]? with
  | some v => .ok v
  | none => .error .undefined

/-- Write `children[i] = v`. -/
def wr (xs : List Nat) (i : Nat) (v : Nat) : Except Fault (List Nat) :=
  if i < xs.length then .ok (xs.set i v) else .error .undefined

/-- The inner loop of `sorted_dir`, entered at its test with the values of
`j`, `min_string` and `min_idx`; `name` gives the field `name` of the node a
pointer points to. Returns `min_idx`. The first argument bounds the number of
tests. -/
def sorted_dir_inner (name : Nat → List Nat) (dnode : directory_node_t) :
    Nat → Nat → List Nat → Nat → Except Fault Nat
  | 0, _, _, _ => .error .fuel
  | fuel + 1, j, min_string, min_idx =>
    if j < dnode.num_children then do
      let cur_node ← rd dnode.children j
      let str := name cur_node
      if strcmp str min_string < 0 then
        sorted_dir_inner name dnode fuel (wrap64 (j + 1)) str j
      else sorted_dir_inner name dnode fuel (wrap64 (j + 1)) min_string min_idx
    else pure min_idx

/-- The outer loop of `sorted_dir`, entered at its test with the value of
`i`. The first argument bounds the number of tests of this loop and of each
run of the inner loop. -/
def sorted_dir_loop (name : Nat → List Nat) :
    Nat → Nat → directory_node_t → Except Fault directory_node_t
  | 0, _, _ => .error .fuel
  | fuel + 1, i, dnode =>
    if i < dnode.num_children then do
      let first ← rd dnode.children i
      let min_string := name first
      let min_idx ← sorted_dir_inner name dnode fuel (wrap64 (i + 1)) min_string i
      let temp_node ← rd dnode.children i
      let min_node ← rd dnode.children min_idx
      let children ← wr dnode.children i min_node
      let children ← wr children min_idx temp_node
      sorted_dir_loop name fuel (wrap64 (i + 1)) { dnode with children := children }
    else pure dnode

/-- The function `sorted_dir`. -/
def sorted_dir (name : Nat → List Nat) (fuel : Nat) (dnode : directory_node_t) :
    Except Fault directory_node_t :=
  sorted_dir_loop name fuel 0 dnode

/-- The function `realloc` of the C library on the array of children, when it
succeeds: an array of `bytes / 8` pointers that starts with the old entries;
the new entries are indeterminate (0 here). -/
def realloc (xs : List Nat) (bytes : Nat) : List Nat :=
  (xs ++ List.replicate (bytes / 8) 0).take (bytes / 8)

/-- The function `add_child_directory_tree`; `realloc_ok` tells whether
`realloc` returns an array. -/
def add_child_directory_tree (name : Nat → List Nat) (fuel : Nat) (realloc_ok : Bool)
    (dnode : directory_node_t) (child : Nat) : Except Fault directory_node_t := do
  let dnode := { dnode with num_children := wrap64 (dnode.num_children + 1) }
  if realloc_ok = false then .error .assertion
  else do
    let dnode :=
      { dnode with children := realloc dnode.children (wrap64 (dnode.num_children * 8)) }
    let children ← wr dnode.children (sub64 dnode.num_children 1) child
    sorted_dir name fuel { dnode with children := children }

/-- The names of the nodes in a directory of three files (`b`, `a`, `c` under
the pointers 1, 2, 3; `ab` under the pointer 4). -/
def sample_name (p : Nat) : List Nat :=
  if p = 1 then [98] else if p = 2 then [97] else if p = 3 then [99]
  else if p = 4 then [97, 98] else []

end DirTree

/-! ## The work queue of `queue.c` -/

namespace Queue

/-- Ways in which a call does not return. -/
inductive Fault where
  /-- an access through a pointer that is `NULL` or does not point to an
  allocated node -/
  | undefined
  /-- the wait of `queue_dequeue` on an empty queue, which no other thread of
  a single-threaded run ends -/
  | blocked
  deriving DecidableEq, Repr

/-- The result of an addition on `size_t`: modulo `2^64`. -/
def wrap64 (n : Nat) : Nat := n % 18446744073709551616

/-- The difference `a - b` on `size_t`: modulo `2^64`. -/
def sub64 (a b : Nat) : Nat :=
  (a + 18446744073709551616 - b % 18446744073709551616) % 18446744073709551616

/-- The fields of a `node_t` (`queue.h` is not among the sources): the value
and the pointers to the next and the previous node, 0 for `NULL`. -/
structure node_t where
  value : Nat
  next : Nat
  prev : Nat
  deriving DecidableEq, Repr

/-- The memory of nodes by address with the addresses that are allocated, and
the fields `head`, `tail` and `size` of the `queue_t`. The mutex and the
condition variable have no effect in a single-threaded run. -/
structure State where
  mem : Nat → node_t
  live : List Nat
  head : Nat
  tail : Nat
  size : Nat

/-- Read the node `*p`. -/
def get (s : State) (p : Nat) : Except Fault node_t :=
  if p ∈ s.live then .ok (s.mem p) else .error .undefined

/-- Write the node `*p`. -/
def put (s : State) (p : Nat) (n : node_t) : Except Fault State :=
  if p ∈ s.live then .ok { s with mem := fun a => if a = p then n else s.mem a }
  else .error .undefined

/-- The call `malloc(sizeof(node_t))` that returns the address `a`: the node
is allocated and its fields are what the memory held. -/
def malloc (a : Nat) (s : State) : State := { s with live := a :: s.live }

/-- The call `free(p)`. -/
def free (p : Nat) (s : State) : State := { s with live := s.live.filter (fun a => a ≠ p) }

/-- The function `queue_init`; `h` and `t` are the addresses `malloc` returns
for the head and the tail node. -/
def queue_init (h t : Nat) (s : State) : Except Fault State := do
  let s := malloc h s
  let s := { s with head := h }
  let s := malloc t s
  let s := { s with tail := t }
  let head ← get s s.head
  let s ← put s s.head { head with next := s.tail }
  let tail ← get s s.tail
  let s ← put s s.tail { tail with prev := s.head }
  pure { s with size := 0 }

/-- The function `queue_enqueue`; `a` is the address `malloc` returns for the
new node. -/
def queue_enqueue (a value : Nat) (s : State) : Except Fault State := do
  let s := malloc a s
  let new_node ← get s a
  let s ← put s a { new_node with value := value }
  let tail ← get s s.tail
  let last ← get s tail.prev
  let s ← put s tail.prev { last with next := a }
  let tail ← get s s.tail
  let s ← put s s.tail { tail with prev := a }
  let tail ← get s s.tail
  let new_node ← get s a
  let s ← put s a { new_node with prev := tail.prev }
  let new_node ← get s a
  let s ← put s a { new_node with next := s.tail }
  pure { s with size := wrap64 (s.size + 1) }

/-- The function `queue_dequeue`: the value returned and the state after. -/
def queue_dequeue (s : State) : Except Fault (Nat × State) :=
  if s.size = 0 then .error .blocked
  else do
    let head ← get s s.head
    let first ← get s head.next
    let value := first.value
    let node_to_dequeue := head.next
    let node ← get s node_to_dequeue
    let after ← get s node.next
    let s ← put s node.next { after with prev := s.head }
    let head ← get s s.head
    let first ← get s head.next
    let s ← put s s.head { head with next := first.next }
    let s := free node_to_dequeue s
    pure (value, { s with size := sub64 s.size 1 })

/-- A call of the queue: `queue_enqueue` with the address `malloc` returns in
it and the value, or `queue_dequeue`. -/
inductive call where
  | enqueue (a value : Nat)
  | dequeue
  deriving DecidableEq, Repr

/-- A sequence of calls on the queue, from first to last: the values the
calls of `queue_dequeue` return, in order, and the state after. -/
def run : List call → State → Except Fault (List Nat × State)
  | [], s => pure ([], s)
  | .enqueue a value :: rest, s => do
    let s ← queue_enqueue a value s
    run rest s
  | .dequeue :: rest, s => do
    let (v, s) ← queue_dequeue s
    let (vs, s) ← run rest s
    pure (v :: vs, s)

/-- The values enqueued by a sequence of calls, in order. -/
def enqueued : List call → List Nat
  | [] => []
  | .enqueue _ value :: rest => value :: enqueued rest
  | .dequeue :: rest => enqueued rest

/-- The number of calls of `queue_dequeue` in a sequence of calls. -/
def dequeues : List call → Nat
  | [] => 0
  | .enqueue _ _ :: rest => dequeues rest
  | .dequeue :: rest => dequeues rest + 1

/-- No call of `queue_dequeue` of the sequence is issued on an empty queue,
when the queue holds `n` values before the first call. -/
def never_empty : List call → Nat → Bool
  | [], _ => true
  | .enqueue _ _ :: rest, n => never_empty rest (n + 1)
  | .dequeue :: rest, n => decide (0 < n) && never_empty rest (n - 1)

/-- Every address that `malloc` returns in the sequence of calls is not
`NULL` and is not allocated at the time of the call. -/
def fresh_mallocs : List call → State → Bool
  | [], _ => true
  | .enqueue a value :: rest, s =>
    decide (a ≠ 0) && decide (a ∉ s.live) &&
      (match queue_enqueue a value s with
       | .ok s1 => fresh_mallocs rest s1
       | .error _ => true)
  | .dequeue :: rest, s =>
    match queue_dequeue s with
    | .ok (_, s1) => fresh_mallocs rest s1
    | .error _ => true

/-- The nodes from the one after `p` to the tail node are the nodes at the
addresses `as`, linked by `next` in this order. -/
def chain (s : State) : Nat → List Nat → Prop
  | p, [] => (s.mem p).next = s.tail
  | p, a :: as => (s.mem p).next = a ∧ chain s a as

/-- The queue holds the nodes `L`, each given by its address and its value,
from first to last: the head and the tail node and the nodes of `L` are
allocated and differ from one another, `next` leads from the head node
through `L` to the tail node, `prev` of the tail node points to the last node
of `L` (to the head node when `L` is empty), and `size` is the length of
`L`. -/
def holds (s : State) (L : List (Nat × Nat)) : Prop :=
  s.head ∈ s.live ∧ s.tail ∈ s.live ∧ s.head ≠ s.tail ∧
  (∀ x ∈ L, x.1 ∈ s.live ∧ x.1 ≠ s.head ∧ x.1 ≠ s.tail ∧ (s.mem x.1).value = x.2) ∧
  (L.map (fun x => x.1)).Nodup ∧
  chain s s.head (L.map (fun x => x.1)) ∧
  (s.mem s.tail).prev = ((L.map (fun x => x.1)).getLast?).getD s.head ∧
  s.size = L.length

/-- The state of the process before `queue_init`: nothing is allocated. -/
def fresh : State :=
  { mem := fun _ => { value := 0, next := 0, prev := 0 }, live := [], head := 0, tail := 0,
    size := 0 }

/-- The queue after `queue_init` with the addresses 16 and 32 from `malloc`,
in a process that has allocated nothing before. -/
def empty_queue : State :=
  match queue_init 16 32 fresh with
  | .ok q => q
  | .error _ => fresh

/-- A sequence of calls in which `malloc` returns the address 48 twice: the
second time after the node at 48 has been freed by `queue_dequeue`. -/
def sample_calls : List call :=
  [.enqueue 48 7, .enqueue 64 8, .dequeue, .enqueue 48 9, .dequeue, .dequeue]

/-- The calls `queue_init` and then `queue_enqueue` of the values 7 and 8,
with the addresses 16, 32, 48 and 64 from `malloc`. -/
def two_enqueued : Except Fault State := do
  let s ← queue_init 16 32 fresh
  let s ← queue_enqueue 48 7 s
  queue_enqueue 64 8 s

end Queue

namespace JVM

/-! ## Basic facts -/

theorem size_sub_eq {a b : Nat} (hb : b ≤ a) (ha : a < 18446744073709551616) :
    size_sub a b = a - b := by
  unfold size_sub size_t_wrap
  omega

theorem size_add_eq {a b : Nat} (h : a + b < 18446744073709551616) :
    size_add a b = a + b := by
  unfold size_add size_t_wrap
  omega

theorem rd_eq {xs : List Int} {i : Nat} {v : Int} (h : xs[i]? = some v) : rd xs i = .ok v := by
  simp [rd, h]

theorem wr_eq {xs : List Int} {i : Nat} (v : Int) (h : i < xs.length) :
    wr xs i v = .ok (xs.set i v) := by
  simp [wr, h]

@[simp] theorem ok_bind {α β : Type} (a : α) (f : α → Except Fault β) :
    (Except.ok a >>= f) = f a := rfl

@[simp] theorem error_bind {α β : Type} (e : Fault) (f : α → Except Fault β) :
    (Except.error e >>= f) = Except.error e := rfl

@[simp] theorem map_ok {α β : Type} (a : α) (f : α → β) :
    (f <$> (Except.ok a : Except Fault α)) = Except.ok (f a) := rfl

@[simp] theorem map_error {α β : Type} (e : Fault) (f : α → β) :
    (f <$> (Except.error e : Except Fault α)) = Except.error e := rfl

@[simp] theorem pure_eq_ok {α : Type} (a : α) : (pure a : Except Fault α) = Except.ok a := rfl

theorem to_int32_range (x : Int) : is_int32 (to_int32 x) := by
  unfold is_int32 to_int32; omega

theorem to_int32_id {x : Int} (h : is_int32 x) : to_int32 x = x := by
  unfold is_int32 at h; unfold to_int32; omega

/-! ## Bit patterns of 32-bit integers -/

theorem testBit_compl32 {x : Nat} (hx : x < 2 ^ 32) (i : Nat) :
    Nat.testBit (4294967296 - (x + 1)) i = (decide (i < 32) && !Nat.testBit x i) := by
  have := Nat.testBit_two_pow_sub_succ hx i
  simpa using this

theorem testBit_high {x i : Nat} (hx : x < 2 ^ 31) (hi : ¬ i < 32) : Nat.testBit x i = false := by
  apply Nat.testBit_lt_two_pow
  calc x < 2 ^ 31 := hx
    _ ≤ 2 ^ i := Nat.pow_le_pow_right (by norm_num) (by omega)

theorem to_uint32_ofNat {m : Nat} (h : m < 2 ^ 31) : to_uint32 (m : Int) = m := by
  unfold to_uint32; omega

theorem to_uint32_negSucc {m : Nat} (h : m < 2 ^ 31) :
    to_uint32 (Int.negSucc m) = 4294967296 - (m + 1) := by
  unfold to_uint32; rw [Int.negSucc_eq]; omega

theorem to_int32_small {m : Nat} (h : m < 2 ^ 31) : to_int32 (m : Int) = m := by
  unfold to_int32; omega

theorem to_int32_compl {m : Nat} (h : m < 2 ^ 31) :
    to_int32 ((4294967296 - (m + 1) : Nat) : Int) = Int.negSucc m := by
  unfold to_int32; rw [Int.negSucc_eq]; omega

theorem int32_cases {a : Int} (ha : is_int32 a) :
    (∃ m : Nat, m < 2 ^ 31 ∧ a = (m : Int)) ∨ (∃ m : Nat, m < 2 ^ 31 ∧ a = Int.negSucc m) := by
  unfold is_int32 at ha
  cases a with
  | ofNat m => left; rw [Int.ofNat_eq_coe] at ha; exact ⟨m, by omega, rfl⟩
  | negSucc m => right; rw [Int.negSucc_eq] at ha; exact ⟨m, by omega, rfl⟩

theorem testBit_top {x i : Nat} (hx : x < 2 ^ 31) (hi : 31 ≤ i) : Nat.testBit x i = false := by
  apply Nat.testBit_lt_two_pow
  calc x < 2 ^ 31 := hx
    _ ≤ 2 ^ i := Nat.pow_le_pow_right (by norm_num) hi

theorem ldiff_lt {m n : Nat} (hm : m < 2 ^ 31) : Nat.ldiff m n < 2 ^ 31 := by
  apply Nat.lt_pow_two_of_testBit
  intro i hi
  rw [Nat.testBit_ldiff, testBit_top hm hi]; rfl

theorem land_compl {m n : Nat} (hm : m < 2 ^ 31) (hn : n < 2 ^ 31) :
    Nat.land m (4294967296 - (n + 1)) = Nat.ldiff m n := by
  apply Nat.eq_of_testBit_eq
  intro i
  show (m &&& (4294967296 - (n + 1))).testBit i = _
  rw [Nat.testBit_and, testBit_compl32 (by omega), Nat.testBit_ldiff]
  by_cases hi : i < 32
  · simp [hi]
  · simp [hi, testBit_high hm hi]

theorem compl_land_compl {m n : Nat} (hm : m < 2 ^ 31) (hn : n < 2 ^ 31) :
    Nat.land (4294967296 - (m + 1)) (4294967296 - (n + 1)) = 4294967296 - (Nat.lor m n + 1) := by
  have hmn : Nat.lor m n < 2 ^ 31 := Nat.or_lt_two_pow hm hn
  apply Nat.eq_of_testBit_eq
  intro i
  show ((4294967296 - (m + 1)) &&& (4294967296 - (n + 1))).testBit i = _
  rw [Nat.testBit_and, testBit_compl32 (by omega), testBit_compl32 (by omega),
    testBit_compl32 (by omega)]
  show _ = (decide (i < 32) && !(m ||| n).testBit i)
  rw [Nat.testBit_or]
  by_cases hi : i < 32 <;> simp [hi]

theorem lor_compl {m n : Nat} (hm : m < 2 ^ 31) (hn : n < 2 ^ 31) :
    Nat.lor m (4294967296 - (n + 1)) = 4294967296 - (Nat.ldiff n m + 1) := by
  have hmn : Nat.ldiff n m < 2 ^ 31 := ldiff_lt hn
  apply Nat.eq_of_testBit_eq
  intro i
  show (m ||| (4294967296 - (n + 1))).testBit i = _
  rw [Nat.testBit_or, testBit_compl32 (by omega), testBit_compl32 (by omega), Nat.testBit_ldiff]
  by_cases hi : i < 32
  · cases Nat.testBit m i <;> cases Nat.testBit n i <;> simp [hi]
  · simp [hi, testBit_high hm hi]

theorem compl_lor_compl {m n : Nat} (hm : m < 2 ^ 31) (hn : n < 2 ^ 31) :
    Nat.lor (4294967296 - (m + 1)) (4294967296 - (n + 1)) = 4294967296 - (Nat.land m n + 1) := by
  have hmn : Nat.land m n < 2 ^ 31 := lt_of_le_of_lt Nat.and_le_left hm
  apply Nat.eq_of_testBit_eq
  intro i
  show ((4294967296 - (m + 1)) ||| (4294967296 - (n + 1))).testBit i = _
  rw [Nat.testBit_or, testBit_compl32 (by omega), testBit_compl32 (by omega),
    testBit_compl32 (by omega)]
  show _ = (decide (i < 32) && !(m &&& n).testBit i)
  rw [Nat.testBit_and]
  by_cases hi : i < 32
  · cases Nat.testBit m i <;> cases Nat.testBit n i <;> simp [hi]
  · simp [hi]

theorem xor_compl {m n : Nat} (hm : m < 2 ^ 31) (hn : n < 2 ^ 31) :
    Nat.xor m (4294967296 - (n + 1)) = 4294967296 - (Nat.xor m n + 1) := by
  have hmn : Nat.xor m n < 2 ^ 31 := Nat.xor_lt_two_pow hm hn
  apply Nat.eq_of_testBit_eq
  intro i
  show (m ^^^ (4294967296 - (n + 1))).testBit i = _
  rw [Nat.testBit_xor, testBit_compl32 (by omega), testBit_compl32 (by omega)]
  show _ = (decide (i < 32) && !(m ^^^ n).testBit i)
  rw [Nat.testBit_xor]
  by_cases hi : i < 32
  · cases Nat.testBit m i <;> cases Nat.testBit n i <;> simp [hi]
  · simp [hi, testBit_high hm hi]

theorem compl_xor_compl {m n : Nat} (hm : m < 2 ^ 31) (hn : n < 2 ^ 31) :
    Nat.xor (4294967296 - (m + 1)) (4294967296 - (n + 1)) = Nat.xor m n := by
  apply Nat.eq_of_testBit_eq
  intro i
  show ((4294967296 - (m + 1)) ^^^ (4294967296 - (n + 1))).testBit i = (m ^^^ n).testBit i
  rw [Nat.testBit_xor, testBit_compl32 (by omega), testBit_compl32 (by omega), Nat.testBit_xor]
  by_cases hi : i < 32
  · cases Nat.testBit m i <;> cases Nat.testBit n i <;> simp [hi]
  · simp [hi, testBit_high hm hi, testBit_high hn hi]

theorem land_lt {m : Nat} (n : Nat) (hm : m < 2 ^ 31) : Nat.land m n < 2 ^ 31 :=
  lt_of_le_of_lt (Nat.and_le_left (n := m) (m := n)) hm

theorem lor_lt {m n : Nat} (hm : m < 2 ^ 31) (hn : n < 2 ^ 31) : Nat.lor m n < 2 ^ 31 :=
  Nat.or_lt_two_pow hm hn

theorem xor_lt {m n : Nat} (hm : m < 2 ^ 31) (hn : n < 2 ^ 31) : Nat.xor m n < 2 ^ 31 :=
  Nat.xor_lt_two_pow hm hn

theorem land_swap (m n : Nat) : Nat.land m n = Nat.land n m := Nat.land_comm m n

theorem lor_swap (m n : Nat) : Nat.lor m n = Nat.lor n m := Nat.lor_comm m n

theorem xor_swap (m n : Nat) : Nat.xor m n = Nat.xor n m := Nat.xor_comm m n

theorem land_bridge {a b : Int} (ha : is_int32 a) (hb : is_int32 b) :
    to_int32 ((Nat.land (to_uint32 a) (to_uint32 b) : Nat) : Int) = Int.land a b := by
  rcases int32_cases ha with ⟨m, hm, rfl⟩ | ⟨m, hm, rfl⟩ <;>
  rcases int32_cases hb with ⟨n, hn, rfl⟩ | ⟨n, hn, rfl⟩
  · rw [to_uint32_ofNat hm, to_uint32_ofNat hn, to_int32_small (land_lt n hm)]; rfl
  · rw [to_uint32_ofNat hm, to_uint32_negSucc hn, land_compl hm hn,
      to_int32_small (ldiff_lt hm)]; rfl
  · rw [to_uint32_negSucc hm, to_uint32_ofNat hn, land_swap, land_compl hn hm,
      to_int32_small (ldiff_lt hn)]; rfl
  · rw [to_uint32_negSucc hm, to_uint32_negSucc hn, compl_land_compl hm hn,
      to_int32_compl (lor_lt hm hn)]; rfl

theorem lor_bridge {a b : Int} (ha : is_int32 a) (hb : is_int32 b) :
    to_int32 ((Nat.lor (to_uint32 a) (to_uint32 b) : Nat) : Int) = Int.lor a b := by
  rcases int32_cases ha with ⟨m, hm, rfl⟩ | ⟨m, hm, rfl⟩ <;>
  rcases int32_cases hb with ⟨n, hn, rfl⟩ | ⟨n, hn, rfl⟩
  · rw [to_uint32_ofNat hm, to_uint32_ofNat hn, to_int32_small (lor_lt hm hn)]; rfl
  · rw [to_uint32_ofNat hm, to_uint32_negSucc hn, lor_compl hm hn,
      to_int32_compl (ldiff_lt hn)]; rfl
  · rw [to_uint32_negSucc hm, to_uint32_ofNat hn, lor_swap, lor_compl hn hm,
      to_int32_compl (ldiff_lt hm)]; rfl
  · rw [to_uint32_negSucc hm, to_uint32_negSucc hn, compl_lor_compl hm hn,
      to_int32_compl (land_lt n hm)]; rfl

theorem xor_bridge {a b : Int} (ha : is_int32 a) (hb : is_int32 b) :
    to_int32 ((Nat.xor (to_uint32 a) (to_uint32 b) : Nat) : Int) = Int.xor a b := by
  rcases int32_cases ha with ⟨m, hm, rfl⟩ | ⟨m, hm, rfl⟩ <;>
  rcases int32_cases hb with ⟨n, hn, rfl⟩ | ⟨n, hn, rfl⟩
  · rw [to_uint32_ofNat hm, to_uint32_ofNat hn, to_int32_small (xor_lt hm hn)]; rfl
  · rw [to_uint32_ofNat hm, to_uint32_negSucc hn, xor_compl hm hn,
      to_int32_compl (xor_lt hm hn)]; rfl
  · rw [to_uint32_negSucc hm, to_uint32_ofNat hn, xor_swap, xor_compl hn hm,
      to_int32_compl (xor_lt hn hm), xor_swap]; rfl
  · rw [to_uint32_negSucc hm, to_uint32_negSucc hn, compl_xor_compl hm hn,
      to_int32_small (xor_lt hm hn)]; rfl

/-- The arm `case i_iadd ... i_ixor` of the dispatch switch. -/
theorem dispatch_arith (call : method_t → List Int → heap_t → List Int →
      Except Fault (optional_value_t × State)) (cls : class_file_t) (m : method_t)
    (op : Nat) (st : State) (h : i_iadd ≤ op ∧ op ≤ i_ixor) :
    dispatch call cls m op st = Outcome.next <$> add_to_xor op st := by
  simp [dispatch, h]

/-- The binary arm of `add_to_xor` on a stack that holds both operands. -/
theorem add_to_xor_binary (op : Nat) (st : State) (a b r : Int) (hop : op ≠ i_ineg)
    (hd : 2 ≤ st.stack_p) (hcap : st.stack_p ≤ st.stack.length)
    (hlen : st.stack.length < 18446744073709551616)
    (hsa : st.stack[st.stack_p - 2]? = some a) (hsb : st.stack[st.stack_p - 1]? = some b)
    (hr : add_to_xor_result op a b = .ok r) :
    add_to_xor op st = .ok { st with
      stack := (st.stack.set (st.stack_p - 2) r).set (st.stack_p - 1) 0,
      stack_p := st.stack_p - 1 } := by
  have h1 : size_sub st.stack_p 1 = st.stack_p - 1 := size_sub_eq (by omega) (by omega)
  have h2 : size_sub st.stack_p 2 = st.stack_p - 2 := size_sub_eq (by omega) (by omega)
  have h3 : st.stack_p - 2 < st.stack.length := by omega
  have h4 : st.stack_p - 1 < st.stack.length := by omega
  simp [add_to_xor, hop, h1, h2, rd_eq hsa, rd_eq hsb, hr, wr, h3, h4]

/-- The value `add_to_xor` computes for the opcodes of C1 is the wraparound of
the exact result. -/
theorem add_to_xor_result_eq (op : Nat) (a b : Int)
    (hop : op = i_iadd ∨ op = i_isub ∨ op = i_imul ∨ op = i_idiv ∨ op = i_irem ∨
      op = i_iand ∨ op = i_ior ∨ op = i_ixor)
    (hdiv : op = i_idiv ∨ op = i_irem → b ≠ 0)
    (hmin : op = i_idiv ∨ op = i_irem → ¬ (a = -2147483648 ∧ b = -1))
    (ha : is_int32 a) (hb : is_int32 b) :
    add_to_xor_result op a b = .ok (to_int32 (arith_op op a b)) := by
  rcases hop with h | h | h | h | h | h | h | h <;> subst h
  · simp [add_to_xor_result, arith_op]
  · simp [add_to_xor_result, arith_op]
  · simp [add_to_xor_result, arith_op]
  · have hb0 : b ≠ 0 := hdiv (Or.inl rfl)
    have hm := hmin (Or.inl rfl)
    simp only [add_to_xor_result, arith_op]
    simp only [if_neg hm]
    simp [hb0]
  · have hb0 : b ≠ 0 := hdiv (Or.inr rfl)
    have hm := hmin (Or.inr rfl)
    simp only [add_to_xor_result, arith_op]
    simp only [if_neg hm]
    simp [hb0]
  · have e := land_bridge ha hb
    simp [add_to_xor_result, arith_op, e, to_int32_id (e ▸ to_int32_range _)]
  · have e := lor_bridge ha hb
    simp [add_to_xor_result, arith_op, e, to_int32_id (e ▸ to_int32_range _)]
  · have e := xor_bridge ha hb
    simp [add_to_xor_result, arith_op, e, to_int32_id (e ▸ to_int32_range _)]

/-- C1 (as the code behaves): for 32-bit integers `a` (pushed first) and `b`
(top of stack), each of iadd, isub, imul, iand, ior, ixor, and idiv/irem with
`b ≠ 0` other than -2147483648 by -1, replaces the two operands by the 32-bit
two's complement wraparound of the exact result of the operation and lowers
the stack depth by exactly one; the entries below the operands, the locals,
the heap and the program counter are untouched. In particular the arm stores
-2147483648 for iadd(2147483647, 1). -/
theorem arith_wraparound (call : method_t → List Int → heap_t → List Int →
      Except Fault (optional_value_t × State)) (cls : class_file_t) (m : method_t)
    (op : Nat) (st : State) (a b : Int)
    (hop : op = i_iadd ∨ op = i_isub ∨ op = i_imul ∨ op = i_idiv ∨ op = i_irem ∨
      op = i_iand ∨ op = i_ior ∨ op = i_ixor)
    (hdiv : op = i_idiv ∨ op = i_irem → b ≠ 0)
    (hmin : op = i_idiv ∨ op = i_irem → ¬ (a = -2147483648 ∧ b = -1))
    (ha : is_int32 a) (hb : is_int32 b)
    (hd : 2 ≤ st.stack_p) (hcap : st.stack_p ≤ st.stack.length)
    (hlen : st.stack.length < 18446744073709551616)
    (hsa : st.stack[st.stack_p - 2]? = some a) (hsb : st.stack[st.stack_p - 1]? = some b) :
    (∃ st1, dispatch call cls m op st = .ok (Outcome.next st1) ∧
      st1.stack_p = st.stack_p - 1 ∧
      st1.stack[st.stack_p - 2]? = some (to_int32 (arith_op op a b)) ∧
      is_int32 (to_int32 (arith_op op a b)) ∧
      (to_int32 (arith_op op a b) - arith_op op a b) % 4294967296 = 0 ∧
      (∀ i, i < st.stack_p - 2 → st1.stack[i]? = st.stack[i]?) ∧
      st1.stack.length = st.stack.length ∧
      st1.locals = st.locals ∧ st1.heap = st.heap ∧ st1.pc = st.pc) ∧
    add_to_xor_result i_iadd 2147483647 1 = .ok (-2147483648) := by
  have hrange : i_iadd ≤ op ∧ op ≤ i_ixor := by
    rcases hop with h | h | h | h | h | h | h | h <;> subst h <;> decide
  have hneg : op ≠ i_ineg := by
    rcases hop with h | h | h | h | h | h | h | h <;> subst h <;> decide
  refine ⟨⟨{ st with
      stack := (st.stack.set (st.stack_p - 2) (to_int32 (arith_op op a b))).set (st.stack_p - 1) 0,
      stack_p := st.stack_p - 1 }, ?_, rfl, ?_, to_int32_range _, ?_, ?_, ?_, rfl, rfl, rfl⟩, by decide⟩
  · rw [dispatch_arith call cls m op st hrange,
      add_to_xor_binary op st a b _ hneg hd hcap hlen hsa hsb
        (add_to_xor_result_eq op a b hop hdiv hmin ha hb)]
    rfl
  · have h3 : st.stack_p - 2 < st.stack.length := by omega
    have h5 : ¬ st.stack_p - 1 = st.stack_p - 2 := by omega
    show ((st.stack.set (st.stack_p - 2) _).set (st.stack_p - 1) 0)[st.stack_p - 2]? = _
    rw [List.getElem?_set, if_neg h5, List.getElem?_set]
    simp [h3]
  · unfold to_int32; omega
  · intro i hi
    have h5 : ¬ st.stack_p - 1 = i := by omega
    have h6 : ¬ st.stack_p - 2 = i := by omega
    show ((st.stack.set (st.stack_p - 2) _).set (st.stack_p - 1) 0)[i]? = _
    rw [List.getElem?_set, if_neg h5, List.getElem?_set, if_neg h6]
  · simp

/-- C1 at concrete inputs: iadd on the stack `[2147483647, 1]` leaves
-2147483648, and idiv on the stack `[-7, 2]` leaves -3. -/
theorem arith_wraparound_witness :
    (∃ st1, dispatch no_call empty_class (method_of [96]) i_iadd
        (state_of [2147483647, 1] 0) = .ok (Outcome.next st1) ∧
      st1.stack_p = 1 ∧ st1.stack[0]? = some (-2147483648)) ∧
    (∃ st1, dispatch no_call empty_class (method_of [108]) i_idiv
        (state_of [-7, 2] 0) = .ok (Outcome.next st1) ∧
      st1.stack_p = 1 ∧ st1.stack[0]? = some (-3)) := by
  obtain ⟨⟨st1, h1, h2, h3, _⟩, _⟩ :=
    arith_wraparound no_call empty_class (method_of [96]) i_iadd
      (state_of [2147483647, 1] 0) 2147483647 1 (Or.inl rfl) (by decide) (by decide) (by decide)
      (by decide) (by decide) (by decide) (by decide) rfl rfl
  obtain ⟨⟨st2, g1, g2, g3, _⟩, _⟩ :=
    arith_wraparound no_call empty_class (method_of [108]) i_idiv
      (state_of [-7, 2] 0) (-7) 2 (Or.inr (Or.inr (Or.inr (Or.inl rfl)))) (by decide)
      (by decide) (by decide) (by decide) (by decide) (by decide) (by decide) (by decide)
      (by decide)
  exact ⟨⟨st1, h1, h2, h3⟩, ⟨st2, g1, g2, g3⟩⟩

/-- C1 fails as stated at idiv(-2147483648, -1): the quotient is not an
`int`, so the division of the arm has no defined result, and neither has the
remainder. The program `ldc 2147483647; iconst_1; iadd; iconst_m1; idiv;
ireturn` computes -2147483648 with its `iadd` (the same program with `ireturn`
after the `iadd` returns it) and then stops at the `idiv` without a value; so
does the program with `irem`. -/
theorem arith_wraparound_counterexample :
    add_to_xor_result i_idiv (-2147483648) (-1) = .error .undefined ∧
    add_to_xor_result i_irem (-2147483648) (-1) = .error .undefined ∧
    value_of (execute 10 (method_of [18, 1, 4, 96, 172]) [0, 0] int_max_class [] [])
      = .ok { has_value := true, value := -2147483648 } ∧
    value_of (execute 10 (method_of [18, 1, 4, 96, 2, 108, 172]) [0, 0] int_max_class [] [])
      = .error .undefined ∧
    value_of (execute 10 (method_of [18, 1, 4, 96, 2, 112, 172]) [0, 0] int_max_class [] [])
      = .error .undefined := by
  decide

theorem lor_shift_eq (b1 b2 : Nat) (h : b2 < 256) : Nat.lor (b1 <<< 8) b2 = b1 * 256 + b2 := by
  have := Nat.mul_add_lt_is_or (i := 8) (b := b2) (by simpa using h) b1
  rw [Nat.shiftLeft_eq, Nat.mul_comm b1 (2 ^ 8)]
  show 2 ^ 8 * b1 ||| b2 = _
  omega

/-- The loop of `execute` continues after a pass that does not return. -/
theorem run_of_step_next {fuel : Nat} {cls : class_file_t} {m : method_t} {st st1 : State}
    (hpc : st.pc < m.code.length) (h : step fuel cls m st = .ok (Outcome.next st1)) :
    run (fuel + 1) cls m st = run fuel cls m st1 := by
  unfold step at h
  rw [run, if_pos hpc]
  cases hc : code_at m st.pc with
  | error e => simp [hc] at h
  | ok c =>
    simp only [hc, ok_bind] at h
    simp only []
    cases hd : dispatch (fun nm nl h o => run fuel cls nm (init_state nm nl h o)) cls m c st with
    | error e => simp [hd] at h
    | ok o =>
      cases o with
      | next s =>
        simp only [hd, ok_bind, pure_eq_ok, Except.ok.injEq, Outcome.next.injEq] at h
        simp [h]
      | done r s => simp [hd] at h

/-- The loop of `execute` stops after a pass that returns. -/
theorem run_of_step_done {fuel : Nat} {cls : class_file_t} {m : method_t} {st st1 : State}
    {r : optional_value_t}
    (hpc : st.pc < m.code.length) (h : step fuel cls m st = .ok (Outcome.done r st1)) :
    run (fuel + 1) cls m st = .ok (r, st1) := by
  unfold step at h
  rw [run, if_pos hpc]
  cases hc : code_at m st.pc with
  | error e => simp [hc] at h
  | ok c =>
    simp only [hc, ok_bind] at h
    simp only []
    cases hd : dispatch (fun nm nl h o => run fuel cls nm (init_state nm nl h o)) cls m c st with
    | error e => simp [hd] at h
    | ok o =>
      cases o with
      | next s => simp [hd] at h
      | done r s =>
        simp only [hd, ok_bind, pure_eq_ok, Except.ok.injEq, Outcome.done.injEq] at h
        simp [h]


theorem code_at_eq {m : method_t} {i : Nat} {c : Fin 256} (h : m.code[i]? = some c) :
    code_at m i = .ok c.val := by
  simp [code_at, h]

theorem lt_length_of_getElem? {α : Type} {xs : List α} {i : Nat} {c : α}
    (h : xs[i]? = some c) : i < xs.length := by
  by_contra hn
  rw [List.getElem?_eq_none (by omega)] at h
  cases h

theorem exists_get (xs : List Int) (i : Nat) (h : i < xs.length) : ∃ a, xs[i]? = some a :=
  ⟨xs[i], List.getElem?_eq_getElem h⟩

/-- One pass of the loop for an opcode whose arm of the switch goes on. -/
theorem step_of_dispatch_next {fuel : Nat} {cls : class_file_t} {m : method_t} {st st1 : State}
    {c : Fin 256} (hc : m.code[st.pc]? = some c)
    (h : dispatch (fun nm nl h o => run fuel cls nm (init_state nm nl h o)) cls m c.val st
      = .ok (Outcome.next st1)) :
    step fuel cls m st = .ok (Outcome.next { st1 with pc := size_add st1.pc 1 }) := by
  simp [step, code_at_eq hc, h]

/-- Reading an entry of a stack after two writes elsewhere. -/
theorem get_set_set_ne (xs : List Int) (i j k : Nat) (u v : Int) (hi : ¬ i = k) (hj : ¬ j = k) :
    ((xs.set i u).set j v)[k]? = xs[k]? := by
  rw [List.getElem?_set, if_neg hj, List.getElem?_set, if_neg hi]

theorem get_set_ne (xs : List Int) (i k : Nat) (u : Int) (hi : ¬ i = k) :
    (xs.set i u)[k]? = xs[k]? := by
  rw [List.getElem?_set, if_neg hi]

theorem get_set_eq (xs : List Int) (i : Nat) (u : Int) (hi : i < xs.length) :
    (xs.set i u)[i]? = some u := by
  rw [List.getElem?_set]; simp [hi]

/-- C2 (as the code behaves): a zero divisor raises no error. For every
dividend `a`, idiv and irem with 0 on top of the stack complete, lower the
stack depth by one and let the loop go on with the next instruction; idiv
leaves 0 in place of the operands. -/
theorem div_by_zero_continues (fuel : Nat) (cls : class_file_t) (m : method_t) (st : State)
    (c : Fin 256) (a : Int)
    (hc : m.code[st.pc]? = some c) (hop : c.val = i_idiv ∨ c.val = i_irem)
    (hcl : m.code.length < 4294967296)
    (hd : 2 ≤ st.stack_p) (hcap : st.stack_p ≤ st.stack.length)
    (hlen : st.stack.length < 18446744073709551616)
    (hsa : st.stack[st.stack_p - 2]? = some a) (hsb : st.stack[st.stack_p - 1]? = some 0) :
    ∃ st1, step fuel cls m st = .ok (Outcome.next st1) ∧
      run (fuel + 1) cls m st = run fuel cls m st1 ∧
      st1.pc = st.pc + 1 ∧ st1.stack_p = st.stack_p - 1 ∧
      (c.val = i_idiv → st1.stack[st.stack_p - 2]? = some 0) ∧
      (∀ i, i < st.stack_p - 2 → st1.stack[i]? = st.stack[i]?) ∧
      st1.locals = st.locals ∧ st1.heap = st.heap := by
  have hpc := lt_length_of_getElem? hc
  have hrange : i_iadd ≤ c.val ∧ c.val ≤ i_ixor := by
    rcases hop with h | h <;> rw [h] <;> decide
  have hneg : c.val ≠ i_ineg := by
    rcases hop with h | h <;> rw [h] <;> decide
  have hr : add_to_xor_result c.val a 0 =
      .ok (if c.val = i_idiv then 0 else to_int32 (-a)) := by
    rcases hop with h | h <;> rw [h] <;> simp [add_to_xor_result]
  have hdis := dispatch_arith (fun nm nl h o => run fuel cls nm (init_state nm nl h o))
    cls m c.val st hrange
  rw [add_to_xor_binary c.val st a 0 _ hneg hd hcap hlen hsa hsb hr] at hdis
  have hstep := step_of_dispatch_next hc hdis
  refine ⟨_, hstep, run_of_step_next hpc hstep, ?_, rfl, ?_, ?_, rfl, rfl⟩
  · show size_add st.pc 1 = st.pc + 1
    exact size_add_eq (by omega)
  · intro h
    show ((st.stack.set (st.stack_p - 2) _).set (st.stack_p - 1) 0)[st.stack_p - 2]? = _
    rw [get_set_ne _ _ _ _ (by omega), get_set_eq _ _ _ (by omega), if_pos h]
  · intro i hi
    exact get_set_set_ne _ _ _ _ _ _ (by omega) (by omega)

/-- C2 at a concrete input: idiv on the stack `[7, 0]`. -/
theorem div_by_zero_continues_witness :
    ∃ st1, step 0 empty_class (method_of [108, 172]) (state_of [7, 0] 0)
        = .ok (Outcome.next st1) ∧ st1.pc = 1 ∧ st1.stack_p = 1 ∧ st1.stack[0]? = some 0 := by
  obtain ⟨st1, h1, _, h3, h4, h5, _⟩ :=
    div_by_zero_continues 0 empty_class (method_of [108, 172]) (state_of [7, 0] 0) 108 7
      rfl (Or.inl rfl) (by decide) (by decide) (by decide) (by decide) rfl rfl
  exact ⟨st1, h1, h3, h4, h5 rfl⟩

/-- C2 fails as stated: `bipush 7; iconst_0; idiv; ireturn` does not stop with
an error, it returns the value 0 that idiv left on the stack; with irem in
place of idiv it returns -7. -/
theorem div_by_zero_counterexample :
    value_of (execute 5 (method_of [16, 7, 3, 108, 172]) [0, 0] empty_class [] [])
      = .ok { has_value := true, value := 0 } ∧
    value_of (execute 5 (method_of [16, 7, 3, 112, 172]) [0, 0] empty_class [] [])
      = .ok { has_value := true, value := -7 } := by
  decide

/-- The operands `jump` pops for a one-operand branch. -/
theorem jump_pop_one (op : Nat) (st : State) (a : Int) (hop : op < i_if_icmpeq)
    (hd : 1 ≤ st.stack_p) (hcap : st.stack_p ≤ st.stack.length)
    (hlen : st.stack.length < 18446744073709551616)
    (hsa : st.stack[st.stack_p - 1]? = some a) :
    jump_pop op st = .ok (a, 0,
      { st with stack := st.stack.set (st.stack_p - 1) 0, stack_p := st.stack_p - 1 }) := by
  have h1 : size_sub st.stack_p 1 = st.stack_p - 1 := size_sub_eq (by omega) (by omega)
  have h4 : st.stack_p - 1 < st.stack.length := by omega
  have hop2 : ¬ op ≥ i_if_icmpeq := by omega
  simp [jump_pop, h1, rd_eq hsa, hop2, wr, h4]

/-- The operands `jump` pops for a two-operand branch. -/
theorem jump_pop_two (op : Nat) (st : State) (a b : Int) (hop : i_if_icmpeq ≤ op)
    (hd : 2 ≤ st.stack_p) (hcap : st.stack_p ≤ st.stack.length)
    (hlen : st.stack.length < 18446744073709551616)
    (hsa : st.stack[st.stack_p - 2]? = some a) (hsb : st.stack[st.stack_p - 1]? = some b) :
    jump_pop op st = .ok (a, b,
      { st with stack := (st.stack.set (st.stack_p - 2) 0).set (st.stack_p - 1) 0,
                stack_p := st.stack_p - 2 }) := by
  have h1 : size_sub st.stack_p 1 = st.stack_p - 1 := size_sub_eq (by omega) (by omega)
  have h2 : size_sub st.stack_p 2 = st.stack_p - 2 := size_sub_eq (by omega) (by omega)
  have h3 : st.stack_p - 2 < st.stack.length := by omega
  have h4 : st.stack_p - 1 < st.stack.length := by omega
  have hop2 : op ≥ i_if_icmpeq := hop
  simp [jump_pop, h1, h2, rd_eq hsa, rd_eq hsb, hop2, wr, h3, h4]

/-- The function `jump` in terms of its two halves. -/
theorem jump_eq (op : Nat) (m : method_t) (st st1 : State) (b1 b2 : Fin 256) (a b : Int)
    (taken : Bool) (hcl : m.code.length < 4294967296)
    (h1 : m.code[st.pc + 1]? = some b1) (h2 : m.code[st.pc + 2]? = some b2)
    (hpop : jump_pop op st = .ok (a, b, st1)) (hcond : jump_add_offset op a b = .ok taken) :
    jump op m st = .ok { st1 with pc :=
      (if taken then
        size_t_wrap ((st1.pc : Int) + (to_int16 ((b1.val * 256 + b2.val : Nat) : Int) - 1))
      else size_add st1.pc 2) } := by
  have hp1 := lt_length_of_getElem? h1
  have hp2 := lt_length_of_getElem? h2
  have e1 : size_add st.pc 1 = st.pc + 1 := size_add_eq (by omega)
  have e2 : size_add st.pc 2 = st.pc + 2 := size_add_eq (by omega)
  have e3 : Nat.lor (b1.val <<< 8) b2.val = b1.val * 256 + b2.val := lor_shift_eq _ _ b2.isLt
  cases taken <;> simp [jump, e1, e2, code_at_eq h1, code_at_eq h2, hpop, hcond, e3]

/-- The popping half of `jump` leaves `pc` alone. -/
theorem jump_pop_pc {op : Nat} {st st1 : State} {a b : Int}
    (h : jump_pop op st = .ok (a, b, st1)) : st1.pc = st.pc := by
  unfold jump_pop at h
  cases h0 : rd st.stack (size_sub st.stack_p 1) with
  | error e => simp [h0] at h
  | ok v0 =>
    simp only [h0, ok_bind] at h
    split at h
    · cases h2 : rd st.stack (size_sub st.stack_p 2) with
      | error e => simp [h2] at h
      | ok v2 =>
        simp only [h2, ok_bind] at h
        cases h3 : wr st.stack (size_sub st.stack_p 2) 0 with
        | error e => simp [h3] at h
        | ok s3 =>
          simp only [h3, ok_bind] at h
          cases h4 : wr s3 (size_sub st.stack_p 1) 0 with
          | error e => simp [h4] at h
          | ok s4 =>
            simp only [h4, ok_bind, pure_eq_ok, Except.ok.injEq, Prod.mk.injEq] at h
            rw [← h.2.2]
    · cases h3 : wr st.stack (size_sub st.stack_p 1) 0 with
      | error e => simp [h3] at h
      | ok s3 =>
        simp only [h3, ok_bind, pure_eq_ok, Except.ok.injEq, Prod.mk.injEq] at h
        rw [← h.2.2]

theorem to_int16_range (x : Int) : -32768 ≤ to_int16 x ∧ to_int16 x ≤ 32767 := by
  unfold to_int16; omega

/-- The arm `case i_ifeq ... i_if_icmple` of the dispatch switch. -/
theorem dispatch_jump (call : method_t → List Int → heap_t → List Int →
      Except Fault (optional_value_t × State)) (cls : class_file_t) (m : method_t)
    (op : Nat) (st : State) (h1 : i_ifeq ≤ op) (h2 : op ≤ i_if_icmple) :
    dispatch call cls m op st = Outcome.next <$> jump op m st := by
  have h1' : 153 ≤ op := h1
  have h2' : op ≤ 164 := h2
  interval_cases op <;> simp [dispatch]

/-- The arm `case i_goto` of the dispatch switch. -/
theorem dispatch_goto (call : method_t → List Int → heap_t → List Int →
      Except Fault (optional_value_t × State)) (cls : class_file_t) (m : method_t)
    (st : State) :
    dispatch call cls m i_goto st = Outcome.next <$> go_to m st := by
  simp [dispatch]

/-- Every branch opcode has an arm in the second switch of `jump`. -/
theorem jump_add_offset_total (op : Nat) (a b : Int) (h1 : i_ifeq ≤ op) (h2 : op ≤ i_if_icmple) :
    ∃ taken, jump_add_offset op a b = .ok taken := by
  have h1' : 153 ≤ op := h1
  have h2' : op ≤ 164 := h2
  interval_cases op <;> exact ⟨_, rfl⟩

/-- With its operands on the stack, `jump` pops them. -/
theorem jump_pop_total (op : Nat) (st : State)
    (hd : (if i_if_icmpeq ≤ op then 2 else 1) ≤ st.stack_p)
    (hcap : st.stack_p ≤ st.stack.length) (hlen : st.stack.length < 18446744073709551616) :
    ∃ a b st1, jump_pop op st = .ok (a, b, st1) ∧
      st1.stack_p = st.stack_p - (if i_if_icmpeq ≤ op then 2 else 1) ∧
      (∀ i, i < st1.stack_p → st1.stack[i]? = st.stack[i]?) ∧
      st1.stack.length = st.stack.length ∧
      st1.locals = st.locals ∧ st1.heap = st.heap ∧ st1.out = st.out ∧ st1.pc = st.pc := by
  by_cases hop : i_if_icmpeq ≤ op
  · rw [if_pos hop] at hd
    obtain ⟨a, ha⟩ := exists_get st.stack (st.stack_p - 2) (by omega)
    obtain ⟨b, hb⟩ := exists_get st.stack (st.stack_p - 1) (by omega)
    refine ⟨_, _, _, jump_pop_two op st _ _ hop hd hcap hlen ha hb, ?_, ?_, ?_, rfl, rfl, rfl, rfl⟩
    · rw [if_pos hop]
    · intro i hi
      exact get_set_set_ne _ _ _ _ _ _ (by simp only at hi; omega) (by simp only at hi; omega)
    · simp
  · rw [if_neg hop] at hd
    obtain ⟨a, ha⟩ := exists_get st.stack (st.stack_p - 1) (by omega)
    refine ⟨_, _, _, jump_pop_one op st _ (by omega) hd hcap hlen ha, ?_, ?_, ?_,
      rfl, rfl, rfl, rfl⟩
    · rw [if_neg hop]
    · intro i hi
      exact get_set_ne _ _ _ _ (by simp only at hi; omega)
    · simp

/-- C3: a conditional branch at opcode position `p` with signed 16-bit
big-endian offset `k`, `p + k ≥ 0`, and its operands on the stack: the next
instruction the loop of `execute` dispatches is at `p + k` when the condition
holds and at `p + 3` when it does not. -/
theorem branch_target (fuel : Nat) (cls : class_file_t) (m : method_t) (st : State)
    (c b1 b2 : Fin 256)
    (hc : m.code[st.pc]? = some c) (hop1 : i_ifeq ≤ c.val) (hop2 : c.val ≤ i_if_icmple)
    (h1 : m.code[st.pc + 1]? = some b1) (h2 : m.code[st.pc + 2]? = some b2)
    (hcl : m.code.length < 4294967296)
    (hk : 0 ≤ (st.pc : Int) + to_int16 ((b1.val * 256 + b2.val : Nat) : Int))
    (hd : (if i_if_icmpeq ≤ c.val then 2 else 1) ≤ st.stack_p)
    (hcap : st.stack_p ≤ st.stack.length) (hlen : st.stack.length < 18446744073709551616) :
    ∃ a b st1 taken st2,
      jump_pop c.val st = .ok (a, b, st1) ∧ jump_add_offset c.val a b = .ok taken ∧
      step fuel cls m st = .ok (Outcome.next st2) ∧
      run (fuel + 1) cls m st = run fuel cls m st2 ∧
      (st2.pc : Int) = (if taken then
        (st.pc : Int) + to_int16 ((b1.val * 256 + b2.val : Nat) : Int) else (st.pc : Int) + 3) := by
  obtain ⟨a, b, st1, hpop, -, -, -, -, -, -, hpc1⟩ := jump_pop_total c.val st hd hcap hlen
  obtain ⟨taken, hcond⟩ := jump_add_offset_total c.val a b hop1 hop2
  have hpc := lt_length_of_getElem? hc
  have hp2 := lt_length_of_getElem? h2
  have hj := jump_eq c.val m st st1 b1 b2 a b taken hcl h1 h2 hpop hcond
  have hdis := dispatch_jump (fun nm nl h o => run fuel cls nm (init_state nm nl h o))
    cls m c.val st hop1 hop2
  rw [hj] at hdis
  have hstep := step_of_dispatch_next hc hdis
  refine ⟨a, b, st1, taken, _, hpop, hcond, hstep, run_of_step_next hpc hstep, ?_⟩
  have e2 : size_add st.pc 2 = st.pc + 2 := size_add_eq (by omega)
  have e3 : size_add (st.pc + 2) 1 = st.pc + 3 := size_add_eq (by omega)
  have hk2 := to_int16_range ((b1.val * 256 + b2.val : Nat) : Int)
  generalize to_int16 ((b1.val * 256 + b2.val : Nat) : Int) = k at hk hk2 ⊢
  have key : ∀ t : Bool,
      ((size_add (if t then size_t_wrap ((st.pc : Int) + (k - 1)) else size_add st.pc 2) 1 : Nat)
        : Int) = (if t then (st.pc : Int) + k else (st.pc : Int) + 3) := by
    intro t
    cases t
    · rw [if_neg (by decide), if_neg (by decide), e2, e3]; omega
    · rw [if_pos rfl, if_pos rfl]
      unfold size_add size_t_wrap
      omega
  simp only [hpc1]
  exact key taken

/-- C3 at a concrete input: `ifeq +5` at position 0 with 0 on the stack. -/
theorem branch_target_witness :
    ∃ a b st1 taken st2,
      jump_pop (153 : Fin 256).val (state_of [0] 0) = .ok (a, b, st1) ∧
      jump_add_offset (153 : Fin 256).val a b = .ok taken ∧
      step 0 empty_class (method_of [153, 0, 5, 0, 0, 177]) (state_of [0] 0)
        = .ok (Outcome.next st2) ∧
      run (0 + 1) empty_class (method_of [153, 0, 5, 0, 0, 177]) (state_of [0] 0)
        = run 0 empty_class (method_of [153, 0, 5, 0, 0, 177]) st2 ∧
      (st2.pc : Int) = (if taken then
        ((state_of [0] 0).pc : Int) +
          to_int16 ((((0 : Fin 256).val * 256 + (5 : Fin 256).val : Nat)) : Int)
        else ((state_of [0] 0).pc : Int) + 3) :=
  branch_target 0 empty_class (method_of [153, 0, 5, 0, 0, 177]) (state_of [0] 0) 153 0 5
    rfl (by decide) (by decide) rfl rfl (by decide) (by decide) (by decide) (by decide)
    (by decide)

/-- The value of `add_offset` is the truth value of the comparison. -/
theorem jump_add_offset_iff (op : Nat) (a b : Int) (taken : Bool)
    (h1 : i_ifeq ≤ op) (h2 : op ≤ i_if_icmple) (h : jump_add_offset op a b = .ok taken) :
    (taken = true ↔ branch_holds op a b) := by
  have h1' : 153 ≤ op := h1
  have h2' : op ≤ 164 := h2
  interval_cases op <;> cases taken <;> simp [jump_add_offset] at h <;>
    simp [branch_holds] <;> omega

/-- C4: with the operands on the stack, a one-operand branch (ifeq, ifne,
iflt, ifge, ifgt, ifle) pops exactly the top value `a` and is taken iff `a`
is `=, ≠, <, ≥, >, ≤` 0; a two-operand branch (if_icmpeq .. if_icmple) pops
exactly two values, `a` pushed first and `b` on top, and is taken iff `a` is
`=, ≠, <, ≥, >, ≤` `b`. Taken means that `jump` adds the offset to `pc`. -/
theorem branch_conditions (m : method_t) (st : State) (b1 b2 : Fin 256)
    (hcap : st.stack_p ≤ st.stack.length) (hlen : st.stack.length < 18446744073709551616)
    (hcl : m.code.length < 4294967296)
    (h1 : m.code[st.pc + 1]? = some b1) (h2 : m.code[st.pc + 2]? = some b2) :
    (∀ op a, i_ifeq ≤ op → op ≤ i_ifle → 1 ≤ st.stack_p →
      st.stack[st.stack_p - 1]? = some a →
      ∃ taken, (taken = true ↔ branch_holds op a 0) ∧
        jump op m st = .ok { st with
          stack := st.stack.set (st.stack_p - 1) 0,
          stack_p := st.stack_p - 1,
          pc := (if taken then
            size_t_wrap ((st.pc : Int) + (to_int16 ((b1.val * 256 + b2.val : Nat) : Int) - 1))
            else size_add st.pc 2) }) ∧
    (∀ op a b, i_if_icmpeq ≤ op → op ≤ i_if_icmple → 2 ≤ st.stack_p →
      st.stack[st.stack_p - 2]? = some a → st.stack[st.stack_p - 1]? = some b →
      ∃ taken, (taken = true ↔ branch_holds op a b) ∧
        jump op m st = .ok { st with
          stack := (st.stack.set (st.stack_p - 2) 0).set (st.stack_p - 1) 0,
          stack_p := st.stack_p - 2,
          pc := (if taken then
            size_t_wrap ((st.pc : Int) + (to_int16 ((b1.val * 256 + b2.val : Nat) : Int) - 1))
            else size_add st.pc 2) }) := by
  constructor
  · intro op a ho1 ho2 hd hsa
    have ho3 : op ≤ i_if_icmple := le_trans ho2 (by decide)
    obtain ⟨taken, hcond⟩ := jump_add_offset_total op a 0 ho1 ho3
    have hpop := jump_pop_one op st a (lt_of_le_of_lt ho2 (by decide)) hd hcap hlen hsa
    exact ⟨taken, jump_add_offset_iff op a 0 taken ho1 ho3 hcond,
      jump_eq op m st _ b1 b2 a 0 taken hcl h1 h2 hpop hcond⟩
  · intro op a b ho1 ho2 hd hsa hsb
    have ho3 : i_ifeq ≤ op := le_trans (by decide) ho1
    obtain ⟨taken, hcond⟩ := jump_add_offset_total op a b ho3 ho2
    have hpop := jump_pop_two op st a b ho1 hd hcap hlen hsa hsb
    exact ⟨taken, jump_add_offset_iff op a b taken ho3 ho2 hcond,
      jump_eq op m st _ b1 b2 a b taken hcl h1 h2 hpop hcond⟩

/-- C4 at a concrete input: `if_icmplt +5` at position 0 on the stack `[1, 2]`. -/
theorem branch_conditions_witness :
    ∃ taken, (taken = true ↔ branch_holds i_if_icmplt 1 2) ∧
      jump i_if_icmplt (method_of [161, 0, 5, 0, 0, 177]) (state_of [1, 2] 0)
        = .ok { state_of [1, 2] 0 with
          stack := [0, 0], stack_p := 0,
          pc := (if taken then
            size_t_wrap (((state_of [1, 2] 0).pc : Int) +
              (to_int16 ((((0 : Fin 256).val * 256 + (5 : Fin 256).val : Nat)) : Int) - 1))
            else size_add (state_of [1, 2] 0).pc 2) } :=
  (branch_conditions (method_of [161, 0, 5, 0, 0, 177]) (state_of [1, 2] 0) 0 5
    (by decide) (by decide) (by decide) rfl rfl).2 i_if_icmplt 1 2 (by decide) (by decide)
    (by decide) rfl rfl

/-- The function `go_to` with both offset bytes in the code. -/
theorem go_to_eq (m : method_t) (st : State) (b1 b2 : Fin 256)
    (hcl : m.code.length < 4294967296)
    (h1 : m.code[st.pc + 1]? = some b1) (h2 : m.code[st.pc + 2]? = some b2) :
    go_to m st = .ok { st with
      pc := size_t_wrap ((st.pc : Int) + (to_int16 ((b1.val * 256 + b2.val : Nat) : Int) - 1)) } := by
  have hp2 := lt_length_of_getElem? h2
  have e1 : size_add st.pc 1 = st.pc + 1 := size_add_eq (by omega)
  have e2 : size_add st.pc 2 = st.pc + 2 := size_add_eq (by omega)
  have e3 : Nat.lor (b1.val <<< 8) b2.val = b1.val * 256 + b2.val := lor_shift_eq _ _ b2.isLt
  simp [go_to, e1, e2, code_at_eq h1, code_at_eq h2, e3]

/-- C5: a goto at opcode position `p` with signed 16-bit big-endian offset
`k` (of either sign, `p + k ≥ 0`): the next instruction the loop of `execute`
dispatches is at `p + k`, and the operand stack, the stack depth, the locals
(and the heap and the printed text) are unchanged. -/
theorem goto_target (fuel : Nat) (cls : class_file_t) (m : method_t) (st : State)
    (c b1 b2 : Fin 256)
    (hc : m.code[st.pc]? = some c) (hop : c.val = i_goto)
    (h1 : m.code[st.pc + 1]? = some b1) (h2 : m.code[st.pc + 2]? = some b2)
    (hcl : m.code.length < 4294967296)
    (hk : 0 ≤ (st.pc : Int) + to_int16 ((b1.val * 256 + b2.val : Nat) : Int)) :
    ∃ st1, step fuel cls m st = .ok (Outcome.next st1) ∧
      run (fuel + 1) cls m st = run fuel cls m st1 ∧
      (st1.pc : Int) = (st.pc : Int) + to_int16 ((b1.val * 256 + b2.val : Nat) : Int) ∧
      st1.stack = st.stack ∧ st1.stack_p = st.stack_p ∧ st1.locals = st.locals ∧
      st1.heap = st.heap ∧ st1.out = st.out := by
  have hpc := lt_length_of_getElem? hc
  have hdis := dispatch_goto (fun nm nl h o => run fuel cls nm (init_state nm nl h o)) cls m st
  rw [go_to_eq m st b1 b2 hcl h1 h2, ← hop] at hdis
  have hstep := step_of_dispatch_next hc hdis
  refine ⟨_, hstep, run_of_step_next hpc hstep, ?_, rfl, rfl, rfl, rfl, rfl⟩
  have hk2 := to_int16_range ((b1.val * 256 + b2.val : Nat) : Int)
  generalize to_int16 ((b1.val * 256 + b2.val : Nat) : Int) = k at hk hk2 ⊢
  show ((size_add (size_t_wrap ((st.pc : Int) + (k - 1))) 1 : Nat) : Int) = (st.pc : Int) + k
  unfold size_add size_t_wrap
  omega

/-- C5 at a concrete input: `goto -3` at position 3 (offset bytes `0xff 0xfd`). -/
theorem goto_target_witness :
    ∃ st1, step 0 empty_class (method_of [0, 0, 0, 167, 255, 253]) (state_of [7] 3)
        = .ok (Outcome.next st1) ∧
      run (0 + 1) empty_class (method_of [0, 0, 0, 167, 255, 253]) (state_of [7] 3)
        = run 0 empty_class (method_of [0, 0, 0, 167, 255, 253]) st1 ∧
      (st1.pc : Int) = ((state_of [7] 3).pc : Int) +
        to_int16 ((((255 : Fin 256).val * 256 + (253 : Fin 256).val : Nat)) : Int) ∧
      st1.stack = (state_of [7] 3).stack ∧ st1.stack_p = (state_of [7] 3).stack_p ∧
      st1.locals = (state_of [7] 3).locals ∧
      st1.heap = (state_of [7] 3).heap ∧ st1.out = (state_of [7] 3).out :=
  goto_target 0 empty_class (method_of [0, 0, 0, 167, 255, 253]) (state_of [7] 3) 167 255 253
    rfl rfl rfl rfl (by decide) (by decide)

/-! ## Single instructions as passes of the loop -/

/-- The arm `case i_iload_0 ... i_iload_3` of the dispatch switch. -/
theorem dispatch_iload_nums (call : method_t → List Int → heap_t → List Int →
      Except Fault (optional_value_t × State)) (cls : class_file_t) (m : method_t)
    (op : Nat) (st : State) (h1 : i_iload_0 ≤ op) (h2 : op ≤ i_iload_3) :
    dispatch call cls m op st = Outcome.next <$> i_iload_nums m st := by
  have h1' : 26 ≤ op := h1
  have h2' : op ≤ 29 := h2
  interval_cases op <;> simp [dispatch]

/-- The arm `case i_iconst_m1 ... i_iconst_5` of the dispatch switch. -/
theorem dispatch_iconst (call : method_t → List Int → heap_t → List Int →
      Except Fault (optional_value_t × State)) (cls : class_file_t) (m : method_t)
    (op : Nat) (st : State) (h1 : i_iconst_m1 ≤ op) (h2 : op ≤ i_iconst_5) :
    dispatch call cls m op st = Outcome.next <$> i_const m st := by
  have h1' : 2 ≤ op := h1
  have h2' : op ≤ 8 := h2
  interval_cases op <;> simp [dispatch]

/-- The arm `case i_areturn: case i_ireturn:` of the dispatch switch. -/
theorem dispatch_ireturn (call : method_t → List Int → heap_t → List Int →
      Except Fault (optional_value_t × State)) (cls : class_file_t) (m : method_t)
    (op : Nat) (st : State) (h : op = i_areturn ∨ op = i_ireturn) :
    dispatch call cls m op st = (do
      let v ← rd st.stack (size_sub st.stack_p 1)
      pure (Outcome.done { has_value := true, value := v } st)) := by
  rcases h with h | h <;> subst h <;> simp [dispatch]

/-- The arm `case i_invokestatic` of the dispatch switch. -/
theorem dispatch_invokestatic (call : method_t → List Int → heap_t → List Int →
      Except Fault (optional_value_t × State)) (cls : class_file_t) (m : method_t)
    (st : State) :
    dispatch call cls m i_invokestatic st = (do
      let (new_method, new_locals, st) ← invoke_static_enter cls m st
      let (new_result, callee) ← call new_method new_locals st.heap st.out
      Outcome.next <$> invoke_static_leave st new_result callee.heap callee.out) := by
  simp [dispatch]

/-- One pass of the loop for an opcode whose arm of the switch returns. -/
theorem step_of_dispatch_done {fuel : Nat} {cls : class_file_t} {m : method_t} {st st1 : State}
    {r : optional_value_t} {c : Fin 256} (hc : m.code[st.pc]? = some c)
    (h : dispatch (fun nm nl h o => run fuel cls nm (init_state nm nl h o)) cls m c.val st
      = .ok (Outcome.done r st1)) :
    step fuel cls m st = .ok (Outcome.done r st1) := by
  simp [step, code_at_eq hc, h]

/-- A pass of the loop at `iload_<n>`. -/
theorem step_iload_nums (fuel : Nat) (cls : class_file_t) (m : method_t) (st : State)
    (c : Fin 256) (v : Int)
    (hc : m.code[st.pc]? = some c) (h1 : i_iload_0 ≤ c.val) (h2 : c.val ≤ i_iload_3)
    (hcl : m.code.length < 4294967296)
    (hv : st.locals[c.val - i_iload_0]? = some v)
    (hsp : st.stack_p < st.stack.length) (hlen : st.stack.length < 18446744073709551616) :
    step fuel cls m st = .ok (Outcome.next { st with
      stack := st.stack.set st.stack_p v, stack_p := st.stack_p + 1, pc := st.pc + 1 }) := by
  have hpc := lt_length_of_getElem? hc
  have e1 : size_add st.stack_p 1 = st.stack_p + 1 := size_add_eq (by omega)
  have e2 : size_add st.pc 1 = st.pc + 1 := size_add_eq (by omega)
  have e3 : ((c.val : Int) - (i_iload_0 : Int)).toNat = c.val - i_iload_0 := by omega
  have e4 : (0 : Int) ≤ (c.val : Int) - (i_iload_0 : Int) := by omega
  have hdis := dispatch_iload_nums (fun nm nl h o => run fuel cls nm (init_state nm nl h o))
    cls m c.val st h1 h2
  have hi : i_iload_nums m st = .ok { st with
      stack := st.stack.set st.stack_p v, stack_p := st.stack_p + 1 } := by
    unfold i_iload_nums
    rw [code_at_eq hc]
    simp only [ok_bind, rd_int, if_pos e4, e3, rd_eq hv, wr_eq v hsp, e1, pure_eq_ok]
  rw [hi] at hdis
  have := step_of_dispatch_next hc hdis
  rw [this]
  show Except.ok (Outcome.next { st with
      stack := st.stack.set st.stack_p v, stack_p := st.stack_p + 1,
      pc := size_add st.pc 1 }) = _
  rw [e2]

/-- A pass of the loop at `iconst_<n>`. -/
theorem step_iconst (fuel : Nat) (cls : class_file_t) (m : method_t) (st : State)
    (c : Fin 256)
    (hc : m.code[st.pc]? = some c) (h1 : i_iconst_m1 ≤ c.val) (h2 : c.val ≤ i_iconst_5)
    (hcl : m.code.length < 4294967296)
    (hsp : st.stack_p < st.stack.length) (hlen : st.stack.length < 18446744073709551616) :
    step fuel cls m st = .ok (Outcome.next { st with
      stack := st.stack.set st.stack_p ((c.val : Int) - 3),
      stack_p := st.stack_p + 1, pc := st.pc + 1 }) := by
  have hpc := lt_length_of_getElem? hc
  have e1 : size_add st.stack_p 1 = st.stack_p + 1 := size_add_eq (by omega)
  have e2 : size_add st.pc 1 = st.pc + 1 := size_add_eq (by omega)
  have h1' : 2 ≤ c.val := h1
  have h2' : c.val ≤ 8 := h2
  have e3 : to_int32 ((c.val : Int) - (i_iconst_0 : Int)) = (c.val : Int) - 3 := by
    unfold to_int32; simp only [i_iconst_0]; omega
  have hdis := dispatch_iconst (fun nm nl h o => run fuel cls nm (init_state nm nl h o))
    cls m c.val st h1 h2
  have hi : i_const m st = .ok { st with
      stack := st.stack.set st.stack_p ((c.val : Int) - 3), stack_p := st.stack_p + 1 } := by
    unfold i_const
    rw [code_at_eq hc]
    simp only [ok_bind, e3, wr_eq _ hsp, e1, pure_eq_ok]
  rw [hi] at hdis
  have := step_of_dispatch_next hc hdis
  rw [this]
  show Except.ok (Outcome.next { st with
      stack := st.stack.set st.stack_p ((c.val : Int) - 3), stack_p := st.stack_p + 1,
      pc := size_add st.pc 1 }) = _
  rw [e2]

/-- A pass of the loop at a binary arithmetic opcode. -/
theorem step_arith (fuel : Nat) (cls : class_file_t) (m : method_t) (st : State)
    (c : Fin 256) (a b r : Int)
    (hc : m.code[st.pc]? = some c) (h1 : i_iadd ≤ c.val) (h2 : c.val ≤ i_ixor)
    (hneg : c.val ≠ i_ineg) (hcl : m.code.length < 4294967296)
    (hd : 2 ≤ st.stack_p) (hcap : st.stack_p ≤ st.stack.length)
    (hlen : st.stack.length < 18446744073709551616)
    (hsa : st.stack[st.stack_p - 2]? = some a) (hsb : st.stack[st.stack_p - 1]? = some b)
    (hr : add_to_xor_result c.val a b = .ok r) :
    step fuel cls m st = .ok (Outcome.next { st with
      stack := (st.stack.set (st.stack_p - 2) r).set (st.stack_p - 1) 0,
      stack_p := st.stack_p - 1, pc := st.pc + 1 }) := by
  have hpc := lt_length_of_getElem? hc
  have e2 : size_add st.pc 1 = st.pc + 1 := size_add_eq (by omega)
  have hdis := dispatch_arith (fun nm nl h o => run fuel cls nm (init_state nm nl h o))
    cls m c.val st ⟨h1, h2⟩
  rw [add_to_xor_binary c.val st a b r hneg hd hcap hlen hsa hsb hr] at hdis
  have := step_of_dispatch_next hc hdis
  rw [this]
  show Except.ok (Outcome.next { st with
      stack := (st.stack.set (st.stack_p - 2) r).set (st.stack_p - 1) 0,
      stack_p := st.stack_p - 1, pc := size_add st.pc 1 }) = _
  rw [e2]

/-- A pass of the loop at `ireturn` or `areturn`. -/
theorem step_ireturn (fuel : Nat) (cls : class_file_t) (m : method_t) (st : State)
    (c : Fin 256) (v : Int)
    (hc : m.code[st.pc]? = some c) (hop : c.val = i_areturn ∨ c.val = i_ireturn)
    (hd : 1 ≤ st.stack_p) (hlen : st.stack.length < 18446744073709551616)
    (hcap : st.stack_p ≤ st.stack.length)
    (hv : st.stack[st.stack_p - 1]? = some v) :
    step fuel cls m st = .ok (Outcome.done { has_value := true, value := v } st) := by
  have e1 : size_sub st.stack_p 1 = st.stack_p - 1 := size_sub_eq hd (by omega)
  have hdis := dispatch_ireturn (fun nm nl h o => run fuel cls nm (init_state nm nl h o))
    cls m c.val st hop
  rw [e1, rd_eq hv] at hdis
  exact step_of_dispatch_done hc hdis

/-! ## Static invocation -/

/-- The argument-moving loop of `invokestatic`: it succeeds when the caller's
stack holds the arguments and `new_locals` has room for them; it copies the
arguments in order, zeroes their stack slots and touches nothing else. -/
theorem copy_params_spec (n sp : Nat) (k : Nat) :
    ∀ (idx : Nat) (nl stk : List Int), idx + k = n → n ≤ sp → sp ≤ stk.length →
      stk.length < 18446744073709551616 → n ≤ nl.length →
      ∃ nl1 stk1, copy_params n sp k idx nl stk = .ok (nl1, stk1) ∧
        nl1.length = nl.length ∧ stk1.length = stk.length ∧
        (∀ j, idx ≤ j → j < n → nl1[j]? = stk[sp - n + j]?) ∧
        (∀ j, (j < idx ∨ n ≤ j) → nl1[j]? = nl[j]?) ∧
        (∀ j, (j < sp - n + idx ∨ sp ≤ j) → stk1[j]? = stk[j]?) ∧
        (∀ j, sp - n + idx ≤ j → j < sp → stk1[j]? = some 0) := by
  induction k with
  | zero =>
    intro idx nl stk hk hn hsp hlen hnl
    refine ⟨nl, stk, rfl, rfl, rfl, ?_, ?_, ?_, ?_⟩
    · intro j h1 h2; omega
    · intro j _; rfl
    · intro j _; rfl
    · intro j h1 h2; omega
  | succ k ih =>
    intro idx nl stk hk hn hsp hlen hnl
    have e1 : size_sub n idx = n - idx := size_sub_eq (by omega) (by omega)
    have e2 : size_sub sp (n - idx) = sp - (n - idx) := size_sub_eq (by omega) (by omega)
    have e3 : size_add idx 1 = idx + 1 := size_add_eq (by omega)
    have hi : sp - (n - idx) < stk.length := by omega
    obtain ⟨v, hv⟩ := exists_get stk (sp - (n - idx)) hi
    have hidx : idx < nl.length := by omega
    obtain ⟨nl1, stk1, hrun, hl1, hl2, hA, hB, hC, hD⟩ :=
      ih (idx + 1) (nl.set idx v) (stk.set (sp - (n - idx)) 0) (by omega) hn
        (by simpa using hsp) (by simpa using hlen) (by simpa using hnl)
    refine ⟨nl1, stk1, ?_, ?_, ?_, ?_, ?_, ?_, ?_⟩
    · rw [copy_params]
      simp only [e1, e2, e3, rd_eq hv, ok_bind, wr_eq v hidx, wr_eq 0 hi]
      exact hrun
    · simpa using hl1
    · simpa using hl2
    · intro j h1 h2
      by_cases hj : j = idx
      · subst hj
        rw [hB j (Or.inl (by omega)), get_set_eq _ _ _ hidx, ← hv]
        congr 1
        omega
      · rw [hA j (by omega) h2, get_set_ne _ _ _ _ (by omega)]
    · intro j hj
      rw [hB j (by omega), get_set_ne _ _ _ _ (by omega)]
    · intro j hj
      rw [hC j (by omega), get_set_ne _ _ _ _ (by omega)]
    · intro j h1 h2
      by_cases hj : j = sp - (n - idx)
      · subst hj
        rw [hC _ (Or.inl (by omega)), get_set_eq _ _ _ hi]
      · exact hD j (by omega) h2

/-- The first half of the `invokestatic` arm: the arguments move from the
caller's stack into the leading slots of a zeroed `new_locals`. -/
theorem invoke_static_enter_spec (cls : class_file_t) (m : method_t) (st : State)
    (b1 b2 : Fin 256) (nm : method_t)
    (h1 : m.code[st.pc + 1]? = some b1) (h2 : m.code[st.pc + 2]? = some b2)
    (hcl : m.code.length < 4294967296)
    (hfind : cls.find_method_from_index (b1.val * 256 + b2.val) = some nm)
    (hn : nm.number_of_parameters < 65536) (hloc : nm.number_of_parameters ≤ nm.max_locals)
    (hd : nm.number_of_parameters ≤ st.stack_p) (hcap : st.stack_p ≤ st.stack.length)
    (hlen : st.stack.length < 18446744073709551616) :
    ∃ nl stk1, invoke_static_enter cls m st = .ok (nm, nl,
        { st with stack := stk1, stack_p := st.stack_p - nm.number_of_parameters }) ∧
      nl.length = nm.max_locals ∧ stk1.length = st.stack.length ∧
      (∀ j, j < nm.number_of_parameters →
        nl[j]? = st.stack[st.stack_p - nm.number_of_parameters + j]?) ∧
      (∀ j, nm.number_of_parameters ≤ j → j < nm.max_locals → nl[j]? = some 0) ∧
      (∀ j, (j < st.stack_p - nm.number_of_parameters ∨ st.stack_p ≤ j) →
        stk1[j]? = st.stack[j]?) ∧
      (∀ j, st.stack_p - nm.number_of_parameters ≤ j → j < st.stack_p → stk1[j]? = some 0) := by
  have hp2 := lt_length_of_getElem? h2
  have e1 : size_add st.pc 1 = st.pc + 1 := size_add_eq (by omega)
  have e2 : size_add st.pc 2 = st.pc + 2 := size_add_eq (by omega)
  have e3 : Nat.lor (b1.val <<< 8) b2.val = b1.val * 256 + b2.val := lor_shift_eq _ _ b2.isLt
  have e4 : (b1.val * 256 + b2.val) % 65536 = b1.val * 256 + b2.val := by
    have := b1.isLt; have := b2.isLt; omega
  have e5 : nm.number_of_parameters % 65536 = nm.number_of_parameters := by omega
  have e6 : size_sub st.stack_p nm.number_of_parameters
      = st.stack_p - nm.number_of_parameters := size_sub_eq hd (by omega)
  obtain ⟨nl, stk1, hrun, hl1, hl2, hA, hB, hC, hD⟩ :=
    copy_params_spec nm.number_of_parameters st.stack_p nm.number_of_parameters 0
      (List.replicate nm.max_locals 0) st.stack (by omega) hd hcap hlen (by simpa using hloc)
  refine ⟨nl, stk1, ?_, by simpa using hl1, hl2, ?_, ?_, ?_, ?_⟩
  · unfold invoke_static_enter
    simp only [e1, e2, code_at_eq h1, code_at_eq h2, ok_bind, e3, e4, hfind, e5, hrun, e6,
      pure_eq_ok]
  · intro j hj
    exact hA j (by omega) hj
  · intro j hj1 hj2
    rw [hB j (Or.inr hj1)]
    simp [List.getElem?_replicate, hj2]
  · intro j hj
    exact hC j (by omega)
  · intro j hj1 hj2
    exact hD j (by omega) hj2

/-- C7: for an invokestatic whose target declares `n` parameters and
`m ≥ n` local slots, at caller stack depth `d ≥ n`: the callee runs from the
initial state of `execute` on locals `nl` with `nl[i] = stack[d - n + i]` for
`i < n` (the deepest argument is local 0) and `nl[i] = 0` for `n ≤ i < m`. -/
theorem invokestatic_locals (fuel : Nat) (cls : class_file_t) (m : method_t) (st : State)
    (b1 b2 : Fin 256) (nm : method_t)
    (h1 : m.code[st.pc + 1]? = some b1) (h2 : m.code[st.pc + 2]? = some b2)
    (hcl : m.code.length < 4294967296)
    (hfind : cls.find_method_from_index (b1.val * 256 + b2.val) = some nm)
    (hn : nm.number_of_parameters < 65536) (hloc : nm.number_of_parameters ≤ nm.max_locals)
    (hd : nm.number_of_parameters ≤ st.stack_p) (hcap : st.stack_p ≤ st.stack.length)
    (hlen : st.stack.length < 18446744073709551616) :
    ∃ nl st1, invoke_static_enter cls m st = .ok (nm, nl, st1) ∧
      dispatch (fun nm nl h o => run fuel cls nm (init_state nm nl h o)) cls m i_invokestatic st
        = (do
          let (new_result, callee) ← run fuel cls nm (init_state nm nl st.heap st.out)
          Outcome.next <$> invoke_static_leave st1 new_result callee.heap callee.out) ∧
      (init_state nm nl st.heap st.out).locals = nl ∧
      nl.length = nm.max_locals ∧
      (∀ i, i < nm.number_of_parameters →
        nl[i]? = st.stack[st.stack_p - nm.number_of_parameters + i]?) ∧
      (∀ i, nm.number_of_parameters ≤ i → i < nm.max_locals → nl[i]? = some 0) := by
  obtain ⟨nl, stk1, henter, hl1, _, hA, hB, _, _⟩ :=
    invoke_static_enter_spec cls m st b1 b2 nm h1 h2 hcl hfind hn hloc hd hcap hlen
  refine ⟨nl, _, henter, ?_, rfl, hl1, hA, hB⟩
  rw [dispatch_invokestatic, henter]
  rfl

/-- C7 at a concrete input: `invokestatic 1` on the stack `[9, 5]` calls the
one-parameter `identity_method` with locals `[5, 0]`. -/
theorem invokestatic_locals_witness :
    ∃ nl st1, invoke_static_enter identity_class (method_of [184, 0, 1, 177])
        (state_of [9, 5] 0) = .ok (identity_method, nl, st1) ∧
      nl[0]? = some 5 ∧ nl[1]? = some 0 := by
  obtain ⟨nl, st1, h, _, _, _, hA, hB⟩ :=
    invokestatic_locals 0 identity_class (method_of [184, 0, 1, 177]) (state_of [9, 5] 0)
      0 1 identity_method rfl rfl (by decide) rfl (by decide) (by decide) (by decide)
      (by decide) (by decide)
  exact ⟨nl, st1, h, hA 0 (by decide), hB 1 (by decide) (by decide)⟩

/-- C8: for an invokestatic with `n` declared parameters at caller stack depth
`d ≥ n` whose callee returns: the caller's stack entries below `d - n` and all
of the caller's locals are unchanged; the depth afterwards is `d - n + 1` with
the callee's value on top when it returned a value (the stack having room for
it), and `d - n` when it returned void. -/
theorem invokestatic_frame (fuel : Nat) (cls : class_file_t) (m : method_t) (st : State)
    (c b1 b2 : Fin 256) (nm : method_t) (nl : List Int) (st1 callee : State)
    (r : optional_value_t)
    (hc : m.code[st.pc]? = some c) (hop : c.val = i_invokestatic)
    (h1 : m.code[st.pc + 1]? = some b1) (h2 : m.code[st.pc + 2]? = some b2)
    (hcl : m.code.length < 4294967296)
    (hfind : cls.find_method_from_index (b1.val * 256 + b2.val) = some nm)
    (hn : nm.number_of_parameters < 65536) (hloc : nm.number_of_parameters ≤ nm.max_locals)
    (hd : nm.number_of_parameters ≤ st.stack_p) (hcap : st.stack_p ≤ st.stack.length)
    (hlen : st.stack.length < 18446744073709551616)
    (henter : invoke_static_enter cls m st = .ok (nm, nl, st1))
    (hret : run fuel cls nm (init_state nm nl st.heap st.out) = .ok (r, callee))
    (hroom : r.has_value = true → st.stack_p - nm.number_of_parameters < st.stack.length) :
    ∃ st2, step fuel cls m st = .ok (Outcome.next st2) ∧
      run (fuel + 1) cls m st = run fuel cls m st2 ∧
      (∀ j, j < st.stack_p - nm.number_of_parameters → st2.stack[j]? = st.stack[j]?) ∧
      st2.locals = st.locals ∧
      (r.has_value = true → st2.stack_p = st.stack_p - nm.number_of_parameters + 1 ∧
        st2.stack[st.stack_p - nm.number_of_parameters]? = some r.value) ∧
      (r.has_value = false → st2.stack_p = st.stack_p - nm.number_of_parameters) ∧
      st2.pc = st.pc + 3 ∧ st2.heap = callee.heap ∧ st2.out = callee.out := by
  have hpc := lt_length_of_getElem? hc
  have hp2 := lt_length_of_getElem? h2
  obtain ⟨nl0, stk1, henter0, _, hl2, _, _, hC, _⟩ :=
    invoke_static_enter_spec cls m st b1 b2 nm h1 h2 hcl hfind hn hloc hd hcap hlen
  rw [henter] at henter0
  simp only [Except.ok.injEq, Prod.mk.injEq, true_and] at henter0
  obtain ⟨-, hst1⟩ := henter0
  have e2 : size_add st.pc 2 = st.pc + 2 := size_add_eq (by omega)
  have e3 : size_add (st.pc + 2) 1 = st.pc + 3 := size_add_eq (by omega)
  have hdis := dispatch_invokestatic (fun nm nl h o => run fuel cls nm (init_state nm nl h o))
    cls m st
  rw [henter] at hdis
  simp only [ok_bind] at hdis
  have hheap : st1.heap = st.heap := by rw [hst1]
  have hout : st1.out = st.out := by rw [hst1]
  rw [hheap, hout, hret] at hdis
  simp only [ok_bind] at hdis
  cases hv : r.has_value with
  | false =>
    have hleave : invoke_static_leave st1 r callee.heap callee.out = .ok { st1 with
        heap := callee.heap, out := callee.out, pc := size_add st1.pc 2 } := by
      simp [invoke_static_leave, hv]
    rw [hleave, ← hop] at hdis
    have hstep := step_of_dispatch_next hc hdis
    refine ⟨_, hstep, run_of_step_next hpc hstep, ?_, ?_, ?_, ?_, ?_, rfl, rfl⟩
    · intro j hj
      show st1.stack[j]? = _
      rw [hst1]
      exact hC j (Or.inl hj)
    · show st1.locals = _
      rw [hst1]
    · intro h; cases h
    · intro _
      show st1.stack_p = _
      rw [hst1]
    · show size_add (size_add st1.pc 2) 1 = _
      rw [hst1]
      show size_add (size_add st.pc 2) 1 = _
      rw [e2, e3]
  | true =>
    have hr := hroom hv
    have hsp : st1.stack_p = st.stack_p - nm.number_of_parameters := by rw [hst1]
    have hstk : st1.stack = stk1 := by rw [hst1]
    have hlt : st1.stack_p < st1.stack.length := by rw [hsp, hstk, hl2]; exact hr
    have e4 : size_add st1.stack_p 1 = st1.stack_p + 1 := size_add_eq (by omega)
    have hleave : invoke_static_leave st1 r callee.heap callee.out = .ok { st1 with
        stack := st1.stack.set st1.stack_p r.value, stack_p := st1.stack_p + 1,
        heap := callee.heap, out := callee.out, pc := size_add st1.pc 2 } := by
      simp [invoke_static_leave, hv, wr_eq _ hlt, e4]
    rw [hleave, ← hop] at hdis
    have hstep := step_of_dispatch_next hc hdis
    refine ⟨_, hstep, run_of_step_next hpc hstep, ?_, ?_, ?_, ?_, ?_, rfl, rfl⟩
    · intro j hj
      show (st1.stack.set st1.stack_p r.value)[j]? = _
      rw [get_set_ne _ _ _ _ (by omega), hstk]
      exact hC j (Or.inl hj)
    · show st1.locals = _
      rw [hst1]
    · intro _
      refine ⟨?_, ?_⟩
      · show st1.stack_p + 1 = _
        rw [hsp]
      · show (st1.stack.set st1.stack_p r.value)[st.stack_p - nm.number_of_parameters]? = _
        rw [← hsp]
        exact get_set_eq _ _ _ hlt
    · intro h; cases h
    · show size_add (size_add st1.pc 2) 1 = _
      rw [hst1]
      show size_add (size_add st.pc 2) 1 = _
      rw [e2, e3]

/-- C8 at a concrete input: `invokestatic 1` on the stack `[9, 5]`; the callee
returns 5, the entry 9 below the argument stays, and the depth is 2 again. -/
theorem invokestatic_frame_witness :
    ∃ st2, step 2 identity_class (method_of [184, 0, 1, 177]) (state_of [9, 5] 0)
        = .ok (Outcome.next st2) ∧
      st2.stack[0]? = some 9 ∧ st2.stack_p = 2 ∧ st2.stack[1]? = some 5 ∧
      st2.locals = [0, 0] := by
  obtain ⟨st2, h, _, hA, hB, hC, _⟩ :=
    invokestatic_frame 2 identity_class (method_of [184, 0, 1, 177]) (state_of [9, 5] 0)
      184 0 1 identity_method [5, 0]
      { stack := [9, 0], stack_p := 1, locals := [0, 0], pc := 0, heap := [], out := [] }
      { stack := [5], stack_p := 1, locals := [5, 0], pc := 1, heap := [], out := [] }
      { has_value := true, value := 5 }
      rfl rfl rfl rfl (by decide) rfl (by decide) (by decide) (by decide) (by decide)
      (by decide) rfl rfl (by decide)
  exact ⟨st2, h, hA 0 (by decide), (hC rfl).1, (hC rfl).2, hB⟩

/-- A pass of the loop at a conditional branch whose target is not negative. -/
theorem step_jump (fuel : Nat) (cls : class_file_t) (m : method_t) (st st1 : State)
    (c b1 b2 : Fin 256) (a b : Int) (taken : Bool)
    (hc : m.code[st.pc]? = some c) (hop1 : i_ifeq ≤ c.val) (hop2 : c.val ≤ i_if_icmple)
    (h1 : m.code[st.pc + 1]? = some b1) (h2 : m.code[st.pc + 2]? = some b2)
    (hcl : m.code.length < 4294967296)
    (hk : 0 ≤ (st.pc : Int) + to_int16 ((b1.val * 256 + b2.val : Nat) : Int))
    (hpop : jump_pop c.val st = .ok (a, b, st1))
    (hcond : jump_add_offset c.val a b = .ok taken) :
    step fuel cls m st = .ok (Outcome.next { st1 with
      pc := (if taken then
        ((st.pc : Int) + to_int16 ((b1.val * 256 + b2.val : Nat) : Int)).toNat
        else st.pc + 3) }) := by
  have hpc := lt_length_of_getElem? hc
  have hp2 := lt_length_of_getElem? h2
  have hpc1 := jump_pop_pc hpop
  have hj := jump_eq c.val m st st1 b1 b2 a b taken hcl h1 h2 hpop hcond
  have hdis := dispatch_jump (fun nm nl h o => run fuel cls nm (init_state nm nl h o))
    cls m c.val st hop1 hop2
  rw [hj] at hdis
  rw [step_of_dispatch_next hc hdis]
  have e2 : size_add st.pc 2 = st.pc + 2 := size_add_eq (by omega)
  have e3 : size_add (st.pc + 2) 1 = st.pc + 3 := size_add_eq (by omega)
  have hk2 := to_int16_range ((b1.val * 256 + b2.val : Nat) : Int)
  generalize to_int16 ((b1.val * 256 + b2.val : Nat) : Int) = k at hk hk2 ⊢
  have key : ∀ t : Bool,
      size_add (if t then size_t_wrap ((st.pc : Int) + (k - 1)) else size_add st.pc 2) 1
        = (if t then ((st.pc : Int) + k).toNat else st.pc + 3) := by
    intro t
    cases t
    · rw [if_neg (by decide), if_neg (by decide), e2, e3]
    · rw [if_pos rfl, if_pos rfl]
      unfold size_add size_t_wrap
      omega
  simp only [hpc1]
  rw [key taken]

/-- The first half of the `invokestatic` arm for a target of one parameter,
called with the argument `y` on top of a stack of depth 2. -/
theorem invoke_static_enter_one (cls : class_file_t) (m nm : method_t) (st : State)
    (b1 b2 : Fin 256) (x y : Int) (tl : List Int) (kl : Nat)
    (h1 : m.code[st.pc + 1]? = some b1) (h2 : m.code[st.pc + 2]? = some b2)
    (hcl : m.code.length < 4294967296)
    (hfind : cls.find_method_from_index (b1.val * 256 + b2.val) = some nm)
    (hn : nm.number_of_parameters = 1) (hloc : nm.max_locals = kl + 1)
    (hstk : st.stack = x :: y :: tl) (hsp : st.stack_p = 2) :
    invoke_static_enter cls m st = .ok (nm, y :: List.replicate kl 0,
      { st with stack := x :: 0 :: tl, stack_p := 1 }) := by
  have hp2 := lt_length_of_getElem? h2
  have e1 : size_add st.pc 1 = st.pc + 1 := size_add_eq (by omega)
  have e2 : size_add st.pc 2 = st.pc + 2 := size_add_eq (by omega)
  have e3 : Nat.lor (b1.val <<< 8) b2.val = b1.val * 256 + b2.val := lor_shift_eq _ _ b2.isLt
  have e4 : (b1.val * 256 + b2.val) % 65536 = b1.val * 256 + b2.val := by
    have := b1.isLt; have := b2.isLt; omega
  have s1 : size_sub 1 0 = 1 := by decide
  have s2 : size_sub 2 1 = 1 := by decide
  unfold invoke_static_enter
  simp only [e1, e2, code_at_eq h1, code_at_eq h2, ok_bind, e3, e4, hfind, hn, hloc, hstk, hsp,
    Nat.one_mod, copy_params, s1, s2, rd, wr, List.replicate_succ]
  simp

/-! ## The factorial method -/

theorem cons_get_zero (x : Int) (xs : List Int) : (x :: xs)[0]? = some x := by simp

theorem cons_get_one (x y : Int) (xs : List Int) : (x :: y :: xs)[1]? = some y := by simp

theorem factorial_code_at (m : method_t) (hi lo : Fin 256)
    (hcode : m.code = factorial_code hi lo) :
    m.code.length = 15 ∧ m.code[0]? = some 26 ∧ m.code[1]? = some 154 ∧
    m.code[2]? = some 0 ∧ m.code[3]? = some 5 ∧ m.code[4]? = some 4 ∧
    m.code[5]? = some 172 ∧ m.code[6]? = some 26 ∧ m.code[7]? = some 26 ∧
    m.code[8]? = some 4 ∧ m.code[9]? = some 100 ∧ m.code[10]? = some 184 ∧
    m.code[11]? = some hi ∧ m.code[12]? = some lo ∧ m.code[13]? = some 104 ∧
    m.code[14]? = some 172 := by
  rw [hcode]
  simp [factorial_code]

/-- The factorial method on the argument 0: four passes of the loop. -/
theorem fact_base (fuel : Nat) (cls : class_file_t) (m : method_t) (hi lo : Fin 256)
    (tl rest : List Int) (heap : heap_t) (out : List Int)
    (hcode : m.code = factorial_code hi lo) (htl : tl.length + 3 < 65536) :
    run (fuel + 4) cls m (fact_state tl rest heap out 0 0 0 0 0 0)
      = .ok ({ has_value := true, value := 1 }, fact_state tl rest heap out 0 1 0 0 1 5) := by
  obtain ⟨hl, c0, c1, c2, c3, c4, c5, -⟩ := factorial_code_at m hi lo hcode
  have hcl : m.code.length < 4294967296 := by omega
  have s0 : step (fuel + 3) cls m (fact_state tl rest heap out 0 0 0 0 0 0)
      = .ok (Outcome.next (fact_state tl rest heap out 0 0 0 0 1 1)) := by
    rw [step_iload_nums (fuel + 3) cls m (fact_state tl rest heap out 0 0 0 0 0 0) 26 0 c0
      (by decide) (by decide) hcl (cons_get_zero 0 rest) (by simp [fact_state])
      (by simp [fact_state]; omega)]
    rfl
  have s1 : step (fuel + 2) cls m (fact_state tl rest heap out 0 0 0 0 1 1)
      = .ok (Outcome.next (fact_state tl rest heap out 0 0 0 0 0 4)) := by
    rw [step_jump (fuel + 2) cls m (fact_state tl rest heap out 0 0 0 0 1 1)
      (fact_state tl rest heap out 0 0 0 0 0 1) 154 0 5 0 0 false
      c1 (by decide) (by decide) c2 c3 hcl
      (by
        show (0 : Int) ≤ ((1 : Nat) : Int) +
          to_int16 ((((0 : Fin 256).val * 256 + (5 : Fin 256).val : Nat)) : Int)
        decide)
      (jump_pop_one 154 (fact_state tl rest heap out 0 0 0 0 1 1) 0 (by decide)
        (by simp [fact_state]) (by simp [fact_state]) (by simp [fact_state]; omega) (cons_get_zero 0 _)) (by rfl)]
    rfl
  have s2 : step (fuel + 1) cls m (fact_state tl rest heap out 0 0 0 0 0 4)
      = .ok (Outcome.next (fact_state tl rest heap out 0 1 0 0 1 5)) := by
    rw [step_iconst (fuel + 1) cls m (fact_state tl rest heap out 0 0 0 0 0 4) 4 c4
      (by decide) (by decide) hcl (by simp [fact_state]) (by simp [fact_state]; omega)]
    rfl
  have s3 : step fuel cls m (fact_state tl rest heap out 0 1 0 0 1 5)
      = .ok (Outcome.done { has_value := true, value := 1 }
          (fact_state tl rest heap out 0 1 0 0 1 5)) :=
    step_ireturn fuel cls m (fact_state tl rest heap out 0 1 0 0 1 5) 172 1 c5 (Or.inr rfl)
      (by simp [fact_state])
      (by simp [fact_state]; omega) (by simp [fact_state]) (cons_get_zero 1 _)
  rw [run_of_step_next (by rw [hl]; simp [fact_state]) s0,
    run_of_step_next (by rw [hl]; simp [fact_state]) s1,
    run_of_step_next (by rw [hl]; simp [fact_state]) s2,
    run_of_step_done (by rw [hl]; simp [fact_state]) s3]

/-- A pass of the loop at `invokestatic` when the callee returns a value. -/
theorem step_invokestatic_value (fuel : Nat) (cls : class_file_t) (m nm : method_t)
    (st st1 callee : State) (c : Fin 256) (nl : List Int) (v : Int)
    (hc : m.code[st.pc]? = some c) (hop : c.val = i_invokestatic)
    (hcl : m.code.length < 4294967296) (hpc : st.pc + 2 < m.code.length)
    (henter : invoke_static_enter cls m st = .ok (nm, nl, st1))
    (hpc1 : st1.pc = st.pc)
    (hret : run fuel cls nm (init_state nm nl st1.heap st1.out)
      = .ok ({ has_value := true, value := v }, callee))
    (hroom : st1.stack_p < st1.stack.length)
    (hlen : st1.stack.length < 18446744073709551616) :
    step fuel cls m st = .ok (Outcome.next { st1 with
      stack := st1.stack.set st1.stack_p v, stack_p := st1.stack_p + 1,
      heap := callee.heap, out := callee.out, pc := st.pc + 3 }) := by
  have e2 : size_add st.pc 2 = st.pc + 2 := size_add_eq (by omega)
  have e3 : size_add (st.pc + 2) 1 = st.pc + 3 := size_add_eq (by omega)
  have e4 : size_add st1.stack_p 1 = st1.stack_p + 1 := size_add_eq (by omega)
  have hdis := dispatch_invokestatic (fun nm nl h o => run fuel cls nm (init_state nm nl h o))
    cls m st
  rw [henter] at hdis
  simp only [ok_bind] at hdis
  rw [hret] at hdis
  simp only [ok_bind] at hdis
  have hleave : invoke_static_leave st1 { has_value := true, value := v }
      callee.heap callee.out = .ok { st1 with
        stack := st1.stack.set st1.stack_p v, stack_p := st1.stack_p + 1,
        heap := callee.heap, out := callee.out, pc := st.pc + 2 } := by
    simp [invoke_static_leave, wr_eq _ hroom, e4, hpc1, e2]
  rw [hleave, ← hop] at hdis
  rw [step_of_dispatch_next hc hdis]
  show Except.ok (Outcome.next { st1 with
      stack := st1.stack.set st1.stack_p v, stack_p := st1.stack_p + 1,
      heap := callee.heap, out := callee.out, pc := size_add (st.pc + 2) 1 }) = _
  rw [e3]

/-- The factorial method on an argument `v` in `[1, 12]`, given what the
nested call on `v - 1` returns: nine passes of the loop around the call. -/
theorem fact_rec (g : Nat) (cls : class_file_t) (m : method_t) (hi lo : Fin 256)
    (tl rest : List Int) (heap : heap_t) (out : List Int) (v r : Int) (kl : Nat)
    (callee : State)
    (hcode : m.code = factorial_code hi lo) (htl : tl.length + 3 < 65536)
    (hparams : m.number_of_parameters = 1) (hkl : m.max_locals = kl + 1)
    (hself : cls.find_method_from_index (hi.val * 256 + lo.val) = some m)
    (hv1 : 1 ≤ v) (hv2 : v ≤ 12)
    (hret : run (g + 2) cls m (init_state m ((v - 1) :: List.replicate kl 0) heap out)
      = .ok ({ has_value := true, value := r }, callee))
    (hheap : callee.heap = heap) (hout : callee.out = out) :
    run (g + 2 + 7) cls m (fact_state tl rest heap out v 0 0 0 0 0)
      = .ok ({ has_value := true, value := to_int32 (v * r) },
          fact_state tl rest heap out v (to_int32 (v * r)) 0 0 1 14) := by
  obtain ⟨hl, c0, c1, c2, c3, c4, c5, c6, c7, c8, c9, c10, c11, c12, c13, c14⟩ :=
    factorial_code_at m hi lo hcode
  have hcl : m.code.length < 4294967296 := by omega
  have hv0 : v ≠ 0 := by omega
  have s0 : step (g + 2 + 6) cls m (fact_state tl rest heap out v 0 0 0 0 0)
      = .ok (Outcome.next (fact_state tl rest heap out v v 0 0 1 1)) := by
    rw [step_iload_nums (g + 2 + 6) cls m (fact_state tl rest heap out v 0 0 0 0 0) 26 v c0
      (by decide) (by decide) hcl (cons_get_zero v rest) (by simp [fact_state])
      (by simp [fact_state]; omega)]
    rfl
  have s1 : step (g + 2 + 5) cls m (fact_state tl rest heap out v v 0 0 1 1)
      = .ok (Outcome.next (fact_state tl rest heap out v 0 0 0 0 6)) := by
    rw [step_jump (g + 2 + 5) cls m (fact_state tl rest heap out v v 0 0 1 1)
      (fact_state tl rest heap out v 0 0 0 0 1) 154 0 5 v 0 true
      c1 (by decide) (by decide) c2 c3 hcl
      (by
        show (0 : Int) ≤ ((1 : Nat) : Int) +
          to_int16 ((((0 : Fin 256).val * 256 + (5 : Fin 256).val : Nat)) : Int)
        decide)
      (jump_pop_one 154 (fact_state tl rest heap out v v 0 0 1 1) v (by decide)
        (by simp [fact_state]) (by simp [fact_state]) (by simp [fact_state]; omega)
        (cons_get_zero v _))
      (by
        show jump_add_offset 154 v 0 = .ok true
        simp [jump_add_offset, hv0])]
    rfl
  have s2 : step (g + 2 + 4) cls m (fact_state tl rest heap out v 0 0 0 0 6)
      = .ok (Outcome.next (fact_state tl rest heap out v v 0 0 1 7)) := by
    rw [step_iload_nums (g + 2 + 4) cls m (fact_state tl rest heap out v 0 0 0 0 6) 26 v c6
      (by decide) (by decide) hcl (cons_get_zero v rest) (by simp [fact_state])
      (by simp [fact_state]; omega)]
    rfl
  have s3 : step (g + 2 + 3) cls m (fact_state tl rest heap out v v 0 0 1 7)
      = .ok (Outcome.next (fact_state tl rest heap out v v v 0 2 8)) := by
    rw [step_iload_nums (g + 2 + 3) cls m (fact_state tl rest heap out v v 0 0 1 7) 26 v c7
      (by decide) (by decide) hcl (cons_get_zero v rest) (by simp [fact_state])
      (by simp [fact_state]; omega)]
    rfl
  have s4 : step (g + 2 + 2) cls m (fact_state tl rest heap out v v v 0 2 8)
      = .ok (Outcome.next (fact_state tl rest heap out v v v 1 3 9)) := by
    rw [step_iconst (g + 2 + 2) cls m (fact_state tl rest heap out v v v 0 2 8) 4 c8
      (by decide) (by decide) hcl (by simp [fact_state]) (by simp [fact_state]; omega)]
    rfl
  have s5 : step (g + 2 + 1) cls m (fact_state tl rest heap out v v v 1 3 9)
      = .ok (Outcome.next (fact_state tl rest heap out v v (v - 1) 0 2 10)) := by
    rw [step_arith (g + 2 + 1) cls m (fact_state tl rest heap out v v v 1 3 9) 100 v 1 (v - 1)
      c9 (by decide) (by decide) (by decide) hcl (by simp [fact_state])
      (by simp [fact_state]) (by simp [fact_state]; omega)
      (cons_get_one v v _) (by simp [fact_state])
      (by
        show add_to_xor_result 100 v 1 = .ok (v - 1)
        have : to_int32 (v - 1) = v - 1 := to_int32_id (by unfold is_int32; omega)
        simp [add_to_xor_result, this])]
    rfl
  have s6 : step (g + 2) cls m (fact_state tl rest heap out v v (v - 1) 0 2 10)
      = .ok (Outcome.next (fact_state tl rest heap out v v r 0 2 13)) := by
    rw [step_invokestatic_value (g + 2) cls m m
      (fact_state tl rest heap out v v (v - 1) 0 2 10)
      (fact_state tl rest heap out v v 0 0 1 10) callee 184 ((v - 1) :: List.replicate kl 0) r
      c10 (by decide) hcl (by rw [hl]; simp [fact_state])
      (invoke_static_enter_one cls m m (fact_state tl rest heap out v v (v - 1) 0 2 10)
        hi lo v (v - 1) (0 :: tl) kl c11 c12 hcl hself hparams hkl rfl rfl)
      rfl hret (by simp [fact_state]) (by simp [fact_state]; omega)]
    rw [hheap, hout]
    rfl
  have s7 : step (g + 1) cls m (fact_state tl rest heap out v v r 0 2 13)
      = .ok (Outcome.next (fact_state tl rest heap out v (to_int32 (v * r)) 0 0 1 14)) := by
    rw [step_arith (g + 1) cls m (fact_state tl rest heap out v v r 0 2 13) 104 v r
      (to_int32 (v * r))
      c13 (by decide) (by decide) (by decide) hcl (by simp [fact_state])
      (by simp [fact_state]) (by simp [fact_state]; omega)
      (cons_get_zero v _) (cons_get_one v r _)
      (by
        show add_to_xor_result 104 v r = .ok (to_int32 (v * r))
        simp [add_to_xor_result])]
    rfl
  have s8 : step g cls m (fact_state tl rest heap out v (to_int32 (v * r)) 0 0 1 14)
      = .ok (Outcome.done { has_value := true, value := to_int32 (v * r) }
          (fact_state tl rest heap out v (to_int32 (v * r)) 0 0 1 14)) :=
    step_ireturn g cls m (fact_state tl rest heap out v (to_int32 (v * r)) 0 0 1 14) 172
      (to_int32 (v * r)) c14 (Or.inr rfl) (by simp [fact_state])
      (by simp [fact_state]; omega) (by simp [fact_state]) (cons_get_zero _ _)
  rw [run_of_step_next (by rw [hl]; simp [fact_state]) s0,
    run_of_step_next (by rw [hl]; simp [fact_state]) s1,
    run_of_step_next (by rw [hl]; simp [fact_state]) s2,
    run_of_step_next (by rw [hl]; simp [fact_state]) s3,
    run_of_step_next (by rw [hl]; simp [fact_state]) s4,
    run_of_step_next (by rw [hl]; simp [fact_state]) s5,
    run_of_step_next (by rw [hl]; simp [fact_state]) s6,
    run_of_step_next (by rw [hl]; simp [fact_state]) s7,
    run_of_step_done (by rw [hl]; simp [fact_state]) s8]

/-- The factorial method returns `n!` for `n ≤ 12` on any fuel from `7 n + 4`
up, and leaves the heap and the printed text as they were. -/
theorem fact_run (cls : class_file_t) (m : method_t) (hi lo : Fin 256) (ks kl : Nat)
    (heap : heap_t) (out : List Int)
    (hcode : m.code = factorial_code hi lo) (hparams : m.number_of_parameters = 1)
    (hks : m.max_stack = ks + 3) (hks2 : ks + 3 < 65536) (hkl : m.max_locals = kl + 1)
    (hself : cls.find_method_from_index (hi.val * 256 + lo.val) = some m) :
    ∀ n : Nat, n ≤ 12 → ∀ (e : Nat) (rest : List Int),
      ∃ st, run (7 * n + 4 + e) cls m (init_state m ((n : Int) :: rest) heap out)
          = .ok ({ has_value := true, value := (n.factorial : Int) }, st) ∧
        st.heap = heap ∧ st.out = out := by
  have hinit : ∀ (v : Int) (rest : List Int), init_state m (v :: rest) heap out
      = fact_state (List.replicate ks 0) rest heap out v 0 0 0 0 0 := by
    intro v rest
    simp [init_state, fact_state, hks, List.replicate_succ]
  intro n
  induction n with
  | zero =>
    intro _ e rest
    refine ⟨fact_state (List.replicate ks 0) rest heap out 0 1 0 0 1 5, ?_, rfl, rfl⟩
    have hf : 7 * 0 + 4 + e = e + 4 := by omega
    rw [hf, hinit]
    exact fact_base e cls m hi lo (List.replicate ks 0) rest heap out hcode (by simpa using hks2)
  | succ n ih =>
    intro hn e rest
    obtain ⟨callee, hret, hheap, hout⟩ := ih (by omega) e (List.replicate kl 0)
    have hf : 7 * (n + 1) + 4 + e = (7 * n + 2 + e) + 2 + 7 := by omega
    have hg : 7 * n + 4 + e = (7 * n + 2 + e) + 2 := by omega
    have hv : (((n + 1 : Nat) : Int) - 1) = (n : Int) := by push_cast; ring
    rw [hg, ← hv] at hret
    have hfact : to_int32 (((n + 1 : Nat) : Int) * (n.factorial : Int))
        = ((n + 1).factorial : Int) := by
      have h12 : (n + 1).factorial ≤ Nat.factorial 12 := Nat.factorial_le hn
      have h12v : Nat.factorial 12 = 479001600 := by decide
      have hmul : ((n + 1 : Nat) : Int) * (n.factorial : Int) = ((n + 1).factorial : Int) := by
        rw [Nat.factorial_succ]; push_cast; ring
      rw [hmul]
      apply to_int32_id
      unfold is_int32
      omega
    refine ⟨fact_state (List.replicate ks 0) rest heap out ((n + 1 : Nat) : Int)
      ((n + 1).factorial : Int) 0 0 1 14, ?_, rfl, rfl⟩
    rw [hf, hinit, fact_rec (7 * n + 2 + e) cls m hi lo (List.replicate ks 0) rest heap out
      ((n + 1 : Nat) : Int) (n.factorial : Int) kl callee hcode (by simpa using hks2)
      hparams hkl hself (by push_cast; omega) (by push_cast; omega) hret hheap hout, hfact]

/-- C6: the one-parameter method with the bytecode `iload_0; ifne +5;
iconst_1; ireturn; iload_0; iload_0; iconst_1; isub; invokestatic self; imul;
ireturn` (at least three stack slots and one local), run by `execute` with
local 0 = `n`, returns `has_value = true` and `value = n!` for every `n` in
`[0, 12]`, given fuel for `7 n + 4` passes of the loop. -/
theorem factorial_correct (cls : class_file_t) (m : method_t) (hi lo : Fin 256)
    (n fuel : Nat) (rest : List Int) (heap : heap_t) (out : List Int)
    (hcode : m.code = factorial_code hi lo) (hparams : m.number_of_parameters = 1)
    (hstack : 3 ≤ m.max_stack) (hstack2 : m.max_stack < 65536) (hlocals : 1 ≤ m.max_locals)
    (hself : cls.find_method_from_index (hi.val * 256 + lo.val) = some m)
    (hn : n ≤ 12) (hfuel : 7 * n + 4 ≤ fuel) :
    ∃ st, execute fuel m ((n : Int) :: rest) cls heap out
        = .ok ({ has_value := true, value := (n.factorial : Int) }, st) ∧
      st.heap = heap ∧ st.out = out := by
  obtain ⟨ks, hks⟩ : ∃ ks, m.max_stack = ks + 3 := ⟨m.max_stack - 3, by omega⟩
  obtain ⟨kl, hkl⟩ : ∃ kl, m.max_locals = kl + 1 := ⟨m.max_locals - 1, by omega⟩
  obtain ⟨e, he⟩ : ∃ e, fuel = 7 * n + 4 + e := ⟨fuel - (7 * n + 4), by omega⟩
  rw [he]
  exact fact_run cls m hi lo ks kl heap out hcode hparams hks (by omega) hkl hself n hn e rest

/-- C6 at a concrete input: `factorial_method` on 5 returns 120. -/
theorem factorial_correct_witness :
    ∃ st, execute 39 factorial_method [5] factorial_class [] []
        = .ok ({ has_value := true, value := 120 }, st) ∧ st.heap = [] ∧ st.out = [] :=
  factorial_correct factorial_class factorial_method 0 1 5 39 [] [] [] rfl rfl (by decide)
    (by decide) (by decide) rfl (by decide) (by decide)

/-! ## Arrays -/

/-- The zero-filling loop of `newarray` on a cell of `bound` slots: it ends
normally, keeps the slots below `i` and zeroes the slots from `i` on. -/
theorem newarray_fill_spec (bound : Int) (hb : bound ≤ 2147483647) (k : Nat) :
    ∀ (i : Int) (arr : List Int), 1 ≤ i → i ≤ bound → arr.length = bound.toNat →
      bound - i < k →
      ∃ arr1, newarray_fill bound k i arr = .ok arr1 ∧ arr1.length = arr.length ∧
        (∀ j, j < i.toNat → arr1[j]? = arr[j]?) ∧
        (∀ j, i.toNat ≤ j → j < bound.toNat → arr1[j]? = some 0) := by
  induction k with
  | zero =>
    intro i arr h1 h2 _ hk
    omega
  | succ k ih =>
    intro i arr h1 h2 hlen hk
    by_cases hlt : i < bound
    · have hi : i.toNat < arr.length := by omega
      have e1 : to_int32 (i + 1) = i + 1 := to_int32_id (by unfold is_int32; omega)
      obtain ⟨arr1, hrun, hl, hA, hB⟩ := ih (i + 1) (arr.set i.toNat 0) (by omega) (by omega)
        (by simpa using hlen) (by omega)
      refine ⟨arr1, ?_, by simpa using hl, ?_, ?_⟩
      · rw [newarray_fill, if_pos hlt]
        simp only [wr_int, if_pos (show (0 : Int) ≤ i by omega), wr_eq 0 hi, ok_bind, e1]
        exact hrun
      · intro j hj
        rw [hA j (by omega), get_set_ne _ _ _ _ (by omega)]
      · intro j hj1 hj2
        by_cases hji : j = i.toNat
        · subst hji
          rw [hA _ (by omega), get_set_eq _ _ _ hi]
        · exact hB j (by omega) hj2
    · refine ⟨arr, ?_, rfl, fun j _ => rfl, ?_⟩
      · rw [newarray_fill, if_neg hlt]
      · intro j hj1 hj2
        omega

/-- The cell `newarray` builds for a length `n` in `[0, 2^31 - 2]`: slot 0
holds `n`, the `n` slots after it hold 0. -/
theorem newarray_cell (n : Int) (h0 : 0 ≤ n) (h1 : n ≤ 2147483646) :
    ∃ arr0, malloc_int32 (to_int32 (n + 1)) = some arr0 ∧
      ∃ arr1, wr_int arr0 0 n = .ok arr1 ∧
        newarray_fill (to_int32 (n + 1)) (to_int32 (n + 1)).toNat 1 arr1
          = .ok (n :: List.replicate n.toNat 0) := by
  have e1 : to_int32 (n + 1) = n + 1 := to_int32_id (by unfold is_int32; omega)
  rw [e1]
  have hpos : (0 : Int) ≤ n + 1 := by omega
  refine ⟨List.replicate (n + 1).toNat indeterminate, by simp [malloc_int32, hpos], ?_⟩
  have hlen : (0 : Nat) < (List.replicate (n + 1).toNat indeterminate).length := by
    simp only [List.length_replicate]; omega
  refine ⟨(List.replicate (n + 1).toNat indeterminate).set 0 n, ?_, ?_⟩
  · simp only [wr_int, le_refl, if_true, Int.toNat_zero, wr_eq n hlen]
  · obtain ⟨arr2, hrun, hl, hA, hB⟩ := newarray_fill_spec (n + 1) (by omega) (n + 1).toNat 1
      ((List.replicate (n + 1).toNat indeterminate).set 0 n) (by omega) (by omega)
      (by simp) (by omega)
    rw [hrun]
    congr 1
    apply List.ext_getElem?
    intro j
    by_cases hj0 : j = 0
    · subst hj0
      rw [hA 0 (by decide), get_set_eq _ _ _ hlen]
      simp
    · by_cases hj : j < (n + 1).toNat
      · rw [hB j (by simp; omega) hj]
        obtain ⟨j1, rfl⟩ : ∃ j1, j = j1 + 1 := ⟨j - 1, by omega⟩
        have hj1 : j1 < n.toNat := by omega
        simp [List.getElem?_replicate, hj1]
      · have hl2 : arr2.length = (n + 1).toNat := by simpa using hl
        rw [List.getElem?_eq_none (by omega), List.getElem?_eq_none (by simp; omega)]

/-- The function `newarray` on a length `n` in `[0, 2^31 - 2]`. -/
theorem newarray_eq (st : State) (n : Int) (h0 : 0 ≤ n) (h1 : n ≤ 2147483646)
    (hd : 1 ≤ st.stack_p) (hcap : st.stack_p ≤ st.stack.length)
    (hlen : st.stack.length < 18446744073709551616)
    (htop : st.stack[st.stack_p - 1]? = some n) (hheap : st.heap.length < 2147483648)
    (hpc : st.pc + 1 < 18446744073709551616) :
    newarray st = .ok { st with
      stack := st.stack.set (st.stack_p - 1) (st.heap.length : Int),
      heap := st.heap ++ [n :: List.replicate n.toNat 0],
      pc := st.pc + 1 } := by
  have e1 : size_sub st.stack_p 1 = st.stack_p - 1 := size_sub_eq hd (by omega)
  have e2 : size_add st.pc 1 = st.pc + 1 := size_add_eq hpc
  have e3 : to_int32 (st.heap.length : Int) = (st.heap.length : Int) :=
    to_int32_id (by unfold is_int32; omega)
  have hi : st.stack_p - 1 < st.stack.length := by omega
  obtain ⟨arr0, hm, arr1, hw, hf⟩ := newarray_cell n h0 h1
  unfold newarray
  simp only [e1, rd_eq htop, ok_bind, hm, hw, hf, heap_add, e3, wr_eq _ hi, e2, pure_eq_ok]

/-- The function `iastore` on a handle of the heap and an index whose slot is
inside the cell. -/
theorem iastore_eq (st : State) (ref idx v : Int) (arr : List Int)
    (hd : 3 ≤ st.stack_p) (hcap : st.stack_p ≤ st.stack.length)
    (hlen : st.stack.length < 18446744073709551616)
    (h3 : st.stack[st.stack_p - 3]? = some ref) (h2 : st.stack[st.stack_p - 2]? = some idx)
    (h1 : st.stack[st.stack_p - 1]? = some v)
    (href : 0 ≤ ref) (harr : st.heap[ref.toNat]? = some arr)
    (hi0 : 0 ≤ to_int32 (idx + 1)) (hi1 : (to_int32 (idx + 1)).toNat < arr.length) :
    iastore st = .ok { st with
      stack := ((st.stack.set (st.stack_p - 1) 0).set (st.stack_p - 2) 0).set (st.stack_p - 3) 0,
      stack_p := st.stack_p - 3,
      heap := st.heap.set ref.toNat (arr.set (to_int32 (idx + 1)).toNat v) } := by
  have e1 : size_sub st.stack_p 1 = st.stack_p - 1 := size_sub_eq (by omega) (by omega)
  have e2 : size_sub st.stack_p 2 = st.stack_p - 2 := size_sub_eq (by omega) (by omega)
  have e3 : size_sub st.stack_p 3 = st.stack_p - 3 := size_sub_eq (by omega) (by omega)
  have w1 : st.stack_p - 1 < st.stack.length := by omega
  have w2 : st.stack_p - 2 < (st.stack.set (st.stack_p - 1) 0).length := by
    simp only [List.length_set]; omega
  have w3 : st.stack_p - 3
      < ((st.stack.set (st.stack_p - 1) 0).set (st.stack_p - 2) 0).length := by
    simp only [List.length_set]; omega
  unfold iastore
  simp only [e1, e2, e3, rd_eq h3, rd_eq h2, rd_eq h1, ok_bind, heap_get, if_pos href, harr,
    wr_int, if_pos hi0, wr_eq v hi1, wr_eq 0 w1, wr_eq 0 w2, wr_eq 0 w3, pure_eq_ok]

/-- The function `iaload` on a handle of the heap and an index whose slot is
inside the cell. -/
theorem iaload_eq (st : State) (ref idx x : Int) (arr : List Int)
    (hd : 2 ≤ st.stack_p) (hcap : st.stack_p ≤ st.stack.length)
    (hlen : st.stack.length < 18446744073709551616)
    (h2 : st.stack[st.stack_p - 2]? = some ref) (h1 : st.stack[st.stack_p - 1]? = some idx)
    (href : 0 ≤ ref) (harr : st.heap[ref.toNat]? = some arr)
    (hi0 : 0 ≤ to_int32 (idx + 1)) (hx : arr[(to_int32 (idx + 1)).toNat]? = some x) :
    iaload st = .ok { st with
      stack := ((st.stack.set (st.stack_p - 1) 0).set (st.stack_p - 2) 0).set (st.stack_p - 2) x,
      stack_p := st.stack_p - 1 } := by
  have e1 : size_sub st.stack_p 1 = st.stack_p - 1 := size_sub_eq (by omega) (by omega)
  have e2 : size_sub st.stack_p 2 = st.stack_p - 2 := size_sub_eq (by omega) (by omega)
  have e3 : size_add (st.stack_p - 2) 1 = st.stack_p - 1 := by
    rw [size_add_eq (by omega)]; omega
  have w1 : st.stack_p - 1 < st.stack.length := by omega
  have w2 : st.stack_p - 2 < (st.stack.set (st.stack_p - 1) 0).length := by
    simp only [List.length_set]; omega
  have w3 : st.stack_p - 2
      < ((st.stack.set (st.stack_p - 1) 0).set (st.stack_p - 2) 0).length := by
    simp only [List.length_set]; omega
  unfold iaload
  simp only [e1, e2, e3, rd_eq h2, rd_eq h1, ok_bind, heap_get, if_pos href, harr,
    rd_int, if_pos hi0, rd_eq hx, wr_eq 0 w1, wr_eq 0 w2, wr_eq x w3, pure_eq_ok]

/-- An access of `iaload` or `iastore` whose slot lies outside the cell has no
defined result. -/
theorem array_access_outside (idx : Int) (arr : List Int)
    (hout : to_int32 (idx + 1) < 0 ∨ arr.length ≤ (to_int32 (idx + 1)).toNat) :
    (∀ v, wr_int arr (to_int32 (idx + 1)) v = .error .undefined) ∧
    rd_int arr (to_int32 (idx + 1)) = .error .undefined := by
  constructor
  · intro v
    unfold wr_int wr
    rcases hout with h | h
    · rw [if_neg (by omega)]
    · by_cases h0 : 0 ≤ to_int32 (idx + 1)
      · rw [if_pos h0, if_neg (by omega)]
      · rw [if_neg h0]
  · unfold rd_int rd
    rcases hout with h | h
    · rw [if_neg (by omega)]
    · by_cases h0 : 0 ≤ to_int32 (idx + 1)
      · rw [if_pos h0, List.getElem?_eq_none h]
      · rw [if_neg h0]

/-- C9 (as the code behaves): for every length `N` with `1 ≤ N ≤ 2^31 - 2`,
index `i` with `0 ≤ i < N` and value `v`: `newarray` on `N` leaves a handle;
`iastore` on that handle, `i` and `v` succeeds; and `iaload` on the same
handle and `i` afterwards pushes `v`. -/
theorem array_round_trip (st0 : State) (N i v : Int)
    (hN1 : 1 ≤ N) (hN2 : N ≤ 2147483646) (hi0 : 0 ≤ i) (hi1 : i < N)
    (hd0 : 1 ≤ st0.stack_p) (hcap0 : st0.stack_p ≤ st0.stack.length)
    (hlen0 : st0.stack.length < 18446744073709551616)
    (htop : st0.stack[st0.stack_p - 1]? = some N) (hheap : st0.heap.length < 2147483648)
    (hpc : st0.pc + 1 < 18446744073709551616) :
    ∃ st1 h, newarray st0 = .ok st1 ∧ st1.stack_p = st0.stack_p ∧
      st1.stack[st0.stack_p - 1]? = some h ∧
      ∀ st2 : State, st2.heap = st1.heap → 3 ≤ st2.stack_p →
        st2.stack_p ≤ st2.stack.length → st2.stack.length < 18446744073709551616 →
        st2.stack[st2.stack_p - 3]? = some h → st2.stack[st2.stack_p - 2]? = some i →
        st2.stack[st2.stack_p - 1]? = some v →
        ∃ st3, iastore st2 = .ok st3 ∧ st3.stack_p = st2.stack_p - 3 ∧
          ∀ st4 : State, st4.heap = st3.heap → 2 ≤ st4.stack_p →
            st4.stack_p ≤ st4.stack.length → st4.stack.length < 18446744073709551616 →
            st4.stack[st4.stack_p - 2]? = some h → st4.stack[st4.stack_p - 1]? = some i →
            ∃ st5, iaload st4 = .ok st5 ∧ st5.stack_p = st4.stack_p - 1 ∧
              st5.stack[st4.stack_p - 2]? = some v := by
  have hi : st0.stack_p - 1 < st0.stack.length := by omega
  have e1 : to_int32 (i + 1) = i + 1 := to_int32_id (by unfold is_int32; omega)
  have hcell : (st0.heap ++ [N :: List.replicate N.toNat 0])[st0.heap.length]?
      = some (N :: List.replicate N.toNat 0) := by simp
  have hslot : (i + 1).toNat < (N :: List.replicate N.toNat 0).length := by
    simp only [List.length_cons, List.length_replicate]; omega
  refine ⟨_, (st0.heap.length : Int),
    newarray_eq st0 N (by omega) hN2 hd0 hcap0 hlen0 htop hheap hpc, rfl,
    get_set_eq _ _ _ hi, ?_⟩
  intro st2 hh2 hd2 hcap2 hlen2 h3 h2 h1
  have harr2 : st2.heap[((st0.heap.length : Int)).toNat]?
      = some (N :: List.replicate N.toNat 0) := by
    rw [hh2, Int.toNat_ofNat]; exact hcell
  refine ⟨_, iastore_eq st2 _ i v _ hd2 hcap2 hlen2 h3 h2 h1 (by omega) harr2
    (by omega) (by rw [e1]; exact hslot), rfl, ?_⟩
  intro st4 hh4 hd4 hcap4 hlen4 g2 g1
  have hlt : ((st0.heap.length : Int)).toNat < st2.heap.length := by
    rw [hh2, Int.toNat_ofNat]; simp
  have harr4 : st4.heap[((st0.heap.length : Int)).toNat]?
      = some ((N :: List.replicate N.toNat 0).set (to_int32 (i + 1)).toNat v) := by
    rw [hh4]
    show (st2.heap.set _ _)[_]? = _
    rw [List.getElem?_set, if_pos rfl, if_pos hlt]
  have hx : ((N :: List.replicate N.toNat 0).set (to_int32 (i + 1)).toNat v)[
      (to_int32 (i + 1)).toNat]? = some v := by
    rw [e1]; exact get_set_eq _ _ _ hslot
  have w2 : st4.stack_p - 2 < ((st4.stack.set (st4.stack_p - 1) 0).set (st4.stack_p - 2) 0).length := by
    simp only [List.length_set]; omega
  exact ⟨_, iaload_eq st4 _ i v _ hd4 hcap4 hlen4 g2 g1 (by omega) harr4 (by omega) hx, rfl,
    get_set_eq _ _ _ w2⟩

/-- C9 at the input of the claim: `N = 5`, `i = 3`, `v = 42`. -/
theorem array_round_trip_witness :
    ∃ st1 h, newarray (state_of [5] 0) = .ok st1 ∧ st1.stack[0]? = some h ∧
      ∃ st3, iastore { st1 with stack := [h, 3, 42], stack_p := 3 } = .ok st3 ∧
        ∃ st5, iaload { st3 with stack := [h, 3], stack_p := 2 } = .ok st5 ∧
          st5.stack_p = 1 ∧ st5.stack[0]? = some 42 := by
  obtain ⟨st1, h, h1, _, h3, hrest⟩ :=
    array_round_trip (state_of [5] 0) 5 3 42 (by decide) (by decide) (by decide) (by decide)
      (by decide) (by decide) (by decide) rfl (by decide) (by decide)
  obtain ⟨st3, g1, _, hrest2⟩ :=
    hrest { st1 with stack := [h, 3, 42], stack_p := 3 } rfl (by simp) (by simp)
      (by simp) rfl rfl rfl
  obtain ⟨st5, k1, k2, k3⟩ :=
    hrest2 { st3 with stack := [h, 3], stack_p := 2 } rfl (by simp) (by simp)
      (by simp) rfl rfl
  exact ⟨st1, h, h1, h3, st3, g1, st5, k1, k2, k3⟩

/-- C9 fails as stated at `N = 2147483647`: `N + 1` wraps to a negative
count, `malloc` returns the null pointer and the write of the length has no
defined result; `ldc <2147483647>; newarray; return` does not complete. -/
theorem array_round_trip_counterexample :
    malloc_int32 (to_int32 (2147483647 + 1)) = none ∧
    value_of (execute 5 (method_of [18, 1, 188, 10, 177]) [0, 0] int_max_class [] [])
      = .error .undefined := by
  decide

/-- The function `iaload` on an index whose slot lies outside the cell. -/
theorem iaload_outside (st : State) (ref idx : Int) (arr : List Int)
    (hd : 2 ≤ st.stack_p) (hcap : st.stack_p ≤ st.stack.length)
    (hlen : st.stack.length < 18446744073709551616)
    (h2 : st.stack[st.stack_p - 2]? = some ref) (h1 : st.stack[st.stack_p - 1]? = some idx)
    (href : 0 ≤ ref) (harr : st.heap[ref.toNat]? = some arr)
    (hout : to_int32 (idx + 1) < 0 ∨ arr.length ≤ (to_int32 (idx + 1)).toNat) :
    iaload st = .error .undefined := by
  have e1 : size_sub st.stack_p 1 = st.stack_p - 1 := size_sub_eq (by omega) (by omega)
  have e2 : size_sub st.stack_p 2 = st.stack_p - 2 := size_sub_eq (by omega) (by omega)
  unfold iaload
  simp only [e1, e2, rd_eq h2, rd_eq h1, ok_bind, heap_get, if_pos href, harr,
    (array_access_outside idx arr hout).2, error_bind]

/-- The function `iastore` on an index whose slot lies outside the cell. -/
theorem iastore_outside (st : State) (ref idx v : Int) (arr : List Int)
    (hd : 3 ≤ st.stack_p) (hcap : st.stack_p ≤ st.stack.length)
    (hlen : st.stack.length < 18446744073709551616)
    (h3 : st.stack[st.stack_p - 3]? = some ref) (h2 : st.stack[st.stack_p - 2]? = some idx)
    (h1 : st.stack[st.stack_p - 1]? = some v)
    (href : 0 ≤ ref) (harr : st.heap[ref.toNat]? = some arr)
    (hout : to_int32 (idx + 1) < 0 ∨ arr.length ≤ (to_int32 (idx + 1)).toNat) :
    iastore st = .error .undefined := by
  have e1 : size_sub st.stack_p 1 = st.stack_p - 1 := size_sub_eq (by omega) (by omega)
  have e2 : size_sub st.stack_p 2 = st.stack_p - 2 := size_sub_eq (by omega) (by omega)
  have e3 : size_sub st.stack_p 3 = st.stack_p - 3 := size_sub_eq (by omega) (by omega)
  unfold iastore
  simp only [e1, e2, e3, rd_eq h3, rd_eq h2, rd_eq h1, ok_bind, heap_get, if_pos href, harr,
    (array_access_outside idx arr hout).1 v, error_bind]

/-- An index below -1 or from the stored length up addresses a slot outside a
cell of `N + 1` slots. -/
theorem index_outside (i N : Int) (arr : List Int) (hi : is_int32 i) (hN : 0 ≤ N)
    (hlen : arr.length = N.toNat + 1) (hout : i < -1 ∨ N ≤ i) :
    to_int32 (i + 1) < 0 ∨ arr.length ≤ (to_int32 (i + 1)).toNat := by
  unfold is_int32 at hi
  unfold to_int32
  omega

/-- C10 (as the code behaves): `iaload` and `iastore` make no bounds check and
raise no IndexOutOfBounds error. For a cell of stored length `N` (`N + 1`
slots): with index -1 they address slot 0, so `iaload` pushes the stored
length and `iastore` overwrites it with the value; with an index below -1 or
from `N` up the slot is outside the cell and the access has no defined
result. -/
theorem array_index_unchecked (ref i N : Int) (arr : List Int)
    (href : 0 ≤ ref) (hi : is_int32 i) (hN : 0 ≤ N) (hlen : arr.length = N.toNat + 1)
    (hstored : arr[0]? = some N) :
    (∀ st : State, st.heap[ref.toNat]? = some arr → 2 ≤ st.stack_p →
      st.stack_p ≤ st.stack.length → st.stack.length < 18446744073709551616 →
      st.stack[st.stack_p - 2]? = some ref → st.stack[st.stack_p - 1]? = some i →
      (i = -1 → ∃ st1, iaload st = .ok st1 ∧ st1.stack_p = st.stack_p - 1 ∧
        st1.stack[st.stack_p - 2]? = some N ∧ st1.heap = st.heap) ∧
      ((i < -1 ∨ N ≤ i) → iaload st = .error .undefined)) ∧
    (∀ (st : State) (v : Int), st.heap[ref.toNat]? = some arr → 3 ≤ st.stack_p →
      st.stack_p ≤ st.stack.length → st.stack.length < 18446744073709551616 →
      st.stack[st.stack_p - 3]? = some ref → st.stack[st.stack_p - 2]? = some i →
      st.stack[st.stack_p - 1]? = some v →
      (i = -1 → ∃ st1, iastore st = .ok st1 ∧ st1.stack_p = st.stack_p - 3 ∧
        st1.heap[ref.toNat]? = some (arr.set 0 v)) ∧
      ((i < -1 ∨ N ≤ i) → iastore st = .error .undefined)) := by
  have hz : to_int32 (-1 + 1) = 0 := by decide
  have hpos : (0 : Nat) < arr.length := by omega
  constructor
  · intro st harr hd hcap hlen2 h2 h1
    constructor
    · intro hm
      subst hm
      have w2 : st.stack_p - 2
          < ((st.stack.set (st.stack_p - 1) 0).set (st.stack_p - 2) 0).length := by
        simp only [List.length_set]; omega
      exact ⟨_, iaload_eq st ref (-1) N arr hd hcap hlen2 h2 h1 href harr
        (by rw [hz]) (by rw [hz]; exact hstored), rfl, get_set_eq _ _ _ w2, rfl⟩
    · intro hout
      exact iaload_outside st ref i arr hd hcap hlen2 h2 h1 href harr
        (index_outside i N arr hi hN hlen hout)
  · intro st v harr hd hcap hlen2 h3 h2 h1
    constructor
    · intro hm
      subst hm
      have hlt : ref.toNat < st.heap.length := lt_length_of_getElem? harr
      refine ⟨_, iastore_eq st ref (-1) v arr hd hcap hlen2 h3 h2 h1 href harr
        (by rw [hz]) (by rw [hz]; exact hpos), rfl, ?_⟩
      show (st.heap.set ref.toNat (arr.set (to_int32 (-1 + 1)).toNat v))[ref.toNat]? = _
      rw [List.getElem?_set, if_pos rfl, if_pos hlt, hz]
      rfl
    · intro hout
      exact iastore_outside st ref i v arr hd hcap hlen2 h3 h2 h1 href harr
        (index_outside i N arr hi hN hlen hout)

/-- C10 at the input of the claim: a cell of stored length 5, index 5. -/
theorem array_index_unchecked_witness :
    iaload (array_state [0, 5]) = .error .undefined ∧
    iastore (array_state [0, 5, 42]) = .error .undefined := by
  have h := array_index_unchecked 0 5 5 [5, 10, 20, 30, 40, 50] (by decide) (by decide)
    (by decide) rfl rfl
  exact ⟨(h.1 (array_state [0, 5]) rfl (by decide) (by decide) (by decide) rfl rfl).2
      (Or.inr (by decide)),
    (h.2 (array_state [0, 5, 42]) 42 rfl (by decide) (by decide) (by decide) rfl rfl rfl).2
      (Or.inr (by decide))⟩

/-- C10 fails as stated at `N = 5`, `i = -1`: `iaload` raises no error and
returns the stored length 5, and `iastore` raises no error and changes the
heap, replacing the stored length by the value 42. -/
theorem array_index_counterexample :
    value_of (run 3 empty_class (method_of [46, 172]) (array_state [0, -1]))
      = .ok { has_value := true, value := 5 } ∧
    (iastore (array_state [0, -1, 42])).toOption.map (fun st => st.heap)
      = some [[42, 10, 20, 30, 40, 50]] := by
  decide

/-! ## Array creation and length -/

/-- Writing back the value a slot already holds changes nothing. -/
theorem set_self (xs : List Int) (i : Nat) (v : Int) (h : xs[i]? = some v) :
    xs.set i v = xs := by
  apply List.ext_getElem?
  intro j
  by_cases hj : i = j
  · subst hj
    rw [get_set_eq _ _ _ (lt_length_of_getElem? h), h]
  · rw [get_set_ne _ _ _ _ hj]

/-- Two writes to one slot: the second one stays. -/
theorem set_set_same (xs : List Int) (i : Nat) (u v : Int) :
    (xs.set i u).set i v = xs.set i v := by
  apply List.ext_getElem?
  intro j
  by_cases hj : i = j
  · subst hj
    by_cases hi : i < xs.length
    · rw [get_set_eq _ _ _ (by simpa using hi), get_set_eq _ _ _ hi]
    · rw [List.getElem?_eq_none (by simp; omega), List.getElem?_eq_none (by simp; omega)]
  · rw [get_set_ne _ _ _ _ hj, get_set_ne _ _ _ _ hj, get_set_ne _ _ _ _ hj]

/-- The arm `case i_newarray` of the dispatch switch. -/
theorem dispatch_newarray (call : method_t → List Int → heap_t → List Int →
      Except Fault (optional_value_t × State)) (cls : class_file_t) (m : method_t)
    (st : State) :
    dispatch call cls m i_newarray st = Outcome.next <$> newarray st := by
  simp [dispatch]

/-- The arm `case i_arraylength` of the dispatch switch. -/
theorem dispatch_arraylength (call : method_t → List Int → heap_t → List Int →
      Except Fault (optional_value_t × State)) (cls : class_file_t) (m : method_t)
    (st : State) :
    dispatch call cls m i_arraylength st = Outcome.next <$> arraylength st := by
  simp [dispatch]

/-- The function `arraylength` on a handle of the heap. -/
theorem arraylength_eq (st : State) (ref n : Int) (arr : List Int)
    (hd : 1 ≤ st.stack_p) (hcap : st.stack_p ≤ st.stack.length)
    (hlen : st.stack.length < 18446744073709551616)
    (h1 : st.stack[st.stack_p - 1]? = some ref)
    (href : 0 ≤ ref) (harr : st.heap[ref.toNat]? = some arr) (hn : arr[0]? = some n) :
    arraylength st = .ok { st with stack := st.stack.set (st.stack_p - 1) n } := by
  have e1 : size_sub st.stack_p 1 = st.stack_p - 1 := size_sub_eq hd (by omega)
  have w1 : st.stack_p - 1 < st.stack.length := by omega
  unfold arraylength
  simp only [e1, rd_eq h1, ok_bind, heap_get, if_pos href, harr, rd_int, le_refl, if_true,
    Int.toNat_zero, rd_eq hn, wr_eq n w1, pure_eq_ok]

/-- A pass of the loop at `newarray` for a length in `[0, 2^31 - 2]`. -/
theorem step_newarray (fuel : Nat) (cls : class_file_t) (m : method_t) (st : State)
    (c : Fin 256) (n : Int)
    (hc : m.code[st.pc]? = some c) (hop : c.val = i_newarray)
    (hcl : m.code.length < 4294967296)
    (h0 : 0 ≤ n) (h1 : n ≤ 2147483646)
    (hd : 1 ≤ st.stack_p) (hcap : st.stack_p ≤ st.stack.length)
    (hlen : st.stack.length < 18446744073709551616)
    (htop : st.stack[st.stack_p - 1]? = some n) (hheap : st.heap.length < 2147483648) :
    step fuel cls m st = .ok (Outcome.next { st with
      stack := st.stack.set (st.stack_p - 1) (st.heap.length : Int),
      heap := st.heap ++ [n :: List.replicate n.toNat 0],
      pc := st.pc + 2 }) := by
  have hpc := lt_length_of_getElem? hc
  have e2 : size_add (st.pc + 1) 1 = st.pc + 2 := size_add_eq (by omega)
  have hdis := dispatch_newarray (fun nm nl h o => run fuel cls nm (init_state nm nl h o))
    cls m st
  rw [newarray_eq st n h0 h1 hd hcap hlen htop hheap (by omega), ← hop] at hdis
  rw [step_of_dispatch_next hc hdis]
  show Except.ok (Outcome.next { st with
      stack := st.stack.set (st.stack_p - 1) (st.heap.length : Int),
      heap := st.heap ++ [n :: List.replicate n.toNat 0],
      pc := size_add (st.pc + 1) 1 }) = _
  rw [e2]

/-- A pass of the loop at `arraylength` on a handle of the heap. -/
theorem step_arraylength (fuel : Nat) (cls : class_file_t) (m : method_t) (st : State)
    (c : Fin 256) (ref n : Int) (arr : List Int)
    (hc : m.code[st.pc]? = some c) (hop : c.val = i_arraylength)
    (hcl : m.code.length < 4294967296)
    (hd : 1 ≤ st.stack_p) (hcap : st.stack_p ≤ st.stack.length)
    (hlen : st.stack.length < 18446744073709551616)
    (h1 : st.stack[st.stack_p - 1]? = some ref)
    (href : 0 ≤ ref) (harr : st.heap[ref.toNat]? = some arr) (hn : arr[0]? = some n) :
    step fuel cls m st = .ok (Outcome.next { st with
      stack := st.stack.set (st.stack_p - 1) n, pc := st.pc + 1 }) := by
  have hpc := lt_length_of_getElem? hc
  have e2 : size_add st.pc 1 = st.pc + 1 := size_add_eq (by omega)
  have hdis := dispatch_arraylength (fun nm nl h o => run fuel cls nm (init_state nm nl h o))
    cls m st
  rw [arraylength_eq st ref n arr hd hcap hlen h1 href harr hn, ← hop] at hdis
  rw [step_of_dispatch_next hc hdis]
  show Except.ok (Outcome.next { st with
      stack := st.stack.set (st.stack_p - 1) n, pc := size_add st.pc 1 }) = _
  rw [e2]

/-- C11 (as the code behaves): for every `N` with `0 ≤ N ≤ 2^31 - 2`, the
passes of the loop at `newarray` with `N` on top of the stack and at the
`arraylength` that follows leave `N` on top of the stack again; the stack and
its depth are as before `newarray`, and the loop goes on after both. -/
theorem newarray_arraylength (fuel : Nat) (cls : class_file_t) (m : method_t) (st : State)
    (c1 c2 : Fin 256) (N : Int)
    (hc1 : m.code[st.pc]? = some c1) (hop1 : c1.val = i_newarray)
    (hc2 : m.code[st.pc + 2]? = some c2) (hop2 : c2.val = i_arraylength)
    (hcl : m.code.length < 4294967296)
    (hN0 : 0 ≤ N) (hN1 : N ≤ 2147483646)
    (hd : 1 ≤ st.stack_p) (hcap : st.stack_p ≤ st.stack.length)
    (hlen : st.stack.length < 18446744073709551616)
    (htop : st.stack[st.stack_p - 1]? = some N) (hheap : st.heap.length < 2147483648) :
    ∃ st1 st2, step (fuel + 1) cls m st = .ok (Outcome.next st1) ∧
      step fuel cls m st1 = .ok (Outcome.next st2) ∧
      run (fuel + 2) cls m st = run fuel cls m st2 ∧
      st2.stack_p = st.stack_p ∧ st2.stack[st.stack_p - 1]? = some N ∧
      st2.stack = st.stack ∧ st2.locals = st.locals ∧ st2.pc = st.pc + 3 := by
  have hpc1 := lt_length_of_getElem? hc1
  have hpc2 := lt_length_of_getElem? hc2
  have w1 : st.stack_p - 1 < st.stack.length := by omega
  have s1 := step_newarray (fuel + 1) cls m st c1 N hc1 hop1 hcl hN0 hN1 hd hcap hlen htop hheap
  have s2 := step_arraylength fuel cls m
    { st with
      stack := st.stack.set (st.stack_p - 1) (st.heap.length : Int),
      heap := st.heap ++ [N :: List.replicate N.toNat 0],
      pc := st.pc + 2 }
    c2 (st.heap.length : Int) N (N :: List.replicate N.toNat 0) hc2 hop2 hcl hd
    (by simpa using hcap) (by simpa using hlen) (get_set_eq _ _ _ w1) (by omega)
    (by simp) (cons_get_zero _ _)
  have hstack : (st.stack.set (st.stack_p - 1) (st.heap.length : Int)).set (st.stack_p - 1) N
      = st.stack := by
    rw [set_set_same, set_self _ _ _ htop]
  refine ⟨_, _, s1, s2, ?_, rfl, ?_, hstack, rfl, rfl⟩
  · rw [run_of_step_next hpc1 s1, run_of_step_next hpc2 s2]
  · show ((st.stack.set (st.stack_p - 1) (st.heap.length : Int)).set (st.stack_p - 1) N)[
      st.stack_p - 1]? = some N
    rw [hstack, htop]

/-- C11 at the input of the claim: `N = 5` (`newarray 10; arraylength`). -/
theorem newarray_arraylength_witness :
    ∃ st1 st2, step (0 + 1) empty_class (method_of [188, 10, 190, 172]) (state_of [5] 0)
        = .ok (Outcome.next st1) ∧
      step 0 empty_class (method_of [188, 10, 190, 172]) st1 = .ok (Outcome.next st2) ∧
      st2.stack_p = 1 ∧ st2.stack[0]? = some 5 := by
  obtain ⟨st1, st2, h1, h2, _, h4, h5, _⟩ :=
    newarray_arraylength 0 empty_class (method_of [188, 10, 190, 172]) (state_of [5] 0)
      188 190 5 rfl rfl rfl rfl (by decide) (by decide) (by decide) (by decide) (by decide)
      (by decide) rfl (by decide)
  exact ⟨st1, st2, h1, h2, h4, h5⟩

/-- C11 fails as stated at `N = 2147483647`: `ldc <2147483647>; newarray;
arraylength; ireturn` does not return 2147483647; `newarray` has no defined
result because the slot count `N + 1` wraps to a negative number. -/
theorem newarray_arraylength_counterexample :
    value_of (execute 5 (method_of [18, 1, 188, 10, 190, 172]) [0, 0] int_max_class [] [])
      = .error .undefined := by
  decide

/-- C12 (as the code behaves): for every `N` with `0 ≤ N ≤ 2^31 - 2`,
`newarray` on `N` adds to the heap exactly one cell, of `N + 1` slots, whose
slot 0 holds `N` and whose slots `1..N` hold 0, and leaves its handle on the
stack; `iaload` on that handle at any index `i` in `[0, N)` pushes 0. -/
theorem newarray_fresh_cell (st : State) (N : Int)
    (hN0 : 0 ≤ N) (hN1 : N ≤ 2147483646)
    (hd : 1 ≤ st.stack_p) (hcap : st.stack_p ≤ st.stack.length)
    (hlen : st.stack.length < 18446744073709551616)
    (htop : st.stack[st.stack_p - 1]? = some N) (hheap : st.heap.length < 2147483648)
    (hpc : st.pc + 1 < 18446744073709551616) :
    ∃ st1 cell, newarray st = .ok st1 ∧ st1.heap = st.heap ++ [cell] ∧
      st1.stack[st.stack_p - 1]? = some (st.heap.length : Int) ∧
      cell.length = N.toNat + 1 ∧ cell[0]? = some N ∧
      (∀ j, 1 ≤ j → j ≤ N.toNat → cell[j]? = some 0) ∧
      ∀ (st2 : State) (i : Int), st2.heap = st1.heap → 0 ≤ i → i < N →
        2 ≤ st2.stack_p → st2.stack_p ≤ st2.stack.length →
        st2.stack.length < 18446744073709551616 →
        st2.stack[st2.stack_p - 2]? = some (st.heap.length : Int) →
        st2.stack[st2.stack_p - 1]? = some i →
        ∃ st3, iaload st2 = .ok st3 ∧ st3.stack_p = st2.stack_p - 1 ∧
          st3.stack[st2.stack_p - 2]? = some 0 := by
  have w1 : st.stack_p - 1 < st.stack.length := by omega
  have hzero : ∀ j, 1 ≤ j → j ≤ N.toNat → (N :: List.replicate N.toNat 0)[j]? = some 0 := by
    intro j h1 h2
    obtain ⟨j1, rfl⟩ : ∃ j1, j = j1 + 1 := ⟨j - 1, by omega⟩
    have hj1 : j1 < N.toNat := by omega
    simp [List.getElem?_replicate, hj1]
  refine ⟨_, N :: List.replicate N.toNat 0,
    newarray_eq st N hN0 hN1 hd hcap hlen htop hheap hpc, rfl, get_set_eq _ _ _ w1,
    by simp, cons_get_zero _ _, hzero, ?_⟩
  intro st2 i hh2 hi0 hi1 hd2 hcap2 hlen2 g2 g1
  have e1 : to_int32 (i + 1) = i + 1 := to_int32_id (by unfold is_int32; omega)
  have harr : st2.heap[((st.heap.length : Int)).toNat]?
      = some (N :: List.replicate N.toNat 0) := by
    rw [hh2, Int.toNat_ofNat]
    show (st.heap ++ [N :: List.replicate N.toNat 0])[st.heap.length]? = _
    simp
  have hx : (N :: List.replicate N.toNat 0)[(to_int32 (i + 1)).toNat]? = some 0 := by
    rw [e1]
    exact hzero _ (by omega) (by omega)
  have w2 : st2.stack_p - 2
      < ((st2.stack.set (st2.stack_p - 1) 0).set (st2.stack_p - 2) 0).length := by
    simp only [List.length_set]; omega
  exact ⟨_, iaload_eq st2 _ i 0 _ hd2 hcap2 hlen2 g2 g1 (by omega) harr (by omega) hx, rfl,
    get_set_eq _ _ _ w2⟩

/-- C12 at a concrete input: `N = 5`, read back at `i = 4`. -/
theorem newarray_fresh_cell_witness :
    ∃ st1 cell, newarray (state_of [5] 0) = .ok st1 ∧ st1.heap = [cell] ∧
      cell.length = 6 ∧ cell[0]? = some 5 ∧ cell[5]? = some 0 ∧
      ∃ st3, iaload { st1 with stack := [0, 4], stack_p := 2 } = .ok st3 ∧
        st3.stack_p = 1 ∧ st3.stack[0]? = some 0 := by
  obtain ⟨st1, cell, h1, h2, _, h4, h5, h6, h7⟩ :=
    newarray_fresh_cell (state_of [5] 0) 5 (by decide) (by decide) (by decide) (by decide)
      (by decide) rfl (by decide) (by decide)
  obtain ⟨st3, k1, k2, k3⟩ :=
    h7 { st1 with stack := [0, 4], stack_p := 2 } 4 rfl (by decide) (by decide) (by simp)
      (by simp) (by simp) rfl rfl
  exact ⟨st1, cell, h1, h2, h4, h5, h6 5 (by decide) (by decide), st3, k1, k2, k3⟩

/-- C12 fails as stated at `N = 2147483647`: the slot count `N + 1` wraps to
-2147483648, `malloc` returns the null pointer, and `newarray` adds no cell
to the heap. -/
theorem newarray_fresh_cell_counterexample :
    to_int32 (2147483647 + 1) = -2147483648 ∧
    (newarray (state_of [2147483647] 0)).toOption.map (fun st => st.heap) = none := by
  decide

/-! ## Returning from a method -/

theorem bind_eq_ok {α β : Type} {x : Except Fault α} {f : α → Except Fault β} {b : β}
    (h : (x >>= f) = .ok b) : ∃ a, x = .ok a ∧ f a = .ok b := by
  cases x with
  | error e => simp at h
  | ok a => exact ⟨a, rfl, h⟩

theorem map_next_ne_done {x : Except Fault State} {r : optional_value_t} {s : State}
    (h : (Outcome.next <$> x) = .ok (Outcome.done r s)) : False := by
  cases x with
  | error e => simp at h
  | ok a => simp at h

/-- The only arms of the dispatch switch that return from `execute` are those
of `ireturn`, `areturn` and `return`; they leave the state as it is. -/
theorem dispatch_done (call : method_t → List Int → heap_t → List Int →
      Except Fault (optional_value_t × State)) (cls : class_file_t) (m : method_t)
    (op : Nat) (st st1 : State) (r : optional_value_t)
    (h : dispatch call cls m op st = .ok (Outcome.done r st1)) :
    st1 = st ∧ (op = i_areturn ∨ op = i_ireturn ∨ op = i_return) ∧
      (op = i_return → r = { has_value := false, value := 0 }) := by
  unfold dispatch at h
  by_cases c1 : i_iadd ≤ op ∧ op ≤ i_ixor
  · rw [if_pos c1] at h
    exact (map_next_ne_done h).elim
  rw [if_neg c1] at h
  by_cases c2 : op = i_bipush
  · rw [if_pos c2] at h
    exact (map_next_ne_done h).elim
  rw [if_neg c2] at h
  by_cases c3 : op = i_getstatic
  · rw [if_pos c3] at h
    exact (map_next_ne_done h).elim
  rw [if_neg c3] at h
  by_cases c4 : op = i_invokevirtual
  · rw [if_pos c4] at h
    exact (map_next_ne_done h).elim
  rw [if_neg c4] at h
  by_cases c5 : i_iconst_m1 ≤ op ∧ op ≤ i_iconst_5
  · rw [if_pos c5] at h
    exact (map_next_ne_done h).elim
  rw [if_neg c5] at h
  by_cases c6 : op = i_sipush
  · rw [if_pos c6] at h
    exact (map_next_ne_done h).elim
  rw [if_neg c6] at h
  by_cases c7 : op = i_iload
  · rw [if_pos c7] at h
    exact (map_next_ne_done h).elim
  rw [if_neg c7] at h
  by_cases c8 : op = i_istore
  · rw [if_pos c8] at h
    exact (map_next_ne_done h).elim
  rw [if_neg c8] at h
  by_cases c9 : op = i_iinc
  · rw [if_pos c9] at h
    exact (map_next_ne_done h).elim
  rw [if_neg c9] at h
  by_cases c10 : i_iload_0 ≤ op ∧ op ≤ i_iload_3
  · rw [if_pos c10] at h
    exact (map_next_ne_done h).elim
  rw [if_neg c10] at h
  by_cases c11 : i_istore_0 ≤ op ∧ op ≤ i_istore_3
  · rw [if_pos c11] at h
    exact (map_next_ne_done h).elim
  rw [if_neg c11] at h
  by_cases c12 : op = i_ldc
  · rw [if_pos c12] at h
    exact (map_next_ne_done h).elim
  rw [if_neg c12] at h
  by_cases c13 : i_ifeq ≤ op ∧ op ≤ i_if_icmple
  · rw [if_pos c13] at h
    exact (map_next_ne_done h).elim
  rw [if_neg c13] at h
  by_cases c14 : op = i_goto
  · rw [if_pos c14] at h
    exact (map_next_ne_done h).elim
  rw [if_neg c14] at h
  by_cases c15 : op = i_invokestatic
  · rw [if_pos c15] at h
    obtain ⟨a, _, h⟩ := bind_eq_ok h
    obtain ⟨b, _, h⟩ := bind_eq_ok h
    exact (map_next_ne_done h).elim
  rw [if_neg c15] at h
  by_cases c16 : op = i_nop
  · rw [if_pos c16] at h
    simp at h
  rw [if_neg c16] at h
  by_cases c17 : op = i_dup
  · rw [if_pos c17] at h
    exact (map_next_ne_done h).elim
  rw [if_neg c17] at h
  by_cases c18 : op = i_newarray
  · rw [if_pos c18] at h
    exact (map_next_ne_done h).elim
  rw [if_neg c18] at h
  by_cases c19 : op = i_arraylength
  · rw [if_pos c19] at h
    exact (map_next_ne_done h).elim
  rw [if_neg c19] at h
  by_cases c20 : op = i_iastore
  · rw [if_pos c20] at h
    exact (map_next_ne_done h).elim
  rw [if_neg c20] at h
  by_cases c21 : op = i_iaload
  · rw [if_pos c21] at h
    exact (map_next_ne_done h).elim
  rw [if_neg c21] at h
  by_cases c22 : op = i_aload
  · rw [if_pos c22] at h
    exact (map_next_ne_done h).elim
  rw [if_neg c22] at h
  by_cases c23 : op = i_astore
  · rw [if_pos c23] at h
    exact (map_next_ne_done h).elim
  rw [if_neg c23] at h
  by_cases c24 : i_aload_0 ≤ op ∧ op ≤ i_aload_3
  · rw [if_pos c24] at h
    exact (map_next_ne_done h).elim
  rw [if_neg c24] at h
  by_cases c25 : i_astore_0 ≤ op ∧ op ≤ i_astore_3
  · rw [if_pos c25] at h
    exact (map_next_ne_done h).elim
  rw [if_neg c25] at h
  by_cases c26 : op = i_areturn ∨ op = i_ireturn
  · rw [if_pos c26] at h
    obtain ⟨v, _, h⟩ := bind_eq_ok h
    simp only [pure_eq_ok, Except.ok.injEq, Outcome.done.injEq] at h
    refine ⟨h.2.symm, ?_, ?_⟩
    · rcases c26 with c | c
      · exact Or.inl c
      · exact Or.inr (Or.inl c)
    · intro hr
      rcases c26 with c | c <;> rw [c] at hr <;> exact absurd hr (by decide)
  rw [if_neg c26] at h
  by_cases c27 : op = i_return
  · rw [if_pos c27] at h
    simp only [pure_eq_ok, Except.ok.injEq, Outcome.done.injEq] at h
    exact ⟨h.2.symm, Or.inr (Or.inr c27), fun _ => h.1.symm⟩
  rw [if_neg c27] at h
  simp at h

/-- The arm `case i_return` of the dispatch switch. -/
theorem dispatch_return (call : method_t → List Int → heap_t → List Int →
      Except Fault (optional_value_t × State)) (cls : class_file_t) (m : method_t)
    (st : State) :
    dispatch call cls m i_return st
      = .ok (Outcome.done { has_value := false, value := 0 } st) := by
  simp [dispatch]

/-- The loop of `execute` entered with `pc` at or past `code_length` returns
the initial `result`. -/
theorem run_at_end (fuel : Nat) (cls : class_file_t) (m : method_t) (st : State)
    (h : m.code.length ≤ st.pc) :
    run (fuel + 1) cls m st = .ok ({ has_value := false, value := 0 }, st) := by
  rw [run, if_neg (by omega)]

/-- A run that ends with `pc` at or past `code_length` returns no value. -/
theorem run_past_end (cls : class_file_t) (m : method_t) (fuel : Nat) :
    ∀ (st st1 : State) (r : optional_value_t), run fuel cls m st = .ok (r, st1) →
      m.code.length ≤ st1.pc → r = { has_value := false, value := 0 } := by
  induction fuel with
  | zero =>
    intro st st1 r h _
    simp [run] at h
  | succ fuel ih =>
    intro st st1 r h hpc
    rw [run] at h
    by_cases hlt : st.pc < m.code.length
    · rw [if_pos hlt] at h
      cases hc : code_at m st.pc with
      | error e => simp [hc] at h
      | ok c =>
        simp only [hc] at h
        cases hd : dispatch (fun nm nl h o => run fuel cls nm (init_state nm nl h o))
            cls m c st with
        | error e => simp [hd] at h
        | ok o =>
          cases o with
          | next s =>
            simp only [hd] at h
            exact ih _ st1 r h hpc
          | done r2 s =>
            simp only [hd, Except.ok.injEq, Prod.mk.injEq] at h
            have := (dispatch_done _ cls m c st s r2 hd).1
            rw [← h.2, this] at hpc
            omega
    · rw [if_neg hlt] at h
      simp only [Except.ok.injEq, Prod.mk.injEq] at h
      exact h.1.symm

/-- C13: when the loop of `execute` finds `pc` at or past `code_length`,
`execute` returns `has_value = false`; every run whose final `pc` is at or
past `code_length`, that is, every run that was not ended by ireturn, areturn
or return, returns `has_value = false`; a method with empty bytecode returns
no value. -/
theorem no_return_no_value (cls : class_file_t) (m : method_t) :
    (∀ (fuel : Nat) (st : State), m.code.length ≤ st.pc →
      run (fuel + 1) cls m st = .ok ({ has_value := false, value := 0 }, st)) ∧
    (∀ (fuel : Nat) (st st1 : State) (r : optional_value_t),
      run fuel cls m st = .ok (r, st1) → m.code.length ≤ st1.pc →
      r = { has_value := false, value := 0 }) ∧
    (m.code = [] → ∀ (fuel : Nat) (locals : List Int) (heap : heap_t) (out : List Int),
      execute (fuel + 1) m locals cls heap out
        = .ok ({ has_value := false, value := 0 }, init_state m locals heap out)) := by
  refine ⟨fun fuel st h => run_at_end fuel cls m st h, fun fuel => run_past_end cls m fuel, ?_⟩
  intro hm fuel locals heap out
  exact run_at_end fuel cls m _ (by rw [hm]; simp)

/-- C13 at concrete inputs: the empty method, and `iconst_1` alone, which
pushes 1 and runs off the end, return no value. -/
theorem no_return_no_value_witness :
    execute (0 + 1) (method_of []) [0, 0] empty_class [] []
      = .ok ({ has_value := false, value := 0 }, init_state (method_of []) [0, 0] [] []) ∧
    value_of (execute 2 (method_of [4]) [0, 0] empty_class [] [])
      = .ok { has_value := false, value := 0 } :=
  ⟨(no_return_no_value empty_class (method_of [])).2.2 rfl 0 [0, 0] [] [], by decide⟩

/-- C14: at ireturn or areturn with stack depth at least 1, `execute` returns
at once with `has_value = true` and the top of the operand stack as value; at
return it returns at once with `has_value = false` whatever the stack holds.
No further pass of the loop is made: one unit of fuel is enough and the final
state is the state at the return instruction. -/
theorem return_stops (fuel : Nat) (cls : class_file_t) (m : method_t) (st : State)
    (c : Fin 256) (hc : m.code[st.pc]? = some c) :
    ((c.val = i_ireturn ∨ c.val = i_areturn) → 1 ≤ st.stack_p →
      st.stack_p ≤ st.stack.length → st.stack.length < 18446744073709551616 →
      ∀ v, st.stack[st.stack_p - 1]? = some v →
        run (fuel + 1) cls m st = .ok ({ has_value := true, value := v }, st)) ∧
    (c.val = i_return →
      run (fuel + 1) cls m st = .ok ({ has_value := false, value := 0 }, st)) := by
  have hpc := lt_length_of_getElem? hc
  constructor
  · intro hop hd hcap hlen v hv
    exact run_of_step_done hpc
      (step_ireturn fuel cls m st c v hc (Or.symm hop) hd hlen hcap hv)
  · intro hop
    have hdis := dispatch_return (fun nm nl h o => run fuel cls nm (init_state nm nl h o))
      cls m st
    rw [← hop] at hdis
    exact run_of_step_done hpc (step_of_dispatch_done hc hdis)

/-- C14 at concrete inputs: `ireturn` on the stack `[7, 9]` returns 9 and
`return` on the same stack returns no value, with instructions following. -/
theorem return_stops_witness :
    run (0 + 1) empty_class (method_of [172, 4, 172]) (state_of [7, 9] 0)
      = .ok ({ has_value := true, value := 9 }, state_of [7, 9] 0) ∧
    run (0 + 1) empty_class (method_of [177, 4, 172]) (state_of [7, 9] 0)
      = .ok ({ has_value := false, value := 0 }, state_of [7, 9] 0) :=
  ⟨(return_stops 0 empty_class (method_of [172, 4, 172]) (state_of [7, 9] 0) 172 rfl).1
      (Or.inl rfl) (by decide) (by decide) (by decide) 9 rfl,
    (return_stops 0 empty_class (method_of [177, 4, 172]) (state_of [7, 9] 0) 177 rfl).2 rfl⟩

/-! ## Bytes without an instruction -/

/-- The `switch` of `add_to_xor` leaves `result` at 0 for an opcode without an
arm. -/
theorem add_to_xor_result_default (op : Nat) (a b : Int) (hop : op ∉ arith_opcodes) :
    add_to_xor_result op a b = .ok 0 := by
  simp only [arith_opcodes, List.mem_cons, List.mem_singleton, List.not_mem_nil, or_false,
    not_or] at hop
  obtain ⟨h1, h2, h3, h4, h5, h6, h7, h8, h9, h10, h11, h12⟩ := hop
  unfold add_to_xor_result
  rw [if_neg h1, if_neg h2, if_neg h3, if_neg h4, if_neg h5, if_neg h6, if_neg h7, if_neg h8,
    if_neg h9, if_neg h10, if_neg h11, if_neg h12]

/-- C15 (as the code behaves): a byte between `iadd` = 96 and `ixor` = 130
that is not an arithmetic opcode, such as 0x61 = 97, is not rejected. The
range label `case i_iadd ... i_ixor` sends it to `add_to_xor`, which stores 0
in place of the second entry from the top, zeroes the top entry, lowers the
stack depth by one, and the loop goes on with the next instruction. -/
theorem unsupported_in_arith_range (fuel : Nat) (cls : class_file_t) (m : method_t) (st : State)
    (c : Fin 256) (a b : Int)
    (hc : m.code[st.pc]? = some c) (h1 : i_iadd ≤ c.val) (h2 : c.val ≤ i_ixor)
    (hop : c.val ∉ arith_opcodes) (hcl : m.code.length < 4294967296)
    (hd : 2 ≤ st.stack_p) (hcap : st.stack_p ≤ st.stack.length)
    (hlen : st.stack.length < 18446744073709551616)
    (hsa : st.stack[st.stack_p - 2]? = some a) (hsb : st.stack[st.stack_p - 1]? = some b) :
    ∃ st1, step fuel cls m st = .ok (Outcome.next st1) ∧
      run (fuel + 1) cls m st = run fuel cls m st1 ∧
      st1.stack = (st.stack.set (st.stack_p - 2) 0).set (st.stack_p - 1) 0 ∧
      st1.stack_p = st.stack_p - 1 ∧ st1.pc = st.pc + 1 ∧ st1.locals = st.locals := by
  have hneg : c.val ≠ i_ineg := by
    intro h
    apply hop
    rw [h]
    decide
  have hs := step_arith fuel cls m st c a b 0 hc h1 h2 hneg hcl hd hcap hlen hsa hsb
    (add_to_xor_result_default c.val a b hop)
  exact ⟨_, hs, run_of_step_next (lt_length_of_getElem? hc) hs, rfl, rfl, rfl, rfl⟩

/-- C15 at the input of the claim: on the stack `[3, 4]` the byte 0x61 leaves
`[0, 0]` at depth 1 and the run goes on; `bipush 3; bipush 4; 0x61; ireturn`
returns the value 0. A byte outside every `case` label, such as 1, does stop
the run in the `default:` arm. -/
theorem unsupported_in_arith_range_witness :
    (∃ st1, step 0 empty_class (method_of [97, 172]) (state_of [3, 4] 0)
        = .ok (Outcome.next st1) ∧
      st1.stack = [0, 0] ∧ st1.stack_p = 1 ∧ st1.pc = 1) ∧
    value_of (execute 5 (method_of [16, 3, 16, 4, 97, 172]) [0, 0] empty_class [] [])
      = .ok { has_value := true, value := 0 } ∧
    value_of (execute 5 (method_of [16, 3, 16, 4, 1, 172]) [0, 0] empty_class [] [])
      = .error (.unhandled 1) := by
  refine ⟨?_, by decide, by decide⟩
  obtain ⟨st1, h1, _, h3, h4, h5, _⟩ :=
    unsupported_in_arith_range 0 empty_class (method_of [97, 172]) (state_of [3, 4] 0) 97 3 4
      rfl (by decide) (by decide) (by decide) (by decide) (by decide) (by decide) (by decide)
      rfl rfl
  exact ⟨st1, h1, h3, h4, h5⟩

/-! ## The program counter -/

theorem map_next_eq_ok {x : Except Fault State} {s : State}
    (h : (Outcome.next <$> x) = .ok (Outcome.next s)) : x = .ok s := by
  cases x with
  | error e => simp at h
  | ok a =>
    simp only [map_ok, Except.ok.injEq, Outcome.next.injEq] at h
    rw [h]

/-- The `pc` that `add_to_xor` leaves. -/
theorem add_to_xor_pc (op : Nat) (st s : State) (h : add_to_xor op st = .ok s) :
    s.pc = st.pc := by
  unfold add_to_xor at h
  by_cases hn : op = i_ineg
  · rw [if_pos hn] at h
    repeat (obtain ⟨_, _, h⟩ := bind_eq_ok h)
    simp only [pure_eq_ok, Except.ok.injEq] at h
    rw [← h]
  · rw [if_neg hn] at h
    repeat (obtain ⟨_, _, h⟩ := bind_eq_ok h)
    simp only [pure_eq_ok, Except.ok.injEq] at h
    rw [← h]

/-- The `pc` that `newarray` leaves. -/
theorem newarray_pc (st s : State) (h : newarray st = .ok s) :
    s.pc = size_add st.pc 1 := by
  unfold newarray at h
  obtain ⟨count, _, h⟩ := bind_eq_ok h
  cases hm : malloc_int32 (to_int32 (count + 1)) with
  | none => simp [hm] at h
  | some arr =>
    simp only [hm] at h
    repeat (obtain ⟨_, _, h⟩ := bind_eq_ok h)
    simp only [heap_add] at h
    simp only [pure_eq_ok, Except.ok.injEq] at h
    rw [← h]

/-- The first half of the `invokestatic` arm leaves `pc`, the locals, the
heap and the printed text alone. -/
theorem invoke_static_enter_pc (cls : class_file_t) (m nm : method_t) (st s : State)
    (nl : List Int) (h : invoke_static_enter cls m st = .ok (nm, nl, s)) :
    s.pc = st.pc ∧ s.locals = st.locals ∧ s.heap = st.heap ∧ s.out = st.out := by
  unfold invoke_static_enter at h
  obtain ⟨b1, _, h⟩ := bind_eq_ok h
  obtain ⟨b2, _, h⟩ := bind_eq_ok h
  cases hf : cls.find_method_from_index (Nat.lor (b1 <<< 8) b2 % 65536) with
  | none => simp [hf] at h
  | some new_method =>
    simp only [hf] at h
    obtain ⟨⟨nl1, stk⟩, _, h⟩ := bind_eq_ok h
    simp only [pure_eq_ok, Except.ok.injEq, Prod.mk.injEq] at h
    rw [← h.2.2]
    exact ⟨rfl, rfl, rfl, rfl⟩

/-- The `pc` that the second half of the `invokestatic` arm leaves. -/
theorem invoke_static_leave_pc (st s : State) (r : optional_value_t) (heap : heap_t)
    (out : List Int) (h : invoke_static_leave st r heap out = .ok s) :
    s.pc = size_add st.pc 2 := by
  unfold invoke_static_leave at h
  by_cases hv : r.has_value = true
  · rw [if_pos hv] at h
    obtain ⟨_, _, h⟩ := bind_eq_ok h
    simp only [pure_eq_ok, Except.ok.injEq] at h
    rw [← h]
  · rw [if_neg hv] at h
    simp only [pure_eq_ok, Except.ok.injEq] at h
    rw [← h]

/-- The `pc` that `bi_push` leaves. -/
theorem bi_push_pc (m : method_t) (st s : State) (h : bi_push m st = .ok s) :
    s.pc = size_add st.pc 1 := by
  unfold bi_push at h
  repeat (obtain ⟨_, _, h⟩ := bind_eq_ok h)
  simp only [pure_eq_ok, Except.ok.injEq] at h
  rw [← h]

/-- The `pc` that `invoke_virtual` leaves. -/
theorem invoke_virtual_pc (st s : State) (h : invoke_virtual st = .ok s) :
    s.pc = size_add st.pc 2 := by
  unfold invoke_virtual at h
  repeat (obtain ⟨_, _, h⟩ := bind_eq_ok h)
  simp only [pure_eq_ok, Except.ok.injEq] at h
  rw [← h]

/-- The `pc` that `get_static` leaves. -/
theorem get_static_pc (st s : State) (h : get_static st = .ok s) :
    s.pc = size_add st.pc 2 := by
  unfold get_static at h
  simp only [pure_eq_ok, Except.ok.injEq] at h
  rw [← h]

/-- The `pc` that `i_const` leaves. -/
theorem i_const_pc (m : method_t) (st s : State) (h : i_const m st = .ok s) :
    s.pc = st.pc := by
  unfold i_const at h
  repeat (obtain ⟨_, _, h⟩ := bind_eq_ok h)
  simp only [pure_eq_ok, Except.ok.injEq] at h
  rw [← h]

/-- The `pc` that `si_push` leaves. -/
theorem si_push_pc (m : method_t) (st s : State) (h : si_push m st = .ok s) :
    s.pc = size_add st.pc 2 := by
  unfold si_push at h
  repeat (obtain ⟨_, _, h⟩ := bind_eq_ok h)
  simp only [pure_eq_ok, Except.ok.injEq] at h
  rw [← h]

/-- The `pc` that `i_load` leaves. -/
theorem i_load_pc (m : method_t) (st s : State) (h : i_load m st = .ok s) :
    s.pc = size_add st.pc 1 := by
  unfold i_load at h
  repeat (obtain ⟨_, _, h⟩ := bind_eq_ok h)
  simp only [pure_eq_ok, Except.ok.injEq] at h
  rw [← h]

/-- The `pc` that `i_store` leaves. -/
theorem i_store_pc (m : method_t) (st s : State) (h : i_store m st = .ok s) :
    s.pc = size_add st.pc 1 := by
  unfold i_store at h
  repeat (obtain ⟨_, _, h⟩ := bind_eq_ok h)
  simp only [pure_eq_ok, Except.ok.injEq] at h
  rw [← h]

/-- The `pc` that `i_inc` leaves. -/
theorem i_inc_pc (m : method_t) (st s : State) (h : i_inc m st = .ok s) :
    s.pc = size_add st.pc 2 := by
  unfold i_inc at h
  repeat (obtain ⟨_, _, h⟩ := bind_eq_ok h)
  simp only [pure_eq_ok, Except.ok.injEq] at h
  rw [← h]

/-- The `pc` that `i_iload_nums` leaves. -/
theorem i_iload_nums_pc (m : method_t) (st s : State) (h : i_iload_nums m st = .ok s) :
    s.pc = st.pc := by
  unfold i_iload_nums at h
  repeat (obtain ⟨_, _, h⟩ := bind_eq_ok h)
  simp only [pure_eq_ok, Except.ok.injEq] at h
  rw [← h]

/-- The `pc` that `i_istore_nums` leaves. -/
theorem i_istore_nums_pc (m : method_t) (st s : State) (h : i_istore_nums m st = .ok s) :
    s.pc = st.pc := by
  unfold i_istore_nums at h
  repeat (obtain ⟨_, _, h⟩ := bind_eq_ok h)
  simp only [pure_eq_ok, Except.ok.injEq] at h
  rw [← h]

/-- The `pc` that `ldc` leaves. -/
theorem ldc_pc (m : method_t) (cls : class_file_t) (st s : State) (h : ldc m cls st = .ok s) :
    s.pc = size_add st.pc 1 := by
  unfold ldc at h
  repeat (obtain ⟨_, _, h⟩ := bind_eq_ok h)
  simp only [pure_eq_ok, Except.ok.injEq] at h
  rw [← h]

/-- The `pc` that `dup` leaves. -/
theorem dup_pc (st s : State) (h : dup st = .ok s) :
    s.pc = st.pc := by
  unfold dup at h
  repeat (obtain ⟨_, _, h⟩ := bind_eq_ok h)
  simp only [pure_eq_ok, Except.ok.injEq] at h
  rw [← h]

/-- The `pc` that `arraylength` leaves. -/
theorem arraylength_pc (st s : State) (h : arraylength st = .ok s) :
    s.pc = st.pc := by
  unfold arraylength at h
  repeat (obtain ⟨_, _, h⟩ := bind_eq_ok h)
  simp only [pure_eq_ok, Except.ok.injEq] at h
  rw [← h]

/-- The `pc` that `iastore` leaves. -/
theorem iastore_pc (st s : State) (h : iastore st = .ok s) :
    s.pc = st.pc := by
  unfold iastore at h
  repeat (obtain ⟨_, _, h⟩ := bind_eq_ok h)
  simp only [pure_eq_ok, Except.ok.injEq] at h
  rw [← h]

/-- The `pc` that `iaload` leaves. -/
theorem iaload_pc (st s : State) (h : iaload st = .ok s) :
    s.pc = st.pc := by
  unfold iaload at h
  repeat (obtain ⟨_, _, h⟩ := bind_eq_ok h)
  simp only [pure_eq_ok, Except.ok.injEq] at h
  rw [← h]

/-- The `pc` that `aload` leaves. -/
theorem aload_pc (m : method_t) (st s : State) (h : aload m st = .ok s) :
    s.pc = size_add st.pc 1 := by
  unfold aload at h
  repeat (obtain ⟨_, _, h⟩ := bind_eq_ok h)
  simp only [pure_eq_ok, Except.ok.injEq] at h
  rw [← h]

/-- The `pc` that `astore` leaves. -/
theorem astore_pc (m : method_t) (st s : State) (h : astore m st = .ok s) :
    s.pc = size_add st.pc 1 := by
  unfold astore at h
  repeat (obtain ⟨_, _, h⟩ := bind_eq_ok h)
  simp only [pure_eq_ok, Except.ok.injEq] at h
  rw [← h]

/-- The `pc` that `astore_nums` leaves. -/
theorem astore_nums_pc (m : method_t) (st s : State) (h : astore_nums m st = .ok s) :
    s.pc = st.pc := by
  unfold astore_nums at h
  repeat (obtain ⟨_, _, h⟩ := bind_eq_ok h)
  simp only [pure_eq_ok, Except.ok.injEq] at h
  rw [← h]

/-- The `pc` that `aload_nums` leaves. -/
theorem aload_nums_pc (m : method_t) (st s : State) (h : aload_nums m st = .ok s) :
    s.pc = st.pc := by
  unfold aload_nums at h
  repeat (obtain ⟨_, _, h⟩ := bind_eq_ok h)
  simp only [pure_eq_ok, Except.ok.injEq] at h
  rw [← h]

/-- The `pc` after an arm of the dispatch switch that goes on: the arm's
advance is added to it. -/
theorem dispatch_next_pc (call : method_t → List Int → heap_t → List Int →
      Except Fault (optional_value_t × State)) (cls : class_file_t) (m : method_t)
    (op : Nat) (st s : State) (j : Nat) (hpc : st.pc < 4294967296)
    (hj : arm_advance op = some j)
    (h : dispatch call cls m op st = .ok (Outcome.next s)) :
    s.pc = st.pc + j := by
  have e1 : size_add st.pc 1 = st.pc + 1 := size_add_eq (by omega)
  have e2 : size_add st.pc 2 = st.pc + 2 := size_add_eq (by omega)
  unfold dispatch at h
  unfold arm_advance at hj
  by_cases c1 : i_iadd ≤ op ∧ op ≤ i_ixor
  · rw [if_pos c1] at h hj
    simp only [Option.some.injEq] at hj
    subst hj
    have hl := add_to_xor_pc op st s (map_next_eq_ok h)
    rw [hl]; rfl
  rw [if_neg c1] at h hj
  by_cases c2 : op = i_bipush
  · rw [if_pos c2] at h hj
    simp only [Option.some.injEq] at hj
    subst hj
    have hl := bi_push_pc m st s (map_next_eq_ok h)
    rw [hl, e1]
  rw [if_neg c2] at h hj
  by_cases c3 : op = i_getstatic
  · rw [if_pos c3] at h hj
    simp only [Option.some.injEq] at hj
    subst hj
    have hl := get_static_pc st s (map_next_eq_ok h)
    rw [hl, e2]
  rw [if_neg c3] at h hj
  by_cases c4 : op = i_invokevirtual
  · rw [if_pos c4] at h hj
    simp only [Option.some.injEq] at hj
    subst hj
    have hl := invoke_virtual_pc st s (map_next_eq_ok h)
    rw [hl, e2]
  rw [if_neg c4] at h hj
  by_cases c5 : i_iconst_m1 ≤ op ∧ op ≤ i_iconst_5
  · rw [if_pos c5] at h hj
    simp only [Option.some.injEq] at hj
    subst hj
    have hl := i_const_pc m st s (map_next_eq_ok h)
    rw [hl]; rfl
  rw [if_neg c5] at h hj
  by_cases c6 : op = i_sipush
  · rw [if_pos c6] at h hj
    simp only [Option.some.injEq] at hj
    subst hj
    have hl := si_push_pc m st s (map_next_eq_ok h)
    rw [hl, e2]
  rw [if_neg c6] at h hj
  by_cases c7 : op = i_iload
  · rw [if_pos c7] at h hj
    simp only [Option.some.injEq] at hj
    subst hj
    have hl := i_load_pc m st s (map_next_eq_ok h)
    rw [hl, e1]
  rw [if_neg c7] at h hj
  by_cases c8 : op = i_istore
  · rw [if_pos c8] at h hj
    simp only [Option.some.injEq] at hj
    subst hj
    have hl := i_store_pc m st s (map_next_eq_ok h)
    rw [hl, e1]
  rw [if_neg c8] at h hj
  by_cases c9 : op = i_iinc
  · rw [if_pos c9] at h hj
    simp only [Option.some.injEq] at hj
    subst hj
    have hl := i_inc_pc m st s (map_next_eq_ok h)
    rw [hl, e2]
  rw [if_neg c9] at h hj
  by_cases c10 : i_iload_0 ≤ op ∧ op ≤ i_iload_3
  · rw [if_pos c10] at h hj
    simp only [Option.some.injEq] at hj
    subst hj
    have hl := i_iload_nums_pc m st s (map_next_eq_ok h)
    rw [hl]; rfl
  rw [if_neg c10] at h hj
  by_cases c11 : i_istore_0 ≤ op ∧ op ≤ i_istore_3
  · rw [if_pos c11] at h hj
    simp only [Option.some.injEq] at hj
    subst hj
    have hl := i_istore_nums_pc m st s (map_next_eq_ok h)
    rw [hl]; rfl
  rw [if_neg c11] at h hj
  by_cases c12 : op = i_ldc
  · rw [if_pos c12] at h hj
    simp only [Option.some.injEq] at hj
    subst hj
    have hl := ldc_pc m cls st s (map_next_eq_ok h)
    rw [hl, e1]
  rw [if_neg c12] at h hj
  by_cases c13 : i_ifeq ≤ op ∧ op ≤ i_if_icmple
  · rw [if_pos c13] at h hj
    cases hj
  rw [if_neg c13] at h hj
  by_cases c14 : op = i_goto
  · rw [if_pos c14] at h hj
    cases hj
  rw [if_neg c14] at h hj
  by_cases c15 : op = i_invokestatic
  · rw [if_pos c15] at h hj
    simp only [Option.some.injEq] at hj
    subst hj
    obtain ⟨⟨nm, nl, s1⟩, he, h⟩ := bind_eq_ok h
    obtain ⟨⟨r, callee⟩, _, h⟩ := bind_eq_ok h
    have hl := invoke_static_leave_pc _ _ _ _ _ (map_next_eq_ok h)
    rw [hl, (invoke_static_enter_pc cls m nm st s1 nl he).1, e2]
  rw [if_neg c15] at h hj
  by_cases c16 : op = i_nop
  · rw [if_pos c16] at h hj
    simp only [Option.some.injEq] at hj
    subst hj
    simp only [pure_eq_ok, Except.ok.injEq, Outcome.next.injEq] at h
    rw [← h]; rfl
  rw [if_neg c16] at h hj
  by_cases c17 : op = i_dup
  · rw [if_pos c17] at h hj
    simp only [Option.some.injEq] at hj
    subst hj
    have hl := dup_pc st s (map_next_eq_ok h)
    rw [hl]; rfl
  rw [if_neg c17] at h hj
  by_cases c18 : op = i_newarray
  · rw [if_pos c18] at h hj
    simp only [Option.some.injEq] at hj
    subst hj
    have hl := newarray_pc st s (map_next_eq_ok h)
    rw [hl, e1]
  rw [if_neg c18] at h hj
  by_cases c19 : op = i_arraylength
  · rw [if_pos c19] at h hj
    simp only [Option.some.injEq] at hj
    subst hj
    have hl := arraylength_pc st s (map_next_eq_ok h)
    rw [hl]; rfl
  rw [if_neg c19] at h hj
  by_cases c20 : op = i_iastore
  · rw [if_pos c20] at h hj
    simp only [Option.some.injEq] at hj
    subst hj
    have hl := iastore_pc st s (map_next_eq_ok h)
    rw [hl]; rfl
  rw [if_neg c20] at h hj
  by_cases c21 : op = i_iaload
  · rw [if_pos c21] at h hj
    simp only [Option.some.injEq] at hj
    subst hj
    have hl := iaload_pc st s (map_next_eq_ok h)
    rw [hl]; rfl
  rw [if_neg c21] at h hj
  by_cases c22 : op = i_aload
  · rw [if_pos c22] at h hj
    simp only [Option.some.injEq] at hj
    subst hj
    have hl := aload_pc m st s (map_next_eq_ok h)
    rw [hl, e1]
  rw [if_neg c22] at h hj
  by_cases c23 : op = i_astore
  · rw [if_pos c23] at h hj
    simp only [Option.some.injEq] at hj
    subst hj
    have hl := astore_pc m st s (map_next_eq_ok h)
    rw [hl, e1]
  rw [if_neg c23] at h hj
  by_cases c24 : i_aload_0 ≤ op ∧ op ≤ i_aload_3
  · rw [if_pos c24] at h hj
    simp only [Option.some.injEq] at hj
    subst hj
    have hl := aload_nums_pc m st s (map_next_eq_ok h)
    rw [hl]; rfl
  rw [if_neg c24] at h hj
  by_cases c25 : i_astore_0 ≤ op ∧ op ≤ i_astore_3
  · rw [if_pos c25] at h hj
    simp only [Option.some.injEq] at hj
    subst hj
    have hl := astore_nums_pc m st s (map_next_eq_ok h)
    rw [hl]; rfl
  rw [if_neg c25] at h hj
  by_cases c26 : op = i_areturn ∨ op = i_ireturn
  · rw [if_pos c26] at h hj
    cases hj
  rw [if_neg c26] at h hj
  by_cases c27 : op = i_return
  · rw [if_pos c27] at h hj
    cases hj
  rw [if_neg c27] at h hj
  cases hj

set_option maxRecDepth 100000 in
/-- Every opcode the spec lists with a number of immediate bytes has an arm
that advances `pc` by that number. -/
theorem immediate_bytes_arm (c : Fin 256) :
    immediate_bytes c.val = none ∨ immediate_bytes c.val = arm_advance c.val := by
  revert c
  decide

/-- A pass of the loop that goes on comes from an arm that goes on. -/
theorem step_next_inv {fuel : Nat} {cls : class_file_t} {m : method_t} {st st1 : State}
    {c : Fin 256} (hc : m.code[st.pc]? = some c)
    (h : step fuel cls m st = .ok (Outcome.next st1)) :
    ∃ s, dispatch (fun nm nl h o => run fuel cls nm (init_state nm nl h o)) cls m c.val st
        = .ok (Outcome.next s) ∧ st1 = { s with pc := size_add s.pc 1 } := by
  unfold step at h
  rw [code_at_eq hc] at h
  simp only [ok_bind] at h
  cases hd : dispatch (fun nm nl h o => run fuel cls nm (init_state nm nl h o)) cls m c.val st with
  | error e => simp [hd] at h
  | ok o =>
    cases o with
    | next s =>
      simp only [hd, ok_bind, pure_eq_ok, Except.ok.injEq, Outcome.next.injEq] at h
      exact ⟨s, rfl, h.symm⟩
    | done r s => simp [hd] at h

/-- C16: for every instruction at position `p` that the spec lists with `k`
immediate bytes (no branch, goto or return), a pass of the loop that goes on
leaves `pc` at `p + 1 + k`, where the next instruction is dispatched: `p + 1`
for the arithmetic opcodes, iconst_*, iload_n, istore_n, aload_n, astore_n,
dup, nop, iaload, iastore, arraylength; `p + 2` for bipush, ldc, iload,
istore, aload, astore, newarray; `p + 3` for sipush, iinc, getstatic,
invokevirtual, invokestatic. -/
theorem next_pc (fuel : Nat) (cls : class_file_t) (m : method_t) (st st1 : State)
    (c : Fin 256) (k : Nat)
    (hc : m.code[st.pc]? = some c) (hk : immediate_bytes c.val = some k)
    (hcl : m.code.length < 4294967296)
    (hstep : step fuel cls m st = .ok (Outcome.next st1)) :
    st1.pc = st.pc + 1 + k ∧ run (fuel + 1) cls m st = run fuel cls m st1 := by
  have hpc := lt_length_of_getElem? hc
  have hk3 : k ≤ 2 := by
    unfold immediate_bytes at hk
    split_ifs at hk <;> simp only [Option.some.injEq] at hk <;> omega
  obtain ⟨s, hd, hst1⟩ := step_next_inv hc hstep
  have harm : arm_advance c.val = some k := by
    rcases immediate_bytes_arm c with h | h
    · rw [h] at hk; cases hk
    · rw [← h, hk]
  have hs := dispatch_next_pc _ cls m c.val st s k (by omega) harm hd
  refine ⟨?_, run_of_step_next hpc hstep⟩
  rw [hst1]
  show size_add s.pc 1 = _
  rw [hs, size_add_eq (by omega)]
  omega

set_option maxRecDepth 100000

/-- C16 at concrete inputs: `sipush 1 1` at position 0 leaves `pc` at 3; and
from `sample_state` every listed opcode goes on with `pc` at one plus its
number of immediate bytes. -/
theorem next_pc_witness :
    (step 1 sample_class (method_of [17, 1, 1, 177]) sample_state
        = .ok (Outcome.next { sample_state with stack := [0, 0, 0, 257], stack_p := 4, pc := 3 }) ∧
      ({ sample_state with stack := [0, 0, 0, 257], stack_p := 4, pc := 3 } : State).pc
        = sample_state.pc + 1 + 2) ∧
    listed_opcodes.length = 52 ∧ listed_opcodes.all advances_by_width = true :=
  ⟨⟨rfl, (next_pc 1 sample_class (method_of [17, 1, 1, 177]) sample_state
      { sample_state with stack := [0, 0, 0, 257], stack_p := 4, pc := 3 } 17 2
      rfl (by decide) (by decide) rfl).1⟩, by decide, by decide⟩

/-! ## Locals and constants -/

/-- The arms of the dispatch switch for single opcodes that call a function
of the method and the state. -/
theorem dispatch_single (call : method_t → List Int → heap_t → List Int →
      Except Fault (optional_value_t × State)) (cls : class_file_t) (m : method_t)
    (st : State) :
    dispatch call cls m i_bipush st = Outcome.next <$> bi_push m st ∧
    dispatch call cls m i_sipush st = Outcome.next <$> si_push m st ∧
    dispatch call cls m i_iload st = Outcome.next <$> i_load m st ∧
    dispatch call cls m i_istore st = Outcome.next <$> i_store m st ∧
    dispatch call cls m i_iinc st = Outcome.next <$> i_inc m st := by
  refine ⟨?_, ?_, ?_, ?_, ?_⟩ <;> simp [dispatch]

/-- The arm `case i_istore_0 ... i_istore_3` of the dispatch switch. -/
theorem dispatch_istore_nums (call : method_t → List Int → heap_t → List Int →
      Except Fault (optional_value_t × State)) (cls : class_file_t) (m : method_t)
    (op : Nat) (st : State) (h1 : i_istore_0 ≤ op) (h2 : op ≤ i_istore_3) :
    dispatch call cls m op st = Outcome.next <$> i_istore_nums m st := by
  have h1' : 59 ≤ op := h1
  have h2' : op ≤ 62 := h2
  interval_cases op <;> simp [dispatch]

/-- A pass of the loop whose arm calls `f` and goes on: `pc` is one past the
`pc` that `f` leaves. -/
theorem step_of_arm {fuel : Nat} {cls : class_file_t} {m : method_t} {st s : State}
    {c : Fin 256} {f : Except Fault State} (hc : m.code[st.pc]? = some c)
    (hdis : dispatch (fun nm nl h o => run fuel cls nm (init_state nm nl h o)) cls m c.val st
      = Outcome.next <$> f)
    (hf : f = .ok s) :
    step fuel cls m st = .ok (Outcome.next { s with pc := size_add s.pc 1 }) := by
  rw [hf] at hdis
  exact step_of_dispatch_next hc hdis

/-- A pass of the loop at `istore i`. -/
theorem step_istore (fuel : Nat) (cls : class_file_t) (m : method_t) (st : State)
    (c ib : Fin 256) (v : Int)
    (hc : m.code[st.pc]? = some c) (hop : c.val = i_istore)
    (hib : m.code[st.pc + 1]? = some ib) (hcl : m.code.length < 4294967296)
    (hi : ib.val < st.locals.length)
    (hd : 1 ≤ st.stack_p) (hcap : st.stack_p ≤ st.stack.length)
    (hlen : st.stack.length < 18446744073709551616)
    (htop : st.stack[st.stack_p - 1]? = some v) :
    step fuel cls m st = .ok (Outcome.next { st with
      stack := st.stack.set (st.stack_p - 1) 0, locals := st.locals.set ib.val v,
      stack_p := st.stack_p - 1, pc := st.pc + 2 }) := by
  have hp1 := lt_length_of_getElem? hib
  have e1 : size_sub st.stack_p 1 = st.stack_p - 1 := size_sub_eq hd (by omega)
  have e2 : size_add st.pc 1 = st.pc + 1 := size_add_eq (by omega)
  have e3 : size_add (st.pc + 1) 1 = st.pc + 2 := size_add_eq (by omega)
  have w1 : st.stack_p - 1 < st.stack.length := by omega
  have hdis := (dispatch_single (fun nm nl h o => run fuel cls nm (init_state nm nl h o))
    cls m st).2.2.2.1
  rw [← hop] at hdis
  have hf : i_store m st = .ok { st with
      stack := st.stack.set (st.stack_p - 1) 0, locals := st.locals.set ib.val v,
      stack_p := st.stack_p - 1, pc := st.pc + 1 } := by
    unfold i_store
    simp only [e1, e2, code_at_eq hib, ok_bind, rd_eq htop, wr_eq v hi, wr_eq 0 w1, pure_eq_ok]
  rw [step_of_arm hc hdis hf]
  show Except.ok (Outcome.next { st with
      stack := st.stack.set (st.stack_p - 1) 0, locals := st.locals.set ib.val v,
      stack_p := st.stack_p - 1, pc := size_add (st.pc + 1) 1 }) = _
  rw [e3]

/-- A pass of the loop at `istore_<n>`. -/
theorem step_istore_nums (fuel : Nat) (cls : class_file_t) (m : method_t) (st : State)
    (c : Fin 256) (v : Int)
    (hc : m.code[st.pc]? = some c) (h1 : i_istore_0 ≤ c.val) (h2 : c.val ≤ i_istore_3)
    (hcl : m.code.length < 4294967296)
    (hi : c.val - i_istore_0 < st.locals.length)
    (hd : 1 ≤ st.stack_p) (hcap : st.stack_p ≤ st.stack.length)
    (hlen : st.stack.length < 18446744073709551616)
    (htop : st.stack[st.stack_p - 1]? = some v) :
    step fuel cls m st = .ok (Outcome.next { st with
      stack := st.stack.set (st.stack_p - 1) 0,
      locals := st.locals.set (c.val - i_istore_0) v,
      stack_p := st.stack_p - 1, pc := st.pc + 1 }) := by
  have hpc := lt_length_of_getElem? hc
  have e1 : size_sub st.stack_p 1 = st.stack_p - 1 := size_sub_eq hd (by omega)
  have e2 : size_add st.pc 1 = st.pc + 1 := size_add_eq (by omega)
  have e3 : ((c.val : Int) - (i_istore_0 : Int)).toNat = c.val - i_istore_0 := by omega
  have e4 : (0 : Int) ≤ (c.val : Int) - (i_istore_0 : Int) := by omega
  have w1 : st.stack_p - 1 < st.stack.length := by omega
  have hdis := dispatch_istore_nums (fun nm nl h o => run fuel cls nm (init_state nm nl h o))
    cls m c.val st h1 h2
  have hf : i_istore_nums m st = .ok { st with
      stack := st.stack.set (st.stack_p - 1) 0,
      locals := st.locals.set (c.val - i_istore_0) v,
      stack_p := st.stack_p - 1 } := by
    unfold i_istore_nums
    simp only [e1, code_at_eq hc, ok_bind, rd_eq htop, wr_int, if_pos e4, e3, wr_eq v hi,
      wr_eq 0 w1, pure_eq_ok]
  rw [step_of_arm hc hdis hf]
  show Except.ok (Outcome.next { st with
      stack := st.stack.set (st.stack_p - 1) 0,
      locals := st.locals.set (c.val - i_istore_0) v,
      stack_p := st.stack_p - 1, pc := size_add st.pc 1 }) = _
  rw [e2]

/-- A pass of the loop at `iload i`. -/
theorem step_iload (fuel : Nat) (cls : class_file_t) (m : method_t) (st : State)
    (c ib : Fin 256) (x : Int)
    (hc : m.code[st.pc]? = some c) (hop : c.val = i_iload)
    (hib : m.code[st.pc + 1]? = some ib) (hcl : m.code.length < 4294967296)
    (hx : st.locals[ib.val]? = some x)
    (hsp : st.stack_p < st.stack.length) (hlen : st.stack.length < 18446744073709551616) :
    step fuel cls m st = .ok (Outcome.next { st with
      stack := st.stack.set st.stack_p x, stack_p := st.stack_p + 1, pc := st.pc + 2 }) := by
  have hp1 := lt_length_of_getElem? hib
  have e1 : size_add st.stack_p 1 = st.stack_p + 1 := size_add_eq (by omega)
  have e2 : size_add st.pc 1 = st.pc + 1 := size_add_eq (by omega)
  have e3 : size_add (st.pc + 1) 1 = st.pc + 2 := size_add_eq (by omega)
  have hdis := (dispatch_single (fun nm nl h o => run fuel cls nm (init_state nm nl h o))
    cls m st).2.2.1
  rw [← hop] at hdis
  have hf : i_load m st = .ok { st with
      stack := st.stack.set st.stack_p x, stack_p := st.stack_p + 1, pc := st.pc + 1 } := by
    unfold i_load
    simp only [e1, e2, code_at_eq hib, ok_bind, rd_eq hx, wr_eq x hsp, pure_eq_ok]
  rw [step_of_arm hc hdis hf]
  show Except.ok (Outcome.next { st with
      stack := st.stack.set st.stack_p x, stack_p := st.stack_p + 1,
      pc := size_add (st.pc + 1) 1 }) = _
  rw [e3]

theorem map_val_eq {o : Option (Fin 256)} {n : Nat} (h : o.map Fin.val = some n) :
    ∃ c : Fin 256, o = some c ∧ c.val = n := by
  cases o with
  | none => simp at h
  | some c =>
    simp only [Option.map_some', Option.some.injEq] at h
    exact ⟨c, rfl, h⟩

/-- A pass of the loop at a store to local `i`, in either form. -/
theorem step_store_at (fuel : Nat) (cls : class_file_t) (m : method_t) (st : State)
    (i ws : Nat) (v : Int) (hs : store_at m st.pc i ws)
    (hcl : m.code.length < 4294967296) (hi : i < st.locals.length)
    (hd : 1 ≤ st.stack_p) (hcap : st.stack_p ≤ st.stack.length)
    (hlen : st.stack.length < 18446744073709551616)
    (htop : st.stack[st.stack_p - 1]? = some v) :
    st.pc < m.code.length ∧
    step fuel cls m st = .ok (Outcome.next { st with
      stack := st.stack.set (st.stack_p - 1) 0, locals := st.locals.set i v,
      stack_p := st.stack_p - 1, pc := st.pc + ws }) := by
  rcases hs with ⟨h1, h2, h3⟩ | ⟨h1, h2, h3⟩
  · obtain ⟨c, hc, hcv⟩ := map_val_eq h1
    obtain ⟨ib, hib, hiv⟩ := map_val_eq h2
    subst h3
    subst hiv
    exact ⟨lt_length_of_getElem? hc,
      step_istore fuel cls m st c ib v hc hcv hib hcl hi hd hcap hlen htop⟩
  · obtain ⟨c, hc, hcv⟩ := map_val_eq h1
    subst h3
    have hci : c.val - i_istore_0 = i := by rw [hcv]; simp
    have := step_istore_nums fuel cls m st c v hc (by rw [hcv]; simp)
      (by rw [hcv]; show 59 + i ≤ 62; omega) hcl (by rw [hci]; exact hi) hd hcap hlen htop
    rw [hci] at this
    exact ⟨lt_length_of_getElem? hc, this⟩

/-- A pass of the loop at a load of local `i`, in either form. -/
theorem step_load_at (fuel : Nat) (cls : class_file_t) (m : method_t) (st : State)
    (i wl : Nat) (x : Int) (hl : load_at m st.pc i wl)
    (hcl : m.code.length < 4294967296) (hx : st.locals[i]? = some x)
    (hsp : st.stack_p < st.stack.length) (hlen : st.stack.length < 18446744073709551616) :
    st.pc < m.code.length ∧
    step fuel cls m st = .ok (Outcome.next { st with
      stack := st.stack.set st.stack_p x, stack_p := st.stack_p + 1, pc := st.pc + wl }) := by
  rcases hl with ⟨h1, h2, h3⟩ | ⟨h1, h2, h3⟩
  · obtain ⟨c, hc, hcv⟩ := map_val_eq h1
    obtain ⟨ib, hib, hiv⟩ := map_val_eq h2
    subst h3
    subst hiv
    exact ⟨lt_length_of_getElem? hc,
      step_iload fuel cls m st c ib x hc hcv hib hcl hx hsp hlen⟩
  · obtain ⟨c, hc, hcv⟩ := map_val_eq h1
    subst h3
    have hci : c.val - i_iload_0 = i := by rw [hcv]; simp
    exact ⟨lt_length_of_getElem? hc,
      step_iload_nums fuel cls m st c x hc (by rw [hcv]; simp)
        (by rw [hcv]; show 26 + i ≤ 29; omega) hcl (by rw [hci]; exact hx) hsp hlen⟩

/-- C17: locals round trip. For a local index `i` within the declared slot
count and a value `v` on top of the stack, a store to local `i` (`istore i`,
or `istore_<i>` for `i ≤ 3`) followed by a load of local `i` (`iload i`, or
`iload_<i>`) leaves the operand stack and its depth exactly as before the
store, sets local `i` to `v`, and leaves every other local slot unchanged. -/
theorem locals_round_trip (fuel : Nat) (cls : class_file_t) (m : method_t) (st : State)
    (i ws wl : Nat) (v : Int)
    (hs : store_at m st.pc i ws) (hl : load_at m (st.pc + ws) i wl)
    (hcl : m.code.length < 4294967296) (hi : i < st.locals.length)
    (hd : 1 ≤ st.stack_p) (hcap : st.stack_p ≤ st.stack.length)
    (hlen : st.stack.length < 18446744073709551616)
    (htop : st.stack[st.stack_p - 1]? = some v) :
    ∃ st1 st2, step (fuel + 1) cls m st = .ok (Outcome.next st1) ∧
      step fuel cls m st1 = .ok (Outcome.next st2) ∧
      run (fuel + 2) cls m st = run fuel cls m st2 ∧
      st2.stack = st.stack ∧ st2.stack_p = st.stack_p ∧
      st2.locals[i]? = some v ∧ (∀ j, j ≠ i → st2.locals[j]? = st.locals[j]?) ∧
      st2.locals.length = st.locals.length ∧
      st2.heap = st.heap ∧ st2.out = st.out ∧ st2.pc = st.pc + ws + wl := by
  have w1 : st.stack_p - 1 < st.stack.length := by omega
  obtain ⟨hpc1, s1⟩ := step_store_at (fuel + 1) cls m st i ws v hs hcl hi hd hcap hlen htop
  obtain ⟨hpc2, s2⟩ := step_load_at fuel cls m
    { st with
      stack := st.stack.set (st.stack_p - 1) 0, locals := st.locals.set i v,
      stack_p := st.stack_p - 1, pc := st.pc + ws }
    i wl v hl hcl (get_set_eq _ _ _ hi) (by simp only [List.length_set]; omega)
    (by simpa using hlen)
  have hsp : st.stack_p - 1 + 1 = st.stack_p := by omega
  refine ⟨_, _, s1, s2, ?_, ?_, hsp, get_set_eq _ _ _ hi, ?_, by simp, rfl, rfl, rfl⟩
  · rw [run_of_step_next hpc1 s1, run_of_step_next hpc2 s2]
  · show (st.stack.set (st.stack_p - 1) 0).set (st.stack_p - 1) v = st.stack
    rw [set_set_same, set_self _ _ _ htop]
  · intro j hj
    exact get_set_ne _ _ _ _ (fun h => hj h.symm)

/-- C17 at concrete inputs: `istore 1; iload_1` and `istore_1; iload 1` on
the stack `[7, 9]`. -/
theorem locals_round_trip_witness :
    (∃ st1 st2, step (0 + 1) empty_class (method_of [54, 1, 27, 177]) (state_of [7, 9] 0)
        = .ok (Outcome.next st1) ∧
      step 0 empty_class (method_of [54, 1, 27, 177]) st1 = .ok (Outcome.next st2) ∧
      st2.stack = [7, 9] ∧ st2.stack_p = 2 ∧ st2.locals[1]? = some 9 ∧ st2.pc = 3) ∧
    (∃ st1 st2, step (0 + 1) empty_class (method_of [60, 21, 1, 177]) (state_of [7, 9] 0)
        = .ok (Outcome.next st1) ∧
      step 0 empty_class (method_of [60, 21, 1, 177]) st1 = .ok (Outcome.next st2) ∧
      st2.stack = [7, 9] ∧ st2.stack_p = 2 ∧ st2.locals[1]? = some 9 ∧ st2.pc = 3) := by
  constructor
  · obtain ⟨st1, st2, h1, h2, _, h4, h5, h6, _, _, _, _, h7⟩ :=
      locals_round_trip 0 empty_class (method_of [54, 1, 27, 177]) (state_of [7, 9] 0)
        1 2 1 9 (by decide) (by decide) (by decide) (by decide) (by decide) (by decide)
        (by decide) rfl
    exact ⟨st1, st2, h1, h2, h4, h5, h6, h7⟩
  · obtain ⟨st1, st2, h1, h2, _, h4, h5, h6, _, _, _, _, h7⟩ :=
      locals_round_trip 0 empty_class (method_of [60, 21, 1, 177]) (state_of [7, 9] 0)
        1 1 2 9 (by decide) (by decide) (by decide) (by decide) (by decide) (by decide)
        (by decide) rfl
    exact ⟨st1, st2, h1, h2, h4, h5, h6, h7⟩

theorem to_int8_range (x : Int) : -128 ≤ to_int8 x ∧ to_int8 x ≤ 127 := by
  unfold to_int8; omega

/-- The value of a byte read as a `signed char`. -/
theorem to_int8_byte (b : Fin 256) :
    to_int8 (b.val : Int) = if b.val < 128 then (b.val : Int) else (b.val : Int) - 256 := by
  have := b.isLt
  unfold to_int8
  split <;> omega

/-- The value of two bytes read as a big-endian `int16_t`. -/
theorem to_int16_bytes (hi lo : Fin 256) :
    to_int16 ((hi.val * 256 + lo.val : Nat) : Int)
      = if hi.val < 128 then (hi.val : Int) * 256 + lo.val
        else (hi.val : Int) * 256 + lo.val - 65536 := by
  have := hi.isLt
  have := lo.isLt
  unfold to_int16
  split <;> omega

/-- A pass of the loop at `iinc i c`. -/
theorem step_iinc (fuel : Nat) (cls : class_file_t) (m : method_t) (st : State)
    (c ib cb : Fin 256) (old : Int)
    (hc : m.code[st.pc]? = some c) (hop : c.val = i_iinc)
    (hib : m.code[st.pc + 1]? = some ib) (hcb : m.code[st.pc + 2]? = some cb)
    (hcl : m.code.length < 4294967296)
    (hold : st.locals[ib.val]? = some old) :
    step fuel cls m st = .ok (Outcome.next { st with
      locals := st.locals.set ib.val (to_int32 (old + to_int8 (cb.val : Int))),
      pc := st.pc + 3 }) := by
  have hp2 := lt_length_of_getElem? hcb
  have hi := lt_length_of_getElem? hold
  have e1 : size_add st.pc 1 = st.pc + 1 := size_add_eq (by omega)
  have e2 : size_add st.pc 2 = st.pc + 2 := size_add_eq (by omega)
  have e3 : size_add (st.pc + 2) 1 = st.pc + 3 := size_add_eq (by omega)
  have hdis := (dispatch_single (fun nm nl h o => run fuel cls nm (init_state nm nl h o))
    cls m st).2.2.2.2
  rw [← hop] at hdis
  have hf : i_inc m st = .ok { st with
      locals := st.locals.set ib.val (to_int32 (old + to_int8 (cb.val : Int))),
      pc := st.pc + 2 } := by
    unfold i_inc
    simp only [e1, e2, code_at_eq hib, code_at_eq hcb, ok_bind, rd_eq hold, wr_eq _ hi,
      pure_eq_ok]
  rw [step_of_arm hc hdis hf]
  show Except.ok (Outcome.next { st with
      locals := st.locals.set ib.val (to_int32 (old + to_int8 (cb.val : Int))),
      pc := size_add (st.pc + 2) 1 }) = _
  rw [e3]

/-- C18: for a local index `i` within the declared slot count and an
immediate byte `c`, `iinc i c` sets local `i` to the 32-bit wraparound of its
old value plus `c` read as a signed 8-bit integer in `[-128, 127]`, and leaves
the operand stack, the stack depth and every other local slot unchanged. -/
theorem iinc_effect (fuel : Nat) (cls : class_file_t) (m : method_t) (st : State)
    (c ib cb : Fin 256) (old : Int)
    (hc : m.code[st.pc]? = some c) (hop : c.val = i_iinc)
    (hib : m.code[st.pc + 1]? = some ib) (hcb : m.code[st.pc + 2]? = some cb)
    (hcl : m.code.length < 4294967296)
    (hold : st.locals[ib.val]? = some old) :
    ∃ st1, step fuel cls m st = .ok (Outcome.next st1) ∧
      run (fuel + 1) cls m st = run fuel cls m st1 ∧
      st1.locals[ib.val]? = some (to_int32 (old + to_int8 (cb.val : Int))) ∧
      to_int8 (cb.val : Int) = (if cb.val < 128 then (cb.val : Int) else (cb.val : Int) - 256) ∧
      -128 ≤ to_int8 (cb.val : Int) ∧ to_int8 (cb.val : Int) ≤ 127 ∧
      (∀ j, j ≠ ib.val → st1.locals[j]? = st.locals[j]?) ∧
      st1.locals.length = st.locals.length ∧
      st1.stack = st.stack ∧ st1.stack_p = st.stack_p ∧
      st1.heap = st.heap ∧ st1.out = st.out ∧ st1.pc = st.pc + 3 := by
  have hpc := lt_length_of_getElem? hc
  have hi := lt_length_of_getElem? hold
  have hs := step_iinc fuel cls m st c ib cb old hc hop hib hcb hcl hold
  refine ⟨_, hs, run_of_step_next hpc hs, get_set_eq _ _ _ hi, to_int8_byte cb,
    (to_int8_range _).1, (to_int8_range _).2, ?_, by simp, rfl, rfl, rfl, rfl, rfl⟩
  intro j hj
  exact get_set_ne _ _ _ _ (fun h => hj h.symm)

/-- C18 at a concrete input: `iinc 1 0xff` adds -1 to local 1. -/
theorem iinc_effect_witness :
    ∃ st1, step 0 empty_class (method_of [132, 1, 255, 177])
        { state_of [7] 0 with locals := [3, 10] } = .ok (Outcome.next st1) ∧
      st1.locals[1]? = some 9 ∧ st1.locals[0]? = some 3 ∧ st1.stack = [7] ∧
      st1.stack_p = 1 := by
  obtain ⟨st1, h1, _, h3, _, _, _, h7, _, h9, h10, _⟩ :=
    iinc_effect 0 empty_class (method_of [132, 1, 255, 177])
      { state_of [7] 0 with locals := [3, 10] } 132 1 255 10 rfl rfl rfl rfl (by decide) rfl
  exact ⟨st1, h1, h3, h7 0 (by decide), h9, h10⟩

/-- A pass of the loop at `bipush x`. -/
theorem step_bipush (fuel : Nat) (cls : class_file_t) (m : method_t) (st : State)
    (c xb : Fin 256)
    (hc : m.code[st.pc]? = some c) (hop : c.val = i_bipush)
    (hxb : m.code[st.pc + 1]? = some xb) (hcl : m.code.length < 4294967296)
    (hsp : st.stack_p < st.stack.length) (hlen : st.stack.length < 18446744073709551616) :
    step fuel cls m st = .ok (Outcome.next { st with
      stack := st.stack.set st.stack_p (to_int8 (xb.val : Int)),
      stack_p := st.stack_p + 1, pc := st.pc + 2 }) := by
  have hp1 := lt_length_of_getElem? hxb
  have e1 : size_add st.stack_p 1 = st.stack_p + 1 := size_add_eq (by omega)
  have e2 : size_add st.pc 1 = st.pc + 1 := size_add_eq (by omega)
  have e3 : size_add (st.pc + 1) 1 = st.pc + 2 := size_add_eq (by omega)
  have hdis := (dispatch_single (fun nm nl h o => run fuel cls nm (init_state nm nl h o))
    cls m st).1
  rw [← hop] at hdis
  have hf : bi_push m st = .ok { st with
      stack := st.stack.set st.stack_p (to_int8 (xb.val : Int)),
      stack_p := st.stack_p + 1, pc := st.pc + 1 } := by
    unfold bi_push
    simp only [e1, e2, code_at_eq hxb, ok_bind, wr_eq _ hsp, pure_eq_ok]
  rw [step_of_arm hc hdis hf]
  show Except.ok (Outcome.next { st with
      stack := st.stack.set st.stack_p (to_int8 (xb.val : Int)),
      stack_p := st.stack_p + 1, pc := size_add (st.pc + 1) 1 }) = _
  rw [e3]

/-- A pass of the loop at `sipush hi lo`. -/
theorem step_sipush (fuel : Nat) (cls : class_file_t) (m : method_t) (st : State)
    (c hi lo : Fin 256)
    (hc : m.code[st.pc]? = some c) (hop : c.val = i_sipush)
    (hhi : m.code[st.pc + 1]? = some hi) (hlo : m.code[st.pc + 2]? = some lo)
    (hcl : m.code.length < 4294967296)
    (hsp : st.stack_p < st.stack.length) (hlen : st.stack.length < 18446744073709551616) :
    step fuel cls m st = .ok (Outcome.next { st with
      stack := st.stack.set st.stack_p (to_int16 ((hi.val * 256 + lo.val : Nat) : Int)),
      stack_p := st.stack_p + 1, pc := st.pc + 3 }) := by
  have hp2 := lt_length_of_getElem? hlo
  have e1 : size_add st.stack_p 1 = st.stack_p + 1 := size_add_eq (by omega)
  have e2 : size_add st.pc 1 = st.pc + 1 := size_add_eq (by omega)
  have e3 : size_add st.pc 2 = st.pc + 2 := size_add_eq (by omega)
  have e4 : size_add (st.pc + 2) 1 = st.pc + 3 := size_add_eq (by omega)
  have e5 : Nat.lor (hi.val <<< 8) lo.val = hi.val * 256 + lo.val := lor_shift_eq _ _ lo.isLt
  have hdis := (dispatch_single (fun nm nl h o => run fuel cls nm (init_state nm nl h o))
    cls m st).2.1
  rw [← hop] at hdis
  have hf : si_push m st = .ok { st with
      stack := st.stack.set st.stack_p (to_int16 ((hi.val * 256 + lo.val : Nat) : Int)),
      stack_p := st.stack_p + 1, pc := st.pc + 2 } := by
    unfold si_push
    simp only [e1, e2, e3, code_at_eq hhi, code_at_eq hlo, ok_bind, e5, wr_eq _ hsp, pure_eq_ok]
  rw [step_of_arm hc hdis hf]
  show Except.ok (Outcome.next { st with
      stack := st.stack.set st.stack_p (to_int16 ((hi.val * 256 + lo.val : Nat) : Int)),
      stack_p := st.stack_p + 1, pc := size_add (st.pc + 2) 1 }) = _
  rw [e4]

/-- C19: with room on the stack, each push-constant instruction raises the
stack depth by exactly one, leaves the entries below unchanged, and pushes its
encoded constant: `iconst_m1 .. iconst_5` (opcodes 2..8) push `-1 .. 5`;
`bipush x` pushes `x` sign-extended from 8 bits; `sipush hi lo` pushes the
big-endian value `hi * 256 + lo` sign-extended from 16 bits. -/
theorem push_constant (fuel : Nat) (cls : class_file_t) (m : method_t) (st : State)
    (c : Fin 256) (hc : m.code[st.pc]? = some c) (hcl : m.code.length < 4294967296)
    (hsp : st.stack_p < st.stack.length) (hlen : st.stack.length < 18446744073709551616) :
    (∀ n : Int, -1 ≤ n → n ≤ 5 → (c.val : Int) = (i_iconst_0 : Int) + n →
      ∃ st1, step fuel cls m st = .ok (Outcome.next st1) ∧
        st1.stack_p = st.stack_p + 1 ∧ st1.stack[st.stack_p]? = some n ∧
        (∀ j, j < st.stack_p → st1.stack[j]? = st.stack[j]?) ∧ st1.locals = st.locals) ∧
    (∀ x : Fin 256, c.val = i_bipush → m.code[st.pc + 1]? = some x →
      ∃ st1, step fuel cls m st = .ok (Outcome.next st1) ∧
        st1.stack_p = st.stack_p + 1 ∧
        st1.stack[st.stack_p]? = some (if x.val < 128 then (x.val : Int) else (x.val : Int) - 256) ∧
        (∀ j, j < st.stack_p → st1.stack[j]? = st.stack[j]?) ∧ st1.locals = st.locals) ∧
    (∀ hi lo : Fin 256, c.val = i_sipush → m.code[st.pc + 1]? = some hi →
      m.code[st.pc + 2]? = some lo →
      ∃ st1, step fuel cls m st = .ok (Outcome.next st1) ∧
        st1.stack_p = st.stack_p + 1 ∧
        st1.stack[st.stack_p]? = some (if hi.val < 128 then (hi.val : Int) * 256 + lo.val
          else (hi.val : Int) * 256 + lo.val - 65536) ∧
        (∀ j, j < st.stack_p → st1.stack[j]? = st.stack[j]?) ∧ st1.locals = st.locals) := by
  refine ⟨?_, ?_, ?_⟩
  · intro n hn1 hn2 hcn
    have h1 : i_iconst_m1 ≤ c.val := by show 2 ≤ c.val; simp only [i_iconst_0] at hcn; omega
    have h2 : c.val ≤ i_iconst_5 := by show c.val ≤ 8; simp only [i_iconst_0] at hcn; omega
    have hv : (c.val : Int) - 3 = n := by simp only [i_iconst_0] at hcn; omega
    have hs := step_iconst fuel cls m st c hc h1 h2 hcl hsp hlen
    rw [hv] at hs
    exact ⟨_, hs, rfl, get_set_eq _ _ _ hsp,
      fun j hj => get_set_ne _ _ _ _ (by omega), rfl⟩
  · intro x hop hx
    have hs := step_bipush fuel cls m st c x hc hop hx hcl hsp hlen
    rw [to_int8_byte x] at hs
    exact ⟨_, hs, rfl, get_set_eq _ _ _ hsp,
      fun j hj => get_set_ne _ _ _ _ (by omega), rfl⟩
  · intro hi lo hop hhi hlo
    have hs := step_sipush fuel cls m st c hi lo hc hop hhi hlo hcl hsp hlen
    rw [to_int16_bytes hi lo] at hs
    exact ⟨_, hs, rfl, get_set_eq _ _ _ hsp,
      fun j hj => get_set_ne _ _ _ _ (by omega), rfl⟩

/-- C19 at concrete inputs: `iconst_m1` pushes -1, `bipush 0x80` pushes -128,
`sipush 0xff 0xfe` pushes -2, each on top of the stack `[7]`. -/
theorem push_constant_witness :
    (∃ st1, step 0 empty_class (method_of [2, 177])
        { state_of [7, 0] 0 with stack_p := 1 } = .ok (Outcome.next st1) ∧
      st1.stack_p = 2 ∧ st1.stack[1]? = some (-1) ∧ st1.stack[0]? = some 7) ∧
    (∃ st1, step 0 empty_class (method_of [16, 128, 177])
        { state_of [7, 0] 0 with stack_p := 1 } = .ok (Outcome.next st1) ∧
      st1.stack_p = 2 ∧ st1.stack[1]? = some (-128) ∧ st1.stack[0]? = some 7) ∧
    (∃ st1, step 0 empty_class (method_of [17, 255, 254, 177])
        { state_of [7, 0] 0 with stack_p := 1 } = .ok (Outcome.next st1) ∧
      st1.stack_p = 2 ∧ st1.stack[1]? = some (-2) ∧ st1.stack[0]? = some 7) := by
  refine ⟨?_, ?_, ?_⟩
  · obtain ⟨st1, h1, h2, h3, h4, _⟩ :=
      (push_constant 0 empty_class (method_of [2, 177])
        { state_of [7, 0] 0 with stack_p := 1 } 2 rfl (by decide) (by decide) (by decide)).1
        (-1) (by decide) (by decide) (by decide)
    exact ⟨st1, h1, h2, h3, h4 0 (by decide)⟩
  · obtain ⟨st1, h1, h2, h3, h4, _⟩ :=
      (push_constant 0 empty_class (method_of [16, 128, 177])
        { state_of [7, 0] 0 with stack_p := 1 } 16 rfl (by decide) (by decide)
        (by decide)).2.1 128 rfl rfl
    exact ⟨st1, h1, h2, h3, h4 0 (by decide)⟩
  · obtain ⟨st1, h1, h2, h3, h4, _⟩ :=
      (push_constant 0 empty_class (method_of [17, 255, 254, 177])
        { state_of [7, 0] 0 with stack_p := 1 } 17 rfl (by decide) (by decide)
        (by decide)).2.2 255 254 rfl rfl rfl
    exact ⟨st1, h1, h2, h3, h4 0 (by decide)⟩

/-! ## Accesses outside the stack -/

/-- A read at an index that is not below the length of the array. -/
theorem rd_outside {xs : List Int} {i : Nat} (h : xs.length ≤ i) : rd xs i = .error .undefined := by
  simp [rd, List.getElem?_eq_none h]

/-- A write at an index that is not below the length of the array. -/
theorem wr_outside {xs : List Int} {i : Nat} (v : Int) (h : xs.length ≤ i) :
    wr xs i v = .error .undefined := by
  simp [wr, Nat.not_lt.mpr h]

/-- A pass of the loop whose instruction has no defined result ends the run
with that fault. -/
theorem run_of_dispatch_error {fuel : Nat} {cls : class_file_t} {m : method_t} {st : State}
    {c : Fin 256} {e : Fault} (hc : m.code[st.pc]? = some c)
    (h : dispatch (fun nm nl h o => run fuel cls nm (init_state nm nl h o)) cls m c.val st
      = .error e) :
    run (fuel + 1) cls m st = .error e := by
  rw [run, if_pos (lt_length_of_getElem? hc), code_at_eq hc]
  simp only [h]

/-- The index `stack_p - k` of a stack that holds fewer than `k` entries. -/
theorem size_sub_under {d k : Nat} {n : Nat} (hk : k ≤ 2) (hd : d < k)
    (hn : n < 18446744073709551614) : n ≤ size_sub d k := by
  unfold size_sub size_t_wrap
  omega

theorem add_to_xor_under (op : Nat) (st : State)
    (hlen : st.stack.length < 18446744073709551614)
    (hd : if op = i_ineg then st.stack_p = 0 else st.stack_p ≤ 1) :
    add_to_xor op st = .error .undefined := by
  unfold add_to_xor
  by_cases hop : op = i_ineg
  · rw [if_pos hop] at hd
    rw [if_pos hop, rd_outside (size_sub_under (by omega) (by omega) hlen)]
    rfl
  · rw [if_neg hop] at hd
    rw [if_neg hop, rd_outside (size_sub_under (by omega) (by omega) hlen)]
    rfl

/-- A read of the bytecode gives a byte or has no defined result. -/
theorem code_at_cases (m : method_t) (i : Nat) :
    (∃ b, code_at m i = .ok b) ∨ code_at m i = .error .undefined := by
  unfold code_at
  cases m.code[i]? with
  | none => exact Or.inr rfl
  | some b => exact Or.inl ⟨_, rfl⟩

theorem i_store_under (m : method_t) (st : State)
    (hlen : st.stack.length < 18446744073709551614) (hd : st.stack_p = 0) :
    i_store m st = .error .undefined := by
  unfold i_store
  rcases code_at_cases m (size_add st.pc 1) with ⟨i, h⟩ | h
  · rw [h, ok_bind, rd_outside (size_sub_under (k := 1) (by omega) (by omega) hlen)]
    rfl
  · rw [h]
    rfl

theorem bi_push_over (m : method_t) (st : State) (hd : st.stack.length ≤ st.stack_p) :
    bi_push m st = .error .undefined := by
  unfold bi_push
  rcases code_at_cases m (size_add st.pc 1) with ⟨i, h⟩ | h
  · rw [h, ok_bind, wr_outside _ hd]
    rfl
  · rw [h]
    rfl

theorem i_const_over (m : method_t) (st : State) (hd : st.stack.length ≤ st.stack_p) :
    i_const m st = .error .undefined := by
  unfold i_const
  rcases code_at_cases m st.pc with ⟨i, h⟩ | h
  · rw [h, ok_bind, wr_outside _ hd]
    rfl
  · rw [h]
    rfl

/-- C20 (as the code behaves): the interpreter makes no stack check and
reports no StackViolation. An instruction that pops more operands than the
stack holds (a two-operand arithmetic instruction at depth 0 or 1, `ineg` or
`istore` at depth 0), or that pushes at a depth equal to the capacity of the
stack (`bipush`, `iconst_*`), accesses a slot outside the stack array: the run
has no defined result, and none of the failures the code reports occurs. -/
theorem stack_unchecked (fuel : Nat) (cls : class_file_t) (m : method_t) (st : State)
    (c : Fin 256) (hc : m.code[st.pc]? = some c)
    (hlen : st.stack.length < 18446744073709551614) :
    (i_iadd ≤ c.val → c.val ≤ i_ixor → c.val ≠ i_ineg → st.stack_p ≤ 1 →
      run (fuel + 1) cls m st = .error .undefined) ∧
    (c.val = i_ineg → st.stack_p = 0 → run (fuel + 1) cls m st = .error .undefined) ∧
    (c.val = i_istore → st.stack_p = 0 → run (fuel + 1) cls m st = .error .undefined) ∧
    (c.val = i_bipush → st.stack_p = st.stack.length →
      run (fuel + 1) cls m st = .error .undefined) ∧
    (i_iconst_m1 ≤ c.val → c.val ≤ i_iconst_5 → st.stack_p = st.stack.length →
      run (fuel + 1) cls m st = .error .undefined) ∧
    is_reported .undefined = false := by
  refine ⟨?_, ?_, ?_, ?_, ?_, rfl⟩
  · intro h1 h2 hneg hd
    apply run_of_dispatch_error hc
    rw [dispatch_arith _ cls m c.val st ⟨h1, h2⟩,
      add_to_xor_under c.val st hlen (by rw [if_neg hneg]; exact hd)]
    rfl
  · intro hop hd
    apply run_of_dispatch_error hc
    rw [dispatch_arith _ cls m c.val st (by rw [hop]; decide),
      add_to_xor_under c.val st hlen (by rw [if_pos hop]; exact hd)]
    rfl
  · intro hop hd
    apply run_of_dispatch_error hc
    rw [hop, (dispatch_single _ cls m st).2.2.2.1, i_store_under m st hlen hd]
    rfl
  · intro hop hd
    apply run_of_dispatch_error hc
    rw [hop, (dispatch_single _ cls m st).1, bi_push_over m st (by omega)]
    rfl
  · intro h1 h2 hd
    apply run_of_dispatch_error hc
    rw [dispatch_iconst _ cls m c.val st h1 h2, i_const_over m st (by omega)]
    rfl

/-- C20 at concrete inputs: `iadd` at depth 1 and `bipush` at depth 1 of a
one-slot stack. -/
theorem stack_unchecked_witness :
    run 1 empty_class (method_of [96, 172]) (state_of [7] 0) = .error .undefined ∧
    run 1 empty_class (method_of [16, 9, 172]) (state_of [7] 0) = .error .undefined := by
  have h1 := stack_unchecked 0 empty_class (method_of [96, 172]) (state_of [7] 0) 96 rfl
    (by decide)
  have h2 := stack_unchecked 0 empty_class (method_of [16, 9, 172]) (state_of [7] 0) 16 rfl
    (by decide)
  exact ⟨h1.1 (by decide) (by decide) (by decide) (by decide), h2.2.2.2.1 rfl rfl⟩

/-- C20 fails as stated: `iadd` at depth 0, `iadd` at depth 1, `istore` at
depth 0 and a fifth `bipush` on a stack of four slots each end the run with no
defined result; the fault is not one the code reports. -/
theorem stack_violation_counterexample :
    value_of (execute 1 (method_of [96, 172]) [0, 0] empty_class [] []) = .error .undefined ∧
    value_of (execute 2 (method_of [4, 96, 172]) [0, 0] empty_class [] []) = .error .undefined ∧
    value_of (execute 1 (method_of [54, 0, 177]) [0, 0] empty_class [] []) = .error .undefined ∧
    value_of (execute 5 (method_of [16, 1, 16, 2, 16, 3, 16, 4, 16, 5, 177]) [0, 0]
      empty_class [] []) = .error .undefined ∧
    is_reported .undefined = false := by
  decide

/-! ## Duplicating the top of the stack -/

/-- The arms of the dispatch switch for `nop` and `dup`. -/
theorem dispatch_nop_dup (call : method_t → List Int → heap_t → List Int →
      Except Fault (optional_value_t × State)) (cls : class_file_t) (m : method_t)
    (st : State) :
    dispatch call cls m i_nop st = .ok (Outcome.next st) ∧
    dispatch call cls m i_dup st = Outcome.next <$> dup st := by
  constructor <;> simp [dispatch]

/-- A pass of the loop at `dup`. -/
theorem step_dup (fuel : Nat) (cls : class_file_t) (m : method_t) (st : State)
    (c : Fin 256) (top : Int)
    (hc : m.code[st.pc]? = some c) (hop : c.val = i_dup) (hcl : m.code.length < 4294967296)
    (hd : 1 ≤ st.stack_p) (hsp : st.stack_p < st.stack.length)
    (hlen : st.stack.length < 18446744073709551616)
    (htop : st.stack[st.stack_p - 1]? = some top) :
    step fuel cls m st = .ok (Outcome.next { st with
      stack := st.stack.set st.stack_p top, stack_p := st.stack_p + 1, pc := st.pc + 1 }) := by
  have hpc := lt_length_of_getElem? hc
  have e1 : size_sub st.stack_p 1 = st.stack_p - 1 := size_sub_eq hd (by omega)
  have e2 : size_add st.stack_p 1 = st.stack_p + 1 := size_add_eq (by omega)
  have e3 : size_add st.pc 1 = st.pc + 1 := size_add_eq (by omega)
  have hdis := (dispatch_nop_dup (fun nm nl h o => run fuel cls nm (init_state nm nl h o))
    cls m st).2
  rw [← hop] at hdis
  have hf : dup st = .ok { st with
      stack := st.stack.set st.stack_p top, stack_p := st.stack_p + 1 } := by
    unfold dup
    simp only [e1, e2, rd_eq htop, ok_bind, wr_eq _ hsp, pure_eq_ok]
  rw [step_of_arm hc hdis hf]
  show Except.ok (Outcome.next { st with
      stack := st.stack.set st.stack_p top, stack_p := st.stack_p + 1,
      pc := size_add st.pc 1 }) = _
  rw [e3]

/-- A pass of the loop at `nop`. -/
theorem step_nop (fuel : Nat) (cls : class_file_t) (m : method_t) (st : State)
    (c : Fin 256)
    (hc : m.code[st.pc]? = some c) (hop : c.val = i_nop) (hcl : m.code.length < 4294967296) :
    step fuel cls m st = .ok (Outcome.next { st with pc := st.pc + 1 }) := by
  have hpc := lt_length_of_getElem? hc
  have e3 : size_add st.pc 1 = st.pc + 1 := size_add_eq (by omega)
  have hdis := (dispatch_nop_dup (fun nm nl h o => run fuel cls nm (init_state nm nl h o))
    cls m st).1
  rw [← hop] at hdis
  rw [step_of_dispatch_next hc hdis]
  show Except.ok (Outcome.next { st with pc := size_add st.pc 1 }) = _
  rw [e3]

/-- C21: at stack depth `d ≥ 1` below the capacity of the stack, `dup` raises
the depth to `d + 1`, leaves the entries `0 .. d - 1` unchanged and makes the
new top equal to the old top; `nop` changes nothing in the stack, the depth,
the locals or the heap and only advances the program counter by one. -/
theorem dup_and_nop (fuel : Nat) (cls : class_file_t) (m : method_t) (st : State)
    (c : Fin 256) (hc : m.code[st.pc]? = some c) (hcl : m.code.length < 4294967296) :
    (c.val = i_dup → 1 ≤ st.stack_p → st.stack_p < st.stack.length →
      st.stack.length < 18446744073709551616 →
      ∃ st1 top, step fuel cls m st = .ok (Outcome.next st1) ∧
        run (fuel + 1) cls m st = run fuel cls m st1 ∧
        st.stack[st.stack_p - 1]? = some top ∧
        st1.stack_p = st.stack_p + 1 ∧ st1.stack[st.stack_p]? = some top ∧
        (∀ j, j < st.stack_p → st1.stack[j]? = st.stack[j]?) ∧
        st1.locals = st.locals ∧ st1.heap = st.heap ∧ st1.pc = st.pc + 1) ∧
    (c.val = i_nop →
      ∃ st1, step fuel cls m st = .ok (Outcome.next st1) ∧
        run (fuel + 1) cls m st = run fuel cls m st1 ∧
        st1.stack = st.stack ∧ st1.stack_p = st.stack_p ∧ st1.locals = st.locals ∧
        st1.heap = st.heap ∧ st1.out = st.out ∧ st1.pc = st.pc + 1) := by
  have hpc := lt_length_of_getElem? hc
  constructor
  · intro hop hd hsp hlen
    obtain ⟨top, htop⟩ := exists_get st.stack (st.stack_p - 1) (by omega)
    have hs := step_dup fuel cls m st c top hc hop hcl hd hsp hlen htop
    exact ⟨_, top, hs, run_of_step_next hpc hs, htop, rfl, get_set_eq _ _ _ hsp,
      fun j hj => get_set_ne _ _ _ _ (by omega), rfl, rfl, rfl⟩
  · intro hop
    have hs := step_nop fuel cls m st c hc hop hcl
    exact ⟨_, hs, run_of_step_next hpc hs, rfl, rfl, rfl, rfl, rfl, rfl⟩

/-- C21 at concrete inputs: `dup` on the stack `[7, 9]` of four slots gives
`[7, 9, 9]`, and `nop` leaves it alone. -/
theorem dup_and_nop_witness :
    (∃ (st1 : State) (top : Int), step 0 empty_class (method_of [89, 177])
        { state_of [7, 9, 0, 0] 0 with stack_p := 2 } = .ok (Outcome.next st1) ∧
      top = 9 ∧ st1.stack_p = 3 ∧ st1.stack[2]? = some 9 ∧ st1.stack[0]? = some 7 ∧
      st1.stack[1]? = some 9) ∧
    (∃ st1, step 0 empty_class (method_of [0, 177])
        { state_of [7, 9, 0, 0] 0 with stack_p := 2 } = .ok (Outcome.next st1) ∧
      st1.stack = [7, 9, 0, 0] ∧ st1.stack_p = 2 ∧ st1.pc = 1) := by
  constructor
  · obtain ⟨st1, top, h1, _, h3, h4, h5, h6, _⟩ :=
      (dup_and_nop 0 empty_class (method_of [89, 177])
        { state_of [7, 9, 0, 0] 0 with stack_p := 2 } 89 rfl (by decide)).1 rfl
        (by decide) (by decide) (by decide)
    have ht : top = 9 := by
      have h3b : (some (9 : Int)) = some top := h3
      exact (Option.some.inj h3b).symm
    refine ⟨st1, top, h1, ht, h4, ?_, h6 0 (by decide), h6 1 (by decide)⟩
    rw [← ht]
    exact h5
  · obtain ⟨st1, h1, _, h3, h4, _, _, _, h8⟩ :=
      (dup_and_nop 0 empty_class (method_of [0, 177])
        { state_of [7, 9, 0, 0] 0 with stack_p := 2 } 0 rfl (by decide)).2 rfl
    exact ⟨st1, h1, h3, h4, h8⟩

/-! ## A heap shared with the callee -/

/-- The arms of the dispatch switch for `aload_<n>`, `iastore` and `iaload`. -/
theorem dispatch_array_arms (call : method_t → List Int → heap_t → List Int →
      Except Fault (optional_value_t × State)) (cls : class_file_t) (m : method_t)
    (st : State) :
    (∀ op, i_aload_0 ≤ op → op ≤ i_aload_3 →
      dispatch call cls m op st = Outcome.next <$> aload_nums m st) ∧
    dispatch call cls m i_iastore st = Outcome.next <$> iastore st ∧
    dispatch call cls m i_iaload st = Outcome.next <$> iaload st := by
  refine ⟨?_, ?_, ?_⟩
  · intro op h1 h2
    have h3 : 42 ≤ op := h1
    have h4 : op ≤ 45 := h2
    interval_cases op <;> simp [dispatch]
  · simp [dispatch]
  · simp [dispatch]

/-- A pass of the loop at `aload_<n>`. -/
theorem step_aload_nums (fuel : Nat) (cls : class_file_t) (m : method_t) (st : State)
    (c : Fin 256) (v : Int)
    (hc : m.code[st.pc]? = some c) (h1 : i_aload_0 ≤ c.val) (h2 : c.val ≤ i_aload_3)
    (hcl : m.code.length < 4294967296)
    (hv : st.locals[c.val - i_aload_0]? = some v)
    (hsp : st.stack_p < st.stack.length) (hlen : st.stack.length < 18446744073709551616) :
    step fuel cls m st = .ok (Outcome.next { st with
      stack := st.stack.set st.stack_p v, stack_p := st.stack_p + 1, pc := st.pc + 1 }) := by
  have hpc := lt_length_of_getElem? hc
  have e2 : size_add st.stack_p 1 = st.stack_p + 1 := size_add_eq (by omega)
  have e3 : size_add st.pc 1 = st.pc + 1 := size_add_eq (by omega)
  have hdis := (dispatch_array_arms (fun nm nl h o => run fuel cls nm (init_state nm nl h o))
    cls m st).1 c.val h1 h2
  have hidx : ((((c.val : Nat) : Int) - ((i_aload_0 : Nat) : Int)) % 256).toNat
      = c.val - i_aload_0 := by
    have h3 : 42 ≤ c.val := h1
    have h4 : c.val ≤ 45 := h2
    show ((((c.val : Nat) : Int) - ((42 : Nat) : Int)) % 256).toNat = c.val - 42
    omega
  have hf : aload_nums m st = .ok { st with
      stack := st.stack.set st.stack_p v, stack_p := st.stack_p + 1 } := by
    unfold aload_nums
    simp only [code_at_eq hc, ok_bind, hidx, rd_eq hv, wr_eq _ hsp, e2, pure_eq_ok]
  rw [step_of_arm hc hdis hf]
  show Except.ok (Outcome.next { st with
      stack := st.stack.set st.stack_p v, stack_p := st.stack_p + 1,
      pc := size_add st.pc 1 }) = _
  rw [e3]

/-- A pass of the loop at `iastore` with an index inside the array. -/
theorem step_iastore (fuel : Nat) (cls : class_file_t) (m : method_t) (st : State)
    (c : Fin 256) (ref idx v : Int) (arr : List Int)
    (hc : m.code[st.pc]? = some c) (hop : c.val = i_iastore)
    (hcl : m.code.length < 4294967296)
    (hd : 3 ≤ st.stack_p) (hcap : st.stack_p ≤ st.stack.length)
    (hlen : st.stack.length < 18446744073709551616)
    (h3 : st.stack[st.stack_p - 3]? = some ref) (h2 : st.stack[st.stack_p - 2]? = some idx)
    (h1 : st.stack[st.stack_p - 1]? = some v)
    (href : 0 ≤ ref) (harr : st.heap[ref.toNat]? = some arr)
    (hi0 : 0 ≤ idx) (hi1 : idx.toNat + 1 < arr.length) (hi2 : idx < 2147483647) :
    step fuel cls m st = .ok (Outcome.next { st with
      stack := ((st.stack.set (st.stack_p - 1) 0).set (st.stack_p - 2) 0).set (st.stack_p - 3) 0,
      stack_p := st.stack_p - 3,
      heap := st.heap.set ref.toNat (arr.set (idx.toNat + 1) v),
      pc := st.pc + 1 }) := by
  have hpc := lt_length_of_getElem? hc
  have e3 : size_add st.pc 1 = st.pc + 1 := size_add_eq (by omega)
  have e1 : to_int32 (idx + 1) = idx + 1 := to_int32_id ⟨by omega, by omega⟩
  have e2 : (idx + 1).toNat = idx.toNat + 1 := by omega
  have hdis := (dispatch_array_arms (fun nm nl h o => run fuel cls nm (init_state nm nl h o))
    cls m st).2.1
  rw [← hop] at hdis
  have hf := iastore_eq st ref idx v arr hd hcap hlen h3 h2 h1 href harr
    (by rw [e1]; omega) (by rw [e1, e2]; exact hi1)
  rw [e1, e2] at hf
  rw [step_of_arm hc hdis hf]
  show Except.ok (Outcome.next { st with
      stack := ((st.stack.set (st.stack_p - 1) 0).set (st.stack_p - 2) 0).set (st.stack_p - 3) 0,
      stack_p := st.stack_p - 3,
      heap := st.heap.set ref.toNat (arr.set (idx.toNat + 1) v),
      pc := size_add st.pc 1 }) = _
  rw [e3]

/-- The run of `store_method` on the arguments `ref`, `idx`, `v`: five passes
of the loop, which leave the value in the array cell of the heap it was
started on. -/
theorem store_method_run (fuel : Nat) (cls : class_file_t) (heap : heap_t) (out : List Int)
    (ref idx v : Int) (arr : List Int)
    (href : 0 ≤ ref) (harr : heap[ref.toNat]? = some arr)
    (hi0 : 0 ≤ idx) (hi1 : idx.toNat + 1 < arr.length) (hi2 : idx < 2147483647) :
    run (fuel + 5) cls store_method (init_state store_method [ref, idx, v] heap out)
      = .ok ({ has_value := false, value := 0 },
          State.mk [0, 0, 0] 0 [ref, idx, v] 4
            (heap.set ref.toNat (arr.set (idx.toNat + 1) v)) out) := by
  have hcl : store_method.code.length < 4294967296 := by decide
  have s0 : step (fuel + 4) cls store_method (init_state store_method [ref, idx, v] heap out)
      = .ok (Outcome.next (State.mk [ref, 0, 0] 1 [ref, idx, v] 1 heap out)) := by
    rw [step_aload_nums (fuel + 4) cls store_method
      (init_state store_method [ref, idx, v] heap out) 42 ref rfl (by decide) (by decide) hcl
      (cons_get_zero _ _) (by simp [init_state, store_method])
      (by simp [init_state, store_method])]
    rfl
  have s1 : step (fuel + 3) cls store_method
      (State.mk [ref, 0, 0] 1 [ref, idx, v] 1 heap out)
      = .ok (Outcome.next (State.mk [ref, idx, 0] 2 [ref, idx, v] 2 heap out)) := by
    rw [step_iload_nums (fuel + 3) cls store_method
      (State.mk [ref, 0, 0] 1 [ref, idx, v] 1 heap out) 27 idx rfl (by decide) (by decide) hcl
      (cons_get_one _ _ _) (by simp) (by simp)]
    rfl
  have s2 : step (fuel + 2) cls store_method
      (State.mk [ref, idx, 0] 2 [ref, idx, v] 2 heap out)
      = .ok (Outcome.next (State.mk [ref, idx, v] 3 [ref, idx, v] 3 heap out)) := by
    rw [step_iload_nums (fuel + 2) cls store_method
      (State.mk [ref, idx, 0] 2 [ref, idx, v] 2 heap out) 28 v rfl (by decide) (by decide) hcl
      (show [ref, idx, v][2]? = some v by simp) (by simp) (by simp)]
    rfl
  have s3 : step (fuel + 1) cls store_method
      (State.mk [ref, idx, v] 3 [ref, idx, v] 3 heap out)
      = .ok (Outcome.next (State.mk [0, 0, 0] 0 [ref, idx, v] 4
          (heap.set ref.toNat (arr.set (idx.toNat + 1) v)) out)) := by
    rw [step_iastore (fuel + 1) cls store_method
      (State.mk [ref, idx, v] 3 [ref, idx, v] 3 heap out) 79 ref idx v arr rfl rfl hcl
      (by simp) (by simp) (by simp) (cons_get_zero _ _) (cons_get_one _ _ _)
      (show [ref, idx, v][2]? = some v by simp) href harr hi0 hi1 hi2]
    rfl
  have s4 : step fuel cls store_method
      (State.mk [0, 0, 0] 0 [ref, idx, v] 4 (heap.set ref.toNat (arr.set (idx.toNat + 1) v)) out)
      = .ok (Outcome.done { has_value := false, value := 0 }
          (State.mk [0, 0, 0] 0 [ref, idx, v] 4
            (heap.set ref.toNat (arr.set (idx.toNat + 1) v)) out)) :=
    step_of_dispatch_done (c := 177) rfl (dispatch_return _ cls store_method _)
  rw [run_of_step_next (by simp [init_state, store_method]) s0,
    run_of_step_next (by simp [store_method]) s1, run_of_step_next (by simp [store_method]) s2,
    run_of_step_next (by simp [store_method]) s3, run_of_step_done (by simp [store_method]) s4]

/-- A pass of the loop at `invokestatic` when the callee returns no value. -/
theorem step_invokestatic_void (fuel : Nat) (cls : class_file_t) (m nm : method_t)
    (st st1 callee : State) (c : Fin 256) (nl : List Int)
    (hc : m.code[st.pc]? = some c) (hop : c.val = i_invokestatic)
    (hcl : m.code.length < 4294967296) (hpc : st.pc + 2 < m.code.length)
    (henter : invoke_static_enter cls m st = .ok (nm, nl, st1))
    (hpc1 : st1.pc = st.pc)
    (hret : run fuel cls nm (init_state nm nl st1.heap st1.out)
      = .ok ({ has_value := false, value := 0 }, callee)) :
    step fuel cls m st = .ok (Outcome.next { st1 with
      heap := callee.heap, out := callee.out, pc := st.pc + 3 }) := by
  have e2 : size_add st.pc 2 = st.pc + 2 := size_add_eq (by omega)
  have e3 : size_add (st.pc + 2) 1 = st.pc + 3 := size_add_eq (by omega)
  have hdis := dispatch_invokestatic (fun nm nl h o => run fuel cls nm (init_state nm nl h o))
    cls m st
  rw [henter] at hdis
  simp only [ok_bind] at hdis
  rw [hret] at hdis
  simp only [ok_bind] at hdis
  have hleave : invoke_static_leave st1 { has_value := false, value := 0 }
      callee.heap callee.out = .ok { st1 with
        heap := callee.heap, out := callee.out, pc := st.pc + 2 } := by
    simp [invoke_static_leave, hpc1, e2]
  rw [hleave, ← hop] at hdis
  rw [step_of_dispatch_next hc hdis]
  show Except.ok (Outcome.next { st1 with
      heap := callee.heap, out := callee.out, pc := size_add (st.pc + 2) 1 }) = _
  rw [e3]

/-- A list of three entries is determined by its entries. -/
theorem list_three (xs : List Int) (a b c : Int) (hl : xs.length = 3)
    (h0 : xs[0]? = some a) (h1 : xs[1]? = some b) (h2 : xs[2]? = some c) :
    xs = [a, b, c] := by
  match xs, hl with
  | [x, y, z], _ =>
    simp only [List.getElem?_cons_zero, List.getElem?_cons_succ, Option.some.injEq] at h0 h1 h2
    rw [h0, h1, h2]

/-- C22: an element that `iastore` writes inside a callee reached through
`invokestatic` (the callee `store_method`, with the array handle, an index
inside the array and the value as arguments) is in the heap the caller goes on
with after the callee has returned, and is the value `iaload` then pushes in
the caller for the same handle and index. -/
theorem heap_shared (fuel : Nat) (cls : class_file_t) (m : method_t) (st : State)
    (c b1 b2 : Fin 256) (ref idx v : Int) (arr : List Int)
    (hc : m.code[st.pc]? = some c) (hop : c.val = i_invokestatic)
    (h1 : m.code[st.pc + 1]? = some b1) (h2 : m.code[st.pc + 2]? = some b2)
    (hcl : m.code.length < 4294967296)
    (hfind : cls.find_method_from_index (b1.val * 256 + b2.val) = some store_method)
    (hd : 3 ≤ st.stack_p) (hcap : st.stack_p ≤ st.stack.length)
    (hlen : st.stack.length < 18446744073709551616)
    (hs3 : st.stack[st.stack_p - 3]? = some ref) (hs2 : st.stack[st.stack_p - 2]? = some idx)
    (hs1 : st.stack[st.stack_p - 1]? = some v)
    (href : 0 ≤ ref) (harr : st.heap[ref.toNat]? = some arr)
    (hi0 : 0 ≤ idx) (hi1 : idx.toNat + 1 < arr.length) (hi2 : idx < 2147483647) :
    ∃ st1, step (fuel + 5) cls m st = .ok (Outcome.next st1) ∧
      run (fuel + 6) cls m st = run (fuel + 5) cls m st1 ∧
      st1.heap = st.heap.set ref.toNat (arr.set (idx.toNat + 1) v) ∧
      st1.stack_p = st.stack_p - 3 ∧ st1.locals = st.locals ∧ st1.pc = st.pc + 3 ∧
      (∀ st2 : State, st2.heap = st1.heap → 2 ≤ st2.stack_p →
        st2.stack_p ≤ st2.stack.length → st2.stack.length < 18446744073709551616 →
        st2.stack[st2.stack_p - 2]? = some ref → st2.stack[st2.stack_p - 1]? = some idx →
        ∃ st3, iaload st2 = .ok st3 ∧ st3.stack_p = st2.stack_p - 1 ∧
          st3.stack[st2.stack_p - 2]? = some v) := by
  have hpc := lt_length_of_getElem? hc
  have hpc2 := lt_length_of_getElem? h2
  have hlt : ref.toNat < st.heap.length := lt_length_of_getElem? harr
  obtain ⟨nl, stk1, henter, hnl, _, hargs, _, _, _⟩ :=
    invoke_static_enter_spec cls m st b1 b2 store_method h1 h2 hcl hfind (by decide)
      (by decide) hd hcap hlen
  have e0 : st.stack_p - 3 + 0 = st.stack_p - 3 := by omega
  have e1 : st.stack_p - 3 + 1 = st.stack_p - 2 := by omega
  have e2 : st.stack_p - 3 + 2 = st.stack_p - 1 := by omega
  have n0 : nl[0]? = some ref := by
    have h := hargs 0 (by decide)
    rw [show st.stack_p - store_method.number_of_parameters + 0 = st.stack_p - 3 from e0] at h
    rw [h, hs3]
  have n1 : nl[1]? = some idx := by
    have h := hargs 1 (by decide)
    rw [show st.stack_p - store_method.number_of_parameters + 1 = st.stack_p - 2 from e1] at h
    rw [h, hs2]
  have n2 : nl[2]? = some v := by
    have h := hargs 2 (by decide)
    rw [show st.stack_p - store_method.number_of_parameters + 2 = st.stack_p - 1 from e2] at h
    rw [h, hs1]
  have hnl3 : nl = [ref, idx, v] := list_three nl ref idx v hnl n0 n1 n2
  rw [hnl3] at henter
  have hret := store_method_run fuel cls st.heap st.out ref idx v arr href harr hi0 hi1 hi2
  have hs := step_invokestatic_void (fuel + 5) cls m store_method st _ _ c [ref, idx, v]
    hc hop hcl hpc2 henter rfl hret
  refine ⟨_, hs, run_of_step_next hpc hs, rfl, rfl, rfl, rfl, ?_⟩
  intro st2 hheap hd2 hcap2 hlen2 g2 g1
  have hcell : st2.heap[ref.toNat]? = some (arr.set (idx.toNat + 1) v) := by
    rw [hheap]
    show (st.heap.set ref.toNat (arr.set (idx.toNat + 1) v))[ref.toNat]? = _
    rw [List.getElem?_set, if_pos rfl, if_pos hlt]
  have e3 : to_int32 (idx + 1) = idx + 1 := to_int32_id ⟨by omega, by omega⟩
  have e4 : (idx + 1).toNat = idx.toNat + 1 := by omega
  have hload := iaload_eq st2 ref idx v _ hd2 hcap2 hlen2 g2 g1 href hcell (by rw [e3]; omega)
    (by rw [e3, e4]; exact get_set_eq _ _ _ hi1)
  exact ⟨_, hload, rfl, get_set_eq _ _ _ (by simp; omega)⟩

/-- C22 at concrete inputs: the callee stores 42 at index 3 of the array under
handle 0, and the caller reads it back; the program `bipush 5; newarray; dup;
iconst_3; bipush 42; invokestatic 1; iconst_3; iaload; ireturn` returns 42. -/
theorem heap_shared_witness :
    (∃ st1, step (0 + 5) store_class (method_of [184, 0, 1, 177]) (array_state [0, 3, 42])
        = .ok (Outcome.next st1) ∧
      st1.heap = [[5, 10, 20, 30, 42, 50]] ∧ st1.stack_p = 0) ∧
    value_of (execute 20
      (method_of [16, 5, 188, 10, 89, 6, 16, 42, 184, 0, 1, 6, 46, 172]) [0, 0] store_class
      [] []) = .ok { has_value := true, value := 42 } := by
  refine ⟨?_, by decide⟩
  obtain ⟨st1, h1, _, h3, h4, _⟩ :=
    heap_shared 0 store_class (method_of [184, 0, 1, 177]) (array_state [0, 3, 42])
      184 0 1 0 3 42 [5, 10, 20, 30, 40, 50] rfl rfl rfl rfl (by decide) rfl (by decide)
      (by decide) (by decide) rfl rfl rfl (by decide) rfl (by decide) (by decide) (by decide)
  exact ⟨st1, h1, h3, h4⟩

/-! ## The length slot of an array cell -/

/-- C27 (as the code behaves): for the handle of a cell of stored length `N`
and an index `i` with `0 ≤ i < N`, `iastore` writes storage slot `i + 1` and
leaves slot 0 as it is, so `arraylength` reports `N` after the store as
before, and `iaload` reads slot `i + 1`. With the index -1 both address slot
0: `iastore` overwrites the stored length, so `arraylength` reports the value
stored, and `iaload` returns the stored length. -/
theorem length_slot_access (ref i N : Int) (arr : List Int)
    (href : 0 ≤ ref) (hN0 : 0 ≤ N) (hN1 : N ≤ 2147483647)
    (hlen : arr.length = N.toNat + 1) (hstored : arr[0]? = some N) :
    (∀ (st : State) (v : Int), st.heap[ref.toNat]? = some arr → 3 ≤ st.stack_p →
      st.stack_p ≤ st.stack.length → st.stack.length < 18446744073709551616 →
      st.stack[st.stack_p - 3]? = some ref → st.stack[st.stack_p - 2]? = some i →
      st.stack[st.stack_p - 1]? = some v →
      (0 ≤ i → i < N → ∃ st1 arr1, iastore st = .ok st1 ∧
        st1.heap[ref.toNat]? = some arr1 ∧ arr1 = arr.set (i.toNat + 1) v ∧
        arr1[0]? = some N ∧
        (∀ st2 : State, st2.heap = st1.heap → 1 ≤ st2.stack_p →
          st2.stack_p ≤ st2.stack.length → st2.stack.length < 18446744073709551616 →
          st2.stack[st2.stack_p - 1]? = some ref →
          ∃ st3, arraylength st2 = .ok st3 ∧ st3.stack[st2.stack_p - 1]? = some N)) ∧
      (i = -1 → ∃ st1, iastore st = .ok st1 ∧
        st1.heap[ref.toNat]? = some (arr.set 0 v) ∧
        (∀ st2 : State, st2.heap = st1.heap → 1 ≤ st2.stack_p →
          st2.stack_p ≤ st2.stack.length → st2.stack.length < 18446744073709551616 →
          st2.stack[st2.stack_p - 1]? = some ref →
          ∃ st3, arraylength st2 = .ok st3 ∧ st3.stack[st2.stack_p - 1]? = some v))) ∧
    (∀ st : State, st.heap[ref.toNat]? = some arr → 2 ≤ st.stack_p →
      st.stack_p ≤ st.stack.length → st.stack.length < 18446744073709551616 →
      st.stack[st.stack_p - 2]? = some ref → st.stack[st.stack_p - 1]? = some i →
      (0 ≤ i → i < N → ∃ st1, iaload st = .ok st1 ∧
        st1.stack[st.stack_p - 2]? = arr[i.toNat + 1]? ∧ i.toNat + 1 < arr.length) ∧
      (i = -1 → ∃ st1, iaload st = .ok st1 ∧ st1.stack[st.stack_p - 2]? = some N)) := by
  have hz : to_int32 (-1 + 1) = 0 := by decide
  have hpos : (0 : Nat) < arr.length := by omega
  have hlt_of : ∀ st : State, st.heap[ref.toNat]? = some arr → ref.toNat < st.heap.length :=
    fun st h => lt_length_of_getElem? h
  have hidx : 0 ≤ i → i < N → to_int32 (i + 1) = i + 1 ∧ (i + 1).toNat = i.toNat + 1 ∧
      i.toNat + 1 < arr.length := by
    intro h0 h1
    refine ⟨to_int32_id ⟨by omega, by omega⟩, by omega, by omega⟩
  constructor
  · intro st v harr hd hcap hlen2 h3 h2 h1
    have hlt := hlt_of st harr
    constructor
    · intro h0 hi
      obtain ⟨e1, e2, e3⟩ := hidx h0 hi
      have hs := iastore_eq st ref i v arr hd hcap hlen2 h3 h2 h1 href harr
        (by rw [e1]; omega) (by rw [e1, e2]; exact e3)
      rw [e1, e2] at hs
      have hcell : (st.heap.set ref.toNat (arr.set (i.toNat + 1) v))[ref.toNat]?
          = some (arr.set (i.toNat + 1) v) := by
        rw [List.getElem?_set, if_pos rfl, if_pos hlt]
      have hzero : (arr.set (i.toNat + 1) v)[0]? = some N := by
        rw [get_set_ne _ _ _ _ (by omega), hstored]
      refine ⟨_, _, hs, hcell, rfl, hzero, ?_⟩
      intro st2 hheap hd2 hcap2 hlen3 htop
      have harr2 : st2.heap[ref.toNat]? = some (arr.set (i.toNat + 1) v) := by
        rw [hheap]; exact hcell
      refine ⟨_, arraylength_eq st2 ref N _ hd2 hcap2 hlen3 htop href harr2 hzero, ?_⟩
      exact get_set_eq _ _ _ (by omega)
    · intro hm
      subst hm
      have hs := iastore_eq st ref (-1) v arr hd hcap hlen2 h3 h2 h1 href harr
        (by rw [hz]) (by rw [hz]; exact hpos)
      rw [hz] at hs
      have hcell : (st.heap.set ref.toNat (arr.set (0 : Int).toNat v))[ref.toNat]?
          = some (arr.set 0 v) := by
        rw [List.getElem?_set, if_pos rfl, if_pos hlt]
        rfl
      refine ⟨_, hs, hcell, ?_⟩
      intro st2 hheap hd2 hcap2 hlen3 htop
      have harr2 : st2.heap[ref.toNat]? = some (arr.set 0 v) := by
        rw [hheap]; exact hcell
      refine ⟨_, arraylength_eq st2 ref v _ hd2 hcap2 hlen3 htop href harr2
        (get_set_eq _ _ _ hpos), ?_⟩
      exact get_set_eq _ _ _ (by omega)
  · intro st harr hd hcap hlen2 h2 h1
    have w2 : st.stack_p - 2 < st.stack.length := by omega
    constructor
    · intro h0 hi
      obtain ⟨e1, e2, e3⟩ := hidx h0 hi
      obtain ⟨x, hx⟩ := exists_get arr (i.toNat + 1) e3
      have hs := iaload_eq st ref i x arr hd hcap hlen2 h2 h1 href harr (by rw [e1]; omega)
        (by rw [e1, e2]; exact hx)
      refine ⟨_, hs, ?_, e3⟩
      rw [hx]
      exact get_set_eq _ _ _ (by simpa using w2)
    · intro hm
      subst hm
      have hs := iaload_eq st ref (-1) N arr hd hcap hlen2 h2 h1 href harr (by rw [hz])
        (by rw [hz]; exact hstored)
      exact ⟨_, hs, get_set_eq _ _ _ (by simpa using w2)⟩

/-- C27 at concrete inputs: a cell of stored length 5; the store at index 3
leaves the length at 5, the load at index 3 reads slot 4. -/
theorem length_slot_access_witness :
    (∃ st1 arr1, iastore (array_state [0, 3, 42]) = .ok st1 ∧
      st1.heap[0]? = some arr1 ∧ arr1 = [5, 10, 20, 30, 42, 50] ∧ arr1[0]? = some 5) ∧
    (∃ st1, iaload (array_state [0, 3]) = .ok st1 ∧ st1.stack[0]? = some 40) := by
  have h := length_slot_access 0 3 5 [5, 10, 20, 30, 40, 50] (by decide) (by decide)
    (by decide) rfl rfl
  constructor
  · obtain ⟨st1, arr1, h1, h2, h3, h4, _⟩ :=
      (h.1 (array_state [0, 3, 42]) 42 rfl (by decide) (by decide) (by decide) rfl rfl rfl).1
        (by decide) (by decide)
    exact ⟨st1, arr1, h1, h2, h3, h4⟩
  · obtain ⟨st1, h1, h2, _⟩ :=
      (h.2 (array_state [0, 3]) rfl (by decide) (by decide) (by decide) rfl rfl).1
        (by decide) (by decide)
    exact ⟨st1, h1, h2⟩

/-- C27 fails as stated at index -1 on a cell of stored length 5: after
`iastore` of 42 at index -1, `arraylength` reports 42 (`iastore; iconst_0;
arraylength; ireturn`) where it reported 5 before (`arraylength; ireturn`),
and `iaload` at index -1 returns the stored length 5 (`iaload; ireturn`). -/
theorem length_slot_counterexample :
    value_of (run 5 empty_class (method_of [79, 3, 190, 172]) (array_state [0, -1, 42]))
      = .ok { has_value := true, value := 42 } ∧
    value_of (run 3 empty_class (method_of [190, 172]) (array_state [0]))
      = .ok { has_value := true, value := 5 } ∧
    value_of (run 3 empty_class (method_of [46, 172]) (array_state [0, -1]))
      = .ok { has_value := true, value := 5 } := by
  decide

/-! ## Methods without a transfer of control -/

theorem bind_no_fuel {α β : Type} {x : Except Fault α} {f : α → Except Fault β}
    (hx : x ≠ .error .fuel) (hf : ∀ a, f a ≠ .error .fuel) : (x >>= f) ≠ .error .fuel := by
  cases x with
  | error e =>
    intro h
    apply hx
    simpa using h
  | ok a => exact hf a

theorem map_no_fuel {α β : Type} {x : Except Fault α} (g : α → β)
    (hx : x ≠ .error .fuel) : (g <$> x) ≠ .error .fuel := by
  cases x with
  | error e =>
    intro h
    apply hx
    simpa using h
  | ok a =>
    intro h
    cases h

theorem ok_no_fuel {α : Type} (a : α) : (Except.ok a : Except Fault α) ≠ .error .fuel := by
  intro h
  cases h

theorem pure_no_fuel {α : Type} (a : α) : (pure a : Except Fault α) ≠ .error .fuel := by
  intro h
  cases h

theorem rd_no_fuel (xs : List Int) (i : Nat) : rd xs i ≠ .error .fuel := by
  unfold rd
  cases xs[i]? <;> intro h <;> cases h

theorem wr_no_fuel (xs : List Int) (i : Nat) (v : Int) : wr xs i v ≠ .error .fuel := by
  unfold wr
  split <;> intro h <;> cases h

theorem rd_int_no_fuel (xs : List Int) (i : Int) : rd_int xs i ≠ .error .fuel := by
  unfold rd_int
  split
  · exact rd_no_fuel _ _
  · intro h
    cases h

theorem wr_int_no_fuel (xs : List Int) (i v : Int) : wr_int xs i v ≠ .error .fuel := by
  unfold wr_int
  split
  · exact wr_no_fuel _ _ _
  · intro h
    cases h

theorem code_at_no_fuel (m : method_t) (i : Nat) : code_at m i ≠ .error .fuel := by
  unfold code_at
  cases m.code[i]? <;> intro h <;> cases h

theorem heap_get_no_fuel (heap : heap_t) (ref : Int) : heap_get heap ref ≠ .error .fuel := by
  unfold heap_get
  split
  · cases heap[ref.toNat]? <;> intro h <;> cases h
  · intro h
    cases h

theorem add_to_xor_result_no_fuel (op : Nat) (a b : Int) :
    add_to_xor_result op a b ≠ .error .fuel := by
  unfold add_to_xor_result
  by_cases c0 : op = i_iadd
  · rw [if_pos c0]
    exact ok_no_fuel _
  rw [if_neg c0]
  by_cases c1 : op = i_isub
  · rw [if_pos c1]
    exact ok_no_fuel _
  rw [if_neg c1]
  by_cases c2 : op = i_imul
  · rw [if_pos c2]
    exact ok_no_fuel _
  rw [if_neg c2]
  by_cases c3 : op = i_idiv
  · rw [if_pos c3]
    split
    · split
      · intro h
        cases h
      · exact ok_no_fuel _
    · exact ok_no_fuel _
  rw [if_neg c3]
  by_cases c4 : op = i_irem
  · rw [if_pos c4]
    split
    · split
      · intro h
        cases h
      · exact ok_no_fuel _
    · exact ok_no_fuel _
  rw [if_neg c4]
  by_cases c5 : op = i_ineg
  · rw [if_pos c5]
    exact ok_no_fuel _
  rw [if_neg c5]
  by_cases c6 : op = i_ishl
  · rw [if_pos c6]
    split
    · exact ok_no_fuel _
    · intro h
      cases h
  rw [if_neg c6]
  by_cases c7 : op = i_ishr
  · rw [if_pos c7]
    split
    · exact ok_no_fuel _
    · intro h
      cases h
  rw [if_neg c7]
  by_cases c8 : op = i_iushr
  · rw [if_pos c8]
    split
    · exact ok_no_fuel _
    · intro h
      cases h
  rw [if_neg c8]
  by_cases c9 : op = i_iand
  · rw [if_pos c9]
    exact ok_no_fuel _
  rw [if_neg c9]
  by_cases c10 : op = i_ior
  · rw [if_pos c10]
    exact ok_no_fuel _
  rw [if_neg c10]
  by_cases c11 : op = i_ixor
  · rw [if_pos c11]
    exact ok_no_fuel _
  rw [if_neg c11]
  exact ok_no_fuel _

theorem add_to_xor_no_fuel (op : Nat) (st : State) : add_to_xor op st ≠ .error .fuel := by
  unfold add_to_xor
  split
  · refine bind_no_fuel (rd_no_fuel _ _) fun _ => ?_
    refine bind_no_fuel (wr_no_fuel _ _ _) fun _ => ?_
    exact pure_no_fuel _
  · refine bind_no_fuel (rd_no_fuel _ _) fun _ => ?_
    refine bind_no_fuel (rd_no_fuel _ _) fun _ => ?_
    refine bind_no_fuel (add_to_xor_result_no_fuel _ _ _) fun _ => ?_
    refine bind_no_fuel (wr_no_fuel _ _ _) fun _ => ?_
    refine bind_no_fuel (wr_no_fuel _ _ _) fun _ => ?_
    exact pure_no_fuel _

theorem bi_push_no_fuel (m : method_t) (st : State) : bi_push m st ≠ .error .fuel := by
  unfold bi_push
  refine bind_no_fuel (code_at_no_fuel _ _) fun _ => ?_
  refine bind_no_fuel (wr_no_fuel _ _ _) fun _ => ?_
  exact pure_no_fuel _

theorem invoke_virtual_no_fuel (st : State) : invoke_virtual st ≠ .error .fuel := by
  unfold invoke_virtual
  refine bind_no_fuel (wr_no_fuel _ _ _) fun _ => ?_
  refine bind_no_fuel (rd_no_fuel _ _) fun _ => ?_
  exact pure_no_fuel _

theorem get_static_no_fuel (st : State) : get_static st ≠ .error .fuel := by
  unfold get_static
  exact pure_no_fuel _

theorem i_const_no_fuel (m : method_t) (st : State) : i_const m st ≠ .error .fuel := by
  unfold i_const
  refine bind_no_fuel (code_at_no_fuel _ _) fun _ => ?_
  refine bind_no_fuel (wr_no_fuel _ _ _) fun _ => ?_
  exact pure_no_fuel _

theorem si_push_no_fuel (m : method_t) (st : State) : si_push m st ≠ .error .fuel := by
  unfold si_push
  refine bind_no_fuel (code_at_no_fuel _ _) fun _ => ?_
  refine bind_no_fuel (code_at_no_fuel _ _) fun _ => ?_
  refine bind_no_fuel (wr_no_fuel _ _ _) fun _ => ?_
  exact pure_no_fuel _

theorem i_load_no_fuel (m : method_t) (st : State) : i_load m st ≠ .error .fuel := by
  unfold i_load
  refine bind_no_fuel (code_at_no_fuel _ _) fun _ => ?_
  refine bind_no_fuel (rd_no_fuel _ _) fun _ => ?_
  refine bind_no_fuel (wr_no_fuel _ _ _) fun _ => ?_
  exact pure_no_fuel _

theorem i_store_no_fuel (m : method_t) (st : State) : i_store m st ≠ .error .fuel := by
  unfold i_store
  refine bind_no_fuel (code_at_no_fuel _ _) fun _ => ?_
  refine bind_no_fuel (rd_no_fuel _ _) fun _ => ?_
  refine bind_no_fuel (wr_no_fuel _ _ _) fun _ => ?_
  refine bind_no_fuel (wr_no_fuel _ _ _) fun _ => ?_
  exact pure_no_fuel _

theorem i_inc_no_fuel (m : method_t) (st : State) : i_inc m st ≠ .error .fuel := by
  unfold i_inc
  refine bind_no_fuel (code_at_no_fuel _ _) fun _ => ?_
  refine bind_no_fuel (code_at_no_fuel _ _) fun _ => ?_
  refine bind_no_fuel (rd_no_fuel _ _) fun _ => ?_
  refine bind_no_fuel (wr_no_fuel _ _ _) fun _ => ?_
  exact pure_no_fuel _

theorem i_iload_nums_no_fuel (m : method_t) (st : State) :
    i_iload_nums m st ≠ .error .fuel := by
  unfold i_iload_nums
  refine bind_no_fuel (code_at_no_fuel _ _) fun _ => ?_
  refine bind_no_fuel (rd_int_no_fuel _ _) fun _ => ?_
  refine bind_no_fuel (wr_no_fuel _ _ _) fun _ => ?_
  exact pure_no_fuel _

theorem i_istore_nums_no_fuel (m : method_t) (st : State) :
    i_istore_nums m st ≠ .error .fuel := by
  unfold i_istore_nums
  refine bind_no_fuel (code_at_no_fuel _ _) fun _ => ?_
  refine bind_no_fuel (rd_no_fuel _ _) fun _ => ?_
  refine bind_no_fuel (wr_int_no_fuel _ _ _) fun _ => ?_
  refine bind_no_fuel (wr_no_fuel _ _ _) fun _ => ?_
  exact pure_no_fuel _

theorem ldc_no_fuel (m : method_t) (cls : class_file_t) (st : State) :
    ldc m cls st ≠ .error .fuel := by
  unfold ldc
  refine bind_no_fuel (code_at_no_fuel _ _) fun _ => ?_
  refine bind_no_fuel (rd_int_no_fuel _ _) fun _ => ?_
  refine bind_no_fuel (wr_no_fuel _ _ _) fun _ => ?_
  exact pure_no_fuel _

theorem dup_no_fuel (st : State) : dup st ≠ .error .fuel := by
  unfold dup
  refine bind_no_fuel (rd_no_fuel _ _) fun _ => ?_
  refine bind_no_fuel (wr_no_fuel _ _ _) fun _ => ?_
  exact pure_no_fuel _

theorem arraylength_no_fuel (st : State) : arraylength st ≠ .error .fuel := by
  unfold arraylength
  refine bind_no_fuel (rd_no_fuel _ _) fun _ => ?_
  refine bind_no_fuel (heap_get_no_fuel _ _) fun _ => ?_
  refine bind_no_fuel (rd_int_no_fuel _ _) fun _ => ?_
  refine bind_no_fuel (wr_no_fuel _ _ _) fun _ => ?_
  exact pure_no_fuel _

theorem iastore_no_fuel (st : State) : iastore st ≠ .error .fuel := by
  unfold iastore
  refine bind_no_fuel (rd_no_fuel _ _) fun _ => ?_
  refine bind_no_fuel (heap_get_no_fuel _ _) fun _ => ?_
  refine bind_no_fuel (rd_no_fuel _ _) fun _ => ?_
  refine bind_no_fuel (rd_no_fuel _ _) fun _ => ?_
  refine bind_no_fuel (wr_int_no_fuel _ _ _) fun _ => ?_
  refine bind_no_fuel (wr_no_fuel _ _ _) fun _ => ?_
  refine bind_no_fuel (wr_no_fuel _ _ _) fun _ => ?_
  refine bind_no_fuel (wr_no_fuel _ _ _) fun _ => ?_
  exact pure_no_fuel _

theorem iaload_no_fuel (st : State) : iaload st ≠ .error .fuel := by
  unfold iaload
  refine bind_no_fuel (rd_no_fuel _ _) fun _ => ?_
  refine bind_no_fuel (heap_get_no_fuel _ _) fun _ => ?_
  refine bind_no_fuel (rd_no_fuel _ _) fun _ => ?_
  refine bind_no_fuel (rd_int_no_fuel _ _) fun _ => ?_
  refine bind_no_fuel (wr_no_fuel _ _ _) fun _ => ?_
  refine bind_no_fuel (wr_no_fuel _ _ _) fun _ => ?_
  refine bind_no_fuel (wr_no_fuel _ _ _) fun _ => ?_
  exact pure_no_fuel _

theorem aload_no_fuel (m : method_t) (st : State) : aload m st ≠ .error .fuel := by
  unfold aload
  refine bind_no_fuel (code_at_no_fuel _ _) fun _ => ?_
  refine bind_no_fuel (rd_no_fuel _ _) fun _ => ?_
  refine bind_no_fuel (wr_no_fuel _ _ _) fun _ => ?_
  exact pure_no_fuel _

theorem astore_no_fuel (m : method_t) (st : State) : astore m st ≠ .error .fuel := by
  unfold astore
  refine bind_no_fuel (code_at_no_fuel _ _) fun _ => ?_
  refine bind_no_fuel (rd_no_fuel _ _) fun _ => ?_
  refine bind_no_fuel (wr_no_fuel _ _ _) fun _ => ?_
  refine bind_no_fuel (wr_no_fuel _ _ _) fun _ => ?_
  exact pure_no_fuel _

theorem astore_nums_no_fuel (m : method_t) (st : State) :
    astore_nums m st ≠ .error .fuel := by
  unfold astore_nums
  refine bind_no_fuel (code_at_no_fuel _ _) fun _ => ?_
  refine bind_no_fuel (rd_no_fuel _ _) fun _ => ?_
  refine bind_no_fuel (wr_no_fuel _ _ _) fun _ => ?_
  refine bind_no_fuel (wr_no_fuel _ _ _) fun _ => ?_
  exact pure_no_fuel _

theorem aload_nums_no_fuel (m : method_t) (st : State) :
    aload_nums m st ≠ .error .fuel := by
  unfold aload_nums
  refine bind_no_fuel (code_at_no_fuel _ _) fun _ => ?_
  refine bind_no_fuel (rd_no_fuel _ _) fun _ => ?_
  refine bind_no_fuel (wr_no_fuel _ _ _) fun _ => ?_
  exact pure_no_fuel _

theorem newarray_no_fuel (st : State) : newarray st ≠ .error .fuel := by
  unfold newarray
  refine bind_no_fuel (rd_no_fuel _ _) fun count => ?_
  cases hm : malloc_int32 (to_int32 (count + 1)) with
  | none =>
    intro h
    cases h
  | some arr =>
    show (wr_int arr 0 count >>= _) ≠ _
    have hb := (to_int32_range (count + 1)).2
    unfold malloc_int32 at hm
    by_cases h0 : 0 ≤ to_int32 (count + 1)
    · rw [if_pos h0] at hm
      simp only [Option.some.injEq] at hm
      by_cases h1 : 1 ≤ to_int32 (count + 1)
      · have hlen : arr.length = (to_int32 (count + 1)).toNat := by
          rw [← hm]; simp
        have hw : wr_int arr 0 count = .ok (arr.set 0 count) := by
          unfold wr_int
          rw [if_pos (le_refl 0)]
          exact wr_eq _ (by rw [hlen]; omega)
        rw [hw, ok_bind]
        obtain ⟨arr1, hfill, _⟩ := newarray_fill_spec (to_int32 (count + 1)) hb
          (to_int32 (count + 1)).toNat 1 (arr.set 0 count) (le_refl 1) h1
          (by simp [hlen]) (by omega)
        rw [hfill, ok_bind]
        simp only [heap_add]
        refine bind_no_fuel (wr_no_fuel _ _ _) fun _ => ?_
        exact pure_no_fuel _
      · have hlen : arr.length = 0 := by
          rw [← hm]; simp; omega
        have hw : wr_int arr 0 count = .error .undefined := by
          unfold wr_int
          rw [if_pos (le_refl 0)]
          exact wr_outside _ (by rw [hlen]; simp)
        rw [hw]
        intro h
        cases h
    · rw [if_neg h0] at hm
      cases hm

/-- An instruction that is not `invokestatic` does not run out of fuel: the
arms of the dispatch switch make no use of the recursive call. -/
theorem dispatch_no_fuel (call : method_t → List Int → heap_t → List Int →
      Except Fault (optional_value_t × State)) (cls : class_file_t) (m : method_t)
    (op : Nat) (st : State) (htr : transfers op = false) :
    dispatch call cls m op st ≠ .error .fuel := by
  unfold transfers at htr
  simp only [decide_eq_false_iff_not, not_or] at htr
  unfold dispatch
  by_cases c1 : i_iadd ≤ op ∧ op ≤ i_ixor
  · rw [if_pos c1]
    exact map_no_fuel _ (add_to_xor_no_fuel op st)
  rw [if_neg c1]
  by_cases c2 : op = i_bipush
  · rw [if_pos c2]
    exact map_no_fuel _ (bi_push_no_fuel m st)
  rw [if_neg c2]
  by_cases c3 : op = i_getstatic
  · rw [if_pos c3]
    exact map_no_fuel _ (get_static_no_fuel st)
  rw [if_neg c3]
  by_cases c4 : op = i_invokevirtual
  · rw [if_pos c4]
    exact map_no_fuel _ (invoke_virtual_no_fuel st)
  rw [if_neg c4]
  by_cases c5 : i_iconst_m1 ≤ op ∧ op ≤ i_iconst_5
  · rw [if_pos c5]
    exact map_no_fuel _ (i_const_no_fuel m st)
  rw [if_neg c5]
  by_cases c6 : op = i_sipush
  · rw [if_pos c6]
    exact map_no_fuel _ (si_push_no_fuel m st)
  rw [if_neg c6]
  by_cases c7 : op = i_iload
  · rw [if_pos c7]
    exact map_no_fuel _ (i_load_no_fuel m st)
  rw [if_neg c7]
  by_cases c8 : op = i_istore
  · rw [if_pos c8]
    exact map_no_fuel _ (i_store_no_fuel m st)
  rw [if_neg c8]
  by_cases c9 : op = i_iinc
  · rw [if_pos c9]
    exact map_no_fuel _ (i_inc_no_fuel m st)
  rw [if_neg c9]
  by_cases c10 : i_iload_0 ≤ op ∧ op ≤ i_iload_3
  · rw [if_pos c10]
    exact map_no_fuel _ (i_iload_nums_no_fuel m st)
  rw [if_neg c10]
  by_cases c11 : i_istore_0 ≤ op ∧ op ≤ i_istore_3
  · rw [if_pos c11]
    exact map_no_fuel _ (i_istore_nums_no_fuel m st)
  rw [if_neg c11]
  by_cases c12 : op = i_ldc
  · rw [if_pos c12]
    exact map_no_fuel _ (ldc_no_fuel m cls st)
  rw [if_neg c12]
  by_cases c13 : i_ifeq ≤ op ∧ op ≤ i_if_icmple
  · exact absurd c13 htr.1
  rw [if_neg c13]
  by_cases c14 : op = i_goto
  · exact absurd c14 htr.2.1
  rw [if_neg c14]
  by_cases c15 : op = i_invokestatic
  · exact absurd c15 htr.2.2
  rw [if_neg c15]
  by_cases c16 : op = i_nop
  · rw [if_pos c16]
    exact pure_no_fuel _
  rw [if_neg c16]
  by_cases c17 : op = i_dup
  · rw [if_pos c17]
    exact map_no_fuel _ (dup_no_fuel st)
  rw [if_neg c17]
  by_cases c18 : op = i_newarray
  · rw [if_pos c18]
    exact map_no_fuel _ (newarray_no_fuel st)
  rw [if_neg c18]
  by_cases c19 : op = i_arraylength
  · rw [if_pos c19]
    exact map_no_fuel _ (arraylength_no_fuel st)
  rw [if_neg c19]
  by_cases c20 : op = i_iastore
  · rw [if_pos c20]
    exact map_no_fuel _ (iastore_no_fuel st)
  rw [if_neg c20]
  by_cases c21 : op = i_iaload
  · rw [if_pos c21]
    exact map_no_fuel _ (iaload_no_fuel st)
  rw [if_neg c21]
  by_cases c22 : op = i_aload
  · rw [if_pos c22]
    exact map_no_fuel _ (aload_no_fuel m st)
  rw [if_neg c22]
  by_cases c23 : op = i_astore
  · rw [if_pos c23]
    exact map_no_fuel _ (astore_no_fuel m st)
  rw [if_neg c23]
  by_cases c24 : i_aload_0 ≤ op ∧ op ≤ i_aload_3
  · rw [if_pos c24]
    exact map_no_fuel _ (aload_nums_no_fuel m st)
  rw [if_neg c24]
  by_cases c25 : i_astore_0 ≤ op ∧ op ≤ i_astore_3
  · rw [if_pos c25]
    exact map_no_fuel _ (astore_nums_no_fuel m st)
  rw [if_neg c25]
  by_cases c26 : op = i_areturn ∨ op = i_ireturn
  · rw [if_pos c26]
    refine bind_no_fuel (rd_no_fuel _ _) fun _ => ?_
    exact pure_no_fuel _
  rw [if_neg c26]
  by_cases c27 : op = i_return
  · rw [if_pos c27]
    exact pure_no_fuel _
  rw [if_neg c27]
  intro h
  cases h

/-- An arm that goes on and is no branch and no `goto` advances `pc` by a
fixed amount. -/
theorem dispatch_next_arm (call : method_t → List Int → heap_t → List Int →
      Except Fault (optional_value_t × State)) (cls : class_file_t) (m : method_t)
    (op : Nat) (st s : State) (htr : transfers op = false)
    (h : dispatch call cls m op st = .ok (Outcome.next s)) :
    ∃ j, arm_advance op = some j := by
  unfold transfers at htr
  simp only [decide_eq_false_iff_not, not_or] at htr
  unfold dispatch at h
  unfold arm_advance
  by_cases c1 : i_iadd ≤ op ∧ op ≤ i_ixor
  · rw [if_pos c1]
    exact ⟨_, rfl⟩
  rw [if_neg c1] at h
  rw [if_neg c1]
  by_cases c2 : op = i_bipush
  · rw [if_pos c2]
    exact ⟨_, rfl⟩
  rw [if_neg c2] at h
  rw [if_neg c2]
  by_cases c3 : op = i_getstatic
  · rw [if_pos c3]
    exact ⟨_, rfl⟩
  rw [if_neg c3] at h
  rw [if_neg c3]
  by_cases c4 : op = i_invokevirtual
  · rw [if_pos c4]
    exact ⟨_, rfl⟩
  rw [if_neg c4] at h
  rw [if_neg c4]
  by_cases c5 : i_iconst_m1 ≤ op ∧ op ≤ i_iconst_5
  · rw [if_pos c5]
    exact ⟨_, rfl⟩
  rw [if_neg c5] at h
  rw [if_neg c5]
  by_cases c6 : op = i_sipush
  · rw [if_pos c6]
    exact ⟨_, rfl⟩
  rw [if_neg c6] at h
  rw [if_neg c6]
  by_cases c7 : op = i_iload
  · rw [if_pos c7]
    exact ⟨_, rfl⟩
  rw [if_neg c7] at h
  rw [if_neg c7]
  by_cases c8 : op = i_istore
  · rw [if_pos c8]
    exact ⟨_, rfl⟩
  rw [if_neg c8] at h
  rw [if_neg c8]
  by_cases c9 : op = i_iinc
  · rw [if_pos c9]
    exact ⟨_, rfl⟩
  rw [if_neg c9] at h
  rw [if_neg c9]
  by_cases c10 : i_iload_0 ≤ op ∧ op ≤ i_iload_3
  · rw [if_pos c10]
    exact ⟨_, rfl⟩
  rw [if_neg c10] at h
  rw [if_neg c10]
  by_cases c11 : i_istore_0 ≤ op ∧ op ≤ i_istore_3
  · rw [if_pos c11]
    exact ⟨_, rfl⟩
  rw [if_neg c11] at h
  rw [if_neg c11]
  by_cases c12 : op = i_ldc
  · rw [if_pos c12]
    exact ⟨_, rfl⟩
  rw [if_neg c12] at h
  rw [if_neg c12]
  by_cases c13 : i_ifeq ≤ op ∧ op ≤ i_if_icmple
  · exact absurd c13 htr.1
  rw [if_neg c13] at h
  rw [if_neg c13]
  by_cases c14 : op = i_goto
  · exact absurd c14 htr.2.1
  rw [if_neg c14] at h
  rw [if_neg c14]
  by_cases c15 : op = i_invokestatic
  · exact absurd c15 htr.2.2
  rw [if_neg c15] at h
  rw [if_neg c15]
  by_cases c16 : op = i_nop
  · rw [if_pos c16]
    exact ⟨_, rfl⟩
  rw [if_neg c16] at h
  rw [if_neg c16]
  by_cases c17 : op = i_dup
  · rw [if_pos c17]
    exact ⟨_, rfl⟩
  rw [if_neg c17] at h
  rw [if_neg c17]
  by_cases c18 : op = i_newarray
  · rw [if_pos c18]
    exact ⟨_, rfl⟩
  rw [if_neg c18] at h
  rw [if_neg c18]
  by_cases c19 : op = i_arraylength
  · rw [if_pos c19]
    exact ⟨_, rfl⟩
  rw [if_neg c19] at h
  rw [if_neg c19]
  by_cases c20 : op = i_iastore
  · rw [if_pos c20]
    exact ⟨_, rfl⟩
  rw [if_neg c20] at h
  rw [if_neg c20]
  by_cases c21 : op = i_iaload
  · rw [if_pos c21]
    exact ⟨_, rfl⟩
  rw [if_neg c21] at h
  rw [if_neg c21]
  by_cases c22 : op = i_aload
  · rw [if_pos c22]
    exact ⟨_, rfl⟩
  rw [if_neg c22] at h
  rw [if_neg c22]
  by_cases c23 : op = i_astore
  · rw [if_pos c23]
    exact ⟨_, rfl⟩
  rw [if_neg c23] at h
  rw [if_neg c23]
  by_cases c24 : i_aload_0 ≤ op ∧ op ≤ i_aload_3
  · rw [if_pos c24]
    exact ⟨_, rfl⟩
  rw [if_neg c24] at h
  rw [if_neg c24]
  by_cases c25 : i_astore_0 ≤ op ∧ op ≤ i_astore_3
  · rw [if_pos c25]
    exact ⟨_, rfl⟩
  rw [if_neg c25] at h
  rw [if_neg c25]
  by_cases c26 : op = i_areturn ∨ op = i_ireturn
  · rw [if_pos c26] at h
    obtain ⟨v, _, h⟩ := bind_eq_ok h
    cases h
  rw [if_neg c26] at h
  by_cases c27 : op = i_return
  · rw [if_pos c27] at h
    cases h
  rw [if_neg c27] at h
  cases h

/-- No arm of the dispatch switch adds more than 2 to `pc`. -/
theorem arm_advance_le (op j : Nat) (hj : arm_advance op = some j) : j ≤ 2 := by
  unfold arm_advance at hj
  by_cases c1 : i_iadd ≤ op ∧ op ≤ i_ixor
  · rw [if_pos c1] at hj
    simp only [Option.some.injEq, reduceCtorEq] at hj
    omega
  rw [if_neg c1] at hj
  by_cases c2 : op = i_bipush
  · rw [if_pos c2] at hj
    simp only [Option.some.injEq, reduceCtorEq] at hj
    omega
  rw [if_neg c2] at hj
  by_cases c3 : op = i_getstatic
  · rw [if_pos c3] at hj
    simp only [Option.some.injEq, reduceCtorEq] at hj
    omega
  rw [if_neg c3] at hj
  by_cases c4 : op = i_invokevirtual
  · rw [if_pos c4] at hj
    simp only [Option.some.injEq, reduceCtorEq] at hj
    omega
  rw [if_neg c4] at hj
  by_cases c5 : i_iconst_m1 ≤ op ∧ op ≤ i_iconst_5
  · rw [if_pos c5] at hj
    simp only [Option.some.injEq, reduceCtorEq] at hj
    omega
  rw [if_neg c5] at hj
  by_cases c6 : op = i_sipush
  · rw [if_pos c6] at hj
    simp only [Option.some.injEq, reduceCtorEq] at hj
    omega
  rw [if_neg c6] at hj
  by_cases c7 : op = i_iload
  · rw [if_pos c7] at hj
    simp only [Option.some.injEq, reduceCtorEq] at hj
    omega
  rw [if_neg c7] at hj
  by_cases c8 : op = i_istore
  · rw [if_pos c8] at hj
    simp only [Option.some.injEq, reduceCtorEq] at hj
    omega
  rw [if_neg c8] at hj
  by_cases c9 : op = i_iinc
  · rw [if_pos c9] at hj
    simp only [Option.some.injEq, reduceCtorEq] at hj
    omega
  rw [if_neg c9] at hj
  by_cases c10 : i_iload_0 ≤ op ∧ op ≤ i_iload_3
  · rw [if_pos c10] at hj
    simp only [Option.some.injEq, reduceCtorEq] at hj
    omega
  rw [if_neg c10] at hj
  by_cases c11 : i_istore_0 ≤ op ∧ op ≤ i_istore_3
  · rw [if_pos c11] at hj
    simp only [Option.some.injEq, reduceCtorEq] at hj
    omega
  rw [if_neg c11] at hj
  by_cases c12 : op = i_ldc
  · rw [if_pos c12] at hj
    simp only [Option.some.injEq, reduceCtorEq] at hj
    omega
  rw [if_neg c12] at hj
  by_cases c13 : i_ifeq ≤ op ∧ op ≤ i_if_icmple
  · rw [if_pos c13] at hj
    cases hj
  rw [if_neg c13] at hj
  by_cases c14 : op = i_goto
  · rw [if_pos c14] at hj
    cases hj
  rw [if_neg c14] at hj
  by_cases c15 : op = i_invokestatic
  · rw [if_pos c15] at hj
    simp only [Option.some.injEq, reduceCtorEq] at hj
    omega
  rw [if_neg c15] at hj
  by_cases c16 : op = i_nop
  · rw [if_pos c16] at hj
    simp only [Option.some.injEq, reduceCtorEq] at hj
    omega
  rw [if_neg c16] at hj
  by_cases c17 : op = i_dup
  · rw [if_pos c17] at hj
    simp only [Option.some.injEq, reduceCtorEq] at hj
    omega
  rw [if_neg c17] at hj
  by_cases c18 : op = i_newarray
  · rw [if_pos c18] at hj
    simp only [Option.some.injEq, reduceCtorEq] at hj
    omega
  rw [if_neg c18] at hj
  by_cases c19 : op = i_arraylength
  · rw [if_pos c19] at hj
    simp only [Option.some.injEq, reduceCtorEq] at hj
    omega
  rw [if_neg c19] at hj
  by_cases c20 : op = i_iastore
  · rw [if_pos c20] at hj
    simp only [Option.some.injEq, reduceCtorEq] at hj
    omega
  rw [if_neg c20] at hj
  by_cases c21 : op = i_iaload
  · rw [if_pos c21] at hj
    simp only [Option.some.injEq, reduceCtorEq] at hj
    omega
  rw [if_neg c21] at hj
  by_cases c22 : op = i_aload
  · rw [if_pos c22] at hj
    simp only [Option.some.injEq, reduceCtorEq] at hj
    omega
  rw [if_neg c22] at hj
  by_cases c23 : op = i_astore
  · rw [if_pos c23] at hj
    simp only [Option.some.injEq, reduceCtorEq] at hj
    omega
  rw [if_neg c23] at hj
  by_cases c24 : i_aload_0 ≤ op ∧ op ≤ i_aload_3
  · rw [if_pos c24] at hj
    simp only [Option.some.injEq, reduceCtorEq] at hj
    omega
  rw [if_neg c24] at hj
  by_cases c25 : i_astore_0 ≤ op ∧ op ≤ i_astore_3
  · rw [if_pos c25] at hj
    simp only [Option.some.injEq, reduceCtorEq] at hj
    omega
  rw [if_neg c25] at hj
  by_cases c26 : op = i_areturn ∨ op = i_ireturn
  · rw [if_pos c26] at hj
    cases hj
  rw [if_neg c26] at hj
  by_cases c27 : op = i_return
  · rw [if_pos c27] at hj
    cases hj
  rw [if_neg c27] at hj
  cases hj

/-- An arm other than `invokestatic` does the same whatever the recursive
call would do. -/
theorem dispatch_call_irrelevant (call1 call2 : method_t → List Int → heap_t → List Int →
      Except Fault (optional_value_t × State)) (cls : class_file_t) (m : method_t)
    (op : Nat) (st : State) (hop : op ≠ i_invokestatic) :
    dispatch call1 cls m op st = dispatch call2 cls m op st := by
  unfold dispatch
  rw [if_neg hop, if_neg hop]

/-- One pass of the loop of `execute` at an opcode `c`. -/
theorem run_succ_eq {fuel : Nat} {cls : class_file_t} {m : method_t} {st : State}
    {c : Fin 256} (hc : m.code[st.pc]? = some c) :
    run (fuel + 1) cls m st =
      match dispatch (fun nm nl h o => run fuel cls nm (init_state nm nl h o))
          cls m c.val st with
      | .error e => .error e
      | .ok (Outcome.next st1) => run fuel cls m { st1 with pc := size_add st1.pc 1 }
      | .ok (Outcome.done result st1) => .ok (result, st1) := by
  rw [run, if_pos (lt_length_of_getElem? hc), code_at_eq hc]

/-- A pass of the loop at an instruction that is no branch, no `goto` and no
`invokestatic` moves `pc` forward. -/
theorem step_pc_increases (fuel : Nat) (cls : class_file_t) (m : method_t) (st st1 : State)
    (c : Fin 256) (hc : m.code[st.pc]? = some c) (hcl : m.code.length < 4294967296)
    (htr : transfers c.val = false)
    (h : step fuel cls m st = .ok (Outcome.next st1)) :
    ∃ j, arm_advance c.val = some j ∧ st1.pc = st.pc + 1 + j := by
  have hpc := lt_length_of_getElem? hc
  obtain ⟨s, hd, hst1⟩ := step_next_inv hc h
  obtain ⟨j, hj⟩ := dispatch_next_arm _ cls m c.val st s htr hd
  have hj2 : j ≤ 2 := arm_advance_le c.val j hj
  have hs := dispatch_next_pc _ cls m c.val st s j (by omega) hj hd
  refine ⟨j, hj, ?_⟩
  rw [hst1]
  show size_add s.pc 1 = _
  rw [hs, size_add_eq (by omega)]
  omega

/-- The loop of `execute` on straight-line code: from a position `p` with at
most `k` bytes of code left, `k + 1` tests of the loop condition end the run,
and more fuel changes nothing. -/
theorem straight_line_run (cls : class_file_t) (m : method_t)
    (hcl : m.code.length < 4294967296) :
    ∀ (k p : Nat), m.code.length ≤ p + k → straight_line m k p = true →
      ∀ st : State, st.pc = p →
        (∀ fuel, k + 1 ≤ fuel → run fuel cls m st = run (k + 1) cls m st) ∧
        run (k + 1) cls m st ≠ .error .fuel := by
  intro k
  induction k with
  | zero =>
    intro p hp _ st hst
    constructor
    · intro fuel hf
      obtain ⟨f, rfl⟩ : ∃ f, fuel = f + 1 := ⟨fuel - 1, by omega⟩
      rw [run_at_end f cls m st (by omega), run_at_end 0 cls m st (by omega)]
    · rw [run_at_end 0 cls m st (by omega)]
      exact ok_no_fuel _
  | succ k ih =>
    intro p hp hs st hst
    by_cases hend : m.code.length ≤ st.pc
    · constructor
      · intro fuel hf
        obtain ⟨f, rfl⟩ : ∃ f, fuel = f + 1 := ⟨fuel - 1, by omega⟩
        rw [run_at_end f cls m st hend, run_at_end (k + 1) cls m st hend]
      · rw [run_at_end (k + 1) cls m st hend]
        exact ok_no_fuel _
    · obtain ⟨c, hc⟩ : ∃ c, m.code[st.pc]? = some c :=
        ⟨m.code[st.pc], List.getElem?_eq_getElem (by omega)⟩
      rw [straight_line, ← hst, hc] at hs
      simp only [Bool.and_eq_true, Bool.not_eq_true'] at hs
      obtain ⟨htr, hrest⟩ := hs
      have hop : c.val ≠ i_invokestatic := by
        intro h
        rw [h] at htr
        exact absurd htr (by decide)
      have key : ∀ f, k + 1 ≤ f →
          run (f + 1) cls m st = run (k + 1 + 1) cls m st ∧
          run (f + 1) cls m st ≠ .error .fuel := by
        intro f hf
        rw [run_succ_eq hc, run_succ_eq hc,
          dispatch_call_irrelevant _
            (fun nm nl h o => run (k + 1) cls nm (init_state nm nl h o)) cls m c.val st hop]
        cases hd : dispatch (fun nm nl h o => run (k + 1) cls nm (init_state nm nl h o))
            cls m c.val st with
        | error e =>
          refine ⟨rfl, ?_⟩
          intro h
          have h2 : e = .fuel := by
            simpa using h
          rw [h2] at hd
          exact dispatch_no_fuel _ cls m c.val st htr hd
        | ok o =>
          cases o with
          | done r s => exact ⟨rfl, ok_no_fuel _⟩
          | next s =>
            obtain ⟨j, hj⟩ := dispatch_next_arm _ cls m c.val st s htr hd
            have hj2 : j ≤ 2 := arm_advance_le c.val j hj
            have hpc := dispatch_next_pc _ cls m c.val st s j (by omega) hj hd
            rw [hj] at hrest
            have hnew : ({ s with pc := size_add s.pc 1 } : State).pc = st.pc + 1 + j := by
              show size_add s.pc 1 = _
              rw [hpc, size_add_eq (by omega)]
              omega
            obtain ⟨i1, i2⟩ := ih (st.pc + 1 + j) (by omega) hrest
              { s with pc := size_add s.pc 1 } hnew
            show run f cls m { s with pc := size_add s.pc 1 }
                = run (k + 1) cls m { s with pc := size_add s.pc 1 } ∧
              run f cls m { s with pc := size_add s.pc 1 } ≠ .error .fuel
            rw [i1 f hf]
            exact ⟨rfl, i2⟩
      constructor
      · intro fuel hf
        obtain ⟨f, rfl⟩ : ∃ f, fuel = f + 1 := ⟨fuel - 1, by omega⟩
        exact (key f (by omega)).1
      · exact (key (k + 1) (by omega)).2

/-- C28: for a method whose instructions hold no conditional branch, `goto`
or `invokestatic`, the dispatch loop of `execute` ends within `code_length`
passes (`code_length + 1` tests of the loop condition): the run has a result
or stops at a fault of the code, more fuel gives the same outcome, and every
pass that goes on moves the program counter forward. -/
theorem straight_line_terminates (cls : class_file_t) (m : method_t) (locals : List Int)
    (heap : heap_t) (out : List Int) (hcl : m.code.length < 4294967296)
    (hs : straight_line m m.code.length 0 = true) :
    execute (m.code.length + 1) m locals cls heap out ≠ .error .fuel ∧
    (∀ fuel, m.code.length + 1 ≤ fuel →
      execute fuel m locals cls heap out = execute (m.code.length + 1) m locals cls heap out) ∧
    (∀ (fuel : Nat) (st st1 : State) (c : Fin 256), m.code[st.pc]? = some c →
      transfers c.val = false → step fuel cls m st = .ok (Outcome.next st1) →
      st.pc < st1.pc) := by
  obtain ⟨h1, h2⟩ := straight_line_run cls m hcl m.code.length 0 (by omega) hs
    (init_state m locals heap out) rfl
  refine ⟨h2, h1, ?_⟩
  intro fuel st st1 c hc htr hstep
  obtain ⟨j, _, hj⟩ := step_pc_increases fuel cls m st st1 c hc hcl htr hstep
  omega

/-- C28 at a concrete input: `bipush 167; iconst_1; iadd; ireturn`, where the
byte 167 (the opcode of `goto`) is an immediate operand, ends within six tests
of the loop condition and returns -88. -/
theorem straight_line_terminates_witness :
    straight_line (method_of [16, 167, 4, 96, 172]) 5 0 = true ∧
    execute 6 (method_of [16, 167, 4, 96, 172]) [0, 0] empty_class [] [] ≠ .error .fuel ∧
    value_of (execute 6 (method_of [16, 167, 4, 96, 172]) [0, 0] empty_class [] [])
      = .ok { has_value := true, value := -88 } :=
  ⟨by decide,
    (straight_line_terminates empty_class (method_of [16, 167, 4, 96, 172]) [0, 0] [] []
      (by decide) (by decide)).1,
    by decide⟩

/-! ## Shifts -/

/-- The value `add_to_xor` computes for the three shift opcodes with a shift
distance in `[0, 31]`. -/
theorem add_to_xor_result_shift (a b : Int) (hb0 : 0 ≤ b) (hb1 : b ≤ 31) :
    add_to_xor_result i_ishl a b = .ok (to_int32 (a * 2 ^ b.toNat)) ∧
    add_to_xor_result i_ishr a b = .ok (to_int32 (a / 2 ^ b.toNat)) ∧
    add_to_xor_result i_iushr a b
      = .ok (to_int32 ((to_uint32 a / 2 ^ b.toNat : Nat) : Int)) := by
  have hb : 0 ≤ b ∧ b < 32 := ⟨hb0, by omega⟩
  refine ⟨?_, ?_, ?_⟩ <;> simp [add_to_xor_result, hb]

/-- The signed reading of a 32-bit pattern: `to_int32 x` is the 32-bit integer
congruent to `x` modulo `2^32`. -/
theorem to_int32_congr (x : Int) :
    is_int32 (to_int32 x) ∧ to_int32 x % 4294967296 = x % 4294967296 := by
  unfold is_int32 to_int32
  omega

theorem two_pow_bounds (k : Nat) (hk : k ≤ 31) :
    (1 : Int) ≤ 2 ^ k ∧ (2 : Int) ^ k ≤ 2147483648 := by
  have h1 : (1 : Int) ≤ 2 ^ k := by
    have : (0 : Int) < 2 ^ k := by positivity
    omega
  have h2 : (2 : Int) ^ k ≤ 2 ^ 31 := pow_le_pow_right₀ (by norm_num) hk
  exact ⟨h1, by norm_num at h2; exact h2⟩

/-- An arithmetic right shift of a 32-bit integer is a 32-bit integer with the
sign of the operand. -/
theorem shr_range (a : Int) (k : Nat) (ha : is_int32 a) (hk : k ≤ 31) :
    to_int32 (a / 2 ^ k) = a / 2 ^ k ∧ a / 2 ^ k = Int.fdiv a (2 ^ k) ∧
    (a < 0 → a / 2 ^ k < 0) ∧ (0 ≤ a → 0 ≤ a / 2 ^ k) := by
  obtain ⟨h1, h2⟩ := two_pow_bounds k hk
  have hpos : (0 : Int) < 2 ^ k := by omega
  unfold is_int32 at ha
  have lo : -2147483648 ≤ a / 2 ^ k := by
    rw [Int.le_ediv_iff_mul_le hpos]
    nlinarith
  have hi : a / 2 ^ k < 2147483648 := by
    rw [Int.ediv_lt_iff_lt_mul hpos]
    nlinarith
  refine ⟨to_int32_id ⟨lo, by omega⟩, (Int.fdiv_eq_ediv a (by omega)).symm, ?_, ?_⟩
  · intro hneg
    rw [Int.ediv_lt_iff_lt_mul hpos]
    omega
  · intro hnn
    exact Int.ediv_nonneg hnn (by omega)

/-- A logical right shift of a 32-bit pattern by at least one place is a
non-negative 32-bit integer; by no place it is the operand. -/
theorem ushr_range (a : Int) (k : Nat) (ha : is_int32 a) (hk : k ≤ 31) :
    ((to_uint32 a / 2 ^ k : Nat) : Int) = a % 4294967296 / 2 ^ k ∧
    (1 ≤ k → to_int32 (a % 4294967296 / 2 ^ k) = a % 4294967296 / 2 ^ k ∧
      0 ≤ a % 4294967296 / 2 ^ k) ∧
    (k = 0 → to_int32 (a % 4294967296 / 2 ^ k) = a) := by
  have hm0 : 0 ≤ a % 4294967296 := Int.emod_nonneg _ (by norm_num)
  have hm1 : a % 4294967296 < 4294967296 := Int.emod_lt_of_pos _ (by norm_num)
  refine ⟨?_, ?_, ?_⟩
  · unfold to_uint32
    rw [Int.natCast_div, Int.toNat_of_nonneg hm0]
    norm_cast
  · intro h1
    have h2 : (2 : Int) ≤ 2 ^ k := by
      calc (2 : Int) = 2 ^ 1 := by norm_num
        _ ≤ 2 ^ k := pow_le_pow_right₀ (by norm_num) h1
    have hpos : (0 : Int) < 2 ^ k := by omega
    have lo : 0 ≤ a % 4294967296 / 2 ^ k := Int.ediv_nonneg hm0 (by omega)
    have hi : a % 4294967296 / 2 ^ k < 2147483648 := by
      rw [Int.ediv_lt_iff_lt_mul hpos]
      nlinarith
    exact ⟨to_int32_id ⟨by omega, by omega⟩, lo⟩
  · intro h0
    subst h0
    unfold is_int32 at ha
    unfold to_int32
    simp only [pow_zero, Int.ediv_one]
    omega

/-- C29: with the 32-bit value `a` below the shift distance `b`, `0 ≤ b ≤ 31`,
on top of the stack, each shift lowers the stack depth by one and leaves in
place of `a`: for `ishl` the signed reading of `(a * 2^b) mod 2^32`; for `ishr`
the floor of `a / 2^b`, which has the sign of `a`; for `iushr` the signed
reading of `(a mod 2^32) / 2^b`, which for `b ≥ 1` is `(a mod 2^32) / 2^b`
itself and is not negative (for `b = 0` it is `a`). -/
theorem shift_results (fuel : Nat) (cls : class_file_t) (m : method_t) (st : State)
    (c : Fin 256) (a b : Int)
    (hc : m.code[st.pc]? = some c) (hcl : m.code.length < 4294967296)
    (hd : 2 ≤ st.stack_p) (hcap : st.stack_p ≤ st.stack.length)
    (hlen : st.stack.length < 18446744073709551616)
    (hsa : st.stack[st.stack_p - 2]? = some a) (hsb : st.stack[st.stack_p - 1]? = some b)
    (ha : is_int32 a) (hb0 : 0 ≤ b) (hb1 : b ≤ 31) :
    (c.val = i_ishl → ∃ st1 r, step fuel cls m st = .ok (Outcome.next st1) ∧
      st1.stack_p = st.stack_p - 1 ∧ st1.stack[st.stack_p - 2]? = some r ∧
      is_int32 r ∧ r % 4294967296 = (a * 2 ^ b.toNat) % 4294967296 ∧
      (∀ j, j < st.stack_p - 2 → st1.stack[j]? = st.stack[j]?)) ∧
    (c.val = i_ishr → ∃ st1, step fuel cls m st = .ok (Outcome.next st1) ∧
      st1.stack_p = st.stack_p - 1 ∧
      st1.stack[st.stack_p - 2]? = some (Int.fdiv a (2 ^ b.toNat)) ∧
      (a < 0 → Int.fdiv a (2 ^ b.toNat) < 0) ∧ (0 ≤ a → 0 ≤ Int.fdiv a (2 ^ b.toNat)) ∧
      (∀ j, j < st.stack_p - 2 → st1.stack[j]? = st.stack[j]?)) ∧
    (c.val = i_iushr → ∃ st1 r, step fuel cls m st = .ok (Outcome.next st1) ∧
      st1.stack_p = st.stack_p - 1 ∧ st1.stack[st.stack_p - 2]? = some r ∧
      is_int32 r ∧ r % 4294967296 = (a % 4294967296 / 2 ^ b.toNat) % 4294967296 ∧
      (1 ≤ b → r = a % 4294967296 / 2 ^ b.toNat ∧ 0 ≤ r) ∧ (b = 0 → r = a) ∧
      (∀ j, j < st.stack_p - 2 → st1.stack[j]? = st.stack[j]?)) := by
  have hk : b.toNat ≤ 31 := by omega
  obtain ⟨r1, r2, r3⟩ := add_to_xor_result_shift a b hb0 hb1
  have w2 : st.stack_p - 2 < st.stack.length := by omega
  have get2 : ∀ r : Int,
      ((st.stack.set (st.stack_p - 2) r).set (st.stack_p - 1) 0)[st.stack_p - 2]? = some r := by
    intro r
    rw [get_set_ne _ _ _ _ (by omega), get_set_eq _ _ _ w2]
  have below : ∀ (r : Int) (j : Nat), j < st.stack_p - 2 →
      ((st.stack.set (st.stack_p - 2) r).set (st.stack_p - 1) 0)[j]? = st.stack[j]? := by
    intro r j hj
    rw [get_set_ne _ _ _ _ (by omega), get_set_ne _ _ _ _ (by omega)]
  refine ⟨?_, ?_, ?_⟩
  · intro hop
    rw [← hop] at r1
    have hs := step_arith fuel cls m st c a b _ hc (by rw [hop]; decide) (by rw [hop]; decide)
      (by rw [hop]; decide) hcl hd hcap hlen hsa hsb r1
    exact ⟨_, _, hs, rfl, get2 _, (to_int32_congr _).1, (to_int32_congr _).2, below _⟩
  · intro hop
    rw [← hop, (shr_range a b.toNat ha hk).1, (shr_range a b.toNat ha hk).2.1] at r2
    have hs := step_arith fuel cls m st c a b _ hc (by rw [hop]; decide) (by rw [hop]; decide)
      (by rw [hop]; decide) hcl hd hcap hlen hsa hsb r2
    have hsg := (shr_range a b.toNat ha hk).2.2
    rw [(shr_range a b.toNat ha hk).2.1] at hsg
    exact ⟨_, hs, rfl, get2 _, hsg.1, hsg.2, below _⟩
  · intro hop
    obtain ⟨u1, u2, u3⟩ := ushr_range a b.toNat ha hk
    rw [← hop, u1] at r3
    have hs := step_arith fuel cls m st c a b _ hc (by rw [hop]; decide) (by rw [hop]; decide)
      (by rw [hop]; decide) hcl hd hcap hlen hsa hsb r3
    refine ⟨_, _, hs, rfl, get2 _, (to_int32_congr _).1, (to_int32_congr _).2, ?_, ?_, below _⟩
    · intro hb
      have h := u2 (by omega)
      rw [h.1]
      exact ⟨rfl, h.2⟩
    · intro hb
      exact u3 (by omega)

/-- C29 at concrete inputs: `-8 << 1 = -16`, `-8 >> 1 = -4` and
`-8 >>> 1 = 2147483644`. -/
theorem shift_results_witness :
    (∃ st1 r, step 0 empty_class (method_of [120, 172]) (state_of [-8, 1] 0)
        = .ok (Outcome.next st1) ∧ st1.stack_p = 1 ∧ st1.stack[0]? = some r ∧ r = -16) ∧
    (∃ st1, step 0 empty_class (method_of [122, 172]) (state_of [-8, 1] 0)
        = .ok (Outcome.next st1) ∧ st1.stack_p = 1 ∧ st1.stack[0]? = some (-4)) ∧
    (∃ st1 r, step 0 empty_class (method_of [124, 172]) (state_of [-8, 1] 0)
        = .ok (Outcome.next st1) ∧ st1.stack_p = 1 ∧ st1.stack[0]? = some r ∧
        r = 2147483644) := by
  refine ⟨?_, ?_, ?_⟩
  · obtain ⟨st1, r, h1, h2, h3, h4, h5, _⟩ :=
      (shift_results 0 empty_class (method_of [120, 172]) (state_of [-8, 1] 0) 120 (-8) 1
        rfl (by decide) (by decide) (by decide) (by decide) (by decide) (by decide)
        (by decide) (by decide) (by decide)).1 rfl
    refine ⟨st1, r, h1, h2, h3, ?_⟩
    unfold is_int32 at h4
    have h6 : r % 4294967296 = 4294967280 := h5.trans (by decide)
    omega
  · obtain ⟨st1, h1, h2, h3, _⟩ :=
      (shift_results 0 empty_class (method_of [122, 172]) (state_of [-8, 1] 0) 122 (-8) 1
        rfl (by decide) (by decide) (by decide) (by decide) (by decide) (by decide)
        (by decide) (by decide) (by decide)).2.1 rfl
    exact ⟨st1, h1, h2, h3.trans (by decide)⟩
  · obtain ⟨st1, r, h1, h2, h3, _, _, h6, _⟩ :=
      (shift_results 0 empty_class (method_of [124, 172]) (state_of [-8, 1] 0) 124 (-8) 1
        rfl (by decide) (by decide) (by decide) (by decide) (by decide) (by decide)
        (by decide) (by decide) (by decide)).2.2 rfl
    exact ⟨st1, r, h1, h2, h3, (h6 (by decide)).1.trans (by decide)⟩

/-! ## Negation -/

/-- The arm of `add_to_xor` for `ineg` on a stack with a top entry. -/
theorem add_to_xor_ineg (st : State) (a : Int)
    (hd : 1 ≤ st.stack_p) (hcap : st.stack_p ≤ st.stack.length)
    (hlen : st.stack.length < 18446744073709551616)
    (htop : st.stack[st.stack_p - 1]? = some a) :
    add_to_xor i_ineg st
      = .ok { st with stack := st.stack.set (st.stack_p - 1) (to_int32 (-a)) } := by
  have e1 : size_sub st.stack_p 1 = st.stack_p - 1 := size_sub_eq hd (by omega)
  unfold add_to_xor
  rw [if_pos rfl]
  simp only [e1, rd_eq htop, ok_bind, wr_eq _ (show st.stack_p - 1 < st.stack.length by omega),
    pure_eq_ok]

/-- A pass of the loop at `ineg`. -/
theorem step_ineg (fuel : Nat) (cls : class_file_t) (m : method_t) (st : State)
    (c : Fin 256) (a : Int)
    (hc : m.code[st.pc]? = some c) (hop : c.val = i_ineg) (hcl : m.code.length < 4294967296)
    (hd : 1 ≤ st.stack_p) (hcap : st.stack_p ≤ st.stack.length)
    (hlen : st.stack.length < 18446744073709551616)
    (htop : st.stack[st.stack_p - 1]? = some a) :
    step fuel cls m st = .ok (Outcome.next { st with
      stack := st.stack.set (st.stack_p - 1) (to_int32 (-a)), pc := st.pc + 1 }) := by
  have hpc := lt_length_of_getElem? hc
  have e3 : size_add st.pc 1 = st.pc + 1 := size_add_eq (by omega)
  have hdis := dispatch_arith (fun nm nl h o => run fuel cls nm (init_state nm nl h o))
    cls m c.val st (by rw [hop]; decide)
  rw [hop, add_to_xor_ineg st a hd hcap hlen htop, ← hop] at hdis
  rw [step_of_dispatch_next hc hdis]
  show Except.ok (Outcome.next { st with
      stack := st.stack.set (st.stack_p - 1) (to_int32 (-a)), pc := size_add st.pc 1 }) = _
  rw [e3]

/-- Negation with 32-bit wraparound is an involution on 32-bit integers. -/
theorem to_int32_neg_neg (a : Int) (ha : is_int32 a) : to_int32 (-to_int32 (-a)) = a := by
  unfold is_int32 at ha
  unfold to_int32
  omega

/-- The 32-bit two's complement negation: the exact negation except at the
smallest 32-bit integer, which it maps to itself. -/
theorem to_int32_neg (a : Int) (ha : is_int32 a) :
    (a ≠ -2147483648 → to_int32 (-a) = -a) ∧ (a = -2147483648 → to_int32 (-a) = a) := by
  unfold is_int32 at ha
  unfold to_int32
  omega

/-- C30: on a stack of depth `d ≥ 1` with the 32-bit value `a` on top, `ineg`
replaces the top by the 32-bit two's complement negation of `a` (the exact
negation, except that -2147483648 is mapped to itself), leaves the depth at
`d` and every entry below the top unchanged; a second `ineg` restores the
original stack. -/
theorem ineg_involution (fuel : Nat) (cls : class_file_t) (m : method_t) (st : State)
    (c : Fin 256) (a : Int)
    (hc : m.code[st.pc]? = some c) (hop : c.val = i_ineg) (hcl : m.code.length < 4294967296)
    (hd : 1 ≤ st.stack_p) (hcap : st.stack_p ≤ st.stack.length)
    (hlen : st.stack.length < 18446744073709551616)
    (htop : st.stack[st.stack_p - 1]? = some a) (ha : is_int32 a) :
    ∃ st1, step fuel cls m st = .ok (Outcome.next st1) ∧
      run (fuel + 1) cls m st = run fuel cls m st1 ∧
      st1.stack[st.stack_p - 1]? = some (to_int32 (-a)) ∧
      (a ≠ -2147483648 → to_int32 (-a) = -a) ∧
      (a = -2147483648 → to_int32 (-a) = -2147483648) ∧
      st1.stack_p = st.stack_p ∧
      (∀ j, j ≠ st.stack_p - 1 → st1.stack[j]? = st.stack[j]?) ∧
      st1.locals = st.locals ∧ st1.heap = st.heap ∧ st1.pc = st.pc + 1 ∧
      (∀ c2 : Fin 256, m.code[st.pc + 1]? = some c2 → c2.val = i_ineg →
        ∃ st2, step fuel cls m st1 = .ok (Outcome.next st2) ∧
          st2.stack = st.stack ∧ st2.stack_p = st.stack_p ∧ st2.pc = st.pc + 2) := by
  have hpc := lt_length_of_getElem? hc
  have w : st.stack_p - 1 < st.stack.length := by omega
  have hs := step_ineg fuel cls m st c a hc hop hcl hd hcap hlen htop
  refine ⟨_, hs, run_of_step_next hpc hs, get_set_eq _ _ _ w, (to_int32_neg a ha).1, ?_, rfl,
    fun j hj => get_set_ne _ _ _ _ (fun h => hj h.symm), rfl, rfl, rfl, ?_⟩
  · intro h
    rw [(to_int32_neg a ha).2 h, h]
  · intro c2 hc2 hop2
    have hs2 := step_ineg fuel cls m
      { st with stack := st.stack.set (st.stack_p - 1) (to_int32 (-a)), pc := st.pc + 1 }
      c2 (to_int32 (-a)) hc2 hop2 hcl hd (by simpa using hcap) (by simpa using hlen)
      (get_set_eq _ _ _ w)
    refine ⟨_, hs2, ?_, rfl, rfl⟩
    show (st.stack.set (st.stack_p - 1) (to_int32 (-a))).set (st.stack_p - 1)
      (to_int32 (-to_int32 (-a))) = st.stack
    rw [set_set_same, to_int32_neg_neg a ha, set_self _ _ _ htop]

/-- C30 at concrete inputs: `ineg; ineg` on the stack `[7, -2147483648]`. -/
theorem ineg_involution_witness :
    ∃ st1, step 0 empty_class (method_of [116, 116, 172]) (state_of [7, -2147483648] 0)
        = .ok (Outcome.next st1) ∧
      st1.stack[1]? = some (-2147483648) ∧ st1.stack[0]? = some 7 ∧ st1.stack_p = 2 ∧
      ∃ st2, step 0 empty_class (method_of [116, 116, 172]) st1 = .ok (Outcome.next st2) ∧
        st2.stack = [7, -2147483648] := by
  obtain ⟨st1, h1, _, h3, _, _, h6, h7, _, _, _, h11⟩ :=
    ineg_involution 0 empty_class (method_of [116, 116, 172]) (state_of [7, -2147483648] 0)
      116 (-2147483648) rfl rfl (by decide) (by decide) (by decide) (by decide) (by decide)
      (by decide)
  obtain ⟨st2, h12, h13, _⟩ := h11 116 rfl rfl
  exact ⟨st1, h1, h3.trans (by decide), h7 0 (by decide), h6, st2, h12, h13⟩

/-! ## Division and remainder by zero -/

/-- The value the switch of `add_to_xor` stores for `idiv` and `irem` with a
zero divisor. -/
theorem add_to_xor_result_zero (a : Int) :
    add_to_xor_result i_idiv a 0 = .ok 0 ∧
    add_to_xor_result i_irem a 0 = .ok (to_int32 (-a)) := by
  constructor <;> simp [add_to_xor_result]

/-- C31: a zero divisor raises nothing. With the dividend `a` below a zero
divisor on top of the stack, `idiv` replaces the two operands by 0 and `irem`
falls through to the negate case and replaces them by `-a` (with 32-bit
wraparound: -2147483648 stays); in both cases the stack depth drops by one,
nothing else changes, and the loop goes on with the next instruction. -/
theorem zero_divisor_result (fuel : Nat) (cls : class_file_t) (m : method_t) (st : State)
    (c : Fin 256) (a : Int)
    (hc : m.code[st.pc]? = some c) (hcl : m.code.length < 4294967296)
    (hd : 2 ≤ st.stack_p) (hcap : st.stack_p ≤ st.stack.length)
    (hlen : st.stack.length < 18446744073709551616)
    (hsa : st.stack[st.stack_p - 2]? = some a) (hsb : st.stack[st.stack_p - 1]? = some 0) :
    (c.val = i_idiv → ∃ st1, step fuel cls m st = .ok (Outcome.next st1) ∧
      run (fuel + 1) cls m st = run fuel cls m st1 ∧
      st1.stack[st.stack_p - 2]? = some 0 ∧
      st1.stack_p = st.stack_p - 1 ∧ st1.pc = st.pc + 1 ∧
      (∀ i, i < st.stack_p - 2 → st1.stack[i]? = st.stack[i]?) ∧
      st1.locals = st.locals ∧ st1.heap = st.heap ∧ st1.out = st.out) ∧
    (c.val = i_irem → ∃ st1, step fuel cls m st = .ok (Outcome.next st1) ∧
      run (fuel + 1) cls m st = run fuel cls m st1 ∧
      st1.stack[st.stack_p - 2]? = some (to_int32 (-a)) ∧
      (is_int32 a → a ≠ -2147483648 → to_int32 (-a) = -a) ∧
      (a = -2147483648 → to_int32 (-a) = -2147483648) ∧
      st1.stack_p = st.stack_p - 1 ∧ st1.pc = st.pc + 1 ∧
      (∀ i, i < st.stack_p - 2 → st1.stack[i]? = st.stack[i]?) ∧
      st1.locals = st.locals ∧ st1.heap = st.heap ∧ st1.out = st.out) := by
  have hpc := lt_length_of_getElem? hc
  constructor
  · intro hop
    have hstep := step_arith fuel cls m st c a 0 0 hc (by rw [hop]; decide) (by rw [hop]; decide)
      (by rw [hop]; decide) hcl hd hcap hlen hsa hsb
      (by rw [hop]; exact (add_to_xor_result_zero a).1)
    refine ⟨_, hstep, run_of_step_next hpc hstep, ?_, rfl, rfl, ?_, rfl, rfl, rfl⟩
    · show ((st.stack.set (st.stack_p - 2) 0).set (st.stack_p - 1) 0)[st.stack_p - 2]? = _
      rw [get_set_ne _ _ _ _ (by omega), get_set_eq _ _ _ (by omega)]
    · intro i hi
      exact get_set_set_ne _ _ _ _ _ _ (by omega) (by omega)
  · intro hop
    have hstep := step_arith fuel cls m st c a 0 (to_int32 (-a)) hc (by rw [hop]; decide)
      (by rw [hop]; decide) (by rw [hop]; decide) hcl hd hcap hlen hsa hsb
      (by rw [hop]; exact (add_to_xor_result_zero a).2)
    refine ⟨_, hstep, run_of_step_next hpc hstep, ?_, ?_, ?_, rfl, rfl, ?_, rfl, rfl, rfl⟩
    · show ((st.stack.set (st.stack_p - 2) _).set (st.stack_p - 1) 0)[st.stack_p - 2]? = _
      rw [get_set_ne _ _ _ _ (by omega), get_set_eq _ _ _ (by omega)]
    · intro ha hne
      exact (to_int32_neg a ha).1 hne
    · intro ha
      rw [ha]
      decide
    · intro i hi
      exact get_set_set_ne _ _ _ _ _ _ (by omega) (by omega)

/-- C31 at concrete inputs: `7 / 0` leaves 0, `7 % 0` leaves -7 and
`-2147483648 % 0` leaves -2147483648. -/
theorem zero_divisor_result_witness :
    (∃ st1, step 0 empty_class (method_of [108, 172]) (state_of [3, 7, 0] 0)
        = .ok (Outcome.next st1) ∧ st1.stack[1]? = some 0 ∧ st1.stack_p = 2 ∧ st1.pc = 1 ∧
        st1.stack[0]? = some 3) ∧
    (∃ st1, step 0 empty_class (method_of [112, 172]) (state_of [3, 7, 0] 0)
        = .ok (Outcome.next st1) ∧ st1.stack[1]? = some (-7) ∧ st1.stack_p = 2 ∧
        st1.pc = 1 ∧ st1.stack[0]? = some 3) ∧
    (∃ st1, step 0 empty_class (method_of [112, 172]) (state_of [-2147483648, 0] 0)
        = .ok (Outcome.next st1) ∧ st1.stack[0]? = some (-2147483648) ∧ st1.stack_p = 1) := by
  refine ⟨?_, ?_, ?_⟩
  · obtain ⟨st1, h1, _, h3, h4, h5, h6, _⟩ :=
      (zero_divisor_result 0 empty_class (method_of [108, 172]) (state_of [3, 7, 0] 0) 108 7
        rfl (by decide) (by decide) (by decide) (by decide) rfl rfl).1 rfl
    exact ⟨st1, h1, h3, h4, h5, (h6 0 (by decide)).trans (by decide)⟩
  · obtain ⟨st1, h1, _, h3, _, _, h4, h5, h6, _⟩ :=
      (zero_divisor_result 0 empty_class (method_of [112, 172]) (state_of [3, 7, 0] 0) 112 7
        rfl (by decide) (by decide) (by decide) (by decide) rfl rfl).2 rfl
    exact ⟨st1, h1, h3.trans (by decide), h4, h5, (h6 0 (by decide)).trans (by decide)⟩
  · obtain ⟨st1, h1, _, h3, _, _, h4, _⟩ :=
      (zero_divisor_result 0 empty_class (method_of [112, 172])
        (state_of [-2147483648, 0] 0) 112 (-2147483648)
        rfl (by decide) (by decide) (by decide) (by decide) (by decide) rfl).2 rfl
    exact ⟨st1, h1, h3.trans (by decide), h4⟩

/-! ## What `iastore` leaves unchanged -/

/-- C32: for an array cell of stored length `N`, an index `i` with
`0 ≤ i < N` and a value `v`, `iastore` changes only element `i` of that array:
the stored length, every other element of the array and every other heap cell
are unchanged, as are the locals, the program counter and the stack entries
below the three operands, and exactly three entries are popped. -/
theorem iastore_frame (st : State) (ref i v N : Int) (arr : List Int)
    (hd : 3 ≤ st.stack_p) (hcap : st.stack_p ≤ st.stack.length)
    (hlen : st.stack.length < 18446744073709551616)
    (h3 : st.stack[st.stack_p - 3]? = some ref) (h2 : st.stack[st.stack_p - 2]? = some i)
    (h1 : st.stack[st.stack_p - 1]? = some v)
    (href : 0 ≤ ref) (harr : st.heap[ref.toNat]? = some arr)
    (hsize : arr.length = N.toNat + 1) (hstored : arr[0]? = some N)
    (hN : N ≤ 2147483647) (hi0 : 0 ≤ i) (hi1 : i < N) :
    ∃ st1 arr1, iastore st = .ok st1 ∧ st1.heap[ref.toNat]? = some arr1 ∧
      arr1[i.toNat + 1]? = some v ∧
      arr1[0]? = some N ∧ arr1.length = arr.length ∧
      (∀ j : Nat, j ≠ i.toNat → arr1[j + 1]? = arr[j + 1]?) ∧
      (∀ r : Nat, r ≠ ref.toNat → st1.heap[r]? = st.heap[r]?) ∧
      st1.heap.length = st.heap.length ∧
      st1.stack_p = st.stack_p - 3 ∧
      (∀ k, k < st.stack_p - 3 → st1.stack[k]? = st.stack[k]?) ∧
      st1.locals = st.locals ∧ st1.pc = st.pc ∧ st1.out = st.out := by
  have e1 : to_int32 (i + 1) = i + 1 := to_int32_id (by unfold is_int32; omega)
  have e2 : (i + 1).toNat = i.toNat + 1 := by omega
  have hin : i.toNat + 1 < arr.length := by omega
  have hrl : ref.toNat < st.heap.length := lt_length_of_getElem? harr
  have hst := iastore_eq st ref i v arr hd hcap hlen h3 h2 h1 href harr
    (by rw [e1]; omega) (by rw [e1, e2]; exact hin)
  rw [e1, e2] at hst
  refine ⟨_, arr.set (i.toNat + 1) v, hst, ?_, ?_, ?_, ?_, ?_, ?_, ?_, rfl, ?_, rfl, rfl, rfl⟩
  · show (st.heap.set ref.toNat (arr.set (i.toNat + 1) v))[ref.toNat]? = _
    rw [List.getElem?_set, if_pos rfl, if_pos hrl]
  · exact get_set_eq _ _ _ hin
  · rw [get_set_ne _ _ _ _ (by omega)]
    exact hstored
  · exact List.length_set _ _ _
  · intro j hj
    exact get_set_ne _ _ _ _ (by omega)
  · intro r hr
    show (st.heap.set ref.toNat (arr.set (i.toNat + 1) v))[r]? = _
    rw [List.getElem?_set, if_neg (fun h => hr h.symm)]
  · show (st.heap.set ref.toNat (arr.set (i.toNat + 1) v)).length = _
    exact List.length_set _ _ _
  · intro k hk
    show (((st.stack.set (st.stack_p - 1) 0).set (st.stack_p - 2) 0).set
      (st.stack_p - 3) 0)[k]? = _
    rw [get_set_ne _ _ _ _ (by omega), get_set_set_ne _ _ _ _ _ _ (by omega) (by omega)]

/-- C32 at concrete inputs: on a heap of two cells of stored lengths 5 and 2
and the stack `[9, 0, 3, 42]`, the store at index 3 of the cell under handle 0
changes that element only. -/
theorem iastore_frame_witness :
    ∃ st1, iastore { array_state [9, 0, 3, 42] with
        heap := [[5, 10, 20, 30, 40, 50], [2, 7, 8]] } = .ok st1 ∧
      st1.heap = [[5, 10, 20, 30, 42, 50], [2, 7, 8]] ∧ st1.stack_p = 1 ∧
      st1.stack[0]? = some 9 := by
  obtain ⟨st1, arr1, g1, g2, g3, g4, g5, g6, g7, g8, g9, g10, _⟩ :=
    iastore_frame { array_state [9, 0, 3, 42] with
        heap := [[5, 10, 20, 30, 40, 50], [2, 7, 8]] } 0 3 42 5 [5, 10, 20, 30, 40, 50]
      (by decide) (by decide) (by decide) rfl rfl rfl (by decide) rfl (by decide) rfl
      (by decide) (by decide) (by decide)
  refine ⟨st1, g1, ?_, g9, (g10 0 (by decide)).trans rfl⟩
  have e : iastore { array_state [9, 0, 3, 42] with
      heap := [[5, 10, 20, 30, 40, 50], [2, 7, 8]] }
      = .ok (State.mk [9, 0, 0, 0] 1 [] 0 [[5, 10, 20, 30, 42, 50], [2, 7, 8]] []) := rfl
  have e2 := e.symm.trans g1
  injection e2 with e2
  rw [← e2]

/-! ## Reference and integer accesses to the locals -/

/-- Two passes of the loop whose arms call the same function have the same
result. -/
theorem step_congr {fuel : Nat} {cls : class_file_t} {m1 m2 : method_t} {st : State}
    {c1 c2 : Fin 256} {f : Except Fault State}
    (h1 : m1.code[st.pc]? = some c1) (h2 : m2.code[st.pc]? = some c2)
    (d1 : dispatch (fun nm nl h o => run fuel cls nm (init_state nm nl h o)) cls m1 c1.val st
      = Outcome.next <$> f)
    (d2 : dispatch (fun nm nl h o => run fuel cls nm (init_state nm nl h o)) cls m2 c2.val st
      = Outcome.next <$> f) :
    step fuel cls m1 st = step fuel cls m2 st := by
  unfold step
  rw [code_at_eq h1, code_at_eq h2]
  simp only [ok_bind]
  rw [d1, d2]

/-- The arms of the dispatch switch for `aload`, `astore` and `astore_<n>`. -/
theorem dispatch_reference_arms (call : method_t → List Int → heap_t → List Int →
      Except Fault (optional_value_t × State)) (cls : class_file_t) (m : method_t)
    (st : State) :
    dispatch call cls m i_aload st = Outcome.next <$> aload m st ∧
    dispatch call cls m i_astore st = Outcome.next <$> astore m st ∧
    (∀ op, i_astore_0 ≤ op → op ≤ i_astore_3 →
      dispatch call cls m op st = Outcome.next <$> astore_nums m st) := by
  refine ⟨by simp [dispatch], by simp [dispatch], ?_⟩
  intro op h1 h2
  have h3 : 75 ≤ op := h1
  have h4 : op ≤ 78 := h2
  interval_cases op <;> simp [dispatch]

/-- The functions `aload` and `i_load`, and `astore` and `i_store`, read the
method at the operand byte only. -/
theorem local_access_operand (m1 m2 : method_t) (st : State)
    (h : m1.code[size_add st.pc 1]? = m2.code[size_add st.pc 1]?) :
    aload m1 st = i_load m2 st ∧ astore m1 st = i_store m2 st := by
  have e : code_at m1 (size_add st.pc 1) = code_at m2 (size_add st.pc 1) := by
    unfold code_at
    rw [h]
  constructor
  · unfold aload i_load
    rw [e]
  · unfold astore i_store
    rw [e]

/-- The functions `aload_nums` and `i_iload_nums`, and `astore_nums` and
`i_istore_nums`, at opcodes with the same `n`. -/
theorem local_access_nums (m1 m2 : method_t) (st : State) (c1 c2 : Fin 256) (n : Nat)
    (h1 : m1.code[st.pc]? = some c1) (h2 : m2.code[st.pc]? = some c2) (hn : n ≤ 3) :
    (c1.val = i_aload_0 + n → c2.val = i_iload_0 + n →
      aload_nums m1 st = i_iload_nums m2 st) ∧
    (c1.val = i_astore_0 + n → c2.val = i_istore_0 + n →
      astore_nums m1 st = i_istore_nums m2 st) := by
  constructor
  · intro e1 e2
    have e3 : c1.val = 42 + n := e1
    have e4 : c2.val = 26 + n := e2
    have i1 : ((((c1.val : Nat) : Int) - ((i_aload_0 : Nat) : Int)) % 256).toNat = n := by
      show ((((c1.val : Nat) : Int) - ((42 : Nat) : Int)) % 256).toNat = n
      omega
    have i2 : ((c2.val : Nat) : Int) - ((i_iload_0 : Nat) : Int) = (n : Int) := by
      show ((c2.val : Nat) : Int) - ((26 : Nat) : Int) = (n : Int)
      omega
    unfold aload_nums i_iload_nums
    rw [code_at_eq h1, code_at_eq h2]
    simp only [ok_bind, i1, i2, rd_int, if_pos (Int.natCast_nonneg n), Int.toNat_ofNat]
  · intro e1 e2
    have e3 : c1.val = 75 + n := e1
    have e4 : c2.val = 59 + n := e2
    have i1 : ((((c1.val : Nat) : Int) - ((i_astore_0 : Nat) : Int)) % 256).toNat = n := by
      show ((((c1.val : Nat) : Int) - ((75 : Nat) : Int)) % 256).toNat = n
      omega
    have i2 : ((c2.val : Nat) : Int) - ((i_istore_0 : Nat) : Int) = (n : Int) := by
      show ((c2.val : Nat) : Int) - ((59 : Nat) : Int) = (n : Int)
      omega
    unfold astore_nums i_istore_nums
    rw [code_at_eq h1, code_at_eq h2]
    simp only [ok_bind, i1, i2, wr_int, if_pos (Int.natCast_nonneg n), Int.toNat_ofNat]

/-- C33: reference and integer accesses to the locals are the same
transition. On the same state, a pass of the loop at `aload idx` has the same
result (stack, depth, locals, program counter, heap, or the same fault) as a
pass at `iload idx`, `astore idx` the same as `istore idx`, and `aload_<n>`,
`astore_<n>` the same as `iload_<n>`, `istore_<n>` for `n` in `0..3`; so do
the functions the arms call. -/
theorem reference_access_same (fuel : Nat) (cls : class_file_t) (ma mi : method_t)
    (st : State) (ca ci : Fin 256)
    (hca : ma.code[st.pc]? = some ca) (hci : mi.code[st.pc]? = some ci)
    (hcl : ma.code.length < 4294967296) :
    (∀ m : method_t, aload m st = i_load m st ∧ astore m st = i_store m st) ∧
    (ca.val = i_aload → ci.val = i_iload → ma.code[st.pc + 1]? = mi.code[st.pc + 1]? →
      aload ma st = i_load mi st ∧ step fuel cls ma st = step fuel cls mi st) ∧
    (ca.val = i_astore → ci.val = i_istore → ma.code[st.pc + 1]? = mi.code[st.pc + 1]? →
      astore ma st = i_store mi st ∧ step fuel cls ma st = step fuel cls mi st) ∧
    (∀ n, n ≤ 3 → ca.val = i_aload_0 + n → ci.val = i_iload_0 + n →
      aload_nums ma st = i_iload_nums mi st ∧ step fuel cls ma st = step fuel cls mi st) ∧
    (∀ n, n ≤ 3 → ca.val = i_astore_0 + n → ci.val = i_istore_0 + n →
      astore_nums ma st = i_istore_nums mi st ∧
      step fuel cls ma st = step fuel cls mi st) := by
  have hpc := lt_length_of_getElem? hca
  have e1 : size_add st.pc 1 = st.pc + 1 := size_add_eq (by omega)
  refine ⟨fun m => ⟨rfl, rfl⟩, ?_, ?_, ?_, ?_⟩
  · intro h1 h2 hb
    have hf := (local_access_operand ma mi st (by rw [e1]; exact hb)).1
    have d1 := (dispatch_reference_arms
      (fun nm nl h o => run fuel cls nm (init_state nm nl h o)) cls ma st).1
    have d2 := (dispatch_single
      (fun nm nl h o => run fuel cls nm (init_state nm nl h o)) cls mi st).2.2.1
    rw [← h1] at d1
    rw [← h2, ← hf] at d2
    exact ⟨hf, step_congr hca hci d1 d2⟩
  · intro h1 h2 hb
    have hf := (local_access_operand ma mi st (by rw [e1]; exact hb)).2
    have d1 := (dispatch_reference_arms
      (fun nm nl h o => run fuel cls nm (init_state nm nl h o)) cls ma st).2.1
    have d2 := (dispatch_single
      (fun nm nl h o => run fuel cls nm (init_state nm nl h o)) cls mi st).2.2.2.1
    rw [← h1] at d1
    rw [← h2, ← hf] at d2
    exact ⟨hf, step_congr hca hci d1 d2⟩
  · intro n hn h1 h2
    have hf := (local_access_nums ma mi st ca ci n hca hci hn).1 h1 h2
    have r1 : i_aload_0 ≤ ca.val ∧ ca.val ≤ i_aload_3 := by
      have : ca.val = 42 + n := h1
      constructor
      · show 42 ≤ ca.val
        omega
      · show ca.val ≤ 45
        omega
    have r2 : i_iload_0 ≤ ci.val ∧ ci.val ≤ i_iload_3 := by
      have : ci.val = 26 + n := h2
      constructor
      · show 26 ≤ ci.val
        omega
      · show ci.val ≤ 29
        omega
    refine ⟨hf, step_congr hca hci ((dispatch_array_arms _ cls ma st).1 ca.val r1.1 r1.2) ?_⟩
    rw [hf]
    exact dispatch_iload_nums _ cls mi ci.val st r2.1 r2.2
  · intro n hn h1 h2
    have hf := (local_access_nums ma mi st ca ci n hca hci hn).2 h1 h2
    have r1 : i_astore_0 ≤ ca.val ∧ ca.val ≤ i_astore_3 := by
      have : ca.val = 75 + n := h1
      constructor
      · show 75 ≤ ca.val
        omega
      · show ca.val ≤ 78
        omega
    have r2 : i_istore_0 ≤ ci.val ∧ ci.val ≤ i_istore_3 := by
      have : ci.val = 59 + n := h2
      constructor
      · show 59 ≤ ci.val
        omega
      · show ci.val ≤ 62
        omega
    refine ⟨hf, step_congr hca hci
      ((dispatch_reference_arms _ cls ma st).2.2 ca.val r1.1 r1.2) ?_⟩
    rw [hf]
    exact dispatch_istore_nums _ cls mi ci.val st r2.1 r2.2

/-- C33 at concrete inputs: on the stack `[7, 9]` with locals `[0, 0]`,
`astore 1` and `istore 1` both leave the stack `[7, 0]` at depth 1, the
locals `[0, 9]` and the program counter 2; `aload_1` and `iload_1` agree on
the state the stores leave. -/
theorem reference_access_same_witness :
    step 0 empty_class (method_of [58, 1, 177]) (state_of [7, 9] 0)
      = step 0 empty_class (method_of [54, 1, 177]) (state_of [7, 9] 0) ∧
    step 0 empty_class (method_of [58, 1, 177]) (state_of [7, 9] 0)
      = .ok (Outcome.next (State.mk [7, 0] 1 [0, 9] 2 [] [])) ∧
    step 0 empty_class (method_of [43, 177]) (State.mk [7, 0] 1 [0, 9] 0 [] [])
      = step 0 empty_class (method_of [27, 177]) (State.mk [7, 0] 1 [0, 9] 0 [] []) ∧
    step 0 empty_class (method_of [43, 177]) (State.mk [7, 0] 1 [0, 9] 0 [] [])
      = .ok (Outcome.next (State.mk [7, 9] 2 [0, 9] 1 [] [])) :=
  ⟨((reference_access_same 0 empty_class (method_of [58, 1, 177]) (method_of [54, 1, 177])
      (state_of [7, 9] 0) 58 54 rfl rfl (by decide)).2.2.1 rfl rfl rfl).2,
    rfl,
    ((reference_access_same 0 empty_class (method_of [43, 177]) (method_of [27, 177])
      (State.mk [7, 0] 1 [0, 9] 0 [] []) 43 27 rfl rfl (by decide)).2.2.2.1 1 (by decide)
      rfl rfl).2,
    rfl⟩

end JVM

/-! ## The page-protecting allocator: use after free -/

namespace ASan

theorem asan_ok_bind {α β : Type} (a : α) (f : α → Except Fault β) :
    (Except.ok a >>= f) = f a := rfl

theorem asan_pure_eq {α : Type} (a : α) : (pure a : Except Fault α) = Except.ok a := rfl

theorem pages_round_up_eq (size : Nat) (h : size + 4096 < 18446744073709551616) :
    pages_round_up size = (size + 4095) / 4096 := by
  unfold pages_round_up PAGE_SIZE sub64 wrap64
  omega

/-- The protection of a page after `mprotect` on a page-aligned address. -/
theorem mprotect_prot (s : State) (addr len : Nat) (p : Prot) (page : Nat)
    (ha : addr % 4096 = 0) :
    (mprotect s addr len p).prot page
      = if addr ≤ page * 4096 ∧ page * 4096 < addr + len then p else s.prot page := by
  unfold mprotect PAGE_SIZE
  rw [if_pos ha]

theorem mprotect_fields (s : State) (addr len : Nat) (p : Prot) :
    (mprotect s addr len p).is_initialized = s.is_initialized ∧
    (mprotect s addr len p).current_page = s.current_page ∧
    (mprotect s addr len p).mem = s.mem ∧
    (mprotect s addr len p).reports = s.reports := by
  unfold mprotect
  split <;> exact ⟨rfl, rfl, rfl, rfl⟩

/-- A write to a page that is mapped, readable and writable. -/
theorem asan_store_ok (s : State) (addr v : Nat) (hi : s.is_initialized = true)
    (hh : in_heap addr) (hp : s.prot (addr / 4096) = .PROT_READ_WRITE) :
    store s addr v = .ok { s with mem := fun a => if a = addr then v else s.mem a } := by
  unfold store PAGE_SIZE
  rw [if_pos ⟨hi, hh, hp⟩]

theorem asan_load_ok (s : State) (addr : Nat) (hi : s.is_initialized = true)
    (hh : in_heap addr) (hp : s.prot (addr / 4096) = .PROT_READ_WRITE) :
    load s addr = .ok (s.mem addr) := by
  unfold load PAGE_SIZE
  rw [if_pos ⟨hi, hh, hp⟩]

/-- The function `set_header` on a page of the mapped region: the three
fields are written and the page is left with `PROT_NONE`. -/
theorem set_header_spec (s : State) (hp size : Nat) (b : Bool)
    (hi : s.is_initialized = true) (ha : hp % 4096 = 0)
    (h0 : START_PAGE ≤ hp) (h1 : hp + 4096 ≤ START_PAGE + MAX_HEAP_SIZE) :
    ∃ s1, set_header s hp size b = .ok s1 ∧
      s1.is_initialized = true ∧ s1.current_page = s.current_page ∧
      s1.reports = s.reports ∧
      s1.mem hp = HEADER_MAGIC ∧ s1.mem (hp + 8) = size ∧
      s1.mem (hp + 16) = (if b then 1 else 0) ∧
      (∀ a, a ≠ hp → a ≠ hp + 8 → a ≠ hp + 16 → s1.mem a = s.mem a) ∧
      (∀ page, s1.prot page = if page * 4096 = hp then .PROT_NONE else s.prot page) := by
  have hin : ∀ k, k < 4096 → in_heap (hp + k) := by
    intro k hk
    unfold in_heap
    omega
  have hpage : ∀ k, k < 4096 → (hp + k) / 4096 * 4096 = hp := by
    intro k hk
    omega
  have hrw : ∀ (t : State) (k : Nat), k < 4096 →
      t.prot = (mprotect s hp PAGE_SIZE .PROT_READ_WRITE).prot →
      t.prot ((hp + k) / 4096) = .PROT_READ_WRITE := by
    intro t k hk ht
    rw [ht, mprotect_prot _ _ _ _ _ ha, if_pos]
    rw [hpage k hk]
    unfold PAGE_SIZE
    omega
  unfold set_header
  have f0 := mprotect_fields s hp PAGE_SIZE .PROT_READ_WRITE
  dsimp only
  rw [asan_store_ok _ hp HEADER_MAGIC (f0.1.trans hi) (hin 0 (by omega)) (hrw _ 0 (by omega) rfl),
    asan_ok_bind, asan_store_ok, asan_ok_bind, asan_store_ok, asan_ok_bind, asan_pure_eq]
  · refine ⟨_, rfl, ?_, ?_, ?_, ?_, ?_, ?_, ?_, ?_⟩
    · rw [(mprotect_fields _ _ _ _).1]
      exact f0.1.trans hi
    · rw [(mprotect_fields _ _ _ _).2.1]
      exact f0.2.1
    · rw [(mprotect_fields _ _ _ _).2.2.2]
      exact f0.2.2.2
    · rw [(mprotect_fields _ _ _ _).2.2.1]
      simp
    · rw [(mprotect_fields _ _ _ _).2.2.1]
      simp
    · rw [(mprotect_fields _ _ _ _).2.2.1]
      simp
    · intro a a0 a8 a16
      rw [(mprotect_fields _ _ _ _).2.2.1]
      simp only [if_neg a0, if_neg a8, if_neg a16]
      exact congrFun f0.2.2.1 a
    · intro page
      rw [mprotect_prot _ _ _ _ _ ha]
      show (if hp ≤ page * 4096 ∧ page * 4096 < hp + PAGE_SIZE then Prot.PROT_NONE
        else (mprotect s hp PAGE_SIZE .PROT_READ_WRITE).prot page) = _
      rw [mprotect_prot _ _ _ _ _ ha]
      unfold PAGE_SIZE
      by_cases hq : page * 4096 = hp
      · rw [if_pos hq, if_pos (by omega)]
      · rw [if_neg hq, if_neg (by omega), if_neg (by omega)]
  · exact f0.1.trans hi
  · exact hin 16 (by omega)
  · exact hrw _ 16 (by omega) rfl
  · exact f0.1.trans hi
  · exact hin 8 (by omega)
  · exact hrw _ 8 (by omega) rfl

theorem asan_init_done (mm : Nat) (s : State) (hi : s.is_initialized = true) :
    asan_init mm s = .ok s := by
  unfold asan_init
  rw [if_pos hi]

/-- The function `malloc` when the block (one header page and the payload
pages) fits in the mapped region. -/
theorem malloc_spec (mm size : Nat) (s : State) (hi : s.is_initialized = true)
    (ha : s.current_page % 4096 = 0) (h0 : START_PAGE ≤ s.current_page)
    (hsize : size ≤ MAX_HEAP_SIZE)
    (hfit : s.current_page + 4096 * (1 + (size + 4095) / 4096) ≤ START_PAGE + MAX_HEAP_SIZE) :
    ∃ s1, malloc mm size s
        = .ok (s.current_page + 4096 + (size + 4095) / 4096 * 4096 - size, s1) ∧
      s1.is_initialized = true ∧
      s1.current_page = s.current_page + 4096 * (1 + (size + 4095) / 4096) ∧
      s1.reports = s.reports ∧
      s1.mem s.current_page = HEADER_MAGIC ∧ s1.mem (s.current_page + 8) = size ∧
      s1.mem (s.current_page + 16) = 1 ∧
      (∀ page, s.current_page + 4096 ≤ page * 4096 →
        page * 4096 < s.current_page + 4096 + 4096 * ((size + 4095) / 4096) →
        s1.prot page = .PROT_READ_WRITE) := by
  have hS : START_PAGE = 4294967296 := rfl
  have hM : MAX_HEAP_SIZE = 1073741824 := rfl
  have hP : PAGE_SIZE = 4096 := rfl
  have hpg : pages_round_up size = (size + 4095) / 4096 := pages_round_up_eq size (by omega)
  have hw1 : wrap64 (s.current_page + 4096) = s.current_page + 4096 := by
    unfold wrap64
    omega
  have hw2 : wrap64 (4096 * ((size + 4095) / 4096)) = 4096 * ((size + 4095) / 4096) := by
    unfold wrap64
    omega
  have hw3 : wrap64 (s.current_page + 4096 * (1 + (size + 4095) / 4096))
      = s.current_page + 4096 * (1 + (size + 4095) / 4096) := by
    unfold wrap64
    omega
  have hw4 : get_payload s.current_page size
      = s.current_page + 4096 + (size + 4095) / 4096 * 4096 - size := by
    unfold get_payload
    rw [hpg, hP]
    unfold sub64 wrap64
    omega
  unfold malloc
  rw [asan_init_done mm s hi, asan_ok_bind]
  dsimp only
  rw [hpg, hP, hw1, hw2]
  have f1 := mprotect_fields s (s.current_page + 4096) (4096 * ((size + 4095) / 4096))
    .PROT_READ_WRITE
  have f2 := mprotect_fields
    (mprotect s (s.current_page + 4096) (4096 * ((size + 4095) / 4096)) .PROT_READ_WRITE)
    s.current_page 4096 .PROT_READ_WRITE
  have f2cp := f2.2.1.trans f1.2.1
  rw [f1.2.1, f2cp]
  obtain ⟨t, ht, t1, t2, t3, t4, t5, t6, _, t8⟩ := set_header_spec
    (mprotect (mprotect s (s.current_page + 4096) (4096 * ((size + 4095) / 4096))
      .PROT_READ_WRITE) s.current_page 4096 .PROT_READ_WRITE) s.current_page size true
    (f2.1.trans (f1.1.trans hi)) ha h0 (by omega)
  rw [ht, asan_ok_bind, asan_pure_eq]
  have f3 := mprotect_fields t t.current_page 4096 .PROT_NONE
  have tcp : t.current_page = s.current_page := t2.trans f2cp
  rw [hw4]
  refine ⟨_, rfl, f3.1.trans t1, ?_, ?_, ?_, ?_, ?_, ?_⟩
  · show wrap64 ((mprotect t t.current_page 4096 .PROT_NONE).current_page
      + 4096 * (1 + (size + 4095) / 4096)) = _
    rw [f3.2.1, tcp, hw3]
  · exact f3.2.2.2.trans (t3.trans (f2.2.2.2.trans f1.2.2.2))
  · exact (congrFun f3.2.2.1 _).trans t4
  · exact (congrFun f3.2.2.1 _).trans t5
  · exact (congrFun f3.2.2.1 _).trans t6
  · intro page hp1 hp2
    show (mprotect t t.current_page 4096 .PROT_NONE).prot page = _
    rw [tcp, mprotect_prot _ _ _ _ _ ha, if_neg (by omega), t8 page, if_neg (by omega),
      mprotect_prot _ _ _ _ _ ha, if_neg (by omega),
      mprotect_prot _ _ _ _ _ (by omega), if_pos (by omega)]

/-- The function `free` on the payload address of an allocated block whose
header page is `hp`: the header is marked free and the header page and every
payload page end with `PROT_NONE`; no report is made. -/
theorem free_spec (mm size hp : Nat) (s : State) (hi : s.is_initialized = true)
    (ha : hp % 4096 = 0) (h0 : START_PAGE ≤ hp) (hsize : size ≤ MAX_HEAP_SIZE)
    (hfit : hp + 4096 * (1 + (size + 4095) / 4096) ≤ START_PAGE + MAX_HEAP_SIZE)
    (hmagic : s.mem hp = HEADER_MAGIC) (hsz : s.mem (hp + 8) = size)
    (halloc : s.mem (hp + 16) = 1) :
    ∃ s2, free mm (hp + 4096 + (size + 4095) / 4096 * 4096 - size) s = .ok s2 ∧
      s2.is_initialized = true ∧ s2.current_page = s.current_page ∧
      s2.reports = s.reports ∧ s2.mem (hp + 16) = 0 ∧
      (∀ page, hp ≤ page * 4096 →
        page * 4096 < hp + 4096 + 4096 * ((size + 4095) / 4096) →
        s2.prot page = .PROT_NONE) := by
  have hS : START_PAGE = 4294967296 := rfl
  have hM : MAX_HEAP_SIZE = 1073741824 := rfl
  have hP : PAGE_SIZE = 4096 := rfl
  have hpg : pages_round_up size = (size + 4095) / 4096 := pages_round_up_eq size (by omega)
  have hw2 : wrap64 (4096 * ((size + 4095) / 4096)) = 4096 * ((size + 4095) / 4096) := by
    unfold wrap64
    omega
  have hw4 : get_payload hp size = hp + 4096 + (size + 4095) / 4096 * 4096 - size := by
    unfold get_payload
    rw [hpg, hP]
    unfold sub64 wrap64
    omega
  have hw5 : wrap64 (hp + 4096) = hp + 4096 := by
    unfold wrap64
    omega
  have hhdr : sub64 (sub64 (hp + 4096 + (size + 4095) / 4096 * 4096 - size) 4096)
      (sub64 (hp + 4096 + (size + 4095) / 4096 * 4096 - size) 4294967296 % 4096) = hp := by
    unfold sub64
    omega
  have hne : hp + 4096 + (size + 4095) / 4096 * 4096 - size ≠ 0 := by omega
  have hrange : ¬ (hp + 4096 + (size + 4095) / 4096 * 4096 - size < 4294967296 + 4096 ∨
      hp + 4096 + (size + 4095) / 4096 * 4096 - size
        > wrap64 (4294967296 + 1073741824 * 4096)) := by
    unfold wrap64
    omega
  have hin : ∀ k, k < 4096 → in_heap (hp + k) := by
    intro k hk
    unfold in_heap
    omega
  have f1 := mprotect_fields s hp 4096 .PROT_READ_WRITE
  have hrw : ∀ k, k < 4096 →
      (mprotect s hp 4096 .PROT_READ_WRITE).prot ((hp + k) / 4096) = .PROT_READ_WRITE := by
    intro k hk
    rw [mprotect_prot _ _ _ _ _ ha, if_pos (by omega)]
  unfold free
  rw [asan_init_done mm s hi, asan_ok_bind, if_neg hne, hS, hM, hP, if_neg hrange]
  dsimp only
  rw [hhdr, asan_load_ok _ (hp + 8) (f1.1.trans hi) (hin 8 (by omega)) (hrw 8 (by omega)),
    asan_ok_bind, asan_load_ok _ hp (f1.1.trans hi) (hin 0 (by omega)) (hrw 0 (by omega)),
    asan_ok_bind, f1.2.2.1, hmagic, hsz, hw4, if_neg (by simp)]
  rw [asan_load_ok _ (hp + 16) (f1.1.trans hi) (hin 16 (by omega)) (hrw 16 (by omega)),
    asan_ok_bind, f1.2.2.1, halloc, if_neg (by decide)]
  obtain ⟨t, ht, t1, t2, t3, _, _, t6, _, t8⟩ := set_header_spec
    (mprotect s hp 4096 .PROT_READ_WRITE) hp size false (f1.1.trans hi) ha h0 (by omega)
  rw [ht, asan_ok_bind, asan_pure_eq, hpg, hw2, hw5]
  have f3 := mprotect_fields t hp 4096 .PROT_NONE
  have f4 := mprotect_fields (mprotect t hp 4096 .PROT_NONE) (hp + 4096)
    (4096 * ((size + 4095) / 4096)) .PROT_NONE
  refine ⟨_, rfl, f4.1.trans (f3.1.trans t1), ?_, ?_, ?_, ?_⟩
  · exact f4.2.1.trans (f3.2.1.trans (t2.trans f1.2.1))
  · exact f4.2.2.2.trans (f3.2.2.2.trans (t3.trans f1.2.2.2))
  · exact (congrFun f4.2.2.1 _).trans ((congrFun f3.2.2.1 _).trans t6)
  · intro page hp1 hp2
    rw [mprotect_prot _ _ _ _ _ (by omega)]
    by_cases hq : hp + 4096 ≤ page * 4096
    · rw [if_pos ⟨hq, by omega⟩]
    · rw [if_neg (by omega), mprotect_prot _ _ _ _ _ ha, if_pos (by omega)]

theorem asan_init_initialized (mm : Nat) (s s0 : State) (h : asan_init mm s = .ok s0) :
    s0.is_initialized = true ∧ asan_init mm s0 = .ok s0 ∧ s0.reports = s.reports := by
  unfold asan_init at h
  by_cases hi : s.is_initialized = true
  · rw [if_pos hi] at h
    cases h
    exact ⟨hi, asan_init_done mm s hi, rfl⟩
  · rw [if_neg hi] at h
    by_cases hm : mm = START_PAGE
    · rw [if_pos hm] at h
      cases h
      exact ⟨rfl, asan_init_done mm _ rfl, rfl⟩
    · rw [if_neg hm] at h
      cases h

theorem malloc_after_init (mm size : Nat) (s s0 : State) (h : asan_init mm s = .ok s0) :
    malloc mm size s = malloc mm size s0 := by
  unfold malloc
  rw [h, (asan_init_initialized mm s s0 h).2.1]

/-- C26 (as the code behaves): for a size from 1 to `MAX_HEAP_SIZE` whose
block (one header page and the payload pages) fits in the mapped region,
`p = malloc(size)` makes the payload pages readable and writable, and after
`free(p)`, which makes no report, every payload address `a` of `p` lies on a
page with `PROT_NONE`, so an access faults, and satisfies
`START_PAGE ≤ a < current_page + 1`, so the SIGSEGV handler reports an invalid
heap access. -/
theorem use_after_free_detected (mm size : Nat) (s s0 : State)
    (hinit : asan_init mm s = .ok s0)
    (ha : s0.current_page % 4096 = 0) (h0 : START_PAGE ≤ s0.current_page)
    (hsize1 : 1 ≤ size) (hsize : size ≤ MAX_HEAP_SIZE)
    (hfit : s0.current_page + 4096 * (1 + (size + 4095) / 4096)
      ≤ START_PAGE + MAX_HEAP_SIZE) :
    ∃ p s1 s2, malloc mm size s = .ok (p, s1) ∧ free mm p s1 = .ok s2 ∧
      p = s0.current_page + 4096 + (size + 4095) / 4096 * 4096 - size ∧
      s2.reports = s.reports ∧
      ∀ a, p ≤ a → a < p + size →
        s1.prot (a / 4096) = .PROT_READ_WRITE ∧
        s2.prot (a / 4096) = .PROT_NONE ∧ load s2 a = .error (.segv a) ∧
        START_PAGE ≤ a ∧ a < s2.current_page + 4096 ∧
        (sigsegv_handler s2 a).1 = .invalid_heap_access a := by
  have hS : START_PAGE = 4294967296 := rfl
  have hM : MAX_HEAP_SIZE = 1073741824 := rfl
  obtain ⟨i0, _, r0⟩ := asan_init_initialized mm s s0 hinit
  obtain ⟨s1, hm, m1, m2, m3, m4, m5, m6, m7⟩ := malloc_spec mm size s0 i0 ha h0 hsize hfit
  obtain ⟨s2, hf, f1, f2, f3, _, f5⟩ := free_spec mm size s0.current_page s1 m1 ha h0 hsize
    hfit m4 m5 m6
  rw [← malloc_after_init mm size s s0 hinit] at hm
  refine ⟨_, s1, s2, hm, hf, rfl, f3.trans (m3.trans r0), ?_⟩
  intro a ha1 ha2
  have hcp : s2.current_page = s0.current_page + 4096 * (1 + (size + 4095) / 4096) :=
    f2.trans m2
  have hnone : s2.prot (a / 4096) = .PROT_NONE := f5 (a / 4096) (by omega) (by omega)
  refine ⟨m7 (a / 4096) (by omega) (by omega), hnone, ?_, by omega, by omega, ?_⟩
  · unfold load PAGE_SIZE
    rw [if_neg]
    rw [hnone]
    intro h
    exact absurd h.2.2 (by decide)
  · unfold sigsegv_handler
    rw [if_neg (by rw [f1]; simp; omega), if_pos]
    constructor
    · show START_PAGE ≤ a
      omega
    · unfold wrap64 PAGE_SIZE
      omega

/-- C26 at the input of the test `hello_use_after_free2.c`: the first call
`malloc(80)` returns `0x100001fb0`, and after `free` the access at
`p + 40 = 0x100001fd8` is reported as an invalid heap access. -/
theorem use_after_free_detected_witness :
    ∃ p s1 s2, malloc START_PAGE 80 fresh = .ok (p, s1) ∧ free START_PAGE p s1 = .ok s2 ∧
      p = 4294975408 ∧ s2.prot (4294975448 / 4096) = .PROT_NONE ∧
      (sigsegv_handler s2 4294975448).1 = .invalid_heap_access 4294975448 := by
  obtain ⟨p, s1, s2, h1, h2, h3, _, h5⟩ :=
    use_after_free_detected START_PAGE 80 fresh _ rfl (by decide) (by decide) (by decide)
      (by decide) (by decide)
  have hp : p = 4294975408 := h3
  obtain ⟨_, h6, _, _, _, h7⟩ := h5 4294975448 (by omega) (by omega)
  exact ⟨p, s1, s2, h1, h2, hp, h6, h7⟩

/-- C26 fails as stated at `size = 2^64 - 1`: the page count wraps to 0, the
first `malloc` returns `0x100001001` and `free` accepts it, and the payload
address `p + (2^64 - 4098)`, which is `0xffffffff`, lies below `START_PAGE`:
the handler reports a plain segmentation fault. -/
theorem use_after_free_counterexample :
    (malloc_then_free START_PAGE 18446744073709551615 fresh).toOption.map
        (fun r => (r.1, r.2.reports, (sigsegv_handler r.2 4294967295).1))
      = some (4294971393, [], Report.seg_fault 4294967295) ∧
    wrap64 (4294971393 + 18446744073709547518) = 4294967295 ∧
    18446744073709547518 < 18446744073709551615 := by
  decide

/-! ### The header page of a payload -/

/-- The page count of `pages_round_up`, times the page size, exceeds the size
by less than a page, modulo `2^64`. -/
theorem pages_round_up_slack (size : Nat) (hsz : size < 18446744073709551616) :
    ∃ d, d < 4096 ∧ (pages_round_up size * 4096 = size + d ∨
      pages_round_up size * 4096 + 18446744073709551616 = size + d) := by
  unfold pages_round_up PAGE_SIZE sub64 wrap64
  by_cases hA : size + 4096 < 18446744073709551616
  · have e1 : (size + 4096) % 18446744073709551616 = size + 4096 := Nat.mod_eq_of_lt hA
    rw [e1]
    have e2 : (size + 4096 + 18446744073709551616 - 1 % 18446744073709551616)
        % 18446744073709551616 = size + 4095 := by omega
    rw [e2]
    exact ⟨(size + 4095) / 4096 * 4096 - size, by omega, Or.inl (by omega)⟩
  · by_cases hB : size + 4096 = 18446744073709551616
    · have e1 : (size + 4096) % 18446744073709551616 = 0 := by omega
      rw [e1]
      have e2 : (0 + 18446744073709551616 - 1 % 18446744073709551616)
          % 18446744073709551616 = 18446744073709551615 := by decide
      rw [e2]
      exact ⟨0, by omega, Or.inl (by omega)⟩
    · have e1 : (size + 4096) % 18446744073709551616 = size + 4096 - 18446744073709551616 := by
        omega
      rw [e1]
      have e2 : (size + 4096 - 18446744073709551616 + 18446744073709551616
          - 1 % 18446744073709551616) % 18446744073709551616
          = size + 4095 - 18446744073709551616 := by omega
      rw [e2]
      exact ⟨18446744073709551616 - size, by omega, Or.inr (by omega)⟩

/-- The address `get_payload` returns lies less than a page above the end of
the header page, modulo `2^64`. -/
theorem get_payload_form (h size : Nat) (hh : h + 4096 ≤ 18446744073709551616)
    (hsz : size < 18446744073709551616) :
    ∃ d, d < 4096 ∧
      (pages_round_up size * 4096 = size + d ∨
        pages_round_up size * 4096 + 18446744073709551616 = size + d) ∧
      (get_payload h size = h + 4096 + d ∨
        get_payload h size + 18446744073709551616 = h + 4096 + d) := by
  obtain ⟨d, hd, hp⟩ := pages_round_up_slack size hsz
  refine ⟨d, hd, hp, ?_⟩
  unfold get_payload PAGE_SIZE sub64 wrap64
  generalize pages_round_up size * 4096 = X at hp ⊢
  have e0 : size % 18446744073709551616 = size := Nat.mod_eq_of_lt hsz
  rw [e0]
  have hT : (h + 4096 + X) % 18446744073709551616 = h + 4096 + X ∨
      (h + 4096 + X) % 18446744073709551616 + 18446744073709551616 = h + 4096 + X ∨
      (h + 4096 + X) % 18446744073709551616 + 36893488147419103232 = h + 4096 + X := by
    omega
  generalize (h + 4096 + X) % 18446744073709551616 = T at hT
  omega

/-- The header address `free` computes from an address less than a page
above the end of a header page. -/
theorem header_of_payload (h q d : Nat) (hal : h % 4096 = 0) (hs : 4294967296 ≤ h)
    (hh : h < 18446744073709551616) (hd : d < 4096)
    (hq : q = h + 4096 + d ∨ q + 18446744073709551616 = h + 4096 + d) :
    sub64 (sub64 q PAGE_SIZE) (sub64 q START_PAGE % PAGE_SIZE) = h := by
  unfold sub64 PAGE_SIZE START_PAGE
  have e1 : (4096 : Nat) % 18446744073709551616 = 4096 := by decide
  have e2 : (4294967296 : Nat) % 18446744073709551616 = 4294967296 := by decide
  rw [e1, e2]
  have hA : (q + 18446744073709551616 - 4096) % 18446744073709551616 = h + d := by omega
  have hB : (q + 18446744073709551616 - 4294967296) % 18446744073709551616 % 4096 = d := by
    rcases hq with hq | hq
    · have : (q + 18446744073709551616 - 4294967296) % 18446744073709551616
          = q - 4294967296 := by omega
      rw [this]
      omega
    · have : (q + 18446744073709551616 - 4294967296) % 18446744073709551616
          = q + 18446744073709551616 - 4294967296 := by omega
      rw [this]
      omega
  rw [hA, hB]
  have e3 : d % 18446744073709551616 = d := by omega
  rw [e3]
  omega

/-- C39: for a page-aligned header page address `h ≥ START_PAGE` and a size
`s` (both `size_t`), the payload `q = get_payload(h, s)` ends at the page
boundary `h + 4096 + pages_round_up(s) * 4096` (in the arithmetic of `size_t`,
modulo `2^64`; as an equation of numbers when neither side wraps), and the
header address `free` computes from `q`,
`q - 4096 - ((q - START_PAGE) mod 4096)`, is `h`: in a state whose header
page `h` holds an allocated block of that size, `free(q)` makes no report and
clears the flag at `h`. -/
theorem header_round_trip (h size : Nat) (hal : h % PAGE_SIZE = 0) (hs : START_PAGE ≤ h)
    (hh : h < 18446744073709551616) (hsz : size < 18446744073709551616) :
    wrap64 (get_payload h size + size)
      = wrap64 (h + PAGE_SIZE + pages_round_up size * PAGE_SIZE) ∧
    wrap64 (get_payload h size + size) % PAGE_SIZE = 0 ∧
    sub64 (sub64 (get_payload h size) PAGE_SIZE)
      (sub64 (get_payload h size) START_PAGE % PAGE_SIZE) = h ∧
    (size + PAGE_SIZE ≤ 18446744073709551616 →
      h + PAGE_SIZE + pages_round_up size * PAGE_SIZE < 18446744073709551616 →
      get_payload h size + size = h + PAGE_SIZE + pages_round_up size * PAGE_SIZE) ∧
    (∀ (mm : Nat) (s : State), s.is_initialized = true → size ≤ MAX_HEAP_SIZE →
      h + 4096 * (1 + (size + 4095) / 4096) ≤ START_PAGE + MAX_HEAP_SIZE →
      s.mem h = HEADER_MAGIC → s.mem (h + 8) = size → s.mem (h + 16) = 1 →
      ∃ s2, free mm (get_payload h size) s = .ok s2 ∧ s2.reports = s.reports ∧
        s2.mem (h + 16) = 0) := by
  have hP : PAGE_SIZE = 4096 := rfl
  have hS : START_PAGE = 4294967296 := rfl
  rw [hP] at hal
  rw [hS] at hs
  obtain ⟨d, hd, hp, hq⟩ := get_payload_form h size (by omega) hsz
  refine ⟨?_, ?_, header_of_payload h _ d hal hs hh hd hq, ?_, ?_⟩
  · rw [hP]
    unfold wrap64
    generalize pages_round_up size * 4096 = X at hp
    generalize get_payload h size = q at hq
    omega
  · rw [hP]
    unfold wrap64
    generalize get_payload h size = q at hq
    omega
  · rw [hP]
    intro h1 h2
    have hX : pages_round_up size * 4096 = size + d := by
      rcases hp with hp | hp
      · exact hp
      · omega
    rcases hq with hq | hq
    · rw [hq, hX]
      omega
    · omega
  · intro mm s hi hsize hfit hmagic hsize2 halloc
    have hM : MAX_HEAP_SIZE = 1073741824 := rfl
    rw [hS, hM] at hfit
    rw [hM] at hsize
    have hpg : pages_round_up size = (size + 4095) / 4096 :=
      pages_round_up_eq size (by omega)
    have hw : get_payload h size = h + 4096 + (size + 4095) / 4096 * 4096 - size := by
      unfold get_payload
      rw [hpg, hP]
      unfold sub64 wrap64
      omega
    obtain ⟨s2, g1, _, _, g4, g5, _⟩ := free_spec mm size h s hi hal (by rw [hS]; exact hs)
      (by rw [hM]; exact hsize) (by rw [hS, hM]; exact hfit) hmagic hsize2 halloc
    rw [hw]
    exact ⟨s2, g1, g4, g5⟩

/-- C39 at concrete inputs: the header page at `0x100003000` and the size
4097 give the payload `0x100004fff`, which ends at `0x100006000`, and the
header address computed from it is `0x100003000`. -/
theorem header_round_trip_witness :
    get_payload 4294979584 4097 = 4294987775 ∧
    wrap64 (get_payload 4294979584 4097 + 4097) = 4294991872 ∧
    pages_round_up 4097 = 2 ∧
    sub64 (sub64 (get_payload 4294979584 4097) PAGE_SIZE)
      (sub64 (get_payload 4294979584 4097) START_PAGE % PAGE_SIZE) = 4294979584 :=
  ⟨by decide,
    ((header_round_trip 4294979584 4097 (by decide) (by decide) (by decide)
      (by decide)).1).trans (by decide),
    by decide,
    (header_round_trip 4294979584 4097 (by decide) (by decide) (by decide) (by decide)).2.2.1⟩

end ASan

/-! ## The compiler: constant folding -/

namespace Compile

theorem compile_ok_bind {α β : Type} (a : α) (f : α → Except Fault β) :
    (Except.ok a >>= f) = f a := rfl

theorem compile_pure_eq {α : Type} (a : α) : (pure a : Except Fault α) = Except.ok a := rfl

/-- The instructions `compile_ast` prints for `PRINT (2 + 3) * X`, and the
memory of the tree after the call. -/
theorem compile_print_sum_times_x :
    compile_ast 10 print_sum_times_x 0 = .ok
      ([.movq_imm 5, .push_rdi, .movq_imm 3, .push_rdi, .pop_rcx, .pop_rdi, .addq, .push_rdi,
        .movq_var 192, .push_rdi, .pop_rcx, .pop_rdi, .imulq, .call_print_int],
       [.PRINT 1, .BINARY_OP '*' 2 5, .BINARY_OP '+' 3 4, .NUM 5, .NUM 3, .VAR 88]) := by
  decide

/-- C23 (as the code behaves): on `PRINT (2 + 3) * X`, `compute_folds` writes
the folded value 5 into the leaf that held 2 but leaves the product pointing
to the sum, so `compile_ast` prints code for `(5 + 3) * X`: for every value
`x` of `X` the code prints `8 * x`, where the statement means `5 * x` (8 and
5 at `x = 1`). -/
theorem fold_changes_meaning (x : Int) :
    (expr_of 10 print_sum_times_x 1).bind (eval (fun name => if name = 88 then x else 0))
      = some (to_int64 (5 * x)) ∧
    printed 10 print_sum_times_x (machine_with_x x) = .ok [to_int64 (8 * x)] ∧
    to_int64 (5 * 1) = 5 ∧ to_int64 (8 * 1) = 8 ∧
    (compile_ast 10 print_sum_times_x 0).toOption.bind (fun r => expr_of 10 r.2 1)
      = some (.bin '*' (.bin '+' (.num 5) (.num 3)) (.var 88)) := by
  have e5 : to_int64 (to_int64 2 + to_int64 3) = 5 := by decide
  have e8 : to_int64 (to_int64 5 + to_int64 3) = 8 := by decide
  refine ⟨?_, ?_, by decide, by decide, by decide⟩
  · have h : expr_of 10 print_sum_times_x 1
        = some (.bin '*' (.bin '+' (.num 2) (.num 3)) (.var 88)) := by decide
    rw [h]
    rw [Option.some_bind]
    have hv : eval (fun name => if name = 88 then x else 0)
        (.bin '*' (.bin '+' (.num 2) (.num 3)) (.var 88))
        = some (to_int64 (to_int64 (to_int64 2 + to_int64 3) * x)) := rfl
    rw [hv, e5]
  · unfold printed
    rw [compile_print_sum_times_x, compile_ok_bind]
    have hx : exec [.movq_imm 5, .push_rdi, .movq_imm 3, .push_rdi, .pop_rcx, .pop_rdi, .addq,
        .push_rdi, .movq_var 192, .push_rdi, .pop_rcx, .pop_rdi, .imulq, .call_print_int]
        (machine_with_x x) = .ok
          { rdi := to_int64 (to_int64 (to_int64 5 + to_int64 3) * x), rcx := x, rax := 0, rdx := 0,
            stack := [], vars := fun offset => if offset = 192 then x else 0, flags := (0, 0),
            out := [to_int64 (to_int64 (to_int64 5 + to_int64 3) * x)] } := rfl
    dsimp only
    rw [hx, compile_ok_bind, compile_pure_eq, e8]

end Compile

/-! ## The explicit free list allocator: the free list -/

namespace MM

theorem mm_ok_bind {α β : Type} (a : α) (f : α → Except Fault β) :
    (Except.ok a >>= f) = f a := rfl

theorem mm_pure_eq {α : Type} (a : α) : (pure a : Except Fault α) = Except.ok a := rfl

theorem next_of_eq {b : Nat} (h : b + 24 < 18446744073709551616) : next_of b = b + 8 := by
  unfold next_of wrap64
  omega

theorem prev_of_eq {b : Nat} (h : b + 24 < 18446744073709551616) : prev_of b = b + 16 := by
  unfold prev_of wrap64
  omega

/-- A write inside the array succeeds. -/
theorem store_ok (s : State) (a v : Nat) (h0 : s.lo ≤ a) (h1 : (a - s.lo) % 8 = 0)
    (h2 : a + 8 ≤ s.lo + 8 * s.words.length) :
    store s a v = .ok { s with words := s.words.set ((a - s.lo) / 8) v } := by
  unfold store
  rw [if_pos ⟨h0, h1, by omega⟩]

/-- A read after a write at another address. -/
theorem load_store_ne (s : State) (a b v : Nat) (hne : a ≠ b)
    (ha0 : s.lo ≤ a) (ha1 : (a - s.lo) % 8 = 0) (hb0 : s.lo ≤ b) (hb1 : (b - s.lo) % 8 = 0) :
    load { s with words := s.words.set ((a - s.lo) / 8) v } b = load s b := by
  unfold load
  show (if s.lo ≤ b ∧ (b - s.lo) % 8 = 0 then
      match (s.words.set ((a - s.lo) / 8) v)[(b - s.lo) / 8]? with
      | some v => Except.ok v
      | none => Except.error Fault.undefined
    else Except.error Fault.undefined) = _
  rw [if_pos ⟨hb0, hb1⟩, if_pos ⟨hb0, hb1⟩, List.getElem?_set, if_neg (by omega)]

/-- A read after a write at the same address. -/
theorem load_store_eq (s : State) (a v : Nat)
    (ha0 : s.lo ≤ a) (ha1 : (a - s.lo) % 8 = 0) (ha2 : a + 8 ≤ s.lo + 8 * s.words.length) :
    load { s with words := s.words.set ((a - s.lo) / 8) v } a = .ok v := by
  unfold load
  show (if s.lo ≤ a ∧ (a - s.lo) % 8 = 0 then
      match (s.words.set ((a - s.lo) / 8) v)[(a - s.lo) / 8]? with
      | some v => Except.ok v
      | none => Except.error Fault.undefined
    else Except.error Fault.undefined) = _
  rw [if_pos ⟨ha0, ha1⟩, List.getElem?_set, if_pos rfl, if_pos (by omega)]

/-- A read inside the array succeeds. -/
theorem load_total (s : State) (a : Nat) (h0 : s.lo ≤ a) (h1 : (a - s.lo) % 8 = 0)
    (h2 : a + 8 ≤ s.lo + 8 * s.words.length) : ∃ v, load s a = .ok v := by
  unfold load
  rw [if_pos ⟨h0, h1⟩]
  have hlt : (a - s.lo) / 8 < s.words.length := by omega
  rw [List.getElem?_eq_getElem hlt]
  exact ⟨_, rfl⟩

theorem pairs_mem {L : List Nat} {p : Nat × Nat} (h : p ∈ pairs L) : p.1 ∈ L ∧ p.2 ∈ L := by
  induction L with
  | nil => simp [pairs] at h
  | cons a rest ih =>
    cases rest with
    | nil => simp [pairs] at h
    | cons b rest2 =>
      simp only [pairs, List.mem_cons] at h
      rcases h with h | h
      · subst h
        simp
      · have := ih h
        exact ⟨List.mem_cons_of_mem _ this.1, List.mem_cons_of_mem _ this.2⟩

theorem pairs_tail {a : Nat} {L : List Nat} {p : Nat × Nat} (h : p ∈ pairs L) :
    p ∈ pairs (a :: L) := by
  cases L with
  | nil => simp [pairs] at h
  | cons b rest =>
    simp only [pairs, List.mem_cons]
    exact Or.inr h

theorem pairs_head (a b : Nat) (rest : List Nat) : (a, b) ∈ pairs (a :: b :: rest) := by
  simp [pairs]

theorem pairs_append (xs ys : List Nat) (p : Nat × Nat) :
    p ∈ pairs (xs ++ ys) ↔
      p ∈ pairs xs ∨ p ∈ pairs ys ∨ (xs.getLast? = some p.1 ∧ ys.head? = some p.2) := by
  induction xs with
  | nil => simp [pairs]
  | cons a rest ih =>
    cases rest with
    | nil =>
      cases ys with
      | nil => simp [pairs]
      | cons c ys2 =>
        simp only [List.singleton_append, pairs, List.mem_cons, List.not_mem_nil, false_or,
          List.getLast?_singleton, Option.some.injEq, List.head?_cons]
        constructor
        · rintro (h | h)
          · subst h
            exact Or.inr ⟨rfl, rfl⟩
          · exact Or.inl h
        · rintro (h | ⟨h1, h2⟩)
          · exact Or.inr h
          · left
            exact Prod.ext h1.symm h2.symm
    | cons b rest2 =>
      have e : (a :: b :: rest2 ++ ys) = a :: (b :: rest2 ++ ys) := rfl
      have e2 : (b :: rest2 ++ ys) = b :: (rest2 ++ ys) := rfl
      rw [e]
      have ih2 := ih
      rw [e2] at ih2 ⊢
      simp only [pairs, List.mem_cons]
      rw [ih2]
      simp only [List.getLast?_cons_cons]
      tauto

theorem pairs_fst_mem (xs : List Nat) (a : Nat) (p : Nat × Nat) (h : p ∈ pairs (xs ++ [a])) :
    p.1 ∈ xs := by
  induction xs with
  | nil => simp [pairs] at h
  | cons x rest ih =>
    cases rest with
    | nil =>
      simp only [List.singleton_append, pairs, List.mem_cons, List.not_mem_nil, or_false] at h
      subst h
      simp
    | cons y rest2 =>
      have e : (x :: y :: rest2 ++ [a]) = x :: y :: (rest2 ++ [a]) := rfl
      rw [e] at h
      simp only [pairs, List.mem_cons] at h
      rcases h with h | h
      · subst h
        simp
      · exact List.mem_cons_of_mem _ (ih h)

theorem pairs_snd_mem (c : Nat) (xs : List Nat) (p : Nat × Nat) (h : p ∈ pairs (c :: xs)) :
    p.2 ∈ xs := by
  induction xs generalizing c with
  | nil => simp [pairs] at h
  | cons y rest ih =>
    simp only [pairs, List.mem_cons] at h
    rcases h with h | h
    · subst h
      simp
    · exact List.mem_cons_of_mem _ (ih y h)

/-- What a read gives after a write inside the array. -/
theorem load_after_store (s : State) (a v : Nat) (h0 : s.lo ≤ a) (h1 : (a - s.lo) % 8 = 0)
    (h2 : a + 8 ≤ s.lo + 8 * s.words.length) :
    ∃ s1, store s a v = .ok s1 ∧ s1.lo = s.lo ∧ s1.brk = s.brk ∧
      s1.words.length = s.words.length ∧
      s1.mm_heap_first = s.mm_heap_first ∧ s1.mm_heap_last = s.mm_heap_last ∧
      s1.mm_free_first = s.mm_free_first ∧ s1.mm_free_last = s.mm_free_last ∧
      load s1 a = .ok v ∧
      (∀ x, x ≠ a → s.lo ≤ x → (x - s.lo) % 8 = 0 → load s1 x = load s x) := by
  refine ⟨_, store_ok s a v h0 h1 h2, rfl, rfl, by simp, rfl, rfl, rfl, rfl,
    load_store_eq s a v h0 h1 h2, ?_⟩
  intro x hx hx0 hx1
  exact load_store_ne s a x v (fun h => hx h.symm) h0 h1 hx0 hx1

/-- The fields of a block of the free list, as addresses in the array. -/
theorem block_fields {s : State} {b : Nat} (h : block_ok s b) :
    next_of b = b + 8 ∧ prev_of b = b + 16 ∧ s.lo ≤ b + 8 ∧ ((b + 8) - s.lo) % 8 = 0 ∧
    b + 8 + 8 ≤ s.lo + 8 * s.words.length ∧ s.lo ≤ b + 16 ∧ ((b + 16) - s.lo) % 8 = 0 ∧
    b + 16 + 8 ≤ s.lo + 8 * s.words.length := by
  unfold block_ok at h
  refine ⟨next_of_eq h.2.2.2.2, prev_of_eq h.2.2.2.2, ?_, ?_, ?_, ?_, ?_, ?_⟩ <;> omega

/-- The predicate `block_ok` looks at the bounds of the array only. -/
theorem block_ok_of_bounds {s s1 : State} {b : Nat} (hlo : s1.lo = s.lo)
    (hlen : s1.words.length = s.words.length) (h : block_ok s b) : block_ok s1 b := by
  unfold block_ok at h ⊢
  rw [hlo, hlen]
  exact h

theorem apart_ne {x y : Nat} (h : apart x y) : x ≠ y := by
  unfold apart at h
  omega

theorem apart_symm {x y : Nat} (h : apart x y) : apart y x := by
  unfold apart at h ⊢
  omega

theorem next_ne_prev {x y : Nat} (h : x = y ∨ apart x y) : x + 8 ≠ y + 16 := by
  unfold apart at h
  omega

theorem prev_ne_next {x y : Nat} (h : x = y ∨ apart x y) : x + 16 ≠ y + 8 := by
  unfold apart at h
  omega

theorem next_ne_next {x y : Nat} (h : apart x y) : x + 8 ≠ y + 8 := by
  unfold apart at h
  omega

theorem prev_ne_prev {x y : Nat} (h : apart x y) : x + 16 ≠ y + 16 := by
  unfold apart at h
  omega

theorem header_ne_next {x y : Nat} (h : x = y ∨ apart x y) : x ≠ y + 8 := by
  unfold apart at h
  omega

theorem header_ne_prev {x y : Nat} (h : x = y ∨ apart x y) : x ≠ y + 16 := by
  unfold apart at h
  omega

/-- The blocks of a free list, seen from one of them. -/
theorem free_list_facts {s : State} {pre post : List Nat} {b : Nat}
    (h : is_free_list s (pre ++ b :: post)) :
    block_ok s b ∧ (∀ y ∈ pre, block_ok s y ∧ apart y b) ∧
    (∀ y ∈ post, block_ok s y ∧ apart b y) ∧
    (∀ x ∈ pre, ∀ y ∈ post, apart x y) ∧ pre.Pairwise apart ∧ post.Pairwise apart := by
  obtain ⟨_, _, _, _, hok, hpw⟩ := h
  rw [List.pairwise_append] at hpw
  obtain ⟨hp1, hp2, hp3⟩ := hpw
  rw [List.pairwise_cons] at hp2
  refine ⟨hok b (by simp), ?_, ?_, ?_, hp1, hp2.2⟩
  · intro y hy
    exact ⟨hok y (by simp [hy]), hp3 y hy b (by simp)⟩
  · intro y hy
    exact ⟨hok y (by simp [hy]), hp2.1 y hy⟩
  · intro x hx y hy
    exact hp3 x hx y (by simp [hy])

/-- Two blocks of a free list are the same block or do not overlap. -/
theorem free_list_apart {s : State} {L : List Nat} (h : is_free_list s L) :
    ∀ x ∈ L, ∀ y ∈ L, x = y ∨ apart x y := by
  have hpw : L.Pairwise (fun x y => x = y ∨ apart x y) := h.2.2.2.2.2.imp Or.inr
  refine List.Pairwise.forall_of_forall ?_ ?_ hpw
  · intro x y hxy
    rcases hxy with hxy | hxy
    · exact Or.inl hxy.symm
    · exact Or.inr (apart_symm hxy)
  · intro x _
    exact Or.inl rfl

theorem load_free_first (s : State) (n x : Nat) :
    load { s with mm_free_first := n } x = load s x := rfl

theorem load_free_last (s : State) (n x : Nat) :
    load { s with mm_free_last := n } x = load s x := rfl

/-- The function `remove_from_freelist` on the only block of the list. -/
theorem remove_only (s : State) (b : Nat) (h : is_free_list s [b]) :
    ∃ s1, remove_from_freelist s b = .ok s1 ∧ is_free_list s1 [] ∧
      s1.lo = s.lo ∧ s1.brk = s.brk ∧ s1.words.length = s.words.length ∧
      s1.mm_heap_first = s.mm_heap_first ∧ s1.mm_heap_last = s.mm_heap_last ∧
      ∀ y ∈ [b], load s1 y = load s y := by
  obtain ⟨h1, h2, _, _, _, _⟩ := h
  have e1 : b = s.mm_free_first := by rw [h1]; rfl
  have e2 : b = s.mm_free_last := by rw [h2]; rfl
  refine ⟨{ s with mm_free_first := 0, mm_free_last := 0 }, ?_, ?_, rfl, rfl, rfl, rfl, rfl,
    fun _ _ => rfl⟩
  · unfold remove_from_freelist
    rw [if_pos ⟨e1, e2⟩]
    rfl
  · refine ⟨rfl, rfl, ?_, ?_, ?_, List.Pairwise.nil⟩
    · intro p hp
      simp [pairs] at hp
    · intro a ha
      simp at ha
    · intro y hy
      simp at hy

/-- The function `remove_from_freelist` on the first of several blocks. -/
theorem remove_first (s : State) (b c : Nat) (post : List Nat)
    (h : is_free_list s (b :: c :: post)) :
    ∃ s1, remove_from_freelist s b = .ok s1 ∧ is_free_list s1 (c :: post) ∧
      s1.lo = s.lo ∧ s1.brk = s.brk ∧ s1.words.length = s.words.length ∧
      s1.mm_heap_first = s.mm_heap_first ∧ s1.mm_heap_last = s.mm_heap_last ∧
      ∀ y ∈ b :: c :: post, load s1 y = load s y := by
  have hap := free_list_apart h
  have h0 : is_free_list s ([] ++ b :: c :: post) := h
  obtain ⟨hb, _, hpost, _, _, hpw2⟩ := free_list_facts h0
  obtain ⟨h1, h2, h3, h4, h5, h6⟩ := h
  have hc := hpost c (by simp)
  obtain ⟨bn, bp, b0, b1, b2, b3, b4, b5⟩ := block_fields hb
  obtain ⟨cn, cp, c0, c1, c2, c3, c4, c5⟩ := block_fields hc.1
  have hbc := h3 (b, c) (pairs_head b c post)
  have e1 : b = s.mm_free_first := by rw [h1]; rfl
  have hlast : s.mm_free_last = (c :: post).getLast?.getD 0 := by
    rw [h2, List.getLast?_cons_cons]
  have hnl : b ≠ s.mm_free_last := by
    rw [hlast]
    have hm : (c :: post).getLast?.getD 0 ∈ c :: post := by
      rw [List.getLast?_eq_getLast _ (by simp)]
      exact List.getLast_mem _
    exact apart_ne (hpost _ hm).2
  obtain ⟨s1, e, f1, f2, f3, f4, f5, f6, f7, f8, f9⟩ :=
    load_after_store { s with mm_free_first := c } (prev_of c) 0
      (by rw [cp]; exact c3) (by rw [cp]; exact c4) (by rw [cp]; exact c5)
  refine ⟨s1, ?_, ?_, f1, f2, f3, f4, f5, ?_⟩
  · unfold remove_from_freelist
    rw [if_neg (fun hh => hnl hh.2), if_pos e1, hbc.1, mm_ok_bind]
    dsimp only
    rw [load_free_first, hbc.1, mm_ok_bind]
    exact e
  · have hframe : ∀ x, x ≠ c + 16 → s.lo ≤ x → (x - s.lo) % 8 = 0 → load s1 x = load s x := by
      intro x hx hx0 hx1
      rw [f9 x (by rw [cp]; exact hx) hx0 hx1]
      rfl
    refine ⟨f6, ?_, ?_, ?_, ?_, hpw2⟩
    · rw [f7]
      exact hlast
    · intro p hp
      have hp0 := h3 p (pairs_tail hp)
      have hm := pairs_mem hp
      have hm2 := pairs_snd_mem c post p hp
      have ok1 := h5 p.1 (List.mem_cons_of_mem _ hm.1)
      have ok2 := h5 p.2 (List.mem_cons_of_mem _ hm.2)
      obtain ⟨pn, _, p0, p1, _, _, _, _⟩ := block_fields ok1
      obtain ⟨_, qp, _, _, _, q3, q4, _⟩ := block_fields ok2
      have d1 := hap p.1 (List.mem_cons_of_mem _ hm.1) c (by simp)
      have d2 : apart c p.2 := (List.pairwise_cons.1 hpw2).1 p.2 hm2
      rw [pn, qp] at hp0 ⊢
      rw [hframe _ (next_ne_prev d1) p0 p1, hframe _ (prev_ne_prev (apart_symm d2)) q3 q4]
      exact hp0
    · intro a ha
      have ha0 : a ∈ (b :: c :: post).getLast? := by
        rw [List.getLast?_cons_cons]
        exact ha
      have hn := h4 a ha0
      have hma : a ∈ c :: post := List.mem_of_mem_getLast? ha
      have oka := h5 a (List.mem_cons_of_mem _ hma)
      obtain ⟨an, _, a0, a1, _, _, _, _⟩ := block_fields oka
      have d1 := hap a (List.mem_cons_of_mem _ hma) c (by simp)
      rw [an] at hn ⊢
      rw [hframe _ (next_ne_prev d1) a0 a1]
      exact hn
    · intro y hy
      exact block_ok_of_bounds f1 f3 (h5 y (List.mem_cons_of_mem _ hy))
  · intro y hy
    have oky := h5 y hy
    have d1 := hap y hy c (by simp)
    unfold block_ok at oky
    rw [f9 y (by rw [cp]; exact header_ne_prev d1) oky.2.1 oky.2.2.1]
    rfl

theorem head_concat_append (pre rest : List Nat) (a : Nat) :
    ((pre ++ [a]) ++ rest).head?.getD 0 = (pre ++ [a]).head?.getD 0 ∧
    (pre ++ [a]).head?.getD 0 ∈ pre ++ [a] := by
  cases pre with
  | nil => simp
  | cons x xs => simp

theorem last_of_append_cons (pre post : List Nat) (c : Nat) :
    (pre ++ c :: post).getLast? = (c :: post).getLast? := by
  rw [List.getLast?_append, List.getLast?_eq_getLast (c :: post) (by simp)]
  rfl

theorem last_append_cons (pre post : List Nat) (c : Nat) :
    (pre ++ c :: post).getLast?.getD 0 = (c :: post).getLast?.getD 0 ∧
    (c :: post).getLast?.getD 0 ∈ c :: post := by
  constructor
  · rw [last_of_append_cons]
  · rw [List.getLast?_eq_getLast _ (by simp)]
    exact List.getLast_mem _

/-- The function `remove_from_freelist` on the last of several blocks. -/
theorem remove_last (s : State) (pre : List Nat) (a b : Nat)
    (h : is_free_list s ((pre ++ [a]) ++ [b])) :
    ∃ s1, remove_from_freelist s b = .ok s1 ∧ is_free_list s1 (pre ++ [a]) ∧
      s1.lo = s.lo ∧ s1.brk = s.brk ∧ s1.words.length = s.words.length ∧
      s1.mm_heap_first = s.mm_heap_first ∧ s1.mm_heap_last = s.mm_heap_last ∧
      ∀ y ∈ (pre ++ [a]) ++ [b], load s1 y = load s y := by
  have hap := free_list_apart h
  obtain ⟨hb, hpre, _, _, hpw1, _⟩ := free_list_facts h
  obtain ⟨h1, h2, h3, h4, h5, h6⟩ := h
  have ha := hpre a (by simp)
  obtain ⟨bn, bp, b0, b1, b2, b3, b4, b5⟩ := block_fields hb
  obtain ⟨an, ap, a0, a1, a2, a3, a4, a5⟩ := block_fields ha.1
  have hab := h3 (a, b) ((pairs_append _ _ _).2 (Or.inr (Or.inr ⟨by simp, by simp⟩)))
  have e2 : b = s.mm_free_last := by rw [h2]; simp
  have hfirst := head_concat_append pre [b] a
  have hnf : b ≠ s.mm_free_first := by
    rw [h1, hfirst.1]
    exact fun hh => apart_ne (hpre _ hfirst.2).2 hh.symm
  obtain ⟨s1, e, f1, f2, f3, f4, f5, f6, f7, f8, f9⟩ :=
    load_after_store { s with mm_free_last := a } (next_of a) 0
      (by rw [an]; exact a0) (by rw [an]; exact a1) (by rw [an]; exact a2)
  refine ⟨s1, ?_, ?_, f1, f2, f3, f4, f5, ?_⟩
  · unfold remove_from_freelist
    rw [if_neg (fun hh => hnf hh.1), if_neg hnf, if_pos e2, hab.2, mm_ok_bind]
    dsimp only
    rw [load_free_last, hab.2, mm_ok_bind]
    exact e
  · have hframe : ∀ x, x ≠ a + 8 → s.lo ≤ x → (x - s.lo) % 8 = 0 → load s1 x = load s x := by
      intro x hx hx0 hx1
      rw [f9 x (by rw [an]; exact hx) hx0 hx1]
      rfl
    refine ⟨?_, ?_, ?_, ?_, ?_, hpw1⟩
    · rw [f6]
      show s.mm_free_first = _
      rw [h1, hfirst.1]
    · rw [f7]
      simp
    · intro p hp
      have hp0 := h3 p ((pairs_append _ _ _).2 (Or.inl hp))
      have hm := pairs_mem hp
      have hm1 := pairs_fst_mem pre a p hp
      have ok1 := h5 p.1 (List.mem_append_left _ hm.1)
      have ok2 := h5 p.2 (List.mem_append_left _ hm.2)
      obtain ⟨pn, _, p0, p1, _, _, _, _⟩ := block_fields ok1
      obtain ⟨_, qp, _, _, _, q3, q4, _⟩ := block_fields ok2
      have d1 : apart p.1 a :=
        (List.pairwise_append.1 hpw1).2.2 p.1 hm1 a (by simp)
      have d2 := hap p.2 (List.mem_append_left _ hm.2) a (by simp)
      rw [pn, qp] at hp0 ⊢
      rw [hframe _ (next_ne_next d1) p0 p1, hframe _ (prev_ne_next d2) q3 q4]
      exact hp0
    · intro x hx
      have hxa : x = a := by
        simp at hx
        exact hx.symm
      rw [hxa]
      exact f8
    · intro y hy
      exact block_ok_of_bounds f1 f3 (h5 y (List.mem_append_left _ hy))
  · intro y hy
    have oky := h5 y hy
    have d1 := hap y hy a (by simp)
    unfold block_ok at oky
    rw [f9 y (by rw [an]; exact header_ne_next d1) oky.2.1 oky.2.2.1]
    rfl

/-- The function `remove_from_freelist` on a block between two others. -/
theorem remove_middle (s : State) (pre post : List Nat) (a b c : Nat)
    (h : is_free_list s ((pre ++ [a]) ++ b :: c :: post)) :
    ∃ s1, remove_from_freelist s b = .ok s1 ∧ is_free_list s1 ((pre ++ [a]) ++ c :: post) ∧
      s1.lo = s.lo ∧ s1.brk = s.brk ∧ s1.words.length = s.words.length ∧
      s1.mm_heap_first = s.mm_heap_first ∧ s1.mm_heap_last = s.mm_heap_last ∧
      ∀ y ∈ (pre ++ [a]) ++ b :: c :: post, load s1 y = load s y := by
  have hap := free_list_apart h
  obtain ⟨hb, hpre, hpost, hcross, hpw1, hpw2⟩ := free_list_facts h
  obtain ⟨h1, h2, h3, h4, h5, h6⟩ := h
  have ha := hpre a (by simp)
  have hc := hpost c (by simp)
  have hac := hcross a (by simp) c (by simp)
  obtain ⟨bn, bp, b0, b1, b2, b3, b4, b5⟩ := block_fields hb
  obtain ⟨an, ap, a0, a1, a2, a3, a4, a5⟩ := block_fields ha.1
  obtain ⟨cn, cp, c0, c1, c2, c3, c4, c5⟩ := block_fields hc.1
  have hab := h3 (a, b) ((pairs_append _ _ _).2 (Or.inr (Or.inr ⟨by simp, by simp⟩)))
  have hbc := h3 (b, c) ((pairs_append _ _ _).2 (Or.inr (Or.inl (pairs_head b c post))))
  have hfirst := head_concat_append pre (b :: c :: post) a
  have hnf : b ≠ s.mm_free_first := by
    rw [h1, hfirst.1]
    exact fun hh => apart_ne (hpre _ hfirst.2).2 hh.symm
  have hlast0 := last_append_cons (pre ++ [a] ++ [b]) post c
  have hlast : s.mm_free_last = (c :: post).getLast?.getD 0 := by
    rw [h2, ← hlast0.1]
    simp
  have hnl : b ≠ s.mm_free_last := by
    rw [hlast]
    exact apart_ne (hpost _ hlast0.2).2
  have dab := ha.2
  have dbc := hc.2
  obtain ⟨s1, e, f1, f2, f3, f4, f5, f6, f7, f8, f9⟩ :=
    load_after_store s (prev_of c) a
      (by rw [cp]; exact c3) (by rw [cp]; exact c4) (by rw [cp]; exact c5)
  obtain ⟨s2, e', g1, g2, g3, g4, g5, g6, g7, g8, g9⟩ :=
    load_after_store s1 (next_of a) c
      (by rw [an, f1]; exact a0) (by rw [an, f1]; exact a1) (by rw [an, f1, f3]; exact a2)
  have hframe : ∀ x, x ≠ c + 16 → x ≠ a + 8 → s.lo ≤ x → (x - s.lo) % 8 = 0 →
      load s2 x = load s x := by
    intro x hx hx2 hx0 hx1
    rw [g9 x (by rw [an]; exact hx2) (by rw [f1]; exact hx0) (by rw [f1]; exact hx1),
      f9 x (by rw [cp]; exact hx) hx0 hx1]
  refine ⟨s2, ?_, ?_, g1.trans f1, g2.trans f2, g3.trans f3, g4.trans f4, g5.trans f5, ?_⟩
  · unfold remove_from_freelist
    rw [if_neg (fun hh => hnf hh.1), if_neg hnf, if_neg hnl, hbc.1, mm_ok_bind, hab.2,
      mm_ok_bind, e, mm_ok_bind,
      f9 (prev_of b) (by rw [bp, cp]; exact prev_ne_prev dbc) (by rw [bp]; exact b3) (by rw [bp]; exact b4),
      hab.2, mm_ok_bind,
      f9 (next_of b) (by rw [bn, cp]; exact next_ne_prev (Or.inr dbc)) (by rw [bn]; exact b0) (by rw [bn]; exact b1),
      hbc.1, mm_ok_bind]
    exact e'
  · refine ⟨?_, ?_, ?_, ?_, ?_, ?_⟩
    · rw [g6, f6, h1, hfirst.1, (head_concat_append pre (c :: post) a).1]
    · rw [g7, f7, hlast, (last_append_cons (pre ++ [a]) post c).1]
    · intro p hp
      rcases (pairs_append _ _ _).1 hp with hp1 | hp1 | hp1
      · have hp0 := h3 p ((pairs_append _ _ _).2 (Or.inl hp1))
        have hm := pairs_mem hp1
        have hm1 := pairs_fst_mem pre a p hp1
        have ok1 := (hpre p.1 hm.1).1
        have ok2 := (hpre p.2 hm.2).1
        obtain ⟨pn, _, p0, p1, _, _, _, _⟩ := block_fields ok1
        obtain ⟨_, qp, _, _, _, q3, q4, _⟩ := block_fields ok2
        have d1 : apart p.1 a :=
          (List.pairwise_append.1 hpw1).2.2 p.1 hm1 a (by simp)
        have d2 := hcross p.1 hm.1 c (by simp)
        have d3 := hap p.2 (List.mem_append_left _ hm.2) a (by simp)
        have d4 := hcross p.2 hm.2 c (by simp)
        rw [pn, qp] at hp0 ⊢
        rw [hframe _ (next_ne_prev (Or.inr d2)) (next_ne_next d1) p0 p1,
          hframe _ (prev_ne_prev d4) (prev_ne_next d3) q3 q4]
        exact hp0
      · have hp0 := h3 p ((pairs_append _ _ _).2 (Or.inr (Or.inl (pairs_tail hp1))))
        have hm := pairs_mem hp1
        have hm2 := pairs_snd_mem c post p hp1
        have ok1 := (hpost p.1 hm.1).1
        have ok2 := (hpost p.2 hm.2).1
        obtain ⟨pn, _, p0, p1, _, _, _, _⟩ := block_fields ok1
        obtain ⟨_, qp, _, _, _, q3, q4, _⟩ := block_fields ok2
        have d1 := hcross a (by simp) p.1 hm.1
        have d2 := hap p.1 (List.mem_append_right _ (List.mem_cons_of_mem _ hm.1)) c (by simp)
        have d3 := hcross a (by simp) p.2 hm.2
        have d4 : apart c p.2 := (List.pairwise_cons.1 hpw2).1 p.2 hm2
        rw [pn, qp] at hp0 ⊢
        rw [hframe _ (next_ne_prev d2) (next_ne_next (apart_symm d1)) p0 p1,
          hframe _ (prev_ne_prev (apart_symm d4)) (prev_ne_next (Or.inr (apart_symm d3))) q3 q4]
        exact hp0
      · have e1 : p.1 = a := by
          have := hp1.1
          simp at this
          exact this.symm
        have e2 : p.2 = c := by
          have := hp1.2
          simp at this
          exact this.symm
        rw [e1, e2]
        refine ⟨g8, ?_⟩
        rw [g9 (prev_of c) (by rw [an, cp]; exact prev_ne_next (Or.inr (apart_symm hac))) (by rw [f1, cp]; exact c3)
          (by rw [f1, cp]; exact c4)]
        exact f8
    · intro x hx
      rw [last_of_append_cons] at hx
      have hx0 : x ∈ ((pre ++ [a]) ++ b :: c :: post).getLast? := by
        rw [last_of_append_cons, List.getLast?_cons_cons]
        exact hx
      have hn := h4 x hx0
      have hmx : x ∈ c :: post := List.mem_of_mem_getLast? hx
      have okx := (hpost x hmx).1
      obtain ⟨xn, _, x0, x1, _, _, _, _⟩ := block_fields okx
      have d1 := hcross a (by simp) x hmx
      have d2 := hap x (List.mem_append_right _ (List.mem_cons_of_mem _ hmx)) c (by simp)
      rw [xn] at hn ⊢
      rw [hframe _ (next_ne_prev d2) (next_ne_next (apart_symm d1)) x0 x1]
      exact hn
    · intro y hy
      refine block_ok_of_bounds (g1.trans f1) (g3.trans f3) (h5 y ?_)
      rcases List.mem_append.1 hy with hh | hh
      · exact List.mem_append_left _ hh
      · exact List.mem_append_right _ (List.mem_cons_of_mem _ hh)
    · rw [List.pairwise_append]
      exact ⟨hpw1, hpw2, fun x hx y hy => hcross x hx y hy⟩
  · intro y hy
    have oky := h5 y hy
    have d1 := hap y hy c (by simp)
    have d2 := hap y hy a (by simp)
    unfold block_ok at oky
    exact hframe y (header_ne_prev d1) (header_ne_next d2) oky.2.1 oky.2.2.1

/-- The function `remove_from_freelist` takes a block out of the free list
and keeps the order of the other blocks and every header. -/
theorem remove_from_freelist_spec (s : State) (pre post : List Nat) (b : Nat)
    (h : is_free_list s (pre ++ b :: post)) :
    ∃ s1, remove_from_freelist s b = .ok s1 ∧ is_free_list s1 (pre ++ post) ∧
      s1.lo = s.lo ∧ s1.brk = s.brk ∧ s1.words.length = s.words.length ∧
      s1.mm_heap_first = s.mm_heap_first ∧ s1.mm_heap_last = s.mm_heap_last ∧
      ∀ y ∈ pre ++ b :: post, load s1 y = load s y := by
  rcases List.eq_nil_or_concat pre with hp | ⟨pre1, a, hp⟩
  · subst hp
    cases post with
    | nil => exact remove_only s b h
    | cons c post1 => exact remove_first s b c post1 h
  · rw [List.concat_eq_append] at hp
    subst hp
    cases post with
    | nil =>
      rw [List.append_nil]
      exact remove_last s pre1 a b h
    | cons c post1 => exact remove_middle s pre1 post1 a b c h

/-- The field `next` of a block of the free list is the block after it, or
`NULL` in the last block. -/
theorem next_spec (s : State) (done rest : List Nat) (x : Nat)
    (h : is_free_list s (done ++ x :: rest)) :
    load s (next_of x) = .ok (rest.head?.getD 0) := by
  obtain ⟨_, _, h3, h4, _, _⟩ := h
  cases rest with
  | nil =>
    exact h4 x (by rw [last_of_append_cons]; rfl)
  | cons y rest1 =>
    exact (h3 (x, y) ((pairs_append _ _ _).2 (Or.inr (Or.inl (pairs_head x y rest1))))).1

/-- The header of a block of the free list can be read. -/
theorem get_size_total {s : State} {b : Nat} (h : block_ok s b) :
    ∃ n, get_size s b = .ok n := by
  unfold block_ok at h
  obtain ⟨v, hv⟩ := load_total s b h.2.1 h.2.2.1 (by omega)
  refine ⟨v - v % 2, ?_⟩
  unfold get_size
  rw [hv]
  rfl

theorem fits_false {s : State} {size b : Nat} (hb : block_ok s b) (h : fits s size b = false) :
    ∃ n, get_size s b = .ok n ∧ ¬ n ≥ size := by
  obtain ⟨n, hn⟩ := get_size_total hb
  refine ⟨n, hn, ?_⟩
  unfold fits at h
  rw [hn] at h
  simpa using h

theorem fits_true {s : State} {size b : Nat} (h : fits s size b = true) :
    ∃ n, get_size s b = .ok n ∧ n ≥ size := by
  unfold fits at h
  cases hg : get_size s b with
  | error e =>
    rw [hg] at h
    simp at h
  | ok n =>
    rw [hg] at h
    exact ⟨n, rfl, by simpa using h⟩

/-- The pointer `mm_free_last` of a free list that has a block is not `NULL`. -/
theorem free_last_ne_zero {s : State} {pre post : List Nat} {b : Nat}
    (h : is_free_list s (pre ++ b :: post)) : s.mm_free_last ≠ 0 := by
  have h2 := h.2.1
  have hm := last_append_cons pre post b
  rw [hm.1] at h2
  have hok := h.2.2.2.2.1 _ (List.mem_append_right pre hm.2)
  unfold block_ok at hok
  omega

/-- The loop of `find_fit` walks over blocks that are too small. -/
theorem find_fit_loop_skip (s : State) (size : Nat) (pre : List Nat) :
    ∀ (done rest : List Nat) (fuel : Nat), is_free_list s (done ++ (pre ++ rest)) →
      (∀ y ∈ pre, fits s size y = false) →
      find_fit_loop size (fuel + pre.length) s ((pre ++ rest).head?.getD 0) =
        find_fit_loop size fuel s (rest.head?.getD 0) := by
  induction pre with
  | nil =>
    intro done rest fuel _ _
    rfl
  | cons x pre1 ih =>
    intro done rest fuel h hsmall
    have hx : block_ok s x := h.2.2.2.2.1 x (by simp)
    obtain ⟨n, hn, hlt⟩ := fits_false hx (hsmall x (by simp))
    have hx0 : x ≠ 0 := by
      unfold block_ok at hx
      omega
    have hnext := next_spec s done (pre1 ++ rest) x h
    have h' : is_free_list s ((done ++ [x]) ++ (pre1 ++ rest)) := by
      rw [List.append_assoc]
      exact h
    have e : fuel + (x :: pre1).length = (fuel + pre1.length) + 1 := by
      simp only [List.length_cons]
      omega
    rw [e]
    show find_fit_loop size ((fuel + pre1.length) + 1) s x = _
    rw [find_fit_loop, if_pos ⟨free_last_ne_zero h, hx0⟩, hn, mm_ok_bind, if_neg hlt, hnext,
      mm_ok_bind]
    exact ih (done ++ [x]) rest fuel h' (fun y hy => hsmall y (List.mem_cons_of_mem _ hy))

/-- A list with a member that passes a test has a first such member. -/
theorem exists_first (p : Nat → Bool) (L : List Nat) (h : ∃ y ∈ L, p y = true) :
    ∃ pre b post, L = pre ++ b :: post ∧ (∀ y ∈ pre, p y = false) ∧ p b = true := by
  induction L with
  | nil =>
    obtain ⟨y, hy, _⟩ := h
    simp at hy
  | cons x rest ih =>
    by_cases hx : p x = true
    · exact ⟨[], x, rest, rfl, by simp, hx⟩
    · obtain ⟨y, hy, hpy⟩ := h
      have hy2 : y ∈ rest := by
        rcases List.mem_cons.1 hy with e | e
        · subst e
          exact absurd hpy hx
        · exact e
      obtain ⟨pre, b, post, e, h1, h2⟩ := ih ⟨y, hy2, hpy⟩
      refine ⟨x :: pre, b, post, by rw [e]; rfl, ?_, h2⟩
      intro z hz
      rcases List.mem_cons.1 hz with e1 | e1
      · subst e1
        simpa using hx
      · exact h1 z e1

/-- The function `find_fit` when the first block that is large enough is `b`. -/
theorem find_fit_found (s : State) (pre post : List Nat) (b size fuel : Nat)
    (h : is_free_list s (pre ++ b :: post)) (hf : pre.length < fuel)
    (hsmall : ∀ y ∈ pre, fits s size y = false) (hb : fits s size b = true) :
    ∃ s1, find_fit fuel size s = .ok (b, s1) ∧ b ≠ 0 ∧ is_free_list s1 (pre ++ post) ∧
      (∀ y ∈ pre ++ b :: post, get_size s1 y = get_size s y) ∧
      s1.lo = s.lo ∧ s1.brk = s.brk ∧ s1.words.length = s.words.length ∧
      s1.mm_heap_first = s.mm_heap_first ∧ s1.mm_heap_last = s.mm_heap_last := by
  obtain ⟨s1, e, hl, f1, f2, f3, f4, f5, f6⟩ := remove_from_freelist_spec s pre post b h
  obtain ⟨n, hn, hge⟩ := fits_true hb
  have hbok : block_ok s b := h.2.2.2.2.1 b (by simp)
  have hb0 : b ≠ 0 := by
    unfold block_ok at hbok
    omega
  obtain ⟨k, hk⟩ : ∃ k, fuel = (k + 1) + pre.length := ⟨fuel - pre.length - 1, by omega⟩
  refine ⟨s1, ?_, hb0, hl, ?_, f1, f2, f3, f4, f5⟩
  · unfold find_fit
    rw [h.1, hk, find_fit_loop_skip s size pre [] (b :: post) (k + 1) h hsmall]
    show find_fit_loop size (k + 1) s b = _
    rw [find_fit_loop, if_pos ⟨free_last_ne_zero h, hb0⟩, hn, mm_ok_bind, if_pos hge, e]
    rfl
  · intro y hy
    unfold get_size
    rw [f6 y hy]

/-- The function `find_fit` when no block is large enough. -/
theorem find_fit_none (s : State) (L : List Nat) (size fuel : Nat)
    (h : is_free_list s L) (hf : L.length < fuel)
    (hsmall : ∀ y ∈ L, fits s size y = false) :
    find_fit fuel size s = .ok (0, s) := by
  obtain ⟨k, hk⟩ : ∃ k, fuel = (k + 1) + L.length := ⟨fuel - L.length - 1, by omega⟩
  have h' : is_free_list s ([] ++ (L ++ [])) := by
    rw [List.nil_append, List.append_nil]
    exact h
  have hs := find_fit_loop_skip s size L [] [] (k + 1) h' hsmall
  rw [List.append_nil] at hs
  unfold find_fit
  rw [h.1, hk, hs]
  show find_fit_loop size (k + 1) s 0 = _
  rw [find_fit_loop, if_neg (fun hh => hh.2 rfl)]
  rfl

/-- The free list of `two_free`. -/
theorem two_free_list : is_free_list two_free [65544, 65608] := by
  unfold is_free_list
  refine ⟨rfl, rfl, by decide, ?_, by decide, by decide⟩
  intro a ha
  have e : a = 65608 := by
    simp at ha
    exact ha.symm
  rw [e]
  decide

/-- C25: on a free list `L` (the blocks from `mm_free_first` along `next` to
`mm_free_last`), `find_fit size` returns the first block of `L` whose size is
at least `size`, and afterwards the free list is `L` without that block, in
the same order and with every size unchanged; when no block of `L` is large
enough it returns `NULL` and leaves the state as it was, and it returns
`NULL` in that case only. -/
theorem find_fit_first_fit (s : State) (L : List Nat) (size fuel : Nat)
    (hL : is_free_list s L) (hf : L.length < fuel) :
    (∀ pre b post, L = pre ++ b :: post → (∀ y ∈ pre, fits s size y = false) →
      fits s size b = true →
      ∃ s1, find_fit fuel size s = .ok (b, s1) ∧ b ≠ 0 ∧ is_free_list s1 (pre ++ post) ∧
        (∀ y ∈ L, get_size s1 y = get_size s y)) ∧
    ((∀ y ∈ L, fits s size y = false) → find_fit fuel size s = .ok (0, s)) ∧
    ((∃ s1, find_fit fuel size s = .ok (0, s1)) ↔ ∀ y ∈ L, fits s size y = false) := by
  have found : ∀ pre b post, L = pre ++ b :: post → (∀ y ∈ pre, fits s size y = false) →
      fits s size b = true →
      ∃ s1, find_fit fuel size s = .ok (b, s1) ∧ b ≠ 0 ∧ is_free_list s1 (pre ++ post) ∧
        (∀ y ∈ L, get_size s1 y = get_size s y) := by
    intro pre b post e hsmall hb
    subst e
    have hlen : pre.length < fuel := by
      rw [List.length_append] at hf
      omega
    obtain ⟨s1, h1, h2, h3, h4, _⟩ := find_fit_found s pre post b size fuel hL hlen hsmall hb
    exact ⟨s1, h1, h2, h3, h4⟩
  refine ⟨found, find_fit_none s L size fuel hL hf, ?_, ?_⟩
  · rintro ⟨s1, h1⟩ y hy
    by_contra hfit
    have hfit2 : fits s size y = true := by simpa using hfit
    obtain ⟨pre, b, post, e, hsmall, hb⟩ := exists_first (fits s size) L ⟨y, hy, hfit2⟩
    obtain ⟨s2, h2, hb0, _⟩ := found pre b post e hsmall hb
    rw [h2] at h1
    injection h1 with h1
    exact hb0 (congrArg Prod.fst h1)
  · intro hsmall
    exact ⟨s, find_fit_none s L size fuel hL hf hsmall⟩

theorem find_fit_first_fit_witness :
    is_free_list two_free [65544, 65608] ∧
    (∃ s1, find_fit 3 40 two_free = .ok (65608, s1) ∧ 65608 ≠ 0 ∧
      is_free_list s1 ([65544] ++ []) ∧
      ∀ y ∈ [65544, 65608], get_size s1 y = get_size two_free y) ∧
    find_fit 3 64 two_free = .ok (0, two_free) ∧
    find_fit 3 40 two_free = .ok (65608,
      { two_free with words := [0, 32, 0, 0, 32, 33, 0, 0, 33, 48, 0, 65544, 0, 0, 48],
                      mm_free_last := 65544 }) :=
  ⟨two_free_list,
    (find_fit_first_fit two_free [65544, 65608] 40 3 two_free_list (by decide)).1
      [65544] 65608 [] rfl (by decide) (by decide),
    (find_fit_first_fit two_free [65544, 65608] 64 3 two_free_list (by decide)).2.1 (by decide),
    rfl⟩

set_option maxRecDepth 100000 in
/-- C24: a client that writes only into payloads it was given, and whose calls
stay inside the heap, receives from `mm_malloc` a payload at offset 104 from
the start of the heap, which is not a multiple of `ALIGNMENT`; the payloads
before it lie at the offsets 16, 48, 64, 96 and 48. -/
theorem client_unaligned :
    (client 5 empty_heap).toOption.map (fun r => r.1) = some [16, 48, 64, 96, 48, 104] ∧
    104 % ALIGNMENT = 8 ∧ (65536 + 104) % ALIGNMENT = 8 := by
  decide

/-! ### Blocks smaller than a free list entry -/

set_option maxRecDepth 100000 in
/-- C35 fails on the code at the requested size 0: after `mm_init`,
`mm_malloc(0)` hands out the payload at offset 16 of a block of 16 bytes,
less than the 24 bytes of a `free_block_t`; when that block is freed,
`add_to_freelist` writes its `prev` link at the block plus 16, which is the
header of the next block: that header holds 33 (32 bytes, allocated) before
the call of `mm_free` and 0 after it. -/
theorem zero_size_block :
    (zero_client 5 empty_heap).toOption.map (fun r =>
        (r.1 - 65536, get_size r.2.2.1 (block_from_payload r.1),
          prev_of (block_from_payload r.1), block_from_payload r.2.1,
          load r.2.2.1 (block_from_payload r.2.1), load r.2.2.2 (block_from_payload r.2.1)))
      = some (16, .ok 16, 65560, 65560, .ok 33, .ok 0) ∧
    round_up (wrap64 (wrap64 (8 + 0) + 8)) ALIGNMENT = 16 :=
  ⟨rfl, rfl⟩

set_option maxRecDepth 100000 in
/-- C36 fails on the code: the heap of two allocated blocks of 16 and 32
bytes has no two adjacent free blocks; after `mm_free` of the first block,
which is allocated, the sequence of blocks read from the headers is a free
block of 16 bytes followed by a free block of size 0, two adjacent free
blocks that are not merged. On blocks of 32 bytes the same code does merge:
freeing the block between two free blocks of 32 bytes leaves one free block
of 96 bytes. -/
theorem free_leaves_adjacent_free :
    (zero_client 5 empty_heap).toOption.map (fun r =>
        (heap_blocks 5 r.2.2.1, heap_blocks 5 r.2.2.2))
      = some (.ok [(16, true), (32, true)], .ok [(16, false), (0, false)]) ∧
    adjacent_free [(16, true), (32, true)] = false ∧
    adjacent_free [(16, false), (0, false)] = true ∧
    (merge_client 5 empty_heap).toOption.map (fun r => (heap_blocks 9 r.1, heap_blocks 9 r.2))
      = some (.ok [(32, false), (32, true), (32, false), (32, true)],
          .ok [(96, false), (32, true)]) :=
  ⟨rfl, rfl, rfl, rfl⟩

end MM

/-! ## The directory tree: the order of the children -/

namespace DirTree

theorem dir_ok_bind {α β : Type} (a : α) (f : α → Except Fault β) :
    (Except.ok a >>= f) = f a := rfl

theorem dir_pure_eq {α : Type} (a : α) : (pure a : Except Fault α) = Except.ok a := rfl

/-- The function `strcmp` changes sign when its arguments are exchanged. -/
theorem strcmp_swap (a : List Nat) : ∀ b, strcmp b a = -strcmp a b := by
  induction a with
  | nil =>
    intro b
    cases b with
    | nil => simp [strcmp]
    | cons y ys => simp [strcmp]
  | cons x xs ih =>
    intro b
    cases b with
    | nil => simp [strcmp]
    | cons y ys =>
      simp only [strcmp]
      by_cases h : x = y
      · subst h
        simp only [if_true]
        by_cases h0 : x = 0
        · simp [h0]
        · simp only [if_neg h0]
          exact ih ys
      · rw [if_neg h, if_neg (fun e => h e.symm)]
        omega

theorem strcmp_self (a : List Nat) : strcmp a a = 0 := by
  have := strcmp_swap a a
  omega

/-- The order of `strcmp` is transitive. -/
theorem strcmp_trans (a : List Nat) :
    ∀ b c, strcmp a b ≤ 0 → strcmp b c ≤ 0 → strcmp a c ≤ 0 := by
  induction a with
  | nil =>
    intro b c h1 h2
    cases c with
    | nil => simp [strcmp]
    | cons z zs =>
      simp only [strcmp]
      omega
  | cons x xs ih =>
    intro b c h1 h2
    cases b with
    | nil =>
      simp only [strcmp] at h1
      have hx : x = 0 := by omega
      subst hx
      cases c with
      | nil => simp [strcmp]
      | cons z zs =>
        simp only [strcmp]
        by_cases hz : 0 = z
        · simp [hz.symm]
        · rw [if_neg hz]
          omega
    | cons y ys =>
      cases c with
      | nil =>
        simp only [strcmp] at h2
        have hy : y = 0 := by omega
        subst hy
        simp only [strcmp] at h1 ⊢
        by_cases hx : x = 0
        · omega
        · rw [if_neg hx] at h1
          omega
      | cons z zs =>
        simp only [strcmp] at h1 h2 ⊢
        by_cases hxy : x = y
        · subst hxy
          simp only [if_true] at h1
          by_cases hxz : x = z
          · subst hxz
            simp only [if_true] at h2 ⊢
            by_cases h0 : x = 0
            · simp [h0]
            · rw [if_neg h0] at h1 h2 ⊢
              exact ih ys zs h1 h2
          · rw [if_neg hxz] at h2 ⊢
            exact h2
        · rw [if_neg hxy] at h1
          by_cases hyz : y = z
          · subst hyz
            rw [if_neg hxy]
            exact h1
          · rw [if_neg hyz] at h2
            by_cases hxz : x = z
            · omega
            · rw [if_neg hxz]
              omega

theorem rd_some {xs : List Nat} {i v : Nat} (h : xs[i]? = some v) : rd xs i = .ok v := by
  unfold rd
  rw [h]

theorem wr_lt {xs : List Nat} {i : Nat} (v : Nat) (h : i < xs.length) :
    wr xs i v = .ok (xs.set i v) := by
  unfold wr
  rw [if_pos h]

theorem get_of_lt (xs : List Nat) (i : Nat) (h : i < xs.length) : ∃ v, xs[i]? = some v :=
  ⟨xs[i], List.getElem?_eq_getElem h⟩

theorem lt_of_get {xs : List Nat} {i v : Nat} (h : xs[i]? = some v) : i < xs.length := by
  by_contra hn
  rw [List.getElem?_eq_none (by omega)] at h
  cases h

/-- An entry moved to the front of the list in exchange for a new one. -/
theorem set_perm_cons (rest : List Nat) :
    ∀ (m x xm : Nat), rest[m]? = some xm → (xm :: rest.set m x).Perm (x :: rest) := by
  induction rest with
  | nil =>
    intro m x xm h
    simp at h
  | cons r rs ih =>
    intro m x xm h
    cases m with
    | zero =>
      have e : r = xm := by simpa using h
      subst e
      exact List.Perm.swap x r rs
    | succ k =>
      have h2 : rs[k]? = some xm := by simpa using h
      have p1 : (xm :: r :: rs.set k x).Perm (r :: xm :: rs.set k x) := List.Perm.swap r xm _
      have p2 : (r :: xm :: rs.set k x).Perm (r :: x :: rs) := List.Perm.cons r (ih k x xm h2)
      have p3 : (r :: x :: rs).Perm (x :: r :: rs) := List.Perm.swap x r rs
      exact (p1.trans p2).trans p3

/-- The exchange of two entries of an array permutes it. -/
theorem swap_perm (xs : List Nat) :
    ∀ (i mi xi xm : Nat), xs[i]? = some xi → xs[mi]? = some xm →
      ((xs.set i xm).set mi xi).Perm xs := by
  induction xs with
  | nil =>
    intro i mi xi xm h
    simp at h
  | cons x rest ih =>
    intro i mi xi xm h1 h2
    cases i with
    | zero =>
      have e1 : x = xi := by simpa using h1
      subst e1
      cases mi with
      | zero =>
        have e2 : x = xm := by simpa using h2
        subst e2
        simp
      | succ m =>
        have h3 : rest[m]? = some xm := by simpa using h2
        exact set_perm_cons rest m x xm h3
    | succ k =>
      have h3 : rest[k]? = some xi := by simpa using h1
      cases mi with
      | zero =>
        have e2 : x = xm := by simpa using h2
        subst e2
        exact set_perm_cons rest k x xi h3
      | succ m =>
        have h4 : rest[m]? = some xm := by simpa using h2
        exact List.Perm.cons x (ih k m xi xm h3 h4)

/-- The entries of an array after the exchange of two of them. -/
theorem swap_get (xs : List Nat) (i mi xi xm k : Nat) (hi : i < xs.length)
    (hm : mi < xs.length) :
    ((xs.set i xm).set mi xi)[k]?
      = if k = mi then some xi else if k = i then some xm else xs[k]? := by
  rw [List.getElem?_set]
  by_cases h1 : mi = k
  · rw [if_pos h1, if_pos h1.symm, if_pos (by rw [List.length_set]; exact hm)]
  · rw [if_neg h1, if_neg (fun e => h1 e.symm), List.getElem?_set]
    by_cases h2 : i = k
    · rw [if_pos h2, if_pos h2.symm, if_pos hi]
    · rw [if_neg h2, if_neg (fun e => h2 e.symm)]

/-- The inner loop of `sorted_dir` returns the index of an entry from `i` on
whose name is least among the entries from `i` on. -/
theorem sorted_dir_inner_spec (name : Nat → List Nat) (dnode : directory_node_t) (i : Nat)
    (hlen : dnode.children.length = dnode.num_children)
    (hn : dnode.num_children < 18446744073709551616) :
    ∀ (fuel j : Nat) (ms : List Nat) (mi c : Nat), dnode.num_children - j < fuel →
      j ≤ dnode.num_children → i ≤ mi → mi < j → dnode.children[mi]? = some c →
      ms = name c →
      (∀ t y, i ≤ t → t < j → dnode.children[t]? = some y → strcmp ms (name y) ≤ 0) →
      ∃ r c1, sorted_dir_inner name dnode fuel j ms mi = .ok r ∧ i ≤ r ∧
        dnode.children[r]? = some c1 ∧
        ∀ t y, i ≤ t → dnode.children[t]? = some y → strcmp (name c1) (name y) ≤ 0 := by
  intro fuel
  induction fuel with
  | zero =>
    intro j ms mi c hf
    omega
  | succ fuel ih =>
    intro j ms mi c hf hj him hmj hc hms hinv
    unfold sorted_dir_inner
    by_cases hlt : j < dnode.num_children
    · rw [if_pos hlt]
      obtain ⟨cur, hcur⟩ := get_of_lt dnode.children j (by omega)
      have hw : wrap64 (j + 1) = j + 1 := by
        unfold wrap64
        omega
      rw [rd_some hcur, dir_ok_bind, hw]
      dsimp only
      by_cases hcmp : strcmp (name cur) ms < 0
      · rw [if_pos hcmp]
        refine ih (j + 1) (name cur) j cur (by omega) (by omega) (by omega) (by omega) hcur
          rfl ?_
        intro t y hit htj hy
        by_cases htj2 : t < j
        · exact strcmp_trans _ _ _ (by omega) (hinv t y hit htj2 hy)
        · have e : t = j := by omega
          subst e
          rw [hcur] at hy
          cases hy
          rw [strcmp_self]
      · rw [if_neg hcmp]
        refine ih (j + 1) ms mi c (by omega) (by omega) him (by omega) hc hms ?_
        intro t y hit htj hy
        by_cases htj2 : t < j
        · exact hinv t y hit htj2 hy
        · have e : t = j := by omega
          subst e
          rw [hcur] at hy
          cases hy
          have := strcmp_swap (name cur) ms
          omega
    · rw [if_neg hlt]
      refine ⟨mi, c, rfl, him, hc, ?_⟩
      intro t y hit hy
      rw [← hms]
      exact hinv t y hit (by have := lt_of_get hy; omega) hy

/-- The outer loop of `sorted_dir` from `i` on, when every entry before `i`
is in order with every entry after it. -/
theorem sorted_dir_loop_spec (name : Nat → List Nat) (n : Nat)
    (hn : n < 18446744073709551616) :
    ∀ (fuel i : Nat) (dnode : directory_node_t), dnode.num_children = n →
      dnode.children.length = n → n - i < fuel → i ≤ n →
      (∀ a b x y : Nat, a < i → a < b → dnode.children[a]? = some x →
        dnode.children[b]? = some y → strcmp (name x) (name y) ≤ 0) →
      ∃ d1, sorted_dir_loop name fuel i dnode = .ok d1 ∧ d1.num_children = n ∧
        d1.children.Perm dnode.children ∧
        (∀ a b x y : Nat, a < b → d1.children[a]? = some x → d1.children[b]? = some y →
          strcmp (name x) (name y) ≤ 0) := by
  intro fuel
  induction fuel with
  | zero =>
    intro i dnode _ _ hf
    omega
  | succ fuel ih =>
    intro i dnode hnum hlen hf hi hinv
    unfold sorted_dir_loop
    by_cases hlt : i < dnode.num_children
    · rw [if_pos hlt]
      obtain ⟨xi, hxi⟩ := get_of_lt dnode.children i (by omega)
      have hw : wrap64 (i + 1) = i + 1 := by
        unfold wrap64
        omega
      obtain ⟨r, xm, hr, hir, hxm, hmin⟩ := sorted_dir_inner_spec name dnode i
        (hlen.trans hnum.symm) (by omega) fuel (i + 1) (name xi) i xi (by omega) (by omega)
        (Nat.le_refl i) (by omega) hxi rfl (by
          intro t y hit htj hy
          have e : t = i := by omega
          subst e
          rw [hxi] at hy
          cases hy
          rw [strcmp_self])
      have hrl : r < dnode.children.length := lt_of_get hxm
      have hil : i < dnode.children.length := lt_of_get hxi
      rw [rd_some hxi, dir_ok_bind]
      dsimp only
      rw [hw, hr, dir_ok_bind, dir_ok_bind, rd_some hxm, dir_ok_bind,
        wr_lt xm hil, dir_ok_bind, wr_lt xi (by rw [List.length_set]; exact hrl), dir_ok_bind]
      have hget := swap_get dnode.children i r xi xm
      obtain ⟨d1, h1, h2, h3, h4⟩ := ih (i + 1)
        { dnode with children := (dnode.children.set i xm).set r xi } hnum
        (by simp [hlen]) (by omega) (by omega) (by
          intro a b x y ha hab hx hy
          rw [show ({ dnode with children := (dnode.children.set i xm).set r xi }
            : directory_node_t).children = (dnode.children.set i xm).set r xi from rfl,
            hget _ hil hrl] at hx hy
          have hbl : b < dnode.children.length := by
            by_contra hb
            by_cases e1 : b = r
            · omega
            · by_cases e2 : b = i
              · omega
              · rw [if_neg e1, if_neg e2] at hy
                exact hb (lt_of_get hy)
          by_cases hai : a = i
          · subst hai
            have hxx : x = xm := by
              by_cases e1 : a = r
              · subst e1
                rw [if_pos rfl] at hx
                rw [hxi] at hxm
                cases hxm
                cases hx
                rfl
              · rw [if_neg e1, if_pos rfl] at hx
                cases hx
                rfl
            subst hxx
            by_cases e1 : b = r
            · rw [if_pos e1] at hy
              cases hy
              exact hmin a xi (Nat.le_refl a) hxi
            · rw [if_neg e1, if_neg (by omega)] at hy
              exact hmin b y (by omega) hy
          · have hai2 : a < i := by omega
            rw [if_neg (by omega), if_neg hai] at hx
            by_cases e1 : b = r
            · rw [if_pos e1] at hy
              cases hy
              exact hinv a i x xi hai2 hai2 hx hxi
            · rw [if_neg e1] at hy
              by_cases e2 : b = i
              · rw [if_pos e2] at hy
                cases hy
                exact hinv a r x xm hai2 (by omega) hx hxm
              · rw [if_neg e2] at hy
                exact hinv a b x y hai2 hab hx hy)
      exact ⟨d1, h1, h2, h3.trans (swap_perm dnode.children i r xi xm hxi hxm), h4⟩
    · rw [if_neg hlt]
      refine ⟨dnode, rfl, hnum, List.Perm.refl _, ?_⟩
      intro a b x y hab hx hy
      exact hinv a b x y (by have := lt_of_get hy; omega) hab hx hy

/-- An array whose entries are in order by index is in order as a list. -/
theorem pairwise_of_get (name : Nat → List Nat) (xs : List Nat)
    (h : ∀ a b x y : Nat, a < b → xs[a]? = some x → xs[b]? = some y →
      strcmp (name x) (name y) ≤ 0) :
    xs.Pairwise (fun x y => strcmp (name x) (name y) ≤ 0) := by
  rw [List.pairwise_iff_getElem]
  intro i j hi hj hij
  exact h i j _ _ hij (List.getElem?_eq_getElem hi) (List.getElem?_eq_getElem hj)

/-- The function `sorted_dir` on an array of `num_children` entries. -/
theorem sorted_dir_spec (name : Nat → List Nat) (fuel : Nat) (dnode : directory_node_t)
    (hlen : dnode.children.length = dnode.num_children)
    (hn : dnode.num_children < 18446744073709551616)
    (hf : dnode.num_children < fuel) :
    ∃ d1, sorted_dir name fuel dnode = .ok d1 ∧ d1.num_children = dnode.num_children ∧
      d1.children.Perm dnode.children ∧
      d1.children.Pairwise (fun x y => strcmp (name x) (name y) ≤ 0) := by
  obtain ⟨d1, h1, h2, h3, h4⟩ := sorted_dir_loop_spec name dnode.num_children hn fuel 0 dnode
    rfl hlen (by omega) (Nat.zero_le _) (by
      intro a b x y ha
      omega)
  exact ⟨d1, h1, h2, h3, pairwise_of_get name _ h4⟩

/-- The array after `realloc` to one more entry and the write of the last
entry. -/
theorem realloc_last (xs : List Nat) (child : Nat) :
    ((realloc xs ((xs.length + 1) * 8)).set xs.length child) = xs ++ [child] := by
  unfold realloc
  have e : (xs.length + 1) * 8 / 8 = xs.length + 1 := by omega
  rw [e, List.replicate_succ, List.take_append, List.take_succ_cons, List.take_zero,
    List.set_append_right _ _ (Nat.le_refl _), Nat.sub_self, List.set_cons_zero]

/-- C34: for a directory node with an array of `num_children` children and a
new child, `add_child_directory_tree` leaves an array with one more entry that
is a permutation of the old children and the new child and is in
non-decreasing order of name (byte-wise `strcmp`), whether or not the old
children were in order; and `sorted_dir` on any array of children gives a
permutation of it that is in non-decreasing order of name. -/
theorem add_child_sorted (name : Nat → List Nat) (fuel : Nat) (dnode : directory_node_t)
    (child : Nat) (hlen : dnode.children.length = dnode.num_children)
    (hn : dnode.num_children + 1 < 2305843009213693952)
    (hf : dnode.num_children + 1 < fuel) :
    (∃ d1, add_child_directory_tree name fuel true dnode child = .ok d1 ∧
      d1.num_children = dnode.num_children + 1 ∧
      d1.children.length = dnode.children.length + 1 ∧
      d1.children.Perm (child :: dnode.children) ∧
      d1.children.Pairwise (fun x y => strcmp (name x) (name y) ≤ 0)) ∧
    (∃ d2, sorted_dir name fuel dnode = .ok d2 ∧ d2.num_children = dnode.num_children ∧
      d2.children.length = dnode.children.length ∧
      d2.children.Perm dnode.children ∧
      d2.children.Pairwise (fun x y => strcmp (name x) (name y) ≤ 0)) := by
  constructor
  · have e1 : wrap64 (dnode.num_children + 1) = dnode.num_children + 1 := by
      unfold wrap64
      omega
    have e2 : wrap64 ((dnode.num_children + 1) * 8) = (dnode.children.length + 1) * 8 := by
      unfold wrap64
      omega
    have e3 : sub64 (dnode.num_children + 1) 1 = dnode.children.length := by
      unfold sub64
      omega
    have hl : (realloc dnode.children ((dnode.children.length + 1) * 8)).length
        = dnode.children.length + 1 := by
      unfold realloc
      rw [List.length_take, List.length_append, List.length_replicate]
      omega
    unfold add_child_directory_tree
    dsimp only
    rw [if_neg (by decide), e1, e2, e3, wr_lt child (by rw [hl]; omega), dir_ok_bind,
      realloc_last]
    obtain ⟨d1, h1, h2, h3, h4⟩ := sorted_dir_spec name fuel
      { num_children := dnode.num_children + 1, children := dnode.children ++ [child] }
      (by simp [hlen]) (by show dnode.num_children + 1 < 18446744073709551616; omega)
      (by show dnode.num_children + 1 < fuel; exact hf)
    refine ⟨d1, h1, h2, ?_, ?_, h4⟩
    · rw [h3.length_eq]
      simp
    · exact h3.trans (List.perm_append_singleton child dnode.children)
  · obtain ⟨d2, h1, h2, h3, h4⟩ := sorted_dir_spec name fuel dnode hlen (by omega) (by omega)
    exact ⟨d2, h1, h2, h3.length_eq, h3, h4⟩

/-- C34 at concrete inputs: the children `a`, `b`, `c` and the new child
`ab` give the order `a`, `ab`, `b`, `c`; `sorted_dir` puts `b`, `a`, `c` in
the order `a`, `b`, `c`. -/
theorem add_child_sorted_witness :
    (∃ d1, add_child_directory_tree sample_name 5 true ⟨3, [2, 1, 3]⟩ 4 = .ok d1 ∧
      d1.num_children = 4 ∧ d1.children.Perm [4, 2, 1, 3] ∧
      d1.children.Pairwise (fun x y => strcmp (sample_name x) (sample_name y) ≤ 0)) ∧
    (add_child_directory_tree sample_name 5 true ⟨3, [2, 1, 3]⟩ 4).toOption.map
      (fun d => d.children) = some [2, 4, 1, 3] ∧
    (sorted_dir sample_name 5 ⟨3, [1, 2, 3]⟩).toOption.map (fun d => d.children)
      = some [2, 1, 3] := by
  obtain ⟨⟨d1, h1, h2, _, h4, h5⟩, _⟩ :=
    add_child_sorted sample_name 5 ⟨3, [2, 1, 3]⟩ 4 rfl (by decide) (by decide)
  exact ⟨⟨d1, h1, h2, h4, h5⟩, by decide, by decide⟩

end DirTree

/-! ## The work queue: order of the values -/

namespace Queue

theorem queue_ok_bind {α β : Type} (a : α) (f : α → Except Fault β) :
    (Except.ok a >>= f) = f a := rfl

theorem queue_pure_eq {α : Type} (a : α) : (pure a : Except Fault α) = Except.ok a := rfl

theorem get_ok {s : State} {p : Nat} (h : p ∈ s.live) : get s p = .ok (s.mem p) := by
  unfold get
  rw [if_pos h]

theorem put_ok {s : State} {p : Nat} (n : node_t) (h : p ∈ s.live) :
    put s p n = .ok { s with mem := fun a => if a = p then n else s.mem a } := by
  unfold put
  rw [if_pos h]

/-- The state after `queue_enqueue` on a queue whose tail node and the node
before it are allocated. -/
theorem queue_enqueue_eq (s : State) (a value : Nat) (ht : s.tail ∈ s.live)
    (hp : (s.mem s.tail).prev ∈ s.live) (ha : a ∉ s.live)
    (hpt : (s.mem s.tail).prev ≠ s.tail) :
    queue_enqueue a value s = .ok
      { mem := fun x =>
          if x = a then { value := value, next := s.tail, prev := a }
          else if x = s.tail then { s.mem s.tail with prev := a }
          else if x = (s.mem s.tail).prev then { s.mem (s.mem s.tail).prev with next := a }
          else s.mem x,
        live := a :: s.live, head := s.head, tail := s.tail, size := wrap64 (s.size + 1) } := by
  have hat : a ≠ s.tail := fun e => ha (e ▸ ht)
  have hap : a ≠ (s.mem s.tail).prev := fun e => ha (e ▸ hp)
  have hta : s.tail ≠ a := fun e => hat e.symm
  have hpa : (s.mem s.tail).prev ≠ a := fun e => hap e.symm
  have htp : s.tail ≠ (s.mem s.tail).prev := fun e => hpt e.symm
  unfold queue_enqueue
  simp only [malloc, get, put, List.mem_cons, true_or, ht, hp, or_true, if_true,
    queue_ok_bind, queue_pure_eq, if_neg hta, if_neg hpa, if_neg hat, if_neg hap,
    if_neg htp, if_neg hpt]
  congr 2
  funext x
  by_cases h1 : x = a
  · simp [h1]
  · by_cases h2 : x = s.tail
    · simp [h1, h2, hta, htp]
    · by_cases h3 : x = (s.mem s.tail).prev
      · simp [h3, hpa, hpt]
      · simp [h1, h2, h3]

/-- The value and the state after `queue_dequeue` on a queue whose head node,
first node and the node after it are allocated and differ. -/
theorem queue_dequeue_eq (s : State) (hsz : s.size ≠ 0) (hh : s.head ∈ s.live)
    (hx : (s.mem s.head).next ∈ s.live)
    (hy : (s.mem (s.mem s.head).next).next ∈ s.live)
    (hxh : (s.mem s.head).next ≠ s.head)
    (hyh : (s.mem (s.mem s.head).next).next ≠ s.head)
    (hyx : (s.mem (s.mem s.head).next).next ≠ (s.mem s.head).next) :
    queue_dequeue s = .ok ((s.mem (s.mem s.head).next).value,
      { mem := fun z =>
          if z = s.head then
            { s.mem s.head with next := (s.mem (s.mem s.head).next).next }
          else if z = (s.mem (s.mem s.head).next).next then
            { s.mem (s.mem (s.mem s.head).next).next with prev := s.head }
          else s.mem z,
        live := s.live.filter (fun a => a ≠ (s.mem s.head).next),
        head := s.head, tail := s.tail, size := sub64 s.size 1 }) := by
  have hhx : s.head ≠ (s.mem s.head).next := fun e => hxh e.symm
  have hhy : s.head ≠ (s.mem (s.mem s.head).next).next := fun e => hyh e.symm
  have hxy : (s.mem s.head).next ≠ (s.mem (s.mem s.head).next).next := fun e => hyx e.symm
  unfold queue_dequeue
  rw [if_neg hsz]
  simp only [free, get, put, hh, hx, hy, if_true, queue_ok_bind, queue_pure_eq, if_neg hhy,
    if_neg hxy, if_neg hhx, if_neg hyx, if_neg hxh, if_neg hyh]

/-- A chain of nodes in a state whose `next` fields on the chain and whose tail
are those of another state. -/
theorem chain_congr (s s1 : State) (ht : s1.tail = s.tail) :
    ∀ (as : List Nat) (p : Nat), (∀ z ∈ p :: as, (s1.mem z).next = (s.mem z).next) →
      chain s p as → chain s1 p as := by
  intro as
  induction as with
  | nil =>
    intro p h hc
    unfold chain at hc ⊢
    rw [h p (by simp), ht]
    exact hc
  | cons a rest ih =>
    intro p h hc
    unfold chain at hc ⊢
    refine ⟨(h p (by simp)).trans hc.1, ih a ?_ hc.2⟩
    intro z hz
    exact h z (List.mem_cons_of_mem _ hz)

/-- A chain with one more node at its end. -/
theorem chain_append (s s1 : State) (a : Nat) (ht : s1.tail = s.tail)
    (hnew : (s1.mem a).next = s.tail) :
    ∀ (as : List Nat) (p : Nat), a ∉ p :: as →
      (s1.mem (as.getLast?.getD p)).next = a →
      (∀ z ∈ p :: as, z ≠ as.getLast?.getD p → (s1.mem z).next = (s.mem z).next) →
      (p :: as).Nodup → chain s p as → chain s1 p (as ++ [a]) := by
  intro as
  induction as with
  | nil =>
    intro p _ hl _ _ _
    show (s1.mem p).next = a ∧ (s1.mem a).next = s1.tail
    exact ⟨hl, hnew.trans ht.symm⟩
  | cons b rest ih =>
    intro p hnot hl hsame hnd hc
    unfold chain at hc
    have hlast : (b :: rest).getLast?.getD p = rest.getLast?.getD b := by
      cases rest with
      | nil => rfl
      | cons c rest2 =>
        rw [List.getLast?_cons_cons]
        rw [List.getLast?_eq_getLast _ (by simp)]
        rfl
    have hmem : rest.getLast?.getD b ∈ b :: rest := by
      cases rest with
      | nil => simp
      | cons c rest2 =>
        rw [List.getLast?_eq_getLast _ (by simp)]
        exact List.mem_cons_of_mem _ (List.getLast_mem _)
    have hpne : p ≠ rest.getLast?.getD b := by
      intro e
      have hp : p ∉ b :: rest := (List.nodup_cons.1 hnd).1
      exact hp (e ▸ hmem)
    show (s1.mem p).next = b ∧ chain s1 b (rest ++ [a])
    refine ⟨?_, ih b ?_ ?_ ?_ (List.nodup_cons.1 hnd).2 hc.2⟩
    · rw [hsame p (by simp) (by rw [hlast]; exact hpne)]
      exact hc.1
    · intro h
      exact hnot (List.mem_cons_of_mem _ h)
    · rw [← hlast]
      exact hl
    · intro z hz hne
      exact hsame z (List.mem_cons_of_mem _ hz) (by rw [hlast]; exact hne)

/-- The node before the tail node of a queue that holds `L`. -/
theorem holds_last {s : State} {L : List (Nat × Nat)} (h : holds s L) :
    (s.mem s.tail).prev ∈ s.live ∧ (s.mem s.tail).prev ≠ s.tail ∧
    (s.mem s.tail).prev ∈ s.head :: L.map (fun x => x.1) := by
  obtain ⟨h1, _, h3, h4, _, _, h7, _⟩ := h
  rw [h7]
  cases hl : (L.map (fun x => x.1)).getLast? with
  | none => exact ⟨h1, h3, by simp⟩
  | some b =>
    have hb : b ∈ L.map (fun x => x.1) := List.mem_of_mem_getLast? hl
    obtain ⟨x, hx, e⟩ := List.mem_map.1 hb
    have := h4 x hx
    rw [e] at this
    exact ⟨this.1, this.2.2.1, List.mem_cons_of_mem _ hb⟩

/-- The function `queue_enqueue` puts the new node at the end of the queue. -/
theorem queue_enqueue_spec (s : State) (L : List (Nat × Nat)) (a value : Nat)
    (h : holds s L) (ha : a ∉ s.live) (hlen : L.length + 1 < 18446744073709551616) :
    ∃ s1, queue_enqueue a value s = .ok s1 ∧ holds s1 (L ++ [(a, value)]) ∧
      (s1.mem a).prev = a ∧ (s1.mem a).next = s1.tail ∧ a ≠ s1.tail ∧ a ≠ s1.head := by
  obtain ⟨hp1, hp2, hp3⟩ := holds_last h
  obtain ⟨h1, h2, h3, h4, h5, h6, h7, h8⟩ := h
  have hat : a ≠ s.tail := fun e => ha (e ▸ h2)
  have hah : a ≠ s.head := fun e => ha (e ▸ h1)
  have hap : a ≠ (s.mem s.tail).prev := fun e => ha (e ▸ hp1)
  have hmemL : ∀ x ∈ L, x.1 ≠ a := fun x hx e => ha (e ▸ (h4 x hx).1)
  have haA : a ∉ L.map (fun x => x.1) := by
    intro hm
    obtain ⟨x, hx, e⟩ := List.mem_map.1 hm
    exact hmemL x hx e
  obtain ⟨s1, hs1⟩ : ∃ s1 : State, s1 =
      { mem := fun x =>
          if x = a then { value := value, next := s.tail, prev := a }
          else if x = s.tail then { s.mem s.tail with prev := a }
          else if x = (s.mem s.tail).prev then { s.mem (s.mem s.tail).prev with next := a }
          else s.mem x,
        live := a :: s.live, head := s.head, tail := s.tail, size := wrap64 (s.size + 1) } :=
    ⟨_, rfl⟩
  have e_live : s1.live = a :: s.live := by rw [hs1]
  have e_head : s1.head = s.head := by rw [hs1]
  have e_tail : s1.tail = s.tail := by rw [hs1]
  have e_size : s1.size = wrap64 (s.size + 1) := by rw [hs1]
  have m_a : s1.mem a = { value := value, next := s.tail, prev := a } := by
    rw [hs1]
    simp
  have hta : s.tail ≠ a := fun e => hat e.symm
  have hpa : (s.mem s.tail).prev ≠ a := fun e => hap e.symm
  have m_t : s1.mem s.tail = { s.mem s.tail with prev := a } := by
    rw [hs1]
    simp [hta]
  have m_p : s1.mem (s.mem s.tail).prev = { s.mem (s.mem s.tail).prev with next := a } := by
    rw [hs1]
    simp [hpa, hp2]
  have m_o : ∀ z, z ≠ a → z ≠ s.tail → z ≠ (s.mem s.tail).prev → s1.mem z = s.mem z := by
    intro z z1 z2 z3
    rw [hs1]
    simp [z1, z2, z3]
  have m_val : ∀ z, z ≠ a → (s1.mem z).value = (s.mem z).value := by
    intro z z1
    by_cases z2 : z = s.tail
    · rw [z2, m_t]
    · by_cases z3 : z = (s.mem s.tail).prev
      · rw [z3, m_p]
      · rw [m_o z z1 z2 z3]
  have m_next : ∀ z, z ≠ a → z ≠ (s.mem s.tail).prev → (s1.mem z).next = (s.mem z).next := by
    intro z z1 z3
    by_cases z2 : z = s.tail
    · rw [z2, m_t]
    · rw [m_o z z1 z2 z3]
  refine ⟨s1, (queue_enqueue_eq s a value h2 hp1 ha hp2).trans (by rw [hs1]), ?_, ?_, ?_, ?_, ?_⟩
  · refine ⟨?_, ?_, ?_, ?_, ?_, ?_, ?_, ?_⟩
    · rw [e_live, e_head]
      exact List.mem_cons_of_mem _ h1
    · rw [e_live, e_tail]
      exact List.mem_cons_of_mem _ h2
    · rw [e_head, e_tail]
      exact h3
    · intro x hx
      rw [e_live, e_head, e_tail]
      rcases List.mem_append.1 hx with hx | hx
      · have := h4 x hx
        exact ⟨List.mem_cons_of_mem _ this.1, this.2.1, this.2.2.1,
          (m_val x.1 (hmemL x hx)).trans this.2.2.2⟩
      · have e : x = (a, value) := by simpa using hx
        rw [e]
        refine ⟨by simp, hah, hat, ?_⟩
        show (s1.mem a).value = value
        rw [m_a]
    · rw [List.map_append, List.nodup_append]
      refine ⟨h5, by simp, ?_⟩
      intro z hz1 hz2
      have e : z = a := by simpa using hz2
      exact haA (e ▸ hz1)
    · rw [List.map_append, e_head]
      refine chain_append s s1 a e_tail (by rw [m_a]) _ s.head ?_ ?_ ?_ ?_ h6
      · intro hm
        rcases List.mem_cons.1 hm with e | e
        · exact hah e
        · exact haA e
      · rw [← h7, m_p]
      · intro z _ hz
        rw [← h7] at hz
        have hza : z ≠ a := by
          intro e
          subst e
          rename_i hzm
          rcases List.mem_cons.1 hzm with e | e
          · exact hah e
          · exact haA e
        exact m_next z hza hz
      · refine List.nodup_cons.2 ⟨?_, h5⟩
        intro hm
        obtain ⟨x, hx, e⟩ := List.mem_map.1 hm
        exact (h4 x hx).2.1 e
    · rw [e_tail, m_t, List.map_append, e_head]
      simp
    · rw [e_size, h8, List.length_append]
      unfold wrap64
      simp only [List.length_singleton]
      omega
  · rw [m_a]
  · rw [m_a, e_tail]
  · rw [e_tail]
    exact hat
  · rw [e_head]
    exact hah

/-- The function `queue_dequeue` returns the value of the first node of the
queue and takes the node out. -/
theorem queue_dequeue_spec (s : State) (L : List (Nat × Nat)) (x v : Nat)
    (h : holds s ((x, v) :: L)) (hlen : L.length + 1 < 18446744073709551616) :
    ∃ s1, queue_dequeue s = .ok (v, s1) ∧ holds s1 L := by
  obtain ⟨h1, h2, h3, h4, h5, h6, h7, h8⟩ := h
  have hx := h4 (x, v) (by simp)
  have hxl : x ∈ s.live := hx.1
  have hxh : x ≠ s.head := hx.2.1
  have hxt : x ≠ s.tail := hx.2.2.1
  have hxv : (s.mem x).value = v := hx.2.2.2
  have hnd : x ∉ L.map (fun z => z.1) ∧ (L.map (fun z => z.1)).Nodup := by
    have := h5
    rw [List.map_cons, List.nodup_cons] at this
    exact this
  have hLx : ∀ z ∈ L, z.1 ≠ x := by
    intro z hz e
    exact hnd.1 (List.mem_map.2 ⟨z, hz, e⟩)
  have hc : (s.mem s.head).next = x ∧ chain s x (L.map (fun z => z.1)) := h6
  have hsz : s.size ≠ 0 := by
    rw [h8, List.length_cons]
    omega
  -- the node after the first one
  have hy : (s.mem x).next = ((L.map (fun z => z.1)).head?).getD s.tail := by
    cases hL : L.map (fun z => z.1) with
    | nil =>
      have := hc.2
      rw [hL] at this
      exact this
    | cons a1 rest =>
      have := hc.2
      rw [hL] at this
      exact this.1
  have hyl : (s.mem x).next ∈ s.live ∧ (s.mem x).next ≠ s.head ∧ (s.mem x).next ≠ x := by
    rw [hy]
    cases hL : L.map (fun z => z.1) with
    | nil => exact ⟨h2, fun e => h3 e.symm, fun e => hxt e.symm⟩
    | cons a1 rest =>
      have ha1 : a1 ∈ L.map (fun z => z.1) := by
        rw [hL]
        simp
      obtain ⟨z, hz, e⟩ := List.mem_map.1 ha1
      have hz4 := h4 z (List.mem_cons_of_mem _ hz)
      rw [e] at hz4
      exact ⟨hz4.1, hz4.2.1, fun e2 => hLx z hz (e.trans e2)⟩
  obtain ⟨s1, hs1⟩ : ∃ s1 : State, s1 =
      { mem := fun z =>
          if z = s.head then { s.mem s.head with next := (s.mem x).next }
          else if z = (s.mem x).next then { s.mem (s.mem x).next with prev := s.head }
          else s.mem z,
        live := s.live.filter (fun a => a ≠ x),
        head := s.head, tail := s.tail, size := sub64 s.size 1 } := ⟨_, rfl⟩
  have e_live : s1.live = s.live.filter (fun a => a ≠ x) := by rw [hs1]
  have e_head : s1.head = s.head := by rw [hs1]
  have e_tail : s1.tail = s.tail := by rw [hs1]
  have e_size : s1.size = sub64 s.size 1 := by rw [hs1]
  have m_h : s1.mem s.head = { s.mem s.head with next := (s.mem x).next } := by
    rw [hs1]
    simp
  have m_y : s1.mem (s.mem x).next = { s.mem (s.mem x).next with prev := s.head } := by
    rw [hs1]
    simp [hyl.2.1]
  have m_o : ∀ z, z ≠ s.head → z ≠ (s.mem x).next → s1.mem z = s.mem z := by
    intro z z1 z2
    rw [hs1]
    simp [z1, z2]
  have m_val : ∀ z, (s1.mem z).value = (s.mem z).value := by
    intro z
    by_cases z1 : z = s.head
    · rw [z1, m_h]
    · by_cases z2 : z = (s.mem x).next
      · rw [z2, m_y]
      · rw [m_o z z1 z2]
  have m_next : ∀ z, z ≠ s.head → (s1.mem z).next = (s.mem z).next := by
    intro z z1
    by_cases z2 : z = (s.mem x).next
    · rw [z2, m_y]
    · rw [m_o z z1 z2]
  have hmf : ∀ z, z ∈ s.live → z ≠ x → z ∈ s1.live := by
    intro z hz hne
    rw [e_live, List.mem_filter]
    exact ⟨hz, by simpa using hne⟩
  have hdq := queue_dequeue_eq s hsz h1 (by rw [hc.1]; exact hxl)
    (by rw [hc.1]; exact hyl.1) (by rw [hc.1]; exact hxh) (by rw [hc.1]; exact hyl.2.1)
    (by rw [hc.1]; exact hyl.2.2)
  rw [hc.1, hxv] at hdq
  refine ⟨s1, hdq.trans (by rw [hs1]), ?_, ?_, ?_, ?_, hnd.2, ?_, ?_, ?_⟩
  · rw [e_head]
    exact hmf _ h1 (fun e => hxh e.symm)
  · rw [e_tail]
    exact hmf _ h2 (fun e => hxt e.symm)
  · rw [e_head, e_tail]
    exact h3
  · intro z hz
    have := h4 z (List.mem_cons_of_mem _ hz)
    rw [e_head, e_tail]
    exact ⟨hmf _ this.1 (hLx z hz), this.2.1, this.2.2.1, (m_val z.1).trans this.2.2.2⟩
  · rw [e_head]
    cases hL : L.map (fun z => z.1) with
    | nil =>
      rw [hL] at hy
      show (s1.mem s.head).next = s1.tail
      rw [m_h, e_tail]
      exact hy
    | cons a1 rest =>
      rw [hL] at hy
      have hc2 := hc.2
      rw [hL] at hc2
      show (s1.mem s.head).next = a1 ∧ chain s1 a1 rest
      refine ⟨by rw [m_h]; exact hy, chain_congr s s1 e_tail rest a1 ?_ hc2.2⟩
      intro z hz
      have hzm : z ∈ L.map (fun z => z.1) := by
        rw [hL]
        exact hz
      obtain ⟨w, hw, e⟩ := List.mem_map.1 hzm
      have := (h4 w (List.mem_cons_of_mem _ hw)).2.1
      rw [e] at this
      exact m_next z this
  · rw [e_tail, e_head]
    cases hL : L.map (fun z => z.1) with
    | nil =>
      rw [hL] at hy
      have e : s.tail = (s.mem x).next := hy.symm
      have := m_y
      rw [← e] at this
      rw [this]
      rfl
    | cons a1 rest =>
      rw [hL] at hy
      have hne : s.tail ≠ (s.mem x).next := by
        rw [hy]
        have ha1 : a1 ∈ L.map (fun z => z.1) := by
          rw [hL]
          simp
        obtain ⟨w, hw, e⟩ := List.mem_map.1 ha1
        have := (h4 w (List.mem_cons_of_mem _ hw)).2.2.1
        rw [e] at this
        exact fun e2 => this e2.symm
      rw [m_o s.tail (fun e => h3 e.symm) hne, h7, List.map_cons, hL,
        List.getLast?_cons_cons]
  · rw [e_size, h8, List.length_cons]
    unfold sub64
    omega

/-- The function `queue_init` gives an empty queue. -/
theorem queue_init_spec (s : State) (hd tl : Nat) (hne : hd ≠ tl) :
    ∃ q, queue_init hd tl s = .ok q ∧ holds q [] ∧ q.size = 0 ∧
      q.live = tl :: hd :: s.live := by
  have hne2 : tl ≠ hd := fun e => hne e.symm
  refine ⟨{ mem := fun z =>
              if z = tl then { (if tl = hd then { s.mem hd with next := tl } else s.mem tl)
                with prev := hd }
              else if z = hd then { s.mem hd with next := tl } else s.mem z,
            live := tl :: hd :: s.live, head := hd, tail := tl, size := 0 }, ?_, ?_, rfl, rfl⟩
  · unfold queue_init
    simp only [malloc, get, put, List.mem_cons, true_or, or_true, if_true, queue_ok_bind,
      queue_pure_eq]
  · refine ⟨by simp, by simp, hne, by simp, by simp, ?_, ?_, rfl⟩
    · show (if hd = tl then _ else if hd = hd then _ else _ : node_t).next = tl
      rw [if_neg hne, if_pos rfl]
    · show (if tl = tl then _ else _ : node_t).prev = _
      rw [if_pos rfl]
      rfl

/-- A sequence of calls on a queue that holds `L`: the values dequeued are the
values of `L` followed by the values enqueued, as many as there are calls of
`queue_dequeue`. -/
theorem run_spec (calls : List call) :
    ∀ (s : State) (L : List (Nat × Nat)), holds s L →
      never_empty calls L.length = true → fresh_mallocs calls s = true →
      L.length + calls.length < 18446744073709551616 →
      ∃ s1 L1, run calls s
          = .ok ((L.map (fun x => x.2) ++ enqueued calls).take (dequeues calls), s1) ∧
        holds s1 L1 ∧ L1.length + dequeues calls = L.length + (enqueued calls).length := by
  induction calls with
  | nil =>
    intro s L h _ _ _
    exact ⟨s, L, rfl, h, rfl⟩
  | cons c rest ih =>
    intro s L h hne hfr hlen
    rw [List.length_cons] at hlen
    cases c with
    | enqueue a value =>
      have hfr2 := hfr
      unfold fresh_mallocs at hfr2
      simp only [Bool.and_eq_true, decide_eq_true_eq] at hfr2
      obtain ⟨s1, hs1, hh1, _⟩ := queue_enqueue_spec s L a value h hfr2.1.2 (by omega)
      rw [hs1] at hfr2
      obtain ⟨s2, L2, hr, hh2, hl2⟩ := ih s1 (L ++ [(a, value)]) hh1
        (by rw [List.length_append]; exact hne) hfr2.2
        (by rw [List.length_append, List.length_singleton]; omega)
      refine ⟨s2, L2, ?_, hh2, ?_⟩
      · show (queue_enqueue a value s >>= fun s => run rest s) = _
        rw [hs1, queue_ok_bind, hr]
        simp [enqueued, dequeues]
      · simp only [List.length_append, List.length_singleton] at hl2
        simp only [enqueued, dequeues, List.length_cons]
        omega
    | dequeue =>
      have hne2 := hne
      unfold never_empty at hne2
      simp only [Bool.and_eq_true, decide_eq_true_eq] at hne2
      cases L with
      | nil => simp at hne2
      | cons x L1 =>
        obtain ⟨s1, hs1, hh1⟩ := queue_dequeue_spec s L1 x.1 x.2 h
          (by rw [List.length_cons] at hlen; omega)
        have hfr2 := hfr
        unfold fresh_mallocs at hfr2
        rw [hs1] at hfr2
        obtain ⟨s2, L2, hr, hh2, hl2⟩ := ih s1 L1 hh1
          (by simpa using hne2.2) hfr2 (by rw [List.length_cons] at hlen; omega)
        refine ⟨s2, L2, ?_, hh2, ?_⟩
        · show (queue_dequeue s >>= fun r => run rest r.2 >>= fun r2 =>
            pure (r.1 :: r2.1, r2.2)) = _
          rw [hs1, queue_ok_bind, hr, queue_ok_bind]
          simp [enqueued, dequeues, queue_pure_eq]
        · simp only [enqueued, dequeues, List.length_cons]
          omega

theorem never_empty_of_append (pre post : List call) :
    ∀ n, never_empty (pre ++ post) n = true → never_empty pre n = true := by
  induction pre with
  | nil =>
    intro n _
    rfl
  | cons c rest ih =>
    intro n h
    cases c with
    | enqueue a value => exact ih (n + 1) h
    | dequeue =>
      have h2 : (decide (0 < n) && never_empty (rest ++ post) (n - 1)) = true := h
      show (decide (0 < n) && never_empty rest (n - 1)) = true
      rw [Bool.and_eq_true] at h2 ⊢
      exact ⟨h2.1, ih (n - 1) h2.2⟩

theorem fresh_mallocs_of_append (pre post : List call) :
    ∀ s, fresh_mallocs (pre ++ post) s = true → fresh_mallocs pre s = true := by
  induction pre with
  | nil =>
    intro s _
    rfl
  | cons c rest ih =>
    intro s h
    cases c with
    | enqueue a value =>
      have h2 : (decide (a ≠ 0) && decide (a ∉ s.live) &&
          (match queue_enqueue a value s with
           | .ok s1 => fresh_mallocs (rest ++ post) s1
           | .error _ => true)) = true := h
      show (decide (a ≠ 0) && decide (a ∉ s.live) &&
          (match queue_enqueue a value s with
           | .ok s1 => fresh_mallocs rest s1
           | .error _ => true)) = true
      rw [Bool.and_eq_true] at h2 ⊢
      refine ⟨h2.1, ?_⟩
      cases hq : queue_enqueue a value s with
      | error e => rfl
      | ok s1 =>
        have h3 := h2.2
        rw [hq] at h3
        exact ih s1 h3
    | dequeue =>
      have h2 : (match queue_dequeue s with
          | .ok (_, s1) => fresh_mallocs (rest ++ post) s1
          | .error _ => true) = true := h
      show (match queue_dequeue s with
          | .ok (_, s1) => fresh_mallocs rest s1
          | .error _ => true) = true
      cases hq : queue_dequeue s with
      | error e => rfl
      | ok r =>
        rw [hq] at h2
        exact ih r.2 h2

/-- C37: in a single-threaded run the queue is first-in first-out. After
`queue_init`, for every sequence of calls of `queue_enqueue` and
`queue_dequeue` in which no `queue_dequeue` is issued on an empty queue (and
`malloc` returns addresses that are not allocated), after every prefix of the
sequence the values dequeued so far are the first values enqueued, in the
order of the calls of `queue_enqueue`, and `size` is the number of calls of
`queue_enqueue` minus the number of calls of `queue_dequeue`. -/
theorem queue_fifo (s0 : State) (hd tl : Nat) (calls : List call) (hne : hd ≠ tl)
    (hlen : calls.length < 18446744073709551616) :
    ∃ q, queue_init hd tl s0 = .ok q ∧ q.size = 0 ∧
      (never_empty calls 0 = true → fresh_mallocs calls q = true →
        ∀ pre post, calls = pre ++ post →
          ∃ s1, run pre q = .ok ((enqueued pre).take (dequeues pre), s1) ∧
            dequeues pre ≤ (enqueued pre).length ∧
            s1.size = (enqueued pre).length - dequeues pre) := by
  obtain ⟨q, hq, hh, hsz, _⟩ := queue_init_spec s0 hd tl hne
  refine ⟨q, hq, hsz, ?_⟩
  intro hnever hfresh pre post hcalls
  subst hcalls
  rw [List.length_append] at hlen
  obtain ⟨s1, L1, hr, hh1, hl1⟩ := run_spec pre q [] hh
    (never_empty_of_append pre post 0 hnever) (fresh_mallocs_of_append pre post q hfresh)
    (by simp only [List.length_nil]; omega)
  simp only [List.map_nil, List.nil_append, List.length_nil, Nat.zero_add] at hr hl1
  refine ⟨s1, hr, by omega, ?_⟩
  rw [hh1.2.2.2.2.2.2.2]
  omega

/-- C37 at concrete inputs: the values 7, 8 and 9 are dequeued in the order
they were enqueued, also when `malloc` returns a freed address again, and
`size` is 1 after the first three calls and 0 at the end. -/
theorem queue_fifo_witness :
    (∃ s1, run sample_calls empty_queue = .ok ([7, 8, 9], s1) ∧ s1.size = 0) ∧
    (∃ s1, run [.enqueue 48 7, .enqueue 64 8, .dequeue] empty_queue = .ok ([7], s1) ∧
      s1.size = 1) := by
  obtain ⟨q, hq, _, hrun⟩ := queue_fifo fresh 16 32 sample_calls (by decide) (by decide)
  have e : queue_init 16 32 fresh = .ok empty_queue := rfl
  have hqe : q = empty_queue := by
    rw [e] at hq
    injection hq with hq
    exact hq.symm
  subst hqe
  have h1 := hrun (by decide) (by decide) sample_calls [] (by simp)
  have h2 := hrun (by decide) (by decide) [.enqueue 48 7, .enqueue 64 8, .dequeue]
    [.enqueue 48 9, .dequeue, .dequeue] rfl
  exact ⟨h1.imp (fun s1 h => ⟨h.1, h.2.2⟩), h2.imp (fun s1 h => ⟨h.1, h.2.2⟩)⟩

/-- C38 fails on the code: after `queue_init` and two calls of
`queue_enqueue`, the field `prev` of each new node points to the node itself
(`queue_enqueue` reads `queue->tail->prev` after it has stored the new node
there), so for the node `n` at 48, which is not the head node,
`n.prev.next` is the node at 64 and not `n`, and for the node at 64 it is the
tail node. -/
theorem prev_points_to_self :
    two_enqueued.toOption.map (fun s =>
        (s.head, s.tail, (s.mem 48).prev, (s.mem (s.mem 48).prev).next,
          (s.mem 64).prev, (s.mem (s.mem 64).prev).next, (s.mem 16).next, (s.mem 48).next))
      = some (16, 32, 48, 64, 64, 32, 48, 64) := rfl

end Queue
